import Mathlib

/-!
svxlink: FRN command bridge and statistics aggregator.

A shallow embedding of `src/svxlink/modules/frn/ModuleFrn.cpp` (the `RunCmd`
command bridge) and `src/svxlink/svxlink/SvxStats.cpp` (the rolling statistics
aggregator), followed by theorems about them.

Modelling conventions
* `std::string` is the list of its bytes (`unsigned char` values as `Nat`).
* `uint64_t` / `size_t` counters are `Nat`; wrap-around at `2^64` is outside the
  model (event counters advance by one per event).
* `double` values are exact rationals, and their sums are exact, except in
  `duragg_add_rnd` and `duragg_merge_rnd`, which carry the rounding of the
  double additions as a parameter; `binary64` is that rounding.
* Reads of the clock (`minute_now`, `mono_now_sec`, `steady_clock::now`) are
  explicit arguments.
* `std::cout` logging is not part of the state.
* The text `operator<<` writes for a `double` is a parameter: `Env.fixed` for a
  stream in `std::ios::fixed` mode, the argument `general` of the save model
  for a stream in its default format. `std::stoull` and `std::stod` are the
  parameters `Parsers.stoull` and `Parsers.stod`.
-/

namespace Svx

/-! ## Byte strings -/

/-- Byte strings: a `std::string` as the list of its `unsigned char` values. -/
abbrev Str := List Nat

/-- The bytes of an ASCII string literal of the source. -/
def lit (s : String) : Str := s.toList.map Char.toNat

/-- Membership in the set `" \t\r\n"` that `trim_copy` passes to
`find_first_not_of` / `find_last_not_of`. -/
def trimWs (c : Nat) : Bool := c == 32 || c == 9 || c == 13 || c == 10

/-- `std::isspace` in the classic locale, the delimiter class of
`std::istringstream >> std::string`: space, `\t`, `\n`, `\v`, `\f`, `\r`. -/
def isspace (c : Nat) : Bool := c == 32 || (9 ≤ c && c ≤ 13)

/-- `std::tolower` on one `unsigned char` in the classic locale. -/
def tolower (c : Nat) : Nat := if 65 ≤ c ∧ c ≤ 90 then c + 32 else c

/-- `s.find_first_not_of(set)`: index of the first byte outside the set,
`none` for `npos`. -/
def find_first_not_of (p : Nat → Bool) : Str → Option Nat
  | [] => none
  | c :: cs => if p c then (find_first_not_of p cs).map (· + 1) else some 0

/-- `s.find_last_not_of(set)`: index of the last byte outside the set,
`none` for `npos`. -/
def find_last_not_of (p : Nat → Bool) : Str → Option Nat
  | [] => none
  | c :: cs =>
    match find_last_not_of p cs with
    | some i => some (i + 1)
    | none => if p c then none else some 0

/-- `s.substr(pos, n)` for `pos ≤ s.size()`. -/
def substr (s : Str) (pos n : Nat) : Str := (s.drop pos).take n

/-- `trim_copy` of ModuleFrn.cpp. When `find_first_not_of` succeeds so does
`find_last_not_of`; the `none` arm there (length `npos - b + 1`, i.e. the whole
tail) is unreachable. -/
def trim_copy (s : Str) : Str :=
  match find_first_not_of trimWs s with
  | none => []
  | some b =>
    match find_last_not_of trimWs s with
    | none => s.drop b
    | some e => substr s b (e - b + 1)

/-- `tolower_copy` of ModuleFrn.cpp: `std::transform` with `std::tolower`. -/
def tolower_copy (s : Str) : Str := s.map tolower

/-- The idiom `s.rfind(pat, 0) == 0`: `s` begins with `pat`. -/
def startsWith (pat s : Str) : Bool := pat.isPrefixOf s

/-- The loop `while (iss >> t) tok.push_back(t)`: `cur` is the token being
read (empty while skipping whitespace). -/
def tokensAux : Str → Str → List Str
  | [], cur => if cur.isEmpty then [] else [cur]
  | c :: cs, cur =>
    if isspace c then
      (if cur.isEmpty then tokensAux cs [] else cur :: tokensAux cs [])
    else tokensAux cs (cur ++ [c])

/-- Whitespace-separated tokens of a string, as read by `istringstream`. -/
def tokens (s : Str) : List Str := tokensAux s []

/-- `hay.find(needle) != std::string::npos`. -/
def contains (needle : Str) : Str → Bool
  | [] => needle.isEmpty
  | c :: cs => startsWith needle (c :: cs) || contains needle cs

/-! ## Command authorizer (`ModuleFrn::parseAndAuthorizeCmd`) -/

/-- The return value and the two reference parameters of
`parseAndAuthorizeCmd` after the call. -/
structure ParseResult where
  ret : Bool
  out_cmd : Str
  out_err : Str
  deriving DecidableEq, Repr

/-- The allowlist test on the token vector `tok`. -/
def allowed (tok : List Str) : Bool :=
  match tok with
  | [t0, t1, t2] =>
    (t0 == lit "get" && t1 == lit "psu" &&
      (t2 == lit "a" || t2 == lit "b" || t2 == lit "all")) ||
    (t0 == lit "get" && t1 == lit "temp" && t2 == lit "all")
  | [t0, t1] => t0 == lit "get" && t1 == lit "stats"
  | _ => false

/-- `ModuleFrn::parseAndAuthorizeCmd`. `run_cmd_secret` is the member read by the
function; `out_cmd` / `out_err` are the values the reference parameters hold on
entry. -/
def parseAndAuthorizeCmd (run_cmd_secret from_id msg out_cmd out_err : Str) :
    ParseResult :=
  let _ := from_id
  let m := trim_copy msg
  let m_l := tolower_copy m
  let marker := lit "runcmd:"
  if !startsWith marker m_l then
    ⟨false, out_cmd, out_err⟩
  else
    let rest := trim_copy (m.drop marker.length)
    let authed : Option Str :=
      if !run_cmd_secret.isEmpty then
        if startsWith (run_cmd_secret ++ lit ":") rest then
          some (trim_copy (rest.drop (run_cmd_secret.length + 1)))
        else if startsWith (run_cmd_secret ++ lit " ") rest then
          some (trim_copy (rest.drop (run_cmd_secret.length + 1)))
        else none
      else some rest
    match authed with
    | none => ⟨true, out_cmd, lit "CmdReply: ERR: auth failed"⟩
    | some rest =>
      let rest := tolower_copy (trim_copy rest)
      if rest.isEmpty then
        ⟨true, out_cmd, lit "CmdReply: ERR: empty command"⟩
      else if !allowed (tokens rest) then
        ⟨true, out_cmd, lit "CmdReply: ERR: command not allowed"⟩
      else
        ⟨true, rest, out_err⟩

/-! ## Statistics aggregator (`SvxStats`) -/

/-- `SvxStats::DurAgg`. -/
structure DurAgg where
  evt : Nat := 0
  sec : ℚ := 0
  min_sec : ℚ := 0
  max_sec : ℚ := 0
  sum_sec : ℚ := 0

/-- `SvxStats::CmdAgg`. -/
structure CmdAgg where
  ok : Nat := 0
  rej : Nat := 0
  authfail : Nat := 0
  bc_attempt : Nat := 0
  sum_ms : Nat := 0
  max_ms : Nat := 0
  cnt_ms : Nat := 0
  deriving DecidableEq

/-- `SvxStats::Bucket`; `({} : Bucket)` is the value-initialised `Bucket{}`. -/
structure Bucket where
  minute : Nat := 0
  frn_tx : DurAgg := {}
  frn_rx : DurAgg := {}
  rf_tx : DurAgg := {}
  rf_rx : DurAgg := {}
  sql : DurAgg := {}
  cmd : CmdAgg := {}
  frn_tx_bytes : Nat := 0
  frn_rx_bytes : Nat := 0
  frn_link_up : Nat := 0
  frn_link_down : Nat := 0
  user_join : Nat := 0
  user_leave : Nat := 0

/-- `SvxStats::NBUCKET`. -/
abbrev NBUCKET : Nat := 60

/-- The data members of `SvxStats` (the timer object apart). The array
`Bucket buckets[NBUCKET]` is a function on its index range and `idx` an index
into it. `peak_set_minute` is the function-local `static` of `onTick`. The
two `unordered_map`s are association lists with distinct keys. -/
structure SvxStats where
  buckets : Fin NBUCKET → Bucket
  idx : Fin NBUCKET := 0
  cur_minute : Nat := 0
  frn_tx_active : Bool := false
  frn_rx_active : Bool := false
  rf_tx_active : Bool := false
  rf_rx_active : Bool := false
  sql_active : Bool := false
  frn_tx_t0 : ℚ := 0
  frn_rx_t0 : ℚ := 0
  rf_tx_t0 : ℚ := 0
  rf_rx_t0 : ℚ := 0
  sql_t0 : ℚ := 0
  frn_tx_total : DurAgg := {}
  frn_rx_total : DurAgg := {}
  rf_tx_total : DurAgg := {}
  rf_rx_total : DurAgg := {}
  sql_total : DurAgg := {}
  frn_tx_bytes_total : Nat := 0
  frn_rx_bytes_total : Nat := 0
  frn_link_up_total : Nat := 0
  frn_link_down_total : Nat := 0
  cmd_total : CmdAgg := {}
  frn_users_cur : Nat := 0
  frn_users_peak_1h : Nat := 0
  user_last_seen_minute : List (Str × Nat) := []
  user_present : List Str := []
  stats_interval_ms : Nat := 60000
  persist_path : Str := []
  started : Bool := false
  start_monotonic : ℚ := 0
  peak_set_minute : Nat := 0

/-- One reading of the clocks: `minute_now()`, `mono_now_sec()` and the
`steady_clock` milliseconds. -/
structure Clock where
  minute : Nat
  sec : ℚ
  ms : Nat

/-- The constructor `SvxStats::SvxStats()` at clock reading `t`. -/
def SvxStats.init (t : Clock) : SvxStats :=
  { buckets := fun _ => { minute := t.minute }
    idx := 0
    cur_minute := t.minute
    start_monotonic := t.sec }

/-- The bucket `buckets[idx]`. -/
def SvxStats.cur (s : SvxStats) : Bucket := s.buckets s.idx

/-- Assignment through the reference `buckets[idx]`. -/
def SvxStats.modCur (s : SvxStats) (f : Bucket → Bucket) : SvxStats :=
  { s with buckets := Function.update s.buckets s.idx (f (s.buckets s.idx)) }

/-- One iteration of the body of the `while` loop of `rotateBuckets`. -/
def rotateStep (s : SvxStats) : SvxStats :=
  let cur_minute := s.cur_minute + 1
  let idx : Fin NBUCKET := s.idx + 1
  { s with
    cur_minute := cur_minute
    idx := idx
    buckets := Function.update s.buckets idx { minute := cur_minute } }

/-- The loop `while (cur_minute < now_minute) { ... }` with an iteration
budget. -/
def rotateLoop (now_minute : Nat) : Nat → SvxStats → SvxStats
  | 0, s => s
  | fuel + 1, s =>
    if s.cur_minute < now_minute then rotateLoop now_minute fuel (rotateStep s)
    else s

/-- `SvxStats::rotateBuckets`. The loop raises `cur_minute` by one per
iteration, so `now_minute - cur_minute` iterations reach its exit. -/
def rotateBuckets (s : SvxStats) (now_minute : Nat) : SvxStats :=
  if now_minute = s.cur_minute then s
  else rotateLoop now_minute (now_minute - s.cur_minute) s

/-- `SvxStats::onCmdAccepted`. -/
def onCmdAccepted (s : SvxStats) (m : Nat) : SvxStats :=
  let s := rotateBuckets s m
  let s := s.modCur fun b => { b with cmd := { b.cmd with ok := b.cmd.ok + 1 } }
  { s with cmd_total := { s.cmd_total with ok := s.cmd_total.ok + 1 } }

/-- `SvxStats::onCmdRejected`. -/
def onCmdRejected (s : SvxStats) (m : Nat) : SvxStats :=
  let s := rotateBuckets s m
  let s := s.modCur fun b => { b with cmd := { b.cmd with rej := b.cmd.rej + 1 } }
  { s with cmd_total := { s.cmd_total with rej := s.cmd_total.rej + 1 } }

/-- `SvxStats::onCmdAuthFailed`. -/
def onCmdAuthFailed (s : SvxStats) (m : Nat) : SvxStats :=
  let s := rotateBuckets s m
  let s := s.modCur fun b =>
    { b with cmd := { b.cmd with authfail := b.cmd.authfail + 1 } }
  { s with cmd_total := { s.cmd_total with authfail := s.cmd_total.authfail + 1 } }

/-- `SvxStats::onCmdBroadcastAttempt`. -/
def onCmdBroadcastAttempt (s : SvxStats) (m : Nat) : SvxStats :=
  let s := rotateBuckets s m
  let s := s.modCur fun b =>
    { b with cmd := { b.cmd with bc_attempt := b.cmd.bc_attempt + 1 } }
  { s with cmd_total := { s.cmd_total with bc_attempt := s.cmd_total.bc_attempt + 1 } }

/-- `duragg_merge(out, in)`, the two sums exact; `duragg_merge_rnd` has their
rounding. -/
def duragg_merge (out inp : DurAgg) : DurAgg :=
  { evt := out.evt + inp.evt
    sec := out.sec + inp.sec
    sum_sec := out.sum_sec + inp.sum_sec
    min_sec :=
      if 0 < inp.min_sec ∧ (out.min_sec = 0 ∨ inp.min_sec < out.min_sec) then inp.min_sec
      else out.min_sec
    max_sec := if out.max_sec < inp.max_sec then inp.max_sec else out.max_sec }

/-- `cmdagg_merge(out, in)`. -/
def cmdagg_merge (out inp : CmdAgg) : CmdAgg :=
  { ok := out.ok + inp.ok
    rej := out.rej + inp.rej
    authfail := out.authfail + inp.authfail
    bc_attempt := out.bc_attempt + inp.bc_attempt
    sum_ms := out.sum_ms + inp.sum_ms
    cnt_ms := out.cnt_ms + inp.cnt_ms
    max_ms := if out.max_ms < inp.max_ms then inp.max_ms else out.max_ms }

/-- The local accumulators of the one-hour loop of `formatStatsLine` /
`formatStatsGroups`. -/
structure Window where
  frn_tx_1h : DurAgg := {}
  frn_rx_1h : DurAgg := {}
  rf_tx_1h : DurAgg := {}
  rf_rx_1h : DurAgg := {}
  sql_1h : DurAgg := {}
  cmd_1h : CmdAgg := {}
  frn_tx_bytes_1h : Nat := 0
  frn_rx_bytes_1h : Nat := 0
  join_1h : Nat := 0
  leave_1h : Nat := 0

/-- One iteration of `for (size_t i = 0; i < NBUCKET; ++i)` on bucket `b`. -/
def windowAdd (now_m : Nat) (w : Window) (b : Bucket) : Window :=
  if b.minute + NBUCKET ≤ now_m then w
  else
    { frn_tx_1h := duragg_merge w.frn_tx_1h b.frn_tx
      frn_rx_1h := duragg_merge w.frn_rx_1h b.frn_rx
      rf_tx_1h := duragg_merge w.rf_tx_1h b.rf_tx
      rf_rx_1h := duragg_merge w.rf_rx_1h b.rf_rx
      sql_1h := duragg_merge w.sql_1h b.sql
      cmd_1h := cmdagg_merge w.cmd_1h b.cmd
      frn_tx_bytes_1h := w.frn_tx_bytes_1h + b.frn_tx_bytes
      frn_rx_bytes_1h := w.frn_rx_bytes_1h + b.frn_rx_bytes
      join_1h := w.join_1h + b.user_join
      leave_1h := w.leave_1h + b.user_leave }

/-- The one-hour loop over `buckets[0 .. NBUCKET-1]`. -/
def windowSum (s : SvxStats) (now_m : Nat) : Window :=
  (List.finRange NBUCKET).foldl (fun w i => windowAdd now_m w (s.buckets i)) {}

/-- The lambda `add_active`, on the `sec` field it adds to. -/
def add_active (active : Bool) (t0 now_s sec : ℚ) : ℚ :=
  if active then sec + max 0 (now_s - t0) else sec

/-- `std::llround`: nearest integer, halves away from zero. -/
def llround (x : ℚ) : Int := if 0 ≤ x then ⌊x + 1 / 2⌋ else -⌊-x + 1 / 2⌋

/-- `SvxStats::uptimeSeconds` at clock reading `now`. -/
def uptimeSeconds (s : SvxStats) (now : ℚ) : Nat :=
  if now < s.start_monotonic then 0 else (llround (now - s.start_monotonic)).toNat

/-- `operator<<` for an unsigned integer: its decimal digits. -/
def decimal (n : Nat) : Str := (Nat.toDigits 10 n).map Char.toNat

/-- What the model takes from outside `src/`: the constant `FRN_TM_MAX_CHARS`
(defined in `ModuleFrn.h`) and the text `operator<<` produces for a `double`
on a stream in `std::ios::fixed` mode. -/
structure Env where
  FRN_TM_MAX_CHARS : Nat
  fixed : ℚ → Str

/-- The lambda `pct` of the formatters. -/
def pct (sec : ℚ) : ℚ := min 100 (max 0 (sec * 100 / 3600))

/-- The lambda `sec_u64` of `formatStatsGroups`. -/
def sec_u64 (sec : ℚ) : Nat := (llround (max 0 sec)).toNat

/-- The `min=` operand `(a.min_sec > 0.0 ? a.min_sec : 0.0)`. -/
def minOrZero (a : DurAgg) : ℚ := if 0 < a.min_sec then a.min_sec else 0

/-- The text common to the four duration groups of `formatStatsGroups`, up to
and including `"% "`. -/
def groupHead (env : Env) (name : String) (a : DurAgg) : Str :=
  lit name ++ lit " 1h evt=" ++ decimal a.evt
    ++ lit " t=" ++ decimal (sec_u64 a.sec) ++ lit "s"
    ++ lit " min=" ++ env.fixed (minOrZero a) ++ lit "s"
    ++ lit " max=" ++ env.fixed a.max_sec ++ lit "s"
    ++ lit " duty=" ++ env.fixed (pct a.sec) ++ lit "% "

/-- `SvxStats::formatStatsGroups` at clock reading `t`: the state after the call
(the window is rotated) and the returned vector. -/
def formatStatsGroups (env : Env) (s : SvxStats) (t : Clock) : SvxStats × List Str :=
  let now_m := t.minute
  let s := rotateBuckets s now_m
  let now_s := t.sec
  let w := windowSum s now_m
  let frn_tx_1h := { w.frn_tx_1h with
    sec := add_active s.frn_tx_active s.frn_tx_t0 now_s w.frn_tx_1h.sec }
  let frn_rx_1h := { w.frn_rx_1h with
    sec := add_active s.frn_rx_active s.frn_rx_t0 now_s w.frn_rx_1h.sec }
  let rf_tx_1h := { w.rf_tx_1h with
    sec := add_active s.rf_tx_active s.rf_tx_t0 now_s w.rf_tx_1h.sec }
  let rf_rx_1h := { w.rf_rx_1h with
    sec := add_active s.rf_rx_active s.rf_rx_t0 now_s w.rf_rx_1h.sec }
  let rf_tx_total_eff_sec := add_active s.rf_tx_active s.rf_tx_t0 now_s s.rf_tx_total.sec
  let rf_rx_total_eff_sec := add_active s.rf_rx_active s.rf_rx_t0 now_s s.rf_rx_total.sec
  let unique_1h := (s.user_last_seen_minute.filter fun kv => now_m < kv.2 + NBUCKET).length
  let peak_1h := s.frn_users_peak_1h
  let avg := if w.cmd_1h.cnt_ms ≠ 0 then w.cmd_1h.sum_ms / w.cmd_1h.cnt_ms else 0
  (s,
   [ lit "STATS uptime=" ++ decimal (uptimeSeconds s now_s) ++ lit "s"
       ++ lit " users=" ++ decimal s.frn_users_cur
       ++ lit " peak1h=" ++ decimal peak_1h
       ++ lit " uniq1h=" ++ decimal unique_1h
       ++ lit " join1h=" ++ decimal w.join_1h
       ++ lit " leave1h=" ++ decimal w.leave_1h,
     groupHead env "FRN TX" frn_tx_1h ++ lit "bytes=" ++ decimal w.frn_tx_bytes_1h,
     groupHead env "FRN RX" frn_rx_1h ++ lit "bytes=" ++ decimal w.frn_rx_bytes_1h,
     groupHead env "RF TX" rf_tx_1h
       ++ lit "total=" ++ env.fixed (rf_tx_total_eff_sec / 3600) ++ lit "h",
     groupHead env "RF RX" rf_rx_1h
       ++ lit "total=" ++ env.fixed (rf_rx_total_eff_sec / 3600) ++ lit "h",
     lit "CMD 1h ok=" ++ decimal w.cmd_1h.ok
       ++ lit " rej=" ++ decimal w.cmd_1h.rej
       ++ lit " auth=" ++ decimal w.cmd_1h.authfail
       ++ lit " bc=" ++ decimal w.cmd_1h.bc_attempt
       ++ lit " avg=" ++ decimal avg ++ lit "ms"
       ++ lit " max=" ++ decimal w.cmd_1h.max_ms ++ lit "ms" ])

/-! ## The command bridge (`ModuleFrn::onTextMessageReceived`) -/

/-- The data members of `ModuleFrn` used by the command bridge. `cmd_exec` is
`none` for the null pointer and otherwise the command line of the
`Async::Exec` object it points to. -/
structure ModuleFrn where
  aiorsctl_path : Str := lit "/usr/local/bin/aiorsctl"
  run_cmd_secret : Str := []
  cmd_exec : Option Str := none
  cmd_busy : Bool := false
  cmd_from_id : Str := []
  cmd_stdout : Str := []
  cmd_stderr : Str := []
  cmd_start_ms : Nat := 0

/-- Everything a handler of the module can read or change: the module, the
singleton `SvxStats::instance()`, the text messages handed to
`qso->sendTextMessage(to, text)` so far (oldest first) and the processes
started with `cmd_exec->run()` so far (command line, timeout in seconds). -/
structure World where
  mod : ModuleFrn
  stats : SvxStats
  sent : List (Str × Str) := []
  started : List (Str × Nat) := []

/-- The frame sent for `groups[i]` in the `get stats` loop, `n` groups in
all. -/
def statsFrame (env : Env) (n i : Nat) (group : Str) : Str :=
  let pfx := lit "CmdReply: " ++ lit "[" ++ decimal (i + 1) ++ lit "/" ++ decimal n ++ lit "] "
  let line := (group.filter (· != 13)).filter (· != 10)
  let line :=
    if pfx.length < env.FRN_TM_MAX_CHARS then
      let max_payload := env.FRN_TM_MAX_CHARS - pfx.length
      if line.length > max_payload ∧ max_payload ≥ 3 then
        line.take (max_payload - 3) ++ lit "..."
      else if line.length > max_payload then line.take max_payload
      else line
    else []
  pfx ++ line

/-- The frames of the `get stats` loop for `groups[i ..]`, in sending order. -/
def statsFrames (env : Env) (n : Nat) : Nat → List Str → List Str
  | _, [] => []
  | i, g :: gs => statsFrame env n i g :: statsFrames env n (i + 1) gs

/-- `ModuleFrn::onTextMessageReceived`. `t1` is the clock read by the first
`SvxStats` call of the handler, `t2` the clock read after it
(`formatStatsGroups`, `cmd_start_ms`). -/
def onTextMessageReceived (env : Env) (w : World) (from_id msg scope : Str)
    (t1 t2 : Clock) : World :=
  let r := parseAndAuthorizeCmd w.mod.run_cmd_secret from_id msg [] []
  let cmd := r.out_cmd
  let err := r.out_err
  if !r.ret then w
  else if scope != lit "P" then
    { w with stats := onCmdBroadcastAttempt w.stats t1.minute }
  else if !err.isEmpty && cmd.isEmpty then
    let stats :=
      if contains (lit "AUTH") err then onCmdAuthFailed w.stats t1.minute
      else onCmdRejected w.stats t1.minute
    { w with stats := stats, sent := w.sent ++ [(from_id, err)] }
  else if cmd == lit "get stats" then
    let stats := onCmdAccepted w.stats t1.minute
    let (stats, groups) := formatStatsGroups env stats t2
    let groups := if groups.isEmpty then [lit "STATS (empty)"] else groups
    let n := groups.length
    { w with
      stats := stats
      sent := w.sent ++ (statsFrames env n 0 groups).map fun f => (from_id, f) }
  else if w.mod.cmd_busy then
    { w with
      stats := onCmdRejected w.stats t1.minute
      sent := w.sent ++ [(from_id, lit "CmdReply: ERR: busy")] }
  else
    let cmdline := w.mod.aiorsctl_path ++ lit " " ++ cmd
    { w with
      mod := { w.mod with
        cmd_busy := true
        cmd_from_id := from_id
        cmd_stdout := []
        cmd_stderr := []
        cmd_start_ms := t2.ms
        cmd_exec := some cmdline }
      stats := onCmdAccepted w.stats t1.minute
      started := w.started ++ [(cmdline, 3)] }

/-! ## Reply chunker (`ModuleFrn::sendCmdReplyChunked`) and process exit -/

/-- The three `erase`/`remove` passes at the head of `sendCmdReplyChunked`:
`'\r'`, then `'\n'`, then every `unsigned char c` with
`(c < 0x20 && c != '\t') || c == 0x7F`. -/
def sanitize (reply : Str) : Str :=
  ((reply.filter (· != 13)).filter (· != 10)).filter
    fun c => !((decide (c < 32) && c != 9) || c == 127)

/-- `s.rfind(c, pos)`: index of the last occurrence of `c` at or before `pos`,
`none` for `npos`. -/
def rfind (c : Nat) (s : Str) : Nat → Option Nat
  | 0 => if s[0]? = some c then some 0 else none
  | pos + 1 => if s[pos + 1]? = some c then some (pos + 1) else rfind c s pos

/-- The loop `while (off < s.size() && s[off] == ' ') off++` with an iteration
budget; the result is the final `off`. -/
def skipSpaces (s : Str) : Nat → Nat → Nat
  | 0, off => off
  | fuel + 1, off =>
    if off < s.length ∧ s[off]? = some 32 then skipSpaces s fuel (off + 1) else off

/-- The value of `take` when `s.substr(off, take)` is pushed in the loop of
`sendCmdReplyChunked`. -/
def chunkTake (s : Str) (chunk_size off : Nat) : Nat :=
  let take := min chunk_size (s.length - off)
  if off + take < s.length then
    match rfind 32 s (off + take) with
    | some last_space => if last_space > off + 20 then last_space - off else take
    | none => take
  else take

/-- The loop `for (size_t off = 0; off < s.size(); ) { ... }` of
`sendCmdReplyChunked` with an iteration budget, started at `off`: the pair
`(off, take)` of every `chunks.push_back(s.substr(off, take))`, in order. -/
def chunkSpans (s : Str) (chunk_size : Nat) : Nat → Nat → List (Nat × Nat)
  | 0, _ => []
  | fuel + 1, off =>
    if off < s.length then
      let take := chunkTake s chunk_size off
      let off2 := off + take
      let off3 := skipSpaces s (s.length - off2) off2
      (off, take) :: chunkSpans s chunk_size fuel off3
    else []

/-- The value `chunk_size` of `sendCmdReplyChunked` for
`FRN_TM_MAX_CHARS = L`. -/
def chunkSize (L : Nat) : Nat :=
  let reserve := (lit "CmdReply: [99/99] ").length
  let payload_max := L
  if payload_max > reserve then payload_max - reserve else 50

/-- The vector `chunks` of `sendCmdReplyChunked` for the sanitised text `s`.
Every iteration moves `off` forward, so `s.size()` iterations reach the exit
of the loop. -/
def chunksOf (L : Nat) (s : Str) : List Str :=
  (chunkSpans s (chunkSize L) s.length 0).map fun p => substr s p.1 p.2

/-- The second loop of `sendCmdReplyChunked`: the texts sent for
`chunks[i ..]`, `total` chunks in all. -/
def numberedFrames (total : Nat) : Nat → List Str → List Str
  | _, [] => []
  | i, c :: cs =>
    (lit "CmdReply: [" ++ decimal (i + 1) ++ lit "/" ++ decimal total ++ lit "] " ++ c)
      :: numberedFrames total (i + 1) cs

/-- The texts `sendCmdReplyChunked` hands to `qso->sendTextMessage`, in
order. -/
def replyFrames (env : Env) (reply : Str) : List Str :=
  let s := sanitize reply
  let base := lit "CmdReply: "
  if base.length + s.length ≤ env.FRN_TM_MAX_CHARS then [base ++ s]
  else
    let chunks := chunksOf env.FRN_TM_MAX_CHARS s
    numberedFrames chunks.length 0 chunks

/-- `ModuleFrn::sendCmdReplyChunked`. -/
def sendCmdReplyChunked (env : Env) (w : World) (to_id reply : Str) : World :=
  { w with sent := w.sent ++ (replyFrames env reply).map fun f => (to_id, f) }

/-- `cmdagg_add_ms`. -/
def cmdagg_add_ms (c : CmdAgg) (ms : Nat) : CmdAgg :=
  { c with
    sum_ms := c.sum_ms + ms
    cnt_ms := c.cnt_ms + 1
    max_ms := if ms > c.max_ms then ms else c.max_ms }

/-- `SvxStats::onCmdExecTimeMs`. -/
def onCmdExecTimeMs (s : SvxStats) (ms : Nat) (m : Nat) : SvxStats :=
  let s := rotateBuckets s m
  let s := s.modCur fun b => { b with cmd := cmdagg_add_ms b.cmd ms }
  { s with cmd_total := cmdagg_add_ms s.cmd_total ms }

/-- The reply text chosen by the `exited` handler from the two
accumulators. -/
def exitReply (cmd_stdout cmd_stderr : Str) : Str :=
  let out := trim_copy cmd_stdout
  let errout := trim_copy cmd_stderr
  let reply := if out.isEmpty then errout else out
  if reply.isEmpty then lit "OK" else reply

/-- The handler connected to `cmd_exec->stdoutData`. -/
def onExecStdout (w : World) (buf : Str) : World :=
  { w with mod := { w.mod with cmd_stdout := w.mod.cmd_stdout ++ buf } }

/-- The handler connected to `cmd_exec->stderrData`. -/
def onExecStderr (w : World) (buf : Str) : World :=
  { w with mod := { w.mod with cmd_stderr := w.mod.cmd_stderr ++ buf } }

/-- The handler connected to `cmd_exec->exited`, at clock reading `t`
(`end_ms` is `t.ms`; the argument of `onCmdExecTimeMs` is cast to
`uint32_t`). -/
def onExecExited (env : Env) (w : World) (t : Clock) : World :=
  let reply := exitReply w.mod.cmd_stdout w.mod.cmd_stderr
  let w := sendCmdReplyChunked env w w.mod.cmd_from_id reply
  let end_ms := t.ms
  let stats :=
    if end_ms ≥ w.mod.cmd_start_ms then
      onCmdExecTimeMs w.stats ((end_ms - w.mod.cmd_start_ms) % 2 ^ 32) t.minute
    else w.stats
  { w with
    stats := stats
    mod := { w.mod with cmd_exec := none, cmd_busy := false } }

/-! ## Statistics aggregator: event recording, summary line, tick, load -/

/-- `duragg_add`, the two sums exact; `duragg_add_rnd` has their rounding. -/
def duragg_add (a : DurAgg) (sec : ℚ) : DurAgg :=
  { evt := a.evt + 1
    sec := a.sec + sec
    sum_sec := a.sum_sec + sec
    min_sec := if a.min_sec = 0 ∨ sec < a.min_sec then sec else a.min_sec
    max_sec := if sec > a.max_sec then sec else a.max_sec }

/-- `user_last_seen_minute[k] = v` on the association list: the entry of `k`
is overwritten, or added when `k` has none. -/
def mapSet : List (Str × Nat) → Str → Nat → List (Str × Nat)
  | [], k, v => [(k, v)]
  | (k2, v2) :: rest, k, v =>
    if k2 = k then (k, v) :: rest else (k2, v2) :: mapSet rest k v

/-- `SvxStats::onFrnClientListUpdate`. `new_present` holds each identifier of
the list once. -/
def onFrnClientListUpdate (s : SvxStats) (client_list : List Str) (m : Nat) : SvxStats :=
  let s := rotateBuckets s m
  let new_present := client_list.eraseDups
  let last_seen := client_list.foldl (fun acc c => mapSet acc c m) s.user_last_seen_minute
  let joins := (new_present.filter fun k => !s.user_present.contains k).length
  let leaves := (s.user_present.filter fun k => !new_present.contains k).length
  let s := s.modCur fun b =>
    { b with user_join := b.user_join + joins, user_leave := b.user_leave + leaves }
  { s with
    user_last_seen_minute := last_seen
    user_present := new_present
    frn_users_cur := new_present.length }

/-- `SvxStats::onFrnTxState`. -/
def onFrnTxState (s : SvxStats) (is_tx : Bool) (t : Clock) : SvxStats :=
  let s := rotateBuckets s t.minute
  let now := t.sec
  if is_tx && !s.frn_tx_active then
    { s with frn_tx_active := true, frn_tx_t0 := now }
  else if !is_tx && s.frn_tx_active then
    let sec := max 0 (now - s.frn_tx_t0)
    let s := { s with frn_tx_active := false }
    let s := s.modCur fun b => { b with frn_tx := duragg_add b.frn_tx sec }
    { s with frn_tx_total := duragg_add s.frn_tx_total sec }
  else s

/-- `SvxStats::onFrnRxState`. -/
def onFrnRxState (s : SvxStats) (is_rx : Bool) (t : Clock) : SvxStats :=
  let s := rotateBuckets s t.minute
  let now := t.sec
  if is_rx && !s.frn_rx_active then
    { s with frn_rx_active := true, frn_rx_t0 := now }
  else if !is_rx && s.frn_rx_active then
    let sec := max 0 (now - s.frn_rx_t0)
    let s := { s with frn_rx_active := false }
    let s := s.modCur fun b => { b with frn_rx := duragg_add b.frn_rx sec }
    { s with frn_rx_total := duragg_add s.frn_rx_total sec }
  else s

/-- `SvxStats::addFrnTxBytes`. -/
def addFrnTxBytes (s : SvxStats) (bytes : Nat) (m : Nat) : SvxStats :=
  let s := rotateBuckets s m
  let s := s.modCur fun b => { b with frn_tx_bytes := b.frn_tx_bytes + bytes }
  { s with frn_tx_bytes_total := s.frn_tx_bytes_total + bytes }

/-- `SvxStats::addFrnRxBytes`. -/
def addFrnRxBytes (s : SvxStats) (bytes : Nat) (m : Nat) : SvxStats :=
  let s := rotateBuckets s m
  let s := s.modCur fun b => { b with frn_rx_bytes := b.frn_rx_bytes + bytes }
  { s with frn_rx_bytes_total := s.frn_rx_bytes_total + bytes }

/-- `SvxStats::onSquelchState`. -/
def onSquelchState (s : SvxStats) (is_open : Bool) (t : Clock) : SvxStats :=
  let s := rotateBuckets s t.minute
  let now := t.sec
  if is_open && !s.sql_active then
    { s with sql_active := true, sql_t0 := now }
  else if !is_open && s.sql_active then
    let sec := max 0 (now - s.sql_t0)
    let s := { s with sql_active := false }
    let s := s.modCur fun b => { b with sql := duragg_add b.sql sec }
    { s with sql_total := duragg_add s.sql_total sec }
  else s

/-- `SvxStats::onRfTxState`. -/
def onRfTxState (s : SvxStats) (is_tx : Bool) (t : Clock) : SvxStats :=
  let s := rotateBuckets s t.minute
  let now := t.sec
  if is_tx && !s.rf_tx_active then
    { s with rf_tx_active := true, rf_tx_t0 := now }
  else if !is_tx && s.rf_tx_active then
    let sec := max 0 (now - s.rf_tx_t0)
    let s := { s with rf_tx_active := false }
    let s := s.modCur fun b => { b with rf_tx := duragg_add b.rf_tx sec }
    { s with rf_tx_total := duragg_add s.rf_tx_total sec }
  else s

/-- `SvxStats::onRfRxState`. -/
def onRfRxState (s : SvxStats) (is_rx : Bool) (t : Clock) : SvxStats :=
  let s := rotateBuckets s t.minute
  let now := t.sec
  if is_rx && !s.rf_rx_active then
    { s with rf_rx_active := true, rf_rx_t0 := now }
  else if !is_rx && s.rf_rx_active then
    let sec := max 0 (now - s.rf_rx_t0)
    let s := { s with rf_rx_active := false }
    let s := s.modCur fun b => { b with rf_rx := duragg_add b.rf_rx sec }
    { s with rf_rx_total := duragg_add s.rf_rx_total sec }
  else s

/-- The cast `(uint64_t)` of a `long long`. -/
def toU64 (z : Int) : Nat := (z % 2 ^ 64).toNat

/-- `SvxStats::formatStatsLine` at clock reading `t`: the state after the call
(the window is rotated) and the returned line. The stream is in
`std::ios::fixed` mode throughout. -/
def formatStatsLine (env : Env) (s : SvxStats) (t : Clock) : SvxStats × Str :=
  let now_m := t.minute
  let s := rotateBuckets s now_m
  let now_s := t.sec
  let w := windowSum s now_m
  let frn_tx_sec := add_active s.frn_tx_active s.frn_tx_t0 now_s w.frn_tx_1h.sec
  let frn_rx_sec := add_active s.frn_rx_active s.frn_rx_t0 now_s w.frn_rx_1h.sec
  let rf_tx_sec := add_active s.rf_tx_active s.rf_tx_t0 now_s w.rf_tx_1h.sec
  let rf_rx_sec := add_active s.rf_rx_active s.rf_rx_t0 now_s w.rf_rx_1h.sec
  let sql_sec := add_active s.sql_active s.sql_t0 now_s w.sql_1h.sec
  let rf_tx_total_eff_sec := add_active s.rf_tx_active s.rf_tx_t0 now_s s.rf_tx_total.sec
  let rf_rx_total_eff_sec := add_active s.rf_rx_active s.rf_rx_t0 now_s s.rf_rx_total.sec
  let unique_1h := (s.user_last_seen_minute.filter fun kv => now_m < kv.2 + NBUCKET).length
  let peak_1h := s.frn_users_peak_1h
  let rf_tx_hours_total := rf_tx_total_eff_sec / 3600
  let rf_rx_hours_total := rf_rx_total_eff_sec / 3600
  let avg := if w.cmd_1h.cnt_ms ≠ 0 then w.cmd_1h.sum_ms / w.cmd_1h.cnt_ms else 0
  (s,
   lit "STATS"
     ++ lit " uptime_s=" ++ decimal (uptimeSeconds s now_s)
     ++ lit " frn_users=" ++ decimal s.frn_users_cur
     ++ lit " frn_users_peak_1h=" ++ decimal peak_1h
     ++ lit " frn_users_unique_1h=" ++ decimal unique_1h
     ++ lit " frn_user_join_1h=" ++ decimal w.join_1h
     ++ lit " frn_user_leave_1h=" ++ decimal w.leave_1h
     ++ lit " frn_tx_evt_1h=" ++ decimal w.frn_tx_1h.evt
     ++ lit " frn_tx_s_1h=" ++ decimal (toU64 (llround frn_tx_sec))
     ++ lit " frn_tx_min_s_1h=" ++ env.fixed (minOrZero w.frn_tx_1h)
     ++ lit " frn_tx_max_s_1h=" ++ env.fixed w.frn_tx_1h.max_sec
     ++ lit " frn_tx_bytes_1h=" ++ decimal w.frn_tx_bytes_1h
     ++ lit " frn_tx_duty_1h=" ++ env.fixed (pct frn_tx_sec)
     ++ lit " frn_rx_evt_1h=" ++ decimal w.frn_rx_1h.evt
     ++ lit " frn_rx_s_1h=" ++ decimal (toU64 (llround frn_rx_sec))
     ++ lit " frn_rx_min_s_1h=" ++ env.fixed (minOrZero w.frn_rx_1h)
     ++ lit " frn_rx_max_s_1h=" ++ env.fixed w.frn_rx_1h.max_sec
     ++ lit " frn_rx_bytes_1h=" ++ decimal w.frn_rx_bytes_1h
     ++ lit " sq_evt_1h=" ++ decimal w.sql_1h.evt
     ++ lit " sq_open_s_1h=" ++ decimal (toU64 (llround sql_sec))
     ++ lit " sq_min_s_1h=" ++ env.fixed (minOrZero w.sql_1h)
     ++ lit " sq_max_s_1h=" ++ env.fixed w.sql_1h.max_sec
     ++ lit " rf_tx_evt_1h=" ++ decimal w.rf_tx_1h.evt
     ++ lit " rf_tx_s_1h=" ++ decimal (toU64 (llround rf_tx_sec))
     ++ lit " rf_tx_min_s_1h=" ++ env.fixed (minOrZero w.rf_tx_1h)
     ++ lit " rf_tx_max_s_1h=" ++ env.fixed w.rf_tx_1h.max_sec
     ++ lit " rf_tx_hours_total=" ++ env.fixed rf_tx_hours_total
     ++ lit " rf_tx_duty_1h=" ++ env.fixed (pct rf_tx_sec)
     ++ lit " rf_rx_evt_1h=" ++ decimal w.rf_rx_1h.evt
     ++ lit " rf_rx_s_1h=" ++ decimal (toU64 (llround rf_rx_sec))
     ++ lit " rf_rx_min_s_1h=" ++ env.fixed (minOrZero w.rf_rx_1h)
     ++ lit " rf_rx_max_s_1h=" ++ env.fixed w.rf_rx_1h.max_sec
     ++ lit " rf_rx_hours_total=" ++ env.fixed rf_rx_hours_total
     ++ lit " rf_rx_duty_1h=" ++ env.fixed (pct rf_rx_sec)
     ++ lit " cmd_ok_1h=" ++ decimal w.cmd_1h.ok
     ++ lit " cmd_rej_1h=" ++ decimal w.cmd_1h.rej
     ++ lit " cmd_authfail_1h=" ++ decimal w.cmd_1h.authfail
     ++ lit " cmd_bc_attempt_1h=" ++ decimal w.cmd_1h.bc_attempt
     ++ lit " cmd_avg_ms_1h=" ++ decimal avg
     ++ lit " cmd_max_ms_1h=" ++ decimal w.cmd_1h.max_ms)

/-- The state after `SvxStats::onTick`: `t1` is the clock read by the handler,
`t2` the clock read by the `formatStatsLine` call in it. The line goes to
`std::cout`; `savePersistedTotals`, called last, reads the state only. -/
def onTick (env : Env) (s : SvxStats) (t1 t2 : Clock) : SvxStats :=
  let now_m := t1.minute
  let s := rotateBuckets s now_m
  let s :=
    if s.peak_set_minute + NBUCKET ≤ now_m then
      { s with frn_users_peak_1h := s.frn_users_cur, peak_set_minute := now_m }
    else s
  let s :=
    if s.frn_users_cur > s.frn_users_peak_1h then
      { s with frn_users_peak_1h := s.frn_users_cur, peak_set_minute := now_m }
    else s
  (formatStatsLine env s t2).1

/-- `SvxStats::setPersistPath`. -/
def setPersistPath (s : SvxStats) (path : Str) : SvxStats := { s with persist_path := path }

/-- `SvxStats::start(uint32_t)`, the timer object apart; the product is taken
in `uint32_t`. -/
def start (s : SvxStats) (interval_s : Nat) : SvxStats :=
  if s.started then s
  else
    { s with
      started := true
      stats_interval_ms := if interval_s = 0 then 60000 else (interval_s * 1000) % 2 ^ 32 }

/-- The two standard-library conversions used by `loadPersistedTotals`:
`std::stoull` and `std::stod` on the value text, `none` when they throw. -/
structure Parsers where
  stoull : Str → Option Nat
  stod : Str → Option ℚ

/-- The lines `std::getline` reads from a file text: the pieces between line
feeds, without a last empty piece. -/
def getlines (file : Str) : List Str :=
  let pieces := file.splitOn 10
  if pieces.getLast? = some [] then pieces.dropLast else pieces

/-- `line.find(c)`: index of the first `c`, `none` for `npos`. -/
def findChar (c : Nat) : Str → Option Nat
  | [] => none
  | x :: xs => if x = c then some 0 else (findChar c xs).map (· + 1)

/-- The lambda `parse_u64` of `loadPersistedTotals`: the new value of `dst`. -/
def parse_u64 (ps : Parsers) (v : Str) (dst : Nat) : Nat := (ps.stoull v).getD dst

/-- The lambda `parse_d` of `loadPersistedTotals`: the new value of `dst`. -/
def parse_d (ps : Parsers) (v : Str) (dst : ℚ) : ℚ := (ps.stod v).getD dst

/-- The chain of key comparisons of `loadPersistedTotals` for the key `k` and
the value text `v` of one line. -/
def loadKey (ps : Parsers) (s : SvxStats) (k v : Str) : SvxStats :=
  if k = lit "rf_tx_s_total" then
    { s with rf_tx_total := { s.rf_tx_total with sec := parse_d ps v s.rf_tx_total.sec } }
  else if k = lit "rf_tx_evt_total" then
    { s with rf_tx_total := { s.rf_tx_total with evt := parse_u64 ps v s.rf_tx_total.evt } }
  else if k = lit "rf_rx_s_total" then
    { s with rf_rx_total := { s.rf_rx_total with sec := parse_d ps v s.rf_rx_total.sec } }
  else if k = lit "rf_rx_evt_total" then
    { s with rf_rx_total := { s.rf_rx_total with evt := parse_u64 ps v s.rf_rx_total.evt } }
  else if k = lit "sq_open_s_total" then
    { s with sql_total := { s.sql_total with sec := parse_d ps v s.sql_total.sec } }
  else if k = lit "sq_evt_total" then
    { s with sql_total := { s.sql_total with evt := parse_u64 ps v s.sql_total.evt } }
  else if k = lit "frn_tx_s_total" then
    { s with frn_tx_total := { s.frn_tx_total with sec := parse_d ps v s.frn_tx_total.sec } }
  else if k = lit "frn_tx_evt_total" then
    { s with frn_tx_total := { s.frn_tx_total with evt := parse_u64 ps v s.frn_tx_total.evt } }
  else if k = lit "frn_rx_s_total" then
    { s with frn_rx_total := { s.frn_rx_total with sec := parse_d ps v s.frn_rx_total.sec } }
  else if k = lit "frn_rx_evt_total" then
    { s with frn_rx_total := { s.frn_rx_total with evt := parse_u64 ps v s.frn_rx_total.evt } }
  else if k = lit "cmd_ok_total" then
    { s with cmd_total := { s.cmd_total with ok := parse_u64 ps v s.cmd_total.ok } }
  else if k = lit "cmd_rej_total" then
    { s with cmd_total := { s.cmd_total with rej := parse_u64 ps v s.cmd_total.rej } }
  else if k = lit "cmd_authfail_total" then
    { s with cmd_total := { s.cmd_total with authfail := parse_u64 ps v s.cmd_total.authfail } }
  else if k = lit "cmd_bc_attempt_total" then
    { s with cmd_total :=
        { s.cmd_total with bc_attempt := parse_u64 ps v s.cmd_total.bc_attempt } }
  else if k = lit "cmd_sum_ms_total" then
    { s with cmd_total := { s.cmd_total with sum_ms := parse_u64 ps v s.cmd_total.sum_ms } }
  else if k = lit "cmd_max_ms_total" then
    { s with cmd_total := { s.cmd_total with max_ms := parse_u64 ps v s.cmd_total.max_ms } }
  else if k = lit "frn_tx_bytes_total" then
    { s with frn_tx_bytes_total := parse_u64 ps v s.frn_tx_bytes_total }
  else if k = lit "frn_rx_bytes_total" then
    { s with frn_rx_bytes_total := parse_u64 ps v s.frn_rx_bytes_total }
  else if k = lit "rf_tx_hours_total" then
    { s with rf_tx_total := { s.rf_tx_total with sec := parse_d ps v 0 * 3600 } }
  else if k = lit "rf_tx_total" then
    { s with rf_tx_total := { s.rf_tx_total with evt := parse_u64 ps v 0 } }
  else if k = lit "sql_total" then
    { s with sql_total := { s.sql_total with evt := parse_u64 ps v 0 } }
  else if k = lit "cmd_total" then
    { s with cmd_total := { s.cmd_total with ok := parse_u64 ps v 0 } }
  else if k = lit "frn_tx_total" then
    { s with frn_tx_total := { s.frn_tx_total with evt := parse_u64 ps v 0 } }
  else if k = lit "frn_rx_total" then
    { s with frn_rx_total := { s.frn_rx_total with evt := parse_u64 ps v 0 } }
  else s

/-- The body of the `while (std::getline(f, line))` loop of
`loadPersistedTotals` for one line. -/
def loadLine (ps : Parsers) (s : SvxStats) (line : Str) : SvxStats :=
  if line.isEmpty then s
  else
    match findChar 61 line with
    | none => s
    | some eq => loadKey ps s (line.take eq) (line.drop (eq + 1))

/-- `SvxStats::loadPersistedTotals`; `file` is the text of the file at
`persist_path`, `none` when it cannot be opened. -/
def loadPersistedTotals (ps : Parsers) (s : SvxStats) (file : Option Str) : SvxStats :=
  if s.persist_path.isEmpty then s
  else
    match file with
    | none => s
    | some text => (getlines text).foldl (loadLine ps) s

/-- The calls that change the aggregator: its public member functions and the
timer handler. -/
inductive Op where
  | clientList (client_list : List Str)
  | frnTxState (is_tx : Bool)
  | frnRxState (is_rx : Bool)
  | frnTxBytes (bytes : Nat)
  | frnRxBytes (bytes : Nat)
  | squelchState (is_open : Bool)
  | rfTxState (is_tx : Bool)
  | rfRxState (is_rx : Bool)
  | cmdAccepted
  | cmdRejected
  | cmdAuthFailed
  | cmdBroadcastAttempt
  | cmdExecTimeMs (ms : Nat)
  | statsLine
  | statsGroups
  | tick
  | persistPath (path : Str)
  | startTimer (interval_s : Nat)
  | loadTotals (file : Option Str)

/-- The state after one call; `t1` and `t2` are the clock readings available
to it (`t2` is used by `onTick` only). -/
def Op.run (env : Env) (ps : Parsers) (s : SvxStats) (t1 t2 : Clock) : Op → SvxStats
  | .clientList l => onFrnClientListUpdate s l t1.minute
  | .frnTxState b => onFrnTxState s b t1
  | .frnRxState b => onFrnRxState s b t1
  | .frnTxBytes n => addFrnTxBytes s n t1.minute
  | .frnRxBytes n => addFrnRxBytes s n t1.minute
  | .squelchState b => onSquelchState s b t1
  | .rfTxState b => onRfTxState s b t1
  | .rfRxState b => onRfRxState s b t1
  | .cmdAccepted => onCmdAccepted s t1.minute
  | .cmdRejected => onCmdRejected s t1.minute
  | .cmdAuthFailed => onCmdAuthFailed s t1.minute
  | .cmdBroadcastAttempt => onCmdBroadcastAttempt s t1.minute
  | .cmdExecTimeMs ms => onCmdExecTimeMs s ms t1.minute
  | .statsLine => (formatStatsLine env s t1).1
  | .statsGroups => (formatStatsGroups env s t1).1
  | .tick => onTick env s t1 t2
  | .persistPath p => setPersistPath s p
  | .startTimer n => start s n
  | .loadTotals f => loadPersistedTotals ps s f

/-- The aggregator states reachable from the state constructed at clock
reading `t0` by any sequence of calls at any clock readings. -/
inductive Reachable (env : Env) (ps : Parsers) (t0 : Clock) : SvxStats → Prop
  | init : Reachable env ps t0 (SvxStats.init t0)
  | step (s : SvxStats) (op : Op) (t1 t2 : Clock) :
      Reachable env ps t0 s → Reachable env ps t0 (op.run env ps s t1 t2)

/-! ## Statistics aggregator: saving the lifetime totals -/

/-- The lines `SvxStats::savePersistedTotals` writes, without their line feeds;
`general` is the text `operator<<` produces for a `double` on a stream in its
default format. -/
def persistedLines (general : ℚ → Str) (s : SvxStats) : List Str :=
  [ lit "rf_tx_s_total=" ++ general s.rf_tx_total.sec,
    lit "rf_tx_evt_total=" ++ decimal s.rf_tx_total.evt,
    lit "rf_rx_s_total=" ++ general s.rf_rx_total.sec,
    lit "rf_rx_evt_total=" ++ decimal s.rf_rx_total.evt,
    lit "sq_open_s_total=" ++ general s.sql_total.sec,
    lit "sq_evt_total=" ++ decimal s.sql_total.evt,
    lit "frn_tx_s_total=" ++ general s.frn_tx_total.sec,
    lit "frn_tx_evt_total=" ++ decimal s.frn_tx_total.evt,
    lit "frn_rx_s_total=" ++ general s.frn_rx_total.sec,
    lit "frn_rx_evt_total=" ++ decimal s.frn_rx_total.evt,
    lit "cmd_ok_total=" ++ decimal s.cmd_total.ok,
    lit "cmd_rej_total=" ++ decimal s.cmd_total.rej,
    lit "cmd_authfail_total=" ++ decimal s.cmd_total.authfail,
    lit "cmd_bc_attempt_total=" ++ decimal s.cmd_total.bc_attempt,
    lit "cmd_sum_ms_total=" ++ decimal s.cmd_total.sum_ms,
    lit "cmd_max_ms_total=" ++ decimal s.cmd_total.max_ms,
    lit "frn_tx_bytes_total=" ++ decimal s.frn_tx_bytes_total,
    lit "frn_rx_bytes_total=" ++ decimal s.frn_rx_bytes_total ]

/-- The text `SvxStats::savePersistedTotals` writes: each line followed by
`"\n"`. -/
def persistedText (general : ℚ → Str) (s : SvxStats) : Str :=
  ((persistedLines general s).map (· ++ lit "\n")).flatten

/-- `SvxStats::savePersistedTotals`: the new content of the file at
`persist_path`, `none` when nothing is written (no path, or the file cannot be
opened: `writable = false`). The aggregator itself is not changed. -/
def savePersistedTotals (general : ℚ → Str) (s : SvxStats) (writable : Bool) : Option Str :=
  if s.persist_path.isEmpty then none
  else if !writable then none
  else some (persistedText general s)

/-! ## Vocabulary of the statements -/

/-- The five allowlisted token sequences. -/
def allowlist : List (List Str) :=
  [ [lit "get", lit "psu", lit "a"], [lit "get", lit "psu", lit "b"],
    [lit "get", lit "psu", lit "all"], [lit "get", lit "temp", lit "all"],
    [lit "get", lit "stats"] ]

/-- The five single-space command strings. -/
def normalised : List Str :=
  [lit "get psu a", lit "get psu b", lit "get psu all", lit "get temp all", lit "get stats"]

/-- The message carries the marker: trimmed and lower-cased it starts with
`runcmd:`. -/
def carriesMarker (msg : Str) : Bool :=
  startsWith (lit "runcmd:") (tolower_copy (trim_copy msg))

/-- The trimmed text after the marker, in its original letter case. -/
def afterMarker (msg : Str) : Str := trim_copy ((trim_copy msg).drop 7)

/-- The configured secret is accepted for the text `rest` after the marker:
no secret is configured, or `rest` begins with the secret followed by `:` or by
a space. -/
def secretAccepted (secret rest : Str) : Bool :=
  secret.isEmpty || startsWith (secret ++ lit ":") rest || startsWith (secret ++ lit " ") rest

/-- The trimmed, case-folded remainder of a message: the text after the marker
and, when a secret is configured, after the secret and its separator. -/
def remainder (secret msg : Str) : Str :=
  tolower_copy (trim_copy
    (if secret.isEmpty then afterMarker msg
     else trim_copy ((afterMarker msg).drop (secret.length + 1))))

/-- The outcome named by the specification for a remainder: the
empty-command rejection, the authorised command, or the not-allowed
rejection. -/
def verdict (rem : Str) : ParseResult :=
  if rem = [] then ⟨true, [], lit "CmdReply: ERR: empty command"⟩
  else if tokens rem ∈ allowlist then ⟨true, rem, []⟩
  else ⟨true, [], lit "CmdReply: ERR: command not allowed"⟩

/-- `Tiles t chunks`: the text `t` is the chunks in order, each followed by a
run of spaces (possibly empty), and nothing else. -/
def Tiles : Str → List Str → Prop
  | t, [] => t = []
  | t, c :: cs => ∃ g rest : Str, (∀ x ∈ g, x = 32) ∧ t = c ++ g ++ rest ∧ Tiles rest cs

/-- Deleting all spaces from a text. -/
def dropSpaces (t : Str) : Str := t.filter (· != 32)

/-- A control byte other than tab: below `0x20` and not `\t`, or `0x7F`
(carriage return and line feed are among them). -/
def isCtl (c : Nat) : Bool := (decide (c < 32) && c != 9) || c == 127

/-- The minute stamps of the slots of a bucket array. -/
def stamps (bk : Fin NBUCKET → Bucket) : Fin NBUCKET → Nat := fun i => (bk i).minute

/-- The ring bookkeeping of a state: the index, the current minute and the
minute stamp of every slot. -/
def ring (s : SvxStats) : Fin NBUCKET × Nat × (Fin NBUCKET → Nat) :=
  (s.idx, s.cur_minute, stamps s.buckets)

/-- The ring is indexed by the minutes elapsed since the construction minute
`m0`, modulo 60: the index is `(cur_minute - m0) mod 60`, and every slot
either still carries the construction stamp `m0` or carries a later minute
`m` with `(m - m0) mod 60` equal to the slot number. -/
def RingInv (m0 : Nat) (r : Fin NBUCKET × Nat × (Fin NBUCKET → Nat)) : Prop :=
  m0 ≤ r.2.1 ∧ r.1.val = (r.2.1 - m0) % 60 ∧
    ∀ i : Fin NBUCKET, r.2.2 i = m0 ∨ (m0 < r.2.2 i ∧ (r.2.2 i - m0) % 60 = i.val)

/-- The five boolean-state categories. -/
inductive Cat where
  | frn_tx
  | frn_rx
  | rf_tx
  | rf_rx
  | sql
  deriving DecidableEq

/-- The state report of a category. -/
def Cat.report : Cat → SvxStats → Bool → Clock → SvxStats
  | .frn_tx => onFrnTxState
  | .frn_rx => onFrnRxState
  | .rf_tx => onRfTxState
  | .rf_rx => onRfRxState
  | .sql => onSquelchState

/-- The active flag of a category. -/
def Cat.active : Cat → SvxStats → Bool
  | .frn_tx, s => s.frn_tx_active
  | .frn_rx, s => s.frn_rx_active
  | .rf_tx, s => s.rf_tx_active
  | .rf_rx, s => s.rf_rx_active
  | .sql, s => s.sql_active

/-- The interval start time of a category. -/
def Cat.t0 : Cat → SvxStats → ℚ
  | .frn_tx, s => s.frn_tx_t0
  | .frn_rx, s => s.frn_rx_t0
  | .rf_tx, s => s.rf_tx_t0
  | .rf_rx, s => s.rf_rx_t0
  | .sql, s => s.sql_t0

/-- The lifetime total of a category. -/
def Cat.total : Cat → SvxStats → DurAgg
  | .frn_tx, s => s.frn_tx_total
  | .frn_rx, s => s.frn_rx_total
  | .rf_tx, s => s.rf_tx_total
  | .rf_rx, s => s.rf_rx_total
  | .sql, s => s.sql_total

/-- The aggregate of a category in a bucket. -/
def Cat.agg : Cat → Bucket → DurAgg
  | .frn_tx, b => b.frn_tx
  | .frn_rx, b => b.frn_rx
  | .rf_tx, b => b.rf_tx
  | .rf_rx, b => b.rf_rx
  | .sql, b => b.sql

/-- A state with its ring (bucket array, index, current minute) blanked: what
a window rotation cannot change. -/
def nonRing (s : SvxStats) : SvxStats :=
  { s with buckets := fun _ => {}, idx := 0, cur_minute := 0 }

/-- The numbering prefix of the frame for `groups[i]`, `n` groups in all. -/
def statsPfx (n i : Nat) : Str :=
  lit "CmdReply: [" ++ decimal (i + 1) ++ lit "/" ++ decimal n ++ lit "] "

/-- A text without its carriage returns and line feeds. -/
def stripCrLf (g : Str) : Str := g.filter fun c => c != 13 && c != 10

/-- No counted field of the duration aggregate `a` exceeds that of `b`: event
count, total seconds, largest sample and sum of samples. -/
def DurLe (a b : DurAgg) : Prop :=
  a.evt ≤ b.evt ∧ a.sec ≤ b.sec ∧ a.max_sec ≤ b.max_sec ∧ a.sum_sec ≤ b.sum_sec

/-- No field of the command aggregate `a` exceeds that of `b`. -/
def CmdLe (a b : CmdAgg) : Prop :=
  a.ok ≤ b.ok ∧ a.rej ≤ b.rej ∧ a.authfail ≤ b.authfail ∧ a.bc_attempt ≤ b.bc_attempt ∧
    a.sum_ms ≤ b.sum_ms ∧ a.max_ms ≤ b.max_ms ∧ a.cnt_ms ≤ b.cnt_ms

/-- No lifetime total of the state `a` exceeds that of `b`: the five duration
aggregates, the two byte totals, the two link totals and the command
aggregate. -/
def TotalsLe (a b : SvxStats) : Prop :=
  DurLe a.frn_tx_total b.frn_tx_total ∧ DurLe a.frn_rx_total b.frn_rx_total ∧
    DurLe a.rf_tx_total b.rf_tx_total ∧ DurLe a.rf_rx_total b.rf_rx_total ∧
    DurLe a.sql_total b.sql_total ∧
    a.frn_tx_bytes_total ≤ b.frn_tx_bytes_total ∧
    a.frn_rx_bytes_total ≤ b.frn_rx_bytes_total ∧
    a.frn_link_up_total ≤ b.frn_link_up_total ∧
    a.frn_link_down_total ≤ b.frn_link_down_total ∧
    CmdLe a.cmd_total b.cmd_total

/-- The call is `loadPersistedTotals`. -/
def Op.isLoad : Op → Bool
  | .loadTotals _ => true
  | _ => false

/-- The state after a list of summary queries, each at its own clock reading:
`true` asks for `formatStatsLine`, `false` for `formatStatsGroups`. -/
def runQueries (env : Env) (s : SvxStats) (qs : List (Bool × Clock)) : SvxStats :=
  qs.foldl
    (fun s q => if q.1 then (formatStatsLine env s q.2).1 else (formatStatsGroups env s q.2).1) s

/-- The state after a list of state reports of category `c`, each at its own
clock reading. -/
def runReports (c : Cat) (s : SvxStats) (rs : List (Bool × Clock)) : SvxStats :=
  rs.foldl (fun s r => c.report s r.1 r.2) s

/-- The off reports of a list that arrive while the category is active, each
given by the minute at which it is recorded (the latest minute read so far);
`active` and `cur` are the flag and the latest minute before the list. -/
def commits : Bool → Nat → List (Bool × Clock) → List Nat
  | _, _, [] => []
  | active, cur, (b, t) :: rs =>
    if !b && active then max cur t.minute :: commits false (max cur t.minute) rs
    else commits (b || active) (max cur t.minute) rs

/-- The sum of the event counts of category `c` over the 60 ring buckets. -/
def ringEvents (c : Cat) (s : SvxStats) : Nat :=
  Finset.univ.sum fun i : Fin NBUCKET => (c.agg (s.buckets i)).evt

/-- The bookkeeping of the events of category `c` in a state constructed at
minute `m0`, against the list `log` of the minutes of the committed intervals:
the ring is indexed by the minutes since `m0`, every logged minute lies between
`m0` and the current minute, the bucket at slot `i` counts the logged minutes
of the last 60 minutes that belong to slot `i`, and the lifetime total counts
all of them. -/
def EvtInv (c : Cat) (m0 : Nat) (s : SvxStats) (log : List Nat) : Prop :=
  m0 ≤ s.cur_minute ∧ s.idx.val = (s.cur_minute - m0) % 60 ∧
    (∀ m ∈ log, m0 ≤ m ∧ m ≤ s.cur_minute) ∧
    (∀ i : Fin NBUCKET, (c.agg (s.buckets i)).evt =
      log.countP fun m => decide (s.cur_minute < m + 60 ∧ (m - m0) % 60 = i.val)) ∧
    (c.total s).evt = log.length

/-- One call on the aggregator with the clock readings it is given. -/
structure Call where
  op : Op
  t1 : Clock
  t2 : Clock

/-- The state after a list of calls. -/
def runCalls (env : Env) (ps : Parsers) (s : SvxStats) (cs : List Call) : SvxStats :=
  cs.foldl (fun s c => c.op.run env ps s c.t1 c.t2) s

/-- The call is the timer tick. -/
def Op.isTick : Op → Bool
  | .tick => true
  | _ => false

/-- The samples taken by the ticks of a list of calls, oldest first: the
minute of the tick and the current user count `frn_users_cur` at it. -/
def tickSamples (env : Env) (ps : Parsers) : SvxStats → List Call → List (Nat × Nat)
  | _, [] => []
  | s, c :: cs =>
    (if c.op.isTick then [(c.t1.minute, s.frn_users_cur)] else []) ++
      tickSamples env ps (c.op.run env ps s c.t1 c.t2) cs

/-- The peak bookkeeping of a state: the peak and the minute it was anchored
at. -/
def peakOf (s : SvxStats) : Nat × Nat := (s.frn_users_peak_1h, s.peak_set_minute)

/-- The peak is 0, or it is the count sampled by a tick of `log` at the minute
the peak is anchored at. -/
def PeakInv (s : SvxStats) (log : List (Nat × Nat)) : Prop :=
  s.frn_users_peak_1h = 0 ∨
    ∃ p ∈ log, p.1 = s.peak_set_minute ∧ p.2 = s.frn_users_peak_1h

/-- The lifetime-total fields that have a line in the persisted file, named
after their keys. -/
inductive Fld where
  | rf_tx_s
  | rf_tx_evt
  | rf_rx_s
  | rf_rx_evt
  | sq_open_s
  | sq_evt
  | frn_tx_s
  | frn_tx_evt
  | frn_rx_s
  | frn_rx_evt
  | cmd_ok
  | cmd_rej
  | cmd_authfail
  | cmd_bc_attempt
  | cmd_sum_ms
  | cmd_max_ms
  | frn_tx_bytes
  | frn_rx_bytes
  deriving DecidableEq

/-- The field holds seconds (a `double`); the others are `uint64_t` counters. -/
def Fld.isSec : Fld → Bool
  | .rf_tx_s => true
  | .rf_tx_evt => false
  | .rf_rx_s => true
  | .rf_rx_evt => false
  | .sq_open_s => true
  | .sq_evt => false
  | .frn_tx_s => true
  | .frn_tx_evt => false
  | .frn_rx_s => true
  | .frn_rx_evt => false
  | .cmd_ok => false
  | .cmd_rej => false
  | .cmd_authfail => false
  | .cmd_bc_attempt => false
  | .cmd_sum_ms => false
  | .cmd_max_ms => false
  | .frn_tx_bytes => false
  | .frn_rx_bytes => false

/-- The value of a counter field (0 for a seconds field). -/
def Fld.getN : Fld → SvxStats → Nat
  | .rf_tx_s, _ => 0
  | .rf_tx_evt, s => s.rf_tx_total.evt
  | .rf_rx_s, _ => 0
  | .rf_rx_evt, s => s.rf_rx_total.evt
  | .sq_open_s, _ => 0
  | .sq_evt, s => s.sql_total.evt
  | .frn_tx_s, _ => 0
  | .frn_tx_evt, s => s.frn_tx_total.evt
  | .frn_rx_s, _ => 0
  | .frn_rx_evt, s => s.frn_rx_total.evt
  | .cmd_ok, s => s.cmd_total.ok
  | .cmd_rej, s => s.cmd_total.rej
  | .cmd_authfail, s => s.cmd_total.authfail
  | .cmd_bc_attempt, s => s.cmd_total.bc_attempt
  | .cmd_sum_ms, s => s.cmd_total.sum_ms
  | .cmd_max_ms, s => s.cmd_total.max_ms
  | .frn_tx_bytes, s => s.frn_tx_bytes_total
  | .frn_rx_bytes, s => s.frn_rx_bytes_total

/-- The value of a seconds field (0 for a counter field). -/
def Fld.getQ : Fld → SvxStats → ℚ
  | .rf_tx_s, s => s.rf_tx_total.sec
  | .rf_tx_evt, _ => 0
  | .rf_rx_s, s => s.rf_rx_total.sec
  | .rf_rx_evt, _ => 0
  | .sq_open_s, s => s.sql_total.sec
  | .sq_evt, _ => 0
  | .frn_tx_s, s => s.frn_tx_total.sec
  | .frn_tx_evt, _ => 0
  | .frn_rx_s, s => s.frn_rx_total.sec
  | .frn_rx_evt, _ => 0
  | .cmd_ok, _ => 0
  | .cmd_rej, _ => 0
  | .cmd_authfail, _ => 0
  | .cmd_bc_attempt, _ => 0
  | .cmd_sum_ms, _ => 0
  | .cmd_max_ms, _ => 0
  | .frn_tx_bytes, _ => 0
  | .frn_rx_bytes, _ => 0

/-- The state with one field assigned: `n` when it is a counter, `q` when it
holds seconds. -/
def Fld.put : Fld → Nat → ℚ → SvxStats → SvxStats
  | .rf_tx_s, _, q, s => { s with rf_tx_total := { s.rf_tx_total with sec := q } }
  | .rf_tx_evt, n, _, s => { s with rf_tx_total := { s.rf_tx_total with evt := n } }
  | .rf_rx_s, _, q, s => { s with rf_rx_total := { s.rf_rx_total with sec := q } }
  | .rf_rx_evt, n, _, s => { s with rf_rx_total := { s.rf_rx_total with evt := n } }
  | .sq_open_s, _, q, s => { s with sql_total := { s.sql_total with sec := q } }
  | .sq_evt, n, _, s => { s with sql_total := { s.sql_total with evt := n } }
  | .frn_tx_s, _, q, s => { s with frn_tx_total := { s.frn_tx_total with sec := q } }
  | .frn_tx_evt, n, _, s => { s with frn_tx_total := { s.frn_tx_total with evt := n } }
  | .frn_rx_s, _, q, s => { s with frn_rx_total := { s.frn_rx_total with sec := q } }
  | .frn_rx_evt, n, _, s => { s with frn_rx_total := { s.frn_rx_total with evt := n } }
  | .cmd_ok, n, _, s => { s with cmd_total := { s.cmd_total with ok := n } }
  | .cmd_rej, n, _, s => { s with cmd_total := { s.cmd_total with rej := n } }
  | .cmd_authfail, n, _, s => { s with cmd_total := { s.cmd_total with authfail := n } }
  | .cmd_bc_attempt, n, _, s => { s with cmd_total := { s.cmd_total with bc_attempt := n } }
  | .cmd_sum_ms, n, _, s => { s with cmd_total := { s.cmd_total with sum_ms := n } }
  | .cmd_max_ms, n, _, s => { s with cmd_total := { s.cmd_total with max_ms := n } }
  | .frn_tx_bytes, n, _, s => { s with frn_tx_bytes_total := n }
  | .frn_rx_bytes, n, _, s => { s with frn_rx_bytes_total := n }

/-- The state with one field blanked: two states agree on every other field
exactly when their blanked states are equal. -/
def Fld.clear (f : Fld) (s : SvxStats) : SvxStats := f.put 0 0 s

/-- The field a key of the persisted file addresses, in the order of the
comparisons of `loadPersistedTotals`; the flag is set for the six keys of the
older file format. `none` for every other key. -/
def keyField (k : Str) : Option (Fld × Bool) :=
  if k = lit "rf_tx_s_total" then some (.rf_tx_s, false)
  else if k = lit "rf_tx_evt_total" then some (.rf_tx_evt, false)
  else if k = lit "rf_rx_s_total" then some (.rf_rx_s, false)
  else if k = lit "rf_rx_evt_total" then some (.rf_rx_evt, false)
  else if k = lit "sq_open_s_total" then some (.sq_open_s, false)
  else if k = lit "sq_evt_total" then some (.sq_evt, false)
  else if k = lit "frn_tx_s_total" then some (.frn_tx_s, false)
  else if k = lit "frn_tx_evt_total" then some (.frn_tx_evt, false)
  else if k = lit "frn_rx_s_total" then some (.frn_rx_s, false)
  else if k = lit "frn_rx_evt_total" then some (.frn_rx_evt, false)
  else if k = lit "cmd_ok_total" then some (.cmd_ok, false)
  else if k = lit "cmd_rej_total" then some (.cmd_rej, false)
  else if k = lit "cmd_authfail_total" then some (.cmd_authfail, false)
  else if k = lit "cmd_bc_attempt_total" then some (.cmd_bc_attempt, false)
  else if k = lit "cmd_sum_ms_total" then some (.cmd_sum_ms, false)
  else if k = lit "cmd_max_ms_total" then some (.cmd_max_ms, false)
  else if k = lit "frn_tx_bytes_total" then some (.frn_tx_bytes, false)
  else if k = lit "frn_rx_bytes_total" then some (.frn_rx_bytes, false)
  else if k = lit "rf_tx_hours_total" then some (.rf_tx_s, true)
  else if k = lit "rf_tx_total" then some (.rf_tx_evt, true)
  else if k = lit "sql_total" then some (.sq_evt, true)
  else if k = lit "cmd_total" then some (.cmd_ok, true)
  else if k = lit "frn_tx_total" then some (.frn_tx_evt, true)
  else if k = lit "frn_rx_total" then some (.frn_rx_evt, true)
  else none

/-- The assignment a line makes, given the field its key addresses: a current
key stores the parsed value and keeps the old one when the text does not parse;
a key of the older format stores the parsed value, taken from 0 (hours are
converted to seconds). -/
def applyKey (ps : Parsers) (s : SvxStats) (v : Str) : Option (Fld × Bool) → SvxStats
  | none => s
  | some (f, false) => f.put (parse_u64 ps v (f.getN s)) (parse_d ps v (f.getQ s)) s
  | some (f, true) => f.put (parse_u64 ps v 0) (parse_d ps v 0 * 3600) s

/-- The lifetime-total fields that have no line in the persisted file: the
count of execution times and, for each duration aggregate, the smallest
sample, the largest sample and the sum of samples. -/
def unsaved (s : SvxStats) : Nat × List (ℚ × ℚ × ℚ) :=
  (s.cmd_total.cnt_ms,
   [s.frn_tx_total, s.frn_rx_total, s.rf_tx_total, s.rf_rx_total, s.sql_total].map
     fun a => (a.min_sec, a.max_sec, a.sum_sec))

/-- A reader of unsigned decimal texts: the value of a non-empty run of
decimal digits below `2 ^ 64`, as `std::stoull` gives it, and `none` for every
other text. -/
def readDecimal (v : Str) : Option Nat :=
  if v ≠ [] ∧ v.all (fun c => decide (48 ≤ c ∧ c ≤ 57)) = true then
    (if v.foldl (fun a c => a * 10 + (c - 48)) 0 < 2 ^ 64 then
      some (v.foldl (fun a c => a * 10 + (c - 48)) 0) else none)
  else none

/-- The duration aggregate built by `duragg_add` from a sequence of samples,
oldest first, starting from the empty aggregate. -/
def aggOf (xs : List ℚ) : DurAgg := xs.foldl duragg_add {}

/-- A lowercase letter `a` to `z`. -/
def isLower (c : Nat) : Bool := decide (97 ≤ c ∧ c ≤ 122)

/-- The state report a call makes: its category and the reported state; `none`
for every other call. -/
def Op.reportOf : Op → Option (Cat × Bool)
  | .frnTxState b => some (.frn_tx, b)
  | .frnRxState b => some (.frn_rx, b)
  | .squelchState b => some (.sql, b)
  | .rfTxState b => some (.rf_tx, b)
  | .rfRxState b => some (.rf_rx, b)
  | _ => none

/-- Whether category `c` is active after a call, given that it was `a` before:
a report for `c` sets it, every other call leaves it. -/
def nextActive (c : Cat) (a : Bool) (op : Op) : Bool :=
  match op.reportOf with
  | some (d, b) => if d = c then b else a
  | none => a

/-- The call is an off report for `c` arriving while `c` is active. -/
def isCommit (c : Cat) (a : Bool) (op : Op) : Bool :=
  decide (op.reportOf = some (c, false)) && a

/-- The number of off reports for `c` in a list of calls that arrive while `c`
is active; `a` tells whether `c` is active before the list. -/
def offsWhileActive (c : Cat) : Bool → List Call → Nat
  | _, [] => 0
  | a, call :: cs =>
    (if isCommit c a call.op then 1 else 0) + offsWhileActive c (nextActive c a call.op) cs

/-- The event bookkeeping of category `c`: it is active exactly when `a` says
so, its lifetime event count is `n`, and the event counts of its ring buckets
sum to at most `n`. -/
def EvtCount (c : Cat) (s : SvxStats) (a : Bool) (n : Nat) : Prop :=
  c.active s = a ∧ (c.total s).evt = n ∧ ringEvents c s ≤ n

/-- One bucket added to the accumulators with no test of its minute stamp. -/
def plainAdd (w : Window) (b : Bucket) : Window :=
  { frn_tx_1h := duragg_merge w.frn_tx_1h b.frn_tx
    frn_rx_1h := duragg_merge w.frn_rx_1h b.frn_rx
    rf_tx_1h := duragg_merge w.rf_tx_1h b.rf_tx
    rf_rx_1h := duragg_merge w.rf_rx_1h b.rf_rx
    sql_1h := duragg_merge w.sql_1h b.sql
    cmd_1h := cmdagg_merge w.cmd_1h b.cmd
    frn_tx_bytes_1h := w.frn_tx_bytes_1h + b.frn_tx_bytes
    frn_rx_bytes_1h := w.frn_rx_bytes_1h + b.frn_rx_bytes
    join_1h := w.join_1h + b.user_join
    leave_1h := w.leave_1h + b.user_leave }

/-- The plain sums over all 60 buckets, in slot order. -/
def plainSum (s : SvxStats) : Window :=
  (List.finRange NBUCKET).foldl (fun w i => plainAdd w (s.buckets i)) {}

/-- The stamps of a ring constructed at minute `m0`: the slot `d` places behind
the current index carries the minute `cur_minute - d` when the ring has been
rotated onto it since (`d ≤ cur_minute - m0`), and still the construction
stamp `m0` otherwise. -/
def StampInv (m0 : Nat) (r : Fin NBUCKET × Nat × (Fin NBUCKET → Nat)) : Prop :=
  m0 ≤ r.2.1 ∧
    ∀ i : Fin NBUCKET,
      r.2.2 i = if (r.1 - i).val ≤ r.2.1 - m0 then r.2.1 - (r.1 - i).val else m0

/-! ## Duration aggregates in double arithmetic

The statements `a.sec += sec` and `out.sec += in.sec` of the source add
doubles: the result is the exact sum of the two doubles, rounded to a double.
The definitions of this part carry that rounding as the parameter `rnd`, and
`binary64` is the rounding of IEEE-754 double precision in its default mode
(to nearest, ties to even). Comparisons of doubles are exact. -/

/-- Number of binary digits of `n`, 0 for 0, by at most `fuel` halvings. -/
def bitLengthAux : Nat → Nat → Nat
  | 0, _ => 0
  | fuel + 1, n => if n = 0 then 0 else bitLengthAux fuel (n / 2) + 1

/-- Number of binary digits of `n`: `2 ^ (bitLength n - 1) ≤ n < 2 ^ bitLength n`
for `n ≥ 1`. -/
def bitLength (n : Nat) : Nat := bitLengthAux n n

/-- The power `2 ^ e` of an integer exponent. -/
def pow2 (e : Int) : ℚ := if 0 ≤ e then (2 : ℚ) ^ e.toNat else 1 / (2 : ℚ) ^ (-e).toNat

/-- The integer nearest to `m ≥ 0`, the even one of the two when `m` lies
halfway between them. -/
def roundHalfEven (m : ℚ) : Nat :=
  let f := m.num.toNat / m.den
  if m - f < 1 / 2 then f
  else if 1 / 2 < m - f then f + 1
  else if f % 2 = 0 then f else f + 1

/-- The exponent of the last place of the doubles around `a > 0`: with
`2 ^ k ≤ a < 2 ^ (k + 1)` it is `k - 52` (53 significant bits), and never
below `-1074`, the last place of the subnormal doubles. -/
def ulpExp (a : ℚ) : Int :=
  let k : Int := (bitLength a.num.toNat : Int) - (bitLength a.den : Int)
  let fl : Int := if a < pow2 k then k - 1 else k
  max (fl - 52) (-1074)

/-- The double nearest to `q`, ties to even: the rounding that double
arithmetic applies to an exact result. There is no infinity here: a result
beyond the largest finite double is outside the model. -/
def binary64 (q : ℚ) : ℚ :=
  if q = 0 then 0
  else if q < 0 then -((roundHalfEven (-q / pow2 (ulpExp (-q))) : ℚ) * pow2 (ulpExp (-q)))
  else (roundHalfEven (q / pow2 (ulpExp q)) : ℚ) * pow2 (ulpExp q)

/-- `duragg_add` with the rounding `rnd` of its two double additions. -/
def duragg_add_rnd (rnd : ℚ → ℚ) (a : DurAgg) (sec : ℚ) : DurAgg :=
  { evt := a.evt + 1
    sec := rnd (a.sec + sec)
    sum_sec := rnd (a.sum_sec + sec)
    min_sec := if a.min_sec = 0 ∨ sec < a.min_sec then sec else a.min_sec
    max_sec := if sec > a.max_sec then sec else a.max_sec }

/-- `duragg_merge(out, in)` with the rounding `rnd` of its two double
additions. -/
def duragg_merge_rnd (rnd : ℚ → ℚ) (out inp : DurAgg) : DurAgg :=
  { evt := out.evt + inp.evt
    sec := rnd (out.sec + inp.sec)
    sum_sec := rnd (out.sum_sec + inp.sum_sec)
    min_sec :=
      if 0 < inp.min_sec ∧ (out.min_sec = 0 ∨ inp.min_sec < out.min_sec) then inp.min_sec
      else out.min_sec
    max_sec := if out.max_sec < inp.max_sec then inp.max_sec else out.max_sec }

/-- The duration aggregate built by `duragg_add` from a sequence of samples in
arithmetic with the rounding `rnd`, from the value-initialised aggregate. -/
def aggOfRnd (rnd : ℚ → ℚ) (xs : List ℚ) : DurAgg := xs.foldl (duragg_add_rnd rnd) {}

/-- The fields of a duration aggregate that no addition of doubles writes:
the event count, the minimum and the maximum. -/
def shape (a : DurAgg) : Nat × ℚ × ℚ := (a.evt, a.min_sec, a.max_sec)

/-! ## Lemmas on the authorizer -/

theorem allowed_iff (tok : List Str) : allowed tok = true ↔ tok ∈ allowlist := by
  unfold allowed allowlist
  split
  · simp
    tauto
  · simp
  · rename_i h3 h2
    simp
    refine ⟨?_, ?_, ?_, ?_, ?_⟩ <;> intro h <;> subst h <;> simp at h3 h2

theorem marker_length : (lit "runcmd:").length = 7 := by decide

/-- The part of `parseAndAuthorizeCmd` after the secret check is `verdict`. -/
theorem parse_tail (rest : Str) :
    (if (tolower_copy (trim_copy rest)).isEmpty = true then
        (⟨true, [], lit "CmdReply: ERR: empty command"⟩ : ParseResult)
      else if (!allowed (tokens (tolower_copy (trim_copy rest)))) = true then
        ⟨true, [], lit "CmdReply: ERR: command not allowed"⟩
      else ⟨true, tolower_copy (trim_copy rest), []⟩)
      = verdict (tolower_copy (trim_copy rest)) := by
  unfold verdict
  by_cases h1 : tolower_copy (trim_copy rest) = []
  · simp [h1]
  · by_cases h2 : allowed (tokens (tolower_copy (trim_copy rest))) = true
    · simp [h1, h2, ← allowed_iff]
    · simp [h1, h2, ← allowed_iff]

theorem parse_noMarker (secret from_id msg oc oe : Str) (h : carriesMarker msg = false) :
    parseAndAuthorizeCmd secret from_id msg oc oe = ⟨false, oc, oe⟩ := by
  unfold carriesMarker at h
  simp [parseAndAuthorizeCmd, h]

theorem parse_authFail (secret from_id msg oc oe : Str) (h : carriesMarker msg = true)
    (ha : secretAccepted secret (afterMarker msg) = false) :
    parseAndAuthorizeCmd secret from_id msg oc oe =
      ⟨true, oc, lit "CmdReply: ERR: auth failed"⟩ := by
  unfold carriesMarker at h
  unfold secretAccepted afterMarker at ha
  simp only [Bool.or_eq_false_iff] at ha
  obtain ⟨⟨h1, h2⟩, h3⟩ := ha
  simp [parseAndAuthorizeCmd, h, h1, h2, h3, marker_length]

theorem parse_accepted (secret from_id msg : Str) (h : carriesMarker msg = true)
    (ha : secretAccepted secret (afterMarker msg) = true) :
    parseAndAuthorizeCmd secret from_id msg [] [] = verdict (remainder secret msg) := by
  unfold carriesMarker at h
  unfold secretAccepted afterMarker at ha
  unfold remainder afterMarker
  by_cases hs : secret = []
  · subst hs
    simp only [parseAndAuthorizeCmd, h, marker_length]
    simpa using parse_tail _
  · simp [hs] at ha
    simp only [parseAndAuthorizeCmd, h, marker_length]
    by_cases hc : startsWith (secret ++ lit ":") (trim_copy (List.drop 7 (trim_copy msg))) = true
    · simpa [hs, hc] using parse_tail _
    · have hb := ha.resolve_left hc
      simpa [hs, hc, hb] using parse_tail _

/-! ## Lemmas on trimming and case folding -/

theorem trimWs_tolower (c : Nat) : trimWs (tolower c) = trimWs c := by
  unfold trimWs tolower
  split
  · rw [Bool.eq_iff_iff]
    simp only [Bool.or_eq_true, beq_iff_eq]
    omega
  · rfl

theorem tolower_tolower (c : Nat) : tolower (tolower c) = tolower c := by
  unfold tolower
  split_ifs <;> omega

theorem tolower_copy_idem (s : Str) : tolower_copy (tolower_copy s) = tolower_copy s := by
  simp [tolower_copy, tolower_tolower]

theorem find_first_not_of_map (s : Str) :
    find_first_not_of trimWs (s.map tolower) = find_first_not_of trimWs s := by
  induction s with
  | nil => rfl
  | cons c cs ih => simp [find_first_not_of, ih, trimWs_tolower]

theorem find_last_not_of_map (s : Str) :
    find_last_not_of trimWs (s.map tolower) = find_last_not_of trimWs s := by
  induction s with
  | nil => rfl
  | cons c cs ih => simp [find_last_not_of, ih, trimWs_tolower]

theorem trim_copy_tolower (s : Str) :
    trim_copy (tolower_copy s) = tolower_copy (trim_copy s) := by
  unfold trim_copy tolower_copy
  rw [find_first_not_of_map, find_last_not_of_map]
  cases find_first_not_of trimWs s with
  | none => rfl
  | some b =>
    cases find_last_not_of trimWs s with
    | none => simp
    | some e => simp [substr, List.map_take, List.map_drop]

theorem rdropWhile_cons (p : Nat → Bool) (a : Nat) (t : Str) :
    (a :: t).rdropWhile p = if t.rdropWhile p = [] ∧ p a = true then [] else a :: t.rdropWhile p := by
  unfold List.rdropWhile
  rw [List.reverse_cons, List.dropWhile_append]
  by_cases h : (List.dropWhile p t.reverse) = []
  · by_cases ha : p a = true <;> simp [h, ha]
  · simp [h]

theorem find_last_not_of_none {p : Nat → Bool} {s : Str}
    (h : find_last_not_of p s = none) : s.rdropWhile p = [] := by
  induction s with
  | nil => rfl
  | cons c cs ih =>
    unfold find_last_not_of at h
    split at h
    · simp at h
    · rename_i hn
      by_cases hc : p c = true
      · simp [rdropWhile_cons, ih hn, hc]
      · simp [hc] at h

theorem find_last_not_of_some {p : Nat → Bool} {s : Str} {e : Nat}
    (h : find_last_not_of p s = some e) : s.rdropWhile p = s.take (e + 1) := by
  induction s generalizing e with
  | nil => simp [find_last_not_of] at h
  | cons c cs ih =>
    unfold find_last_not_of at h
    split at h
    · rename_i i hi
      simp at h
      subst h
      have := ih hi
      have hcs : cs ≠ [] := by
        rintro rfl
        simp [find_last_not_of] at hi
      simp [rdropWhile_cons, this, hcs]
    · rename_i hn
      by_cases hc : p c = true
      · simp [hc] at h
      · simp [hc] at h
        subst h
        simp [rdropWhile_cons, find_last_not_of_none hn, hc]

theorem trim_copy_cons_ws (a : Nat) (t : Str) (ha : trimWs a = true) :
    trim_copy (a :: t) = trim_copy t := by
  unfold trim_copy
  simp only [find_first_not_of, find_last_not_of, ha, if_true]
  cases h1 : find_first_not_of trimWs t with
  | none => rfl
  | some b =>
    cases h2 : find_last_not_of trimWs t with
    | none => simp
    | some e => simp [substr]

theorem trim_copy_cons_nonws (a : Nat) (t : Str) (ha : trimWs a = false) :
    trim_copy (a :: t) = (a :: t).rdropWhile trimWs := by
  unfold trim_copy
  simp only [find_first_not_of, ha]
  cases h2 : find_last_not_of trimWs (a :: t) with
  | none =>
    have := find_last_not_of_none h2
    simp [rdropWhile_cons, ha] at this
  | some e => simp [substr, find_last_not_of_some h2]

theorem rdropWhile_append_concat (p : Nat → Bool) (l0 : Str) (z : Nat) (l2 : Str)
    (hz : p z = false) :
    (l0 ++ z :: l2).rdropWhile p = l0 ++ z :: l2.rdropWhile p := by
  induction l0 with
  | nil => simp [rdropWhile_cons, hz]
  | cons a t ih => simp [rdropWhile_cons, ih]

/-- The index arithmetic of `trim_copy` removes the leading and the trailing
blanks and nothing else. -/
theorem trim_copy_eq (s : Str) :
    trim_copy s = (s.dropWhile trimWs).rdropWhile trimWs := by
  induction s with
  | nil => rfl
  | cons a t ih =>
    cases ha : trimWs a with
    | true => rw [trim_copy_cons_ws _ _ ha, ih, List.dropWhile_cons_of_pos ha]
    | false =>
      rw [trim_copy_cons_nonws _ _ ha, List.dropWhile_cons_of_neg (by simp [ha])]

theorem startsWith_append (pat rest : Str) : startsWith pat (pat ++ rest) = true := by
  simp [startsWith]

theorem startsWith_mismatch (s rest : Str) (a b : Nat) (h : a ≠ b) :
    startsWith (s ++ [a]) (s ++ b :: rest) = false := by
  have : ¬ (s ++ [a] <+: s ++ b :: rest) := by
    rw [List.prefix_append_right_inj]
    rintro ⟨t, ht⟩
    simp at ht
    exact h ht.1
  rw [startsWith, Bool.eq_false_iff, Ne, List.isPrefixOf_iff_prefix]
  exact this

theorem startsWith_longer (s : Str) (a : Nat) : startsWith (s ++ [a]) s = false := by
  have : ¬ (s ++ [a] <+: s) := by
    intro hp
    have := hp.length_le
    simp at this
  rw [startsWith, Bool.eq_false_iff, Ne, List.isPrefixOf_iff_prefix]
  exact this

theorem trim_copy_RunCmd (x : Str) :
    trim_copy (lit "RunCmd:" ++ x) = lit "RunCmd:" ++ x.rdropWhile trimWs := by
  have e : ∀ y : Str, lit "RunCmd:" ++ y = 82 :: ([117, 110, 67, 109, 100] ++ 58 :: y) := by
    intro y; simp [lit]
  rw [e, e, trim_copy_cons_nonws _ _ (by decide)]
  exact rdropWhile_append_concat trimWs [82, 117, 110, 67, 109, 100] 58 x (by decide)

theorem carriesMarker_RunCmd (x : Str) : carriesMarker (lit "RunCmd:" ++ x) = true := by
  unfold carriesMarker
  rw [trim_copy_RunCmd]
  have e : tolower_copy (lit "RunCmd:") = lit "runcmd:" := by decide
  simp only [tolower_copy, List.map_append] at e ⊢
  rw [e]
  exact startsWith_append _ _

theorem afterMarker_RunCmd (x : Str) :
    afterMarker (lit "RunCmd:" ++ x) = trim_copy (x.rdropWhile trimWs) := by
  unfold afterMarker
  rw [trim_copy_RunCmd]
  have e : (lit "RunCmd:").length = 7 := by decide
  rw [List.drop_left' e]

/-- Trimming a text that starts and ends with a non-blank byte. -/
theorem trim_copy_secret_append (s : Str) (z : Nat) (x : Str) (hs : s ≠ [])
    (hws : ∀ c ∈ s, trimWs c = false) (hz : trimWs z = false) :
    trim_copy (s ++ z :: x.rdropWhile trimWs) = s ++ z :: x.rdropWhile trimWs := by
  cases s with
  | nil => exact absurd rfl hs
  | cons a t =>
    have ha : trimWs a = false := hws a (by simp)
    rw [List.cons_append, trim_copy_cons_nonws _ _ ha, ← List.cons_append,
      rdropWhile_append_concat _ _ _ _ hz, List.rdropWhile_idempotent]

theorem parse_plain (from_id c : Str) :
    parseAndAuthorizeCmd [] from_id (lit "RunCmd: " ++ c) [] [] =
      verdict (tolower_copy (trim_copy (trim_copy ((32 :: c).rdropWhile trimWs)))) := by
  have e : lit "RunCmd: " ++ c = lit "RunCmd:" ++ 32 :: c := by simp [lit]
  rw [e, parse_accepted _ _ _ (carriesMarker_RunCmd _) (by simp [secretAccepted])]
  simp [remainder, afterMarker_RunCmd]

theorem parse_colon (s from_id c : Str) (hs : s ≠ []) (hws : ∀ x ∈ s, trimWs x = false) :
    parseAndAuthorizeCmd s from_id (lit "RunCmd:" ++ s ++ lit ": " ++ c) [] [] =
      verdict (tolower_copy (trim_copy (trim_copy ((32 :: c).rdropWhile trimWs)))) := by
  have e : lit "RunCmd:" ++ s ++ lit ": " ++ c = lit "RunCmd:" ++ (s ++ 58 :: 32 :: c) := by
    simp [lit]
  have ha : afterMarker (lit "RunCmd:" ++ (s ++ 58 :: 32 :: c)) =
      s ++ 58 :: (32 :: c).rdropWhile trimWs := by
    rw [afterMarker_RunCmd, rdropWhile_append_concat _ _ _ _ (by decide),
      trim_copy_secret_append s 58 _ hs hws (by decide)]
  have hacc : secretAccepted s (afterMarker (lit "RunCmd:" ++ (s ++ 58 :: 32 :: c))) = true := by
    rw [ha]
    have : startsWith (s ++ lit ":") (s ++ 58 :: (32 :: c).rdropWhile trimWs) = true := by
      have e2 : s ++ 58 :: (32 :: c).rdropWhile trimWs
          = (s ++ lit ":") ++ (32 :: c).rdropWhile trimWs := by simp [lit]
      rw [e2]; exact startsWith_append _ _
    simp [secretAccepted, this]
  rw [e, parse_accepted _ _ _ (carriesMarker_RunCmd _) hacc]
  have hd : List.drop (s.length + 1) (s ++ 58 :: (32 :: c).rdropWhile trimWs)
      = (32 :: c).rdropWhile trimWs := by
    have e2 : s ++ 58 :: (32 :: c).rdropWhile trimWs
        = (s ++ [58]) ++ (32 :: c).rdropWhile trimWs := by simp
    rw [e2]; exact List.drop_left' (by simp)
  simp [remainder, ha, hs, hd]

theorem rdropWhile_ne_nil (c : Str) (hc : ∃ x ∈ c, trimWs x = false) :
    c.rdropWhile trimWs ≠ [] := by
  intro h
  rw [List.rdropWhile_eq_nil_iff] at h
  obtain ⟨x, hx, hx2⟩ := hc
  simp [h x hx] at hx2

/-- Trimming a text whose first byte is no blank removes trailing blanks only. -/
theorem trim_copy_append_nonws (s x : Str) (hs : s ≠ []) (hws : ∀ c ∈ s, trimWs c = false) :
    trim_copy (s ++ x) = (s ++ x).rdropWhile trimWs := by
  cases s with
  | nil => exact absurd rfl hs
  | cons a t => exact trim_copy_cons_nonws _ _ (hws a (by simp))

theorem parse_space (s from_id c : Str) (hs : s ≠ []) (hws : ∀ x ∈ s, trimWs x = false)
    (hc : ∃ x ∈ c, trimWs x = false) :
    parseAndAuthorizeCmd s from_id (lit "RunCmd:" ++ s ++ lit " " ++ c) [] [] =
      verdict (tolower_copy (trim_copy (trim_copy ((32 :: c).rdropWhile trimWs)))) := by
  have hne := rdropWhile_ne_nil c hc
  have hr : (32 :: c).rdropWhile trimWs = 32 :: c.rdropWhile trimWs := by
    simp [rdropWhile_cons, hne]
  have hrr : (32 :: c.rdropWhile trimWs).rdropWhile trimWs = 32 :: c.rdropWhile trimWs := by
    simp [rdropWhile_cons, List.rdropWhile_idempotent, hne]
  have e : lit "RunCmd:" ++ s ++ lit " " ++ c = lit "RunCmd:" ++ (s ++ 32 :: c) := by
    simp [lit]
  have ha : afterMarker (lit "RunCmd:" ++ (s ++ 32 :: c)) =
      s ++ 32 :: c.rdropWhile trimWs := by
    rw [afterMarker_RunCmd]
    obtain ⟨l0, z, hl⟩ := (List.eq_nil_or_concat s).resolve_left hs
    have hz : trimWs z = false := hws z (by simp [hl])
    have e1 : s ++ 32 :: c = l0 ++ z :: (32 :: c) := by simp [hl]
    have e2 : l0 ++ z :: 32 :: c.rdropWhile trimWs = s ++ 32 :: c.rdropWhile trimWs := by
      simp [hl]
    rw [e1, rdropWhile_append_concat _ _ _ _ hz, hr, e2, trim_copy_append_nonws s _ hs hws,
      ← e2, rdropWhile_append_concat _ _ _ _ hz, hrr]
  have hacc : secretAccepted s (afterMarker (lit "RunCmd:" ++ (s ++ 32 :: c))) = true := by
    rw [ha]
    have : startsWith (s ++ lit " ") (s ++ 32 :: c.rdropWhile trimWs) = true := by
      have e2 : s ++ 32 :: c.rdropWhile trimWs
          = (s ++ lit " ") ++ c.rdropWhile trimWs := by simp [lit]
      rw [e2]; exact startsWith_append _ _
    simp [secretAccepted, this]
  rw [e, parse_accepted _ _ _ (carriesMarker_RunCmd _) hacc]
  have hd : List.drop (s.length + 1) (s ++ 32 :: c.rdropWhile trimWs)
      = c.rdropWhile trimWs := by
    have e2 : s ++ 32 :: c.rdropWhile trimWs
        = (s ++ [32]) ++ c.rdropWhile trimWs := by simp
    rw [e2]; exact List.drop_left' (by simp)
  simp [remainder, ha, hs, hd, hr, trim_copy_cons_ws 32 _ (by decide)]

theorem parse_space_blank (s from_id c : Str) (hs : s ≠ [])
    (hws : ∀ x ∈ s, trimWs x = false) (hc : ∀ x ∈ c, trimWs x = true) :
    parseAndAuthorizeCmd s from_id (lit "RunCmd:" ++ s ++ lit " " ++ c) [] [] =
      ⟨true, [], lit "CmdReply: ERR: auth failed"⟩ := by
  have hr : (32 :: c).rdropWhile trimWs = [] := by
    rw [List.rdropWhile_eq_nil_iff]
    intro x hx
    rcases List.mem_cons.1 hx with h | h
    · subst h; decide
    · exact hc x h
  have e : lit "RunCmd:" ++ s ++ lit " " ++ c = lit "RunCmd:" ++ (s ++ 32 :: c) := by
    simp [lit]
  have ha : afterMarker (lit "RunCmd:" ++ (s ++ 32 :: c)) = s := by
    rw [afterMarker_RunCmd]
    obtain ⟨l0, z, hl⟩ := (List.eq_nil_or_concat s).resolve_left hs
    have hz : trimWs z = false := hws z (by simp [hl])
    have e1 : s ++ 32 :: c = l0 ++ z :: (32 :: c) := by simp [hl]
    have e2 : l0 ++ [z] = s ++ [] := by simp [hl]
    rw [e1, rdropWhile_append_concat _ _ _ _ hz, hr, e2, trim_copy_append_nonws s _ hs hws,
      ← e2]
    have := rdropWhile_append_concat trimWs l0 z [] hz
    simpa [hl] using this
  have hacc : secretAccepted s (afterMarker (lit "RunCmd:" ++ (s ++ 32 :: c))) = false := by
    rw [ha]
    have h1 : startsWith (s ++ lit ":") s = false := startsWith_longer s 58
    have h2 : startsWith (s ++ lit " ") s = false := startsWith_longer s 32
    simp [secretAccepted, h1, h2, hs]
  rw [e, parse_authFail _ _ _ _ _ (carriesMarker_RunCmd _) hacc]

/-! ## Lemmas on the aggregator and the handler -/

theorem rotateLoop_cmd_total (now_minute fuel : Nat) (s : SvxStats) :
    (rotateLoop now_minute fuel s).cmd_total = s.cmd_total := by
  induction fuel generalizing s with
  | zero => rfl
  | succ n ih =>
    unfold rotateLoop
    split
    · rw [ih]; rfl
    · rfl

theorem rotateBuckets_cmd_total (s : SvxStats) (m : Nat) :
    (rotateBuckets s m).cmd_total = s.cmd_total := by
  unfold rotateBuckets
  split
  · rfl
  · exact rotateLoop_cmd_total _ _ _

/-- No rotation happens when the clock has not passed `cur_minute`. -/
theorem rotateBuckets_of_le (s : SvxStats) (m : Nat) (h : m ≤ s.cur_minute) :
    rotateBuckets s m = s := by
  unfold rotateBuckets
  split
  · rfl
  · have : m - s.cur_minute = 0 := by omega
    rw [this]; rfl

theorem rotateLoop_cur_minute (now_minute fuel : Nat) (s : SvxStats)
    (h : now_minute - s.cur_minute ≤ fuel) :
    (rotateLoop now_minute fuel s).cur_minute = max s.cur_minute now_minute := by
  induction fuel generalizing s with
  | zero =>
    have : now_minute ≤ s.cur_minute := by omega
    simp [rotateLoop, this]
  | succ n ih =>
    unfold rotateLoop
    split
    · rename_i hlt
      rw [ih (rotateStep s) (by simp only [rotateStep]; omega)]
      simp only [rotateStep]
      omega
    · rename_i hge
      omega

/-- The loop of `rotateBuckets` leaves through its guard: afterwards
`cur_minute` is the larger of its old value and `now_minute`. -/
theorem rotateBuckets_cur_minute (s : SvxStats) (m : Nat) :
    (rotateBuckets s m).cur_minute = max s.cur_minute m := by
  unfold rotateBuckets
  split
  · rename_i h
    simp [h]
  · exact rotateLoop_cur_minute _ _ _ (le_refl _)

theorem parse_ret_iff (secret from_id msg oc oe : Str) :
    (parseAndAuthorizeCmd secret from_id msg oc oe).ret = carriesMarker msg := by
  cases hm : carriesMarker msg with
  | false => rw [parse_noMarker _ _ _ _ _ hm]
  | true =>
    unfold carriesMarker at hm
    simp only [parseAndAuthorizeCmd, hm, Bool.not_true, Bool.false_eq_true, if_false]
    split
    · rfl
    · split_ifs <;> rfl

theorem contains_AUTH :
    contains (lit "AUTH") (lit "CmdReply: ERR: auth failed") = false := by decide

/-! ## The command authorizer: claims C1 to C6 -/

/-- C1, as stated, fails: with no secret configured the message
`RunCmd: get  stats` (two spaces) is authorised and `out_cmd` is `get  stats`,
which is none of the five single-space strings. -/
theorem C1_counterexample :
    (parseAndAuthorizeCmd [] [] (lit "RunCmd: get  stats") [] []).ret = true ∧
    (parseAndAuthorizeCmd [] [] (lit "RunCmd: get  stats") [] []).out_cmd = lit "get  stats" ∧
    (parseAndAuthorizeCmd [] [] (lit "RunCmd: get  stats") [] []).out_cmd ≠ [] ∧
    (parseAndAuthorizeCmd [] [] (lit "RunCmd: get  stats") [] []).out_cmd ∉ normalised := by
  decide

/-- C1, amended: for every message and every configured secret, if
`parseAndAuthorizeCmd` authorises the message (returns true with a non-empty
`out_cmd`), then the whitespace-separated tokens of `out_cmd` are one of the
five allowlisted sequences, so that joining them with single spaces gives one
of `get psu a`, `get psu b`, `get psu all`, `get temp all`, `get stats`; and
no error text is set. -/
theorem C1_authorised_tokens (secret from_id msg : Str)
    (hret : (parseAndAuthorizeCmd secret from_id msg [] []).ret = true)
    (hcmd : (parseAndAuthorizeCmd secret from_id msg [] []).out_cmd ≠ []) :
    tokens (parseAndAuthorizeCmd secret from_id msg [] []).out_cmd ∈ allowlist ∧
    List.intercalate (lit " ") (tokens (parseAndAuthorizeCmd secret from_id msg [] []).out_cmd)
      ∈ normalised ∧
    (parseAndAuthorizeCmd secret from_id msg [] []).out_err = [] := by
  have key : tokens (parseAndAuthorizeCmd secret from_id msg [] []).out_cmd ∈ allowlist ∧
      (parseAndAuthorizeCmd secret from_id msg [] []).out_err = [] := by
    cases hm : carriesMarker msg with
    | false => rw [parse_noMarker _ _ _ _ _ hm] at hret; simp at hret
    | true =>
      cases ha : secretAccepted secret (afterMarker msg) with
      | false => rw [parse_authFail _ _ _ _ _ hm ha] at hcmd; simp at hcmd
      | true =>
        rw [parse_accepted _ _ _ hm ha] at hcmd ⊢
        unfold verdict at hcmd ⊢
        split_ifs at hcmd ⊢ with h1 h2
        · simp at hcmd
        · exact ⟨h2, rfl⟩
        · simp at hcmd
  refine ⟨key.1, ?_, key.2⟩
  have h := key.1
  simp only [allowlist, List.mem_cons, List.mem_singleton, List.not_mem_nil, or_false] at h
  rcases h with h | h | h | h | h <;> rw [h] <;> decide

/-- C1, amended, at the message `RunCmd: get  stats`. -/
theorem C1_authorised_tokens_witness :
    tokens (parseAndAuthorizeCmd [] [] (lit "RunCmd: get  stats") [] []).out_cmd ∈ allowlist ∧
    List.intercalate (lit " ")
      (tokens (parseAndAuthorizeCmd [] [] (lit "RunCmd: get  stats") [] []).out_cmd)
      ∈ normalised ∧
    (parseAndAuthorizeCmd [] [] (lit "RunCmd: get  stats") [] []).out_err = [] :=
  C1_authorised_tokens [] [] (lit "RunCmd: get  stats") (by decide) (by decide)

/-- C2: for every message carrying the marker (and, when a secret is
configured, accepted by the secret check), the outcome of
`parseAndAuthorizeCmd` is decided by the trimmed, case-folded remainder alone:
empty gives the rejection `CmdReply: ERR: empty command`; tokens on the
allowlist give the authorised command (the remainder itself, no error text);
everything else gives the rejection `CmdReply: ERR: command not allowed`. -/
theorem C2_outcome_by_remainder (secret from_id msg : Str)
    (hm : carriesMarker msg = true)
    (ha : secretAccepted secret (afterMarker msg) = true) :
    (remainder secret msg = [] →
      parseAndAuthorizeCmd secret from_id msg [] [] =
        ⟨true, [], lit "CmdReply: ERR: empty command"⟩) ∧
    (tokens (remainder secret msg) ∈ allowlist →
      parseAndAuthorizeCmd secret from_id msg [] [] = ⟨true, remainder secret msg, []⟩) ∧
    (remainder secret msg ≠ [] → tokens (remainder secret msg) ∉ allowlist →
      parseAndAuthorizeCmd secret from_id msg [] [] =
        ⟨true, [], lit "CmdReply: ERR: command not allowed"⟩) := by
  rw [parse_accepted _ _ _ hm ha]
  unfold verdict
  refine ⟨fun h => by simp [h], fun h => ?_, fun h1 h2 => by simp [h1, h2]⟩
  have hne : remainder secret msg ≠ [] := by
    intro h0
    rw [h0] at h
    revert h
    decide
  simp [hne, h]

/-- C2 at three messages under the secret `s3cret`: an empty command, an
allowlisted command and a command off the allowlist. -/
theorem C2_outcome_by_remainder_witness :
    parseAndAuthorizeCmd (lit "s3cret") [] (lit "RunCmd:s3cret:") [] [] =
      ⟨true, [], lit "CmdReply: ERR: empty command"⟩ ∧
    parseAndAuthorizeCmd (lit "s3cret") [] (lit "RunCmd:s3cret: Get PSU b") [] [] =
      ⟨true, lit "get psu b", []⟩ ∧
    parseAndAuthorizeCmd (lit "s3cret") [] (lit "RunCmd:s3cret reboot") [] [] =
      ⟨true, [], lit "CmdReply: ERR: command not allowed"⟩ :=
  ⟨(C2_outcome_by_remainder (lit "s3cret") [] (lit "RunCmd:s3cret:")
      (by decide) (by decide)).1 (by decide),
   (C2_outcome_by_remainder (lit "s3cret") [] (lit "RunCmd:s3cret: Get PSU b")
      (by decide) (by decide)).2.1 (by decide),
   (C2_outcome_by_remainder (lit "s3cret") [] (lit "RunCmd:s3cret reboot")
      (by decide) (by decide)).2.2 (by decide) (by decide)⟩

/-- C3: `parseAndAuthorizeCmd` returns false exactly when the trimmed,
lower-cased message does not start with `runcmd:`, and for every such message
`onTextMessageReceived` changes nothing: the module (busy flag and session),
the statistics (all counters), the messages sent and the processes started are
what they were. -/
theorem C3_not_applicable (env : Env) (w : World) (secret from_id msg oc oe scope : Str)
    (t1 t2 : Clock) :
    ((parseAndAuthorizeCmd secret from_id msg oc oe).ret = false ↔
      startsWith (lit "runcmd:") (tolower_copy (trim_copy msg)) = false) ∧
    (startsWith (lit "runcmd:") (tolower_copy (trim_copy msg)) = false →
      onTextMessageReceived env w from_id msg scope t1 t2 = w) := by
  have hc : carriesMarker msg = startsWith (lit "runcmd:") (tolower_copy (trim_copy msg)) := rfl
  constructor
  · rw [parse_ret_iff, hc]
  · intro h
    simp [onTextMessageReceived, parse_noMarker _ _ _ _ _ (hc.trans h)]

/-- C3 at the chat message `hello all`, delivered directly. -/
theorem C3_not_applicable_witness :
    onTextMessageReceived ⟨60, fun _ => []⟩ { mod := {}, stats := SvxStats.init ⟨7, 0, 0⟩ }
      (lit "peer1") (lit "hello all") (lit "P") ⟨8, 60, 60000⟩ ⟨8, 60, 60000⟩
      = { mod := {}, stats := SvxStats.init ⟨7, 0, 0⟩ } :=
  (C3_not_applicable ⟨60, fun _ => []⟩ { mod := {}, stats := SvxStats.init ⟨7, 0, 0⟩ }
    [] (lit "peer1") (lit "hello all") [] [] (lit "P") ⟨8, 60, 60000⟩ ⟨8, 60, 60000⟩).2
    (by decide)

/-- C4: with a non-empty configured secret `s`, a message carrying the marker
is rejected with `CmdReply: ERR: auth failed` exactly when the trimmed text
after the marker (original letter case) begins with neither `s:` nor `s `
(`s` followed by a space); with an empty secret the error text is never
`CmdReply: ERR: auth failed`. -/
theorem C4_auth_failed_iff (s from_id msg : Str) :
    (s ≠ [] → carriesMarker msg = true →
      (parseAndAuthorizeCmd s from_id msg [] [] = ⟨true, [], lit "CmdReply: ERR: auth failed"⟩ ↔
        (startsWith (s ++ lit ":") (afterMarker msg) = false ∧
         startsWith (s ++ lit " ") (afterMarker msg) = false))) ∧
    (parseAndAuthorizeCmd [] from_id msg [] []).out_err ≠ lit "CmdReply: ERR: auth failed" := by
  constructor
  · intro hs hm
    have hacc : secretAccepted s (afterMarker msg) =
        (startsWith (s ++ lit ":") (afterMarker msg) ||
          startsWith (s ++ lit " ") (afterMarker msg)) := by
      have hse : s.isEmpty = false := by cases s <;> simp_all
      simp [secretAccepted, hse]
    constructor
    · intro h
      cases ha : secretAccepted s (afterMarker msg) with
      | false => simpa [hacc] using ha
      | true =>
        rw [parse_accepted _ _ _ hm ha] at h
        unfold verdict at h
        split_ifs at h <;>
          · have h2 := congrArg ParseResult.out_err h
            dsimp only at h2
            exact absurd h2 (by decide)
    · rintro ⟨h1, h2⟩
      exact parse_authFail _ _ _ _ _ hm (by simp [hacc, h1, h2])
  · cases hm : carriesMarker msg with
    | false => rw [parse_noMarker _ _ _ _ _ hm]; decide
    | true =>
      rw [parse_accepted _ _ _ hm (by simp [secretAccepted])]
      unfold verdict
      split_ifs <;> dsimp only <;> decide

/-- C4 at `RunCmd:wrongsecret: get stats` with the secret `s3cret`: the
message is rejected with auth failed. -/
theorem C4_auth_failed_iff_witness :
    parseAndAuthorizeCmd (lit "s3cret") [] (lit "RunCmd:wrongsecret: get stats") [] [] =
      ⟨true, [], lit "CmdReply: ERR: auth failed"⟩ :=
  ((C4_auth_failed_iff (lit "s3cret") [] (lit "RunCmd:wrongsecret: get stats")).1
    (by decide) (by decide)).2 (by decide)

theorem carriesMarker_tolower (msg : Str) :
    carriesMarker (tolower_copy msg) = carriesMarker msg := by
  unfold carriesMarker
  rw [trim_copy_tolower, tolower_copy_idem]

theorem remainder_tolower (msg : Str) :
    remainder [] (tolower_copy msg) = remainder [] msg := by
  unfold remainder afterMarker
  have hd : ∀ (n : Nat) (x : Str), List.drop n (tolower_copy x) = tolower_copy (List.drop n x) := by
    intro n x; simp [tolower_copy, List.map_drop]
  simp only [List.isEmpty_nil, if_true]
  rw [trim_copy_tolower, hd, trim_copy_tolower, trim_copy_tolower, tolower_copy_idem]

/-- C5: with no configured secret `parseAndAuthorizeCmd` is case-insensitive:
for every message the result (return value, command, error text) equals the
result for the message with every ASCII letter lower-cased; and
`RUNCMD: get STATS` is authorised as `get stats`. -/
theorem C5_case_insensitive (from_id msg : Str) :
    parseAndAuthorizeCmd [] from_id msg [] [] =
      parseAndAuthorizeCmd [] from_id (tolower_copy msg) [] [] ∧
    parseAndAuthorizeCmd [] from_id (lit "RUNCMD: get STATS") [] [] =
      ⟨true, lit "get stats", []⟩ := by
  refine ⟨?_, by rfl⟩
  cases hm : carriesMarker msg with
  | false =>
    rw [parse_noMarker _ _ _ _ _ hm,
      parse_noMarker _ _ _ _ _ (by rw [carriesMarker_tolower]; exact hm)]
  | true =>
    rw [parse_accepted _ _ _ hm (by simp [secretAccepted]),
      parse_accepted _ _ _ (by rw [carriesMarker_tolower]; exact hm) (by simp [secretAccepted]),
      remainder_tolower]

/-- C6, as stated, fails for an empty command text in the space form: with the
secret `s3cret`, `RunCmd:s3cret ` is rejected with auth failed, while
`RunCmd: ` with no secret is rejected as an empty command. -/
theorem C6_counterexample :
    parseAndAuthorizeCmd (lit "s3cret") [] (lit "RunCmd:" ++ lit "s3cret" ++ lit " " ++ []) [] []
      = ⟨true, [], lit "CmdReply: ERR: auth failed"⟩ ∧
    parseAndAuthorizeCmd [] [] (lit "RunCmd: " ++ []) [] []
      = ⟨true, [], lit "CmdReply: ERR: empty command"⟩ ∧
    parseAndAuthorizeCmd (lit "s3cret") [] (lit "RunCmd:" ++ lit "s3cret" ++ lit " " ++ []) [] []
      ≠ parseAndAuthorizeCmd [] [] (lit "RunCmd: " ++ []) [] [] := by
  decide

/-- C6, amended: with a non-empty configured secret `s` containing no blank
(space, tab, CR, LF), for every command text `c` the colon form
`RunCmd:` + `s` + `: ` + `c` gives the same result as `RunCmd: ` + `c` parsed
with no secret; the space form `RunCmd:` + `s` + ` ` + `c` gives that same
result whenever `c` contains a non-blank byte, and is rejected with
`CmdReply: ERR: auth failed` when `c` is empty or all blanks. -/
theorem C6_secret_forms (s from_id c : Str) (hs : s ≠ [])
    (hws : ∀ x ∈ s, trimWs x = false) :
    parseAndAuthorizeCmd s from_id (lit "RunCmd:" ++ s ++ lit ": " ++ c) [] [] =
      parseAndAuthorizeCmd [] from_id (lit "RunCmd: " ++ c) [] [] ∧
    ((∃ x ∈ c, trimWs x = false) →
      parseAndAuthorizeCmd s from_id (lit "RunCmd:" ++ s ++ lit " " ++ c) [] [] =
        parseAndAuthorizeCmd [] from_id (lit "RunCmd: " ++ c) [] []) ∧
    ((∀ x ∈ c, trimWs x = true) →
      parseAndAuthorizeCmd s from_id (lit "RunCmd:" ++ s ++ lit " " ++ c) [] [] =
        ⟨true, [], lit "CmdReply: ERR: auth failed"⟩) := by
  refine ⟨?_, fun hc => ?_, fun hc => parse_space_blank s from_id c hs hws hc⟩
  · rw [parse_colon s from_id c hs hws, parse_plain]
  · rw [parse_space s from_id c hs hws hc, parse_plain]

/-- C6, amended, at the secret `s3cret` and the command text `get psu a`. -/
theorem C6_secret_forms_witness :
    parseAndAuthorizeCmd (lit "s3cret") [] (lit "RunCmd:" ++ lit "s3cret" ++ lit ": " ++ lit "get psu a") [] [] =
      parseAndAuthorizeCmd [] [] (lit "RunCmd: " ++ lit "get psu a") [] [] ∧
    parseAndAuthorizeCmd (lit "s3cret") [] (lit "RunCmd:" ++ lit "s3cret" ++ lit " " ++ lit "get psu a") [] [] =
      parseAndAuthorizeCmd [] [] (lit "RunCmd: " ++ lit "get psu a") [] [] :=
  ⟨(C6_secret_forms (lit "s3cret") [] (lit "get psu a") (by decide) (by decide)).1,
   (C6_secret_forms (lit "s3cret") [] (lit "get psu a") (by decide) (by decide)).2.1
     (by decide)⟩

/-! ## The handler: claims C7 to C10 -/

/-- C7: for every message carrying the marker that is delivered with a scope
other than `P`, `onTextMessageReceived` sends nothing, starts no process,
leaves the module (busy flag and session) as it was, leaves the lifetime ok /
rejected / auth-failed counters unchanged and raises the lifetime
broadcast-attempt counter by exactly 1; in the window, rotated to the clock
minute as by every recording call, the current bucket gets the
broadcast-attempt counter raised by exactly 1 and its ok / rejected /
auth-failed counters unchanged, every other bucket is unchanged, and the
rotation is the identity when the minute has not advanced. -/
theorem C7_broadcast_dropped (env : Env) (w : World) (from_id msg scope : Str)
    (t1 t2 : Clock) (hm : carriesMarker msg = true) (hscope : scope ≠ lit "P") :
    (onTextMessageReceived env w from_id msg scope t1 t2).sent = w.sent ∧
    (onTextMessageReceived env w from_id msg scope t1 t2).started = w.started ∧
    (onTextMessageReceived env w from_id msg scope t1 t2).mod = w.mod ∧
    (onTextMessageReceived env w from_id msg scope t1 t2).stats.cmd_total =
      { w.stats.cmd_total with bc_attempt := w.stats.cmd_total.bc_attempt + 1 } ∧
    (onTextMessageReceived env w from_id msg scope t1 t2).stats.idx =
      (rotateBuckets w.stats t1.minute).idx ∧
    (onTextMessageReceived env w from_id msg scope t1 t2).stats.cur.cmd =
      { (rotateBuckets w.stats t1.minute).cur.cmd with
        bc_attempt := (rotateBuckets w.stats t1.minute).cur.cmd.bc_attempt + 1 } ∧
    (∀ i, i ≠ (rotateBuckets w.stats t1.minute).idx →
      (onTextMessageReceived env w from_id msg scope t1 t2).stats.buckets i =
        (rotateBuckets w.stats t1.minute).buckets i) ∧
    (t1.minute ≤ w.stats.cur_minute → rotateBuckets w.stats t1.minute = w.stats) := by
  have hret := parse_ret_iff w.mod.run_cmd_secret from_id msg [] []
  rw [hm] at hret
  have hsc : (scope != lit "P") = true := by simpa using hscope
  have hw : onTextMessageReceived env w from_id msg scope t1 t2 =
      { w with stats := onCmdBroadcastAttempt w.stats t1.minute } := by
    simp [onTextMessageReceived, hret, hsc]
  rw [hw]
  refine ⟨rfl, rfl, rfl, ?_, rfl, ?_, ?_, rotateBuckets_of_le _ _⟩
  · simp [onCmdBroadcastAttempt, SvxStats.modCur, rotateBuckets_cmd_total]
  · simp [onCmdBroadcastAttempt, SvxStats.modCur, SvxStats.cur]
  · intro i hi
    simp [onCmdBroadcastAttempt, SvxStats.modCur, Function.update_noteq hi]

/-- C7 at `RunCmd: get psu all` delivered with the broadcast scope `A`, one
minute after the aggregator was created. -/
theorem C7_broadcast_dropped_witness :
    (onTextMessageReceived ⟨60, fun _ => []⟩ { mod := {}, stats := SvxStats.init ⟨7, 0, 0⟩ }
      (lit "peer1") (lit "RunCmd: get psu all") (lit "A")
      ⟨8, 60, 60000⟩ ⟨8, 60, 60000⟩).sent = [] ∧
    (onTextMessageReceived ⟨60, fun _ => []⟩ { mod := {}, stats := SvxStats.init ⟨7, 0, 0⟩ }
      (lit "peer1") (lit "RunCmd: get psu all") (lit "A")
      ⟨8, 60, 60000⟩ ⟨8, 60, 60000⟩).stats.cmd_total = { bc_attempt := 1 } :=
  ⟨(C7_broadcast_dropped ⟨60, fun _ => []⟩ { mod := {}, stats := SvxStats.init ⟨7, 0, 0⟩ }
      (lit "peer1") (lit "RunCmd: get psu all") (lit "A") ⟨8, 60, 60000⟩ ⟨8, 60, 60000⟩
      (by decide) (by decide)).1,
   (C7_broadcast_dropped ⟨60, fun _ => []⟩ { mod := {}, stats := SvxStats.init ⟨7, 0, 0⟩ }
      (lit "peer1") (lit "RunCmd: get psu all") (lit "A") ⟨8, 60, 60000⟩ ⟨8, 60, 60000⟩
      (by decide) (by decide)).2.2.2.1⟩

/-- Every directly delivered message that fails the secret check is counted by
`onCmdRejected`, never by `onCmdAuthFailed`: the error text holds `auth`, the
handler searches it for `AUTH`. -/
theorem authFailure_counted_as_rejected (env : Env) (w : World) (from_id msg : Str)
    (t1 t2 : Clock) (hm : carriesMarker msg = true)
    (ha : secretAccepted w.mod.run_cmd_secret (afterMarker msg) = false) :
    onTextMessageReceived env w from_id msg (lit "P") t1 t2 =
      { w with
        stats := onCmdRejected w.stats t1.minute
        sent := w.sent ++ [(from_id, lit "CmdReply: ERR: auth failed")] } := by
  have hp := parse_authFail w.mod.run_cmd_secret from_id msg [] [] hm ha
  have h1 : ((lit "P" : Str) != lit "P") = false := by decide
  have h2 : (lit "CmdReply: ERR: auth failed").isEmpty = false := by decide
  simp [onTextMessageReceived, hp, h1, h2, contains_AUTH]

/-- C8, the code at the failing input: with the secret `s3cret` configured,
the direct message `RunCmd:wrongsecret: get stats` is rejected for its secret
and answered with `CmdReply: ERR: auth failed`, yet the auth-failed counter
stays at 0 (lifetime total and current bucket) and the rejected counter goes
from 0 to 1. -/
theorem C8_auth_failure_not_counted :
    parseAndAuthorizeCmd (lit "s3cret") (lit "peer1") (lit "RunCmd:wrongsecret: get stats") [] []
      = ⟨true, [], lit "CmdReply: ERR: auth failed"⟩ ∧
    (onTextMessageReceived ⟨60, fun _ => []⟩
      { mod := { run_cmd_secret := lit "s3cret" }, stats := SvxStats.init ⟨7, 0, 0⟩ }
      (lit "peer1") (lit "RunCmd:wrongsecret: get stats") (lit "P")
      ⟨7, 30, 30000⟩ ⟨7, 30, 30000⟩).sent
      = [(lit "peer1", lit "CmdReply: ERR: auth failed")] ∧
    (onTextMessageReceived ⟨60, fun _ => []⟩
      { mod := { run_cmd_secret := lit "s3cret" }, stats := SvxStats.init ⟨7, 0, 0⟩ }
      (lit "peer1") (lit "RunCmd:wrongsecret: get stats") (lit "P")
      ⟨7, 30, 30000⟩ ⟨7, 30, 30000⟩).stats.cmd_total
      = { rej := 1, authfail := 0 } ∧
    (onTextMessageReceived ⟨60, fun _ => []⟩
      { mod := { run_cmd_secret := lit "s3cret" }, stats := SvxStats.init ⟨7, 0, 0⟩ }
      (lit "peer1") (lit "RunCmd:wrongsecret: get stats") (lit "P")
      ⟨7, 30, 30000⟩ ⟨7, 30, 30000⟩).stats.cur.cmd
      = { rej := 1, authfail := 0 } := by
  decide

/-- C9, as stated, fails for the internal command: while a command session is
busy the direct message `RunCmd: get stats` is authorised, is answered with the
six statistics frames and no `CmdReply: ERR: busy`, and is counted as ok (0 to
1), not as rejected. -/
theorem C9_counterexample :
    (parseAndAuthorizeCmd [] (lit "peer1") (lit "RunCmd: get stats") [] []).ret = true ∧
    (parseAndAuthorizeCmd [] (lit "peer1") (lit "RunCmd: get stats") [] []).out_cmd ≠ [] ∧
    (onTextMessageReceived ⟨60, fun _ => []⟩
      { mod := { cmd_busy := true, cmd_from_id := lit "peer0" },
        stats := SvxStats.init ⟨7, 0, 0⟩ }
      (lit "peer1") (lit "RunCmd: get stats") (lit "P")
      ⟨7, 30, 30000⟩ ⟨7, 30, 30000⟩).sent
      ≠ [(lit "peer1", lit "CmdReply: ERR: busy")] ∧
    (onTextMessageReceived ⟨60, fun _ => []⟩
      { mod := { cmd_busy := true, cmd_from_id := lit "peer0" },
        stats := SvxStats.init ⟨7, 0, 0⟩ }
      (lit "peer1") (lit "RunCmd: get stats") (lit "P")
      ⟨7, 30, 30000⟩ ⟨7, 30, 30000⟩).sent.length = 6 ∧
    (onTextMessageReceived ⟨60, fun _ => []⟩
      { mod := { cmd_busy := true, cmd_from_id := lit "peer0" },
        stats := SvxStats.init ⟨7, 0, 0⟩ }
      (lit "peer1") (lit "RunCmd: get stats") (lit "P")
      ⟨7, 30, 30000⟩ ⟨7, 30, 30000⟩).stats.cmd_total = { ok := 1, rej := 0 } := by
  decide

/-- C9, amended: for every authorised command other than the internal
`get stats`, received by direct delivery while the command session is busy,
the only message sent is `CmdReply: ERR: busy` to the sender, no process is
started, the module is unchanged, the lifetime rejected counter rises by
exactly 1 with the other lifetime command counters (ok among them) unchanged,
and in the window rotated to the clock minute the current bucket has its
rejected counter raised by exactly 1 and its other command counters
unchanged. -/
theorem C9_busy_reply (env : Env) (w : World) (from_id msg : Str) (t1 t2 : Clock)
    (hbusy : w.mod.cmd_busy = true)
    (hret : (parseAndAuthorizeCmd w.mod.run_cmd_secret from_id msg [] []).ret = true)
    (hcmd : (parseAndAuthorizeCmd w.mod.run_cmd_secret from_id msg [] []).out_cmd ≠ [])
    (hint : (parseAndAuthorizeCmd w.mod.run_cmd_secret from_id msg [] []).out_cmd
      ≠ lit "get stats") :
    (onTextMessageReceived env w from_id msg (lit "P") t1 t2).sent =
      w.sent ++ [(from_id, lit "CmdReply: ERR: busy")] ∧
    (onTextMessageReceived env w from_id msg (lit "P") t1 t2).started = w.started ∧
    (onTextMessageReceived env w from_id msg (lit "P") t1 t2).mod = w.mod ∧
    (onTextMessageReceived env w from_id msg (lit "P") t1 t2).stats.cmd_total =
      { w.stats.cmd_total with rej := w.stats.cmd_total.rej + 1 } ∧
    (onTextMessageReceived env w from_id msg (lit "P") t1 t2).stats.cur.cmd =
      { (rotateBuckets w.stats t1.minute).cur.cmd with
        rej := (rotateBuckets w.stats t1.minute).cur.cmd.rej + 1 } := by
  have h1 : ((lit "P" : Str) != lit "P") = false := by decide
  have h2 : (parseAndAuthorizeCmd w.mod.run_cmd_secret from_id msg [] []).out_cmd.isEmpty
      = false := by
    cases h : (parseAndAuthorizeCmd w.mod.run_cmd_secret from_id msg [] []).out_cmd with
    | nil => exact absurd h hcmd
    | cons a t => rfl
  have h3 : ((parseAndAuthorizeCmd w.mod.run_cmd_secret from_id msg [] []).out_cmd
      == lit "get stats") = false := by simpa using hint
  have hw : onTextMessageReceived env w from_id msg (lit "P") t1 t2 =
      { w with
        stats := onCmdRejected w.stats t1.minute
        sent := w.sent ++ [(from_id, lit "CmdReply: ERR: busy")] } := by
    simp [onTextMessageReceived, hret, h1, h2, h3, hbusy]
  rw [hw]
  refine ⟨rfl, rfl, rfl, ?_, ?_⟩
  · simp [onCmdRejected, SvxStats.modCur, rotateBuckets_cmd_total]
  · simp [onCmdRejected, SvxStats.modCur, SvxStats.cur]

/-- C9, amended, at `RunCmd: get psu a` sent directly while a command of
`peer0` is running. -/
theorem C9_busy_reply_witness :
    (onTextMessageReceived ⟨60, fun _ => []⟩
      { mod := { cmd_busy := true, cmd_from_id := lit "peer0" },
        stats := SvxStats.init ⟨7, 0, 0⟩ }
      (lit "peer1") (lit "RunCmd: get psu a") (lit "P")
      ⟨7, 30, 30000⟩ ⟨7, 30, 30000⟩).sent
      = [(lit "peer1", lit "CmdReply: ERR: busy")] ∧
    (onTextMessageReceived ⟨60, fun _ => []⟩
      { mod := { cmd_busy := true, cmd_from_id := lit "peer0" },
        stats := SvxStats.init ⟨7, 0, 0⟩ }
      (lit "peer1") (lit "RunCmd: get psu a") (lit "P")
      ⟨7, 30, 30000⟩ ⟨7, 30, 30000⟩).stats.cmd_total = { rej := 1 } :=
  ⟨(C9_busy_reply ⟨60, fun _ => []⟩
      { mod := { cmd_busy := true, cmd_from_id := lit "peer0" },
        stats := SvxStats.init ⟨7, 0, 0⟩ }
      (lit "peer1") (lit "RunCmd: get psu a") ⟨7, 30, 30000⟩ ⟨7, 30, 30000⟩
      (by decide) (by decide) (by decide) (by decide)).1,
   (C9_busy_reply ⟨60, fun _ => []⟩
      { mod := { cmd_busy := true, cmd_from_id := lit "peer0" },
        stats := SvxStats.init ⟨7, 0, 0⟩ }
      (lit "peer1") (lit "RunCmd: get psu a") ⟨7, 30, 30000⟩ ⟨7, 30, 30000⟩
      (by decide) (by decide) (by decide) (by decide)).2.2.2.1⟩

/-- C10: for every message (any text, sender and scope) handled by
`onTextMessageReceived` while the command session is busy, the session is
left untouched: the busy flag stays true, the requester id, the accumulated
stdout and stderr, the start time and the process object are unchanged, and no
process is started. -/
theorem C10_busy_session_untouched (env : Env) (w : World) (from_id msg scope : Str)
    (t1 t2 : Clock) (hbusy : w.mod.cmd_busy = true) :
    (onTextMessageReceived env w from_id msg scope t1 t2).mod.cmd_busy = true ∧
    (onTextMessageReceived env w from_id msg scope t1 t2).mod.cmd_from_id = w.mod.cmd_from_id ∧
    (onTextMessageReceived env w from_id msg scope t1 t2).mod.cmd_stdout = w.mod.cmd_stdout ∧
    (onTextMessageReceived env w from_id msg scope t1 t2).mod.cmd_stderr = w.mod.cmd_stderr ∧
    (onTextMessageReceived env w from_id msg scope t1 t2).mod.cmd_start_ms = w.mod.cmd_start_ms ∧
    (onTextMessageReceived env w from_id msg scope t1 t2).mod.cmd_exec = w.mod.cmd_exec ∧
    (onTextMessageReceived env w from_id msg scope t1 t2).started = w.started := by
  have hw : (onTextMessageReceived env w from_id msg scope t1 t2).mod = w.mod ∧
      (onTextMessageReceived env w from_id msg scope t1 t2).started = w.started := by
    unfold onTextMessageReceived
    simp only [hbusy, if_true]
    split_ifs <;> exact ⟨rfl, rfl⟩
  rw [hw.1]
  exact ⟨hbusy, rfl, rfl, rfl, rfl, rfl, hw.2⟩

/-- C10 at three messages received while a command of `peer0` is running: a
second command, the internal `get stats`, and a broadcast attempt. -/
theorem C10_busy_session_untouched_witness :
    (onTextMessageReceived ⟨60, fun _ => []⟩
      { mod := { cmd_busy := true, cmd_from_id := lit "peer0", cmd_stdout := lit "PSU A: 13",
                 cmd_start_ms := 29000 },
        stats := SvxStats.init ⟨7, 0, 0⟩ }
      (lit "peer1") (lit "RunCmd: get psu a") (lit "P")
      ⟨7, 30, 30000⟩ ⟨7, 30, 30000⟩).mod.cmd_stdout = lit "PSU A: 13" ∧
    (onTextMessageReceived ⟨60, fun _ => []⟩
      { mod := { cmd_busy := true, cmd_from_id := lit "peer0", cmd_stdout := lit "PSU A: 13",
                 cmd_start_ms := 29000 },
        stats := SvxStats.init ⟨7, 0, 0⟩ }
      (lit "peer1") (lit "RunCmd: get stats") (lit "P")
      ⟨7, 30, 30000⟩ ⟨7, 30, 30000⟩).mod.cmd_from_id = lit "peer0" ∧
    (onTextMessageReceived ⟨60, fun _ => []⟩
      { mod := { cmd_busy := true, cmd_from_id := lit "peer0", cmd_stdout := lit "PSU A: 13",
                 cmd_start_ms := 29000 },
        stats := SvxStats.init ⟨7, 0, 0⟩ }
      (lit "peer1") (lit "RunCmd: get psu b") (lit "A")
      ⟨7, 30, 30000⟩ ⟨7, 30, 30000⟩).mod.cmd_busy = true :=
  ⟨(C10_busy_session_untouched ⟨60, fun _ => []⟩
      { mod := { cmd_busy := true, cmd_from_id := lit "peer0", cmd_stdout := lit "PSU A: 13",
                 cmd_start_ms := 29000 },
        stats := SvxStats.init ⟨7, 0, 0⟩ }
      (lit "peer1") (lit "RunCmd: get psu a") (lit "P") ⟨7, 30, 30000⟩ ⟨7, 30, 30000⟩
      rfl).2.2.1,
   (C10_busy_session_untouched ⟨60, fun _ => []⟩
      { mod := { cmd_busy := true, cmd_from_id := lit "peer0", cmd_stdout := lit "PSU A: 13",
                 cmd_start_ms := 29000 },
        stats := SvxStats.init ⟨7, 0, 0⟩ }
      (lit "peer1") (lit "RunCmd: get stats") (lit "P") ⟨7, 30, 30000⟩ ⟨7, 30, 30000⟩
      rfl).2.1,
   (C10_busy_session_untouched ⟨60, fun _ => []⟩
      { mod := { cmd_busy := true, cmd_from_id := lit "peer0", cmd_stdout := lit "PSU A: 13",
                 cmd_start_ms := 29000 },
        stats := SvxStats.init ⟨7, 0, 0⟩ }
      (lit "peer1") (lit "RunCmd: get psu b") (lit "A") ⟨7, 30, 30000⟩ ⟨7, 30, 30000⟩
      rfl).1⟩

/-! ## Lemmas on the reply chunker -/

theorem rfind_some {c : Nat} {s : Str} {pos i : Nat} (h : rfind c s pos = some i) :
    i ≤ pos ∧ s[i]? = some c ∧ ∀ j, i < j → j ≤ pos → s[j]? ≠ some c := by
  induction pos with
  | zero =>
    unfold rfind at h
    split at h
    · rename_i h0
      simp at h
      subst h
      exact ⟨le_refl _, h0, fun j h1 h2 => by omega⟩
    · simp at h
  | succ n ih =>
    unfold rfind at h
    split at h
    · rename_i h0
      simp at h
      subst h
      exact ⟨le_refl _, h0, fun j h1 h2 => by omega⟩
    · rename_i h0
      obtain ⟨h1, h2, h3⟩ := ih h
      refine ⟨by omega, h2, fun j hj1 hj2 => ?_⟩
      by_cases hj : j = n + 1
      · subst hj; exact h0
      · exact h3 j hj1 (by omega)

theorem rfind_none {c : Nat} {s : Str} {pos : Nat} (h : rfind c s pos = none) :
    ∀ j, j ≤ pos → s[j]? ≠ some c := by
  induction pos with
  | zero =>
    unfold rfind at h
    split at h
    · simp at h
    · rename_i h0
      intro j hj
      have : j = 0 := by omega
      subst this; exact h0
  | succ n ih =>
    unfold rfind at h
    split at h
    · simp at h
    · rename_i h0
      intro j hj
      by_cases hj2 : j = n + 1
      · subst hj2; exact h0
      · exact ih h j (by omega)

theorem skipSpaces_ge (s : Str) (fuel off : Nat) : off ≤ skipSpaces s fuel off := by
  induction fuel generalizing off with
  | zero => exact le_refl _
  | succ n ih =>
    unfold skipSpaces
    split
    · exact le_trans (Nat.le_succ _) (ih _)
    · exact le_refl _

theorem skipSpaces_le (s : Str) (fuel off : Nat) (h : off ≤ s.length) :
    skipSpaces s fuel off ≤ s.length := by
  induction fuel generalizing off with
  | zero => exact h
  | succ n ih =>
    unfold skipSpaces
    split
    · rename_i h0
      exact ih _ h0.1
    · exact h

/-- What the skipping loop passes over is a run of spaces. -/
theorem skipSpaces_drop (s : Str) (fuel off : Nat) :
    ∃ g : Str, (∀ x ∈ g, x = 32) ∧ s.drop off = g ++ s.drop (skipSpaces s fuel off) := by
  induction fuel generalizing off with
  | zero => exact ⟨[], by simp, by simp [skipSpaces]⟩
  | succ n ih =>
    unfold skipSpaces
    split
    · rename_i h0
      obtain ⟨g, hg1, hg2⟩ := ih (off + 1)
      refine ⟨32 :: g, ?_, ?_⟩
      · intro x hx
        rcases List.mem_cons.1 hx with h | h
        · exact h
        · exact hg1 x h
      · have hget : s[off] = 32 := by
          have := h0.2
          rw [List.getElem?_eq_getElem h0.1] at this
          exact Option.some.inj this
        rw [List.drop_eq_getElem_cons h0.1, hget, hg2]
        rfl
    · exact ⟨[], by simp, by simp⟩

/-- With budget `s.size() - off` the skipping loop stops at the end of the text
or in front of a byte that is no space. -/
theorem skipSpaces_stop (s : Str) (fuel off : Nat) (h : s.length - off ≤ fuel) :
    s.length ≤ skipSpaces s fuel off ∨ s[skipSpaces s fuel off]? ≠ some 32 := by
  induction fuel generalizing off with
  | zero =>
    left
    simp only [skipSpaces]
    omega
  | succ n ih =>
    unfold skipSpaces
    split
    · exact ih _ (by omega)
    · rename_i h0
      by_cases hlt : off < s.length
      · right
        intro h1
        exact h0 ⟨hlt, h1⟩
      · left; omega

theorem chunkTake_le (s : Str) (cs off : Nat) :
    chunkTake s cs off ≤ min cs (s.length - off) := by
  unfold chunkTake
  simp only
  split
  · split
    · rename_i ls hls
      split
      · have := (rfind_some hls).1
        omega
      · exact le_refl _
    · exact le_refl _
  · exact le_refl _

theorem chunkTake_pos (s : Str) (cs off : Nat) (hcs : 1 ≤ cs) (hoff : off < s.length) :
    1 ≤ chunkTake s cs off := by
  unfold chunkTake
  simp only
  split
  · split
    · split
      · omega
      · omega
    · omega
  · omega

theorem chunkSize_pos (L : Nat) : 1 ≤ chunkSize L := by
  unfold chunkSize
  have h : (lit "CmdReply: [99/99] ").length = 18 := by decide
  simp only [h]
  split <;> omega

theorem substr_append_drop (s : Str) (off t : Nat) :
    s.drop off = substr s off t ++ s.drop (off + t) := by
  unfold substr
  rw [← List.drop_drop, List.take_append_drop]

/-- The chunks cut from offset `off` onwards tile the rest of the text. -/
theorem chunkSpans_tiles (s : Str) (cs : Nat) (hcs : 1 ≤ cs) (fuel off : Nat)
    (h : s.length - off ≤ fuel) :
    Tiles (s.drop off) ((chunkSpans s cs fuel off).map fun p => substr s p.1 p.2) := by
  induction fuel generalizing off with
  | zero =>
    have : s.length ≤ off := by omega
    simp [chunkSpans, Tiles, List.drop_eq_nil_of_le this]
  | succ n ih =>
    unfold chunkSpans
    split
    · rename_i hlt
      have hpos := chunkTake_pos s cs off hcs hlt
      obtain ⟨g, hg1, hg2⟩ := skipSpaces_drop s
        (s.length - (off + chunkTake s cs off)) (off + chunkTake s cs off)
      have hge := skipSpaces_ge s
        (s.length - (off + chunkTake s cs off)) (off + chunkTake s cs off)
      simp only [List.map_cons, Tiles]
      refine ⟨g, _, hg1, ?_, ih _ (by omega)⟩
      rw [List.append_assoc, ← hg2]
      exact substr_append_drop s off _
    · rename_i hge
      have : s.length ≤ off := by omega
      simp [Tiles, List.drop_eq_nil_of_le this]

theorem dropSpaces_append (a b : Str) : dropSpaces (a ++ b) = dropSpaces a ++ dropSpaces b := by
  simp [dropSpaces]

theorem dropSpaces_spaces (g : Str) (h : ∀ x ∈ g, x = 32) : dropSpaces g = [] := by
  simp only [dropSpaces, List.filter_eq_nil_iff]
  intro x hx
  simp [h x hx]

theorem Tiles.dropSpaces {t : Str} {chunks : List Str} (h : Tiles t chunks) :
    dropSpaces chunks.flatten = dropSpaces t := by
  induction chunks generalizing t with
  | nil =>
    simp only [Tiles] at h
    subst h; rfl
  | cons c cs ih =>
    obtain ⟨g, rest, hg, ht, hrest⟩ := h
    rw [ht, List.flatten_cons, dropSpaces_append, dropSpaces_append, dropSpaces_append,
      dropSpaces_spaces g hg, ih hrest]
    simp

/-- Every recorded pair starts inside the text and holds the `take` computed
at its offset. -/
theorem chunkSpans_mem (s : Str) (cs fuel off : Nat) :
    ∀ p ∈ chunkSpans s cs fuel off, p.1 < s.length ∧ p.2 = chunkTake s cs p.1 := by
  induction fuel generalizing off with
  | zero => simp [chunkSpans]
  | succ n ih =>
    unfold chunkSpans
    split
    · rename_i hlt
      intro p hp
      rcases List.mem_cons.1 hp with h | h
      · subst h; exact ⟨hlt, rfl⟩
      · exact ih _ p h
    · simp

/-- Consecutive recorded pairs: the next offset is where the skipping loop
stopped after the previous chunk. -/
theorem chunkSpans_next (s : Str) (cs fuel off i : Nat) (p q : Nat × Nat)
    (hp : (chunkSpans s cs fuel off)[i]? = some p)
    (hq : (chunkSpans s cs fuel off)[i + 1]? = some q) :
    q.1 = skipSpaces s (s.length - (p.1 + p.2)) (p.1 + p.2) := by
  induction fuel generalizing off i with
  | zero => simp [chunkSpans] at hp
  | succ n ih =>
    unfold chunkSpans at hp hq
    split at hp
    · rename_i hlt
      simp only [if_pos hlt] at hq
      cases i with
      | zero =>
        simp only [List.getElem?_cons_zero, Option.some.injEq] at hp
        subst hp
        simp only [zero_add, List.getElem?_cons_succ] at hq
        cases n with
        | zero => simp [chunkSpans] at hq
        | succ m =>
          unfold chunkSpans at hq
          split at hq
          · simp at hq
            subst hq
            rfl
          · simp at hq
      | succ j =>
        simp only [List.getElem?_cons_succ] at hp hq
        exact ih _ j hp hq
    · simp at hp

theorem numberedFrames_length (total i : Nat) (cs : List Str) :
    (numberedFrames total i cs).length = cs.length := by
  induction cs generalizing i with
  | nil => rfl
  | cons c cs ih => simp [numberedFrames, ih]

theorem numberedFrames_getElem? (total i k : Nat) (cs : List Str) :
    (numberedFrames total i cs)[k]? =
      (cs[k]?).map fun c =>
        lit "CmdReply: [" ++ decimal (i + k + 1) ++ lit "/" ++ decimal total ++ lit "] " ++ c := by
  induction cs generalizing i k with
  | nil => simp [numberedFrames]
  | cons c cs ih =>
    cases k with
    | zero => simp [numberedFrames]
    | succ j =>
      simp only [numberedFrames, List.getElem?_cons_succ, ih]
      have : i + 1 + j + 1 = i + (j + 1) + 1 := by omega
      rw [this]

theorem decimal_length_le_two (n : Nat) (h : n < 100) : (decimal n).length ≤ 2 := by
  interval_cases n <;> decide

theorem sanitize_eq (reply : Str) : sanitize reply = reply.filter fun c => !isCtl c := by
  unfold sanitize
  rw [List.filter_filter, List.filter_filter]
  apply List.filter_congr
  intro c _
  rw [Bool.eq_iff_iff]
  simp only [isCtl, Bool.and_eq_true, Bool.not_eq_true', Bool.or_eq_false_iff,
    Bool.and_eq_false_imp, decide_eq_true_eq, bne_iff_ne, ne_eq, beq_eq_false_iff_ne,
    bne_eq_false_iff_eq]
  constructor
  · rintro ⟨⟨h, _⟩, _⟩; exact h
  · intro h
    refine ⟨⟨h, ?_⟩, ?_⟩
    · intro hc
      have := h.1 (by omega)
      omega
    · intro hc
      have := h.1 (by omega)
      omega

/-! ## Process exit and the reply chunker: claims C11 to C17 -/

theorem chunksOf_tiles (L : Nat) (s : Str) : Tiles s (chunksOf L s) := by
  have h := chunkSpans_tiles s (chunkSize L) (chunkSize_pos L) s.length 0 (by omega)
  simpa [chunksOf] using h

theorem replyFrames_fits (env : Env) (reply : Str)
    (h : (lit "CmdReply: ").length + (sanitize reply).length ≤ env.FRN_TM_MAX_CHARS) :
    replyFrames env reply = [lit "CmdReply: " ++ sanitize reply] := by
  simp [replyFrames, h]

theorem replyFrames_split (env : Env) (reply : Str)
    (h : ¬ (lit "CmdReply: ").length + (sanitize reply).length ≤ env.FRN_TM_MAX_CHARS) :
    replyFrames env reply =
      numberedFrames (chunksOf env.FRN_TM_MAX_CHARS (sanitize reply)).length 0
        (chunksOf env.FRN_TM_MAX_CHARS (sanitize reply)) := by
  simp [replyFrames, h]

/-- C11: for every pair of accumulated stdout and stderr strings the reply
chosen on process exit is the trimmed stdout if that is non-empty, otherwise
the trimmed stderr if that is non-empty, otherwise the literal `OK`; it is never
empty; and it is the text the `exited` handler passes to `sendCmdReplyChunked`
for the requester. -/
theorem C11_exit_reply (env : Env) (w : World) (t : Clock) (cmd_stdout cmd_stderr : Str) :
    (trim_copy cmd_stdout ≠ [] → exitReply cmd_stdout cmd_stderr = trim_copy cmd_stdout) ∧
    (trim_copy cmd_stdout = [] → trim_copy cmd_stderr ≠ [] →
      exitReply cmd_stdout cmd_stderr = trim_copy cmd_stderr) ∧
    (trim_copy cmd_stdout = [] → trim_copy cmd_stderr = [] →
      exitReply cmd_stdout cmd_stderr = lit "OK") ∧
    exitReply cmd_stdout cmd_stderr ≠ [] ∧
    (onExecExited env w t).sent =
      (sendCmdReplyChunked env w w.mod.cmd_from_id
        (exitReply w.mod.cmd_stdout w.mod.cmd_stderr)).sent := by
  have hok : lit "OK" ≠ [] := by decide
  refine ⟨fun h => ?_, fun h1 h2 => ?_, fun h1 h2 => ?_, ?_, rfl⟩
  · simp [exitReply, h]
  · simp [exitReply, h1, h2]
  · simp [exitReply, h1, h2]
  · unfold exitReply
    by_cases h1 : trim_copy cmd_stdout = []
    · by_cases h2 : trim_copy cmd_stderr = []
      · simp [h1, h2, hok]
      · simp [h1, h2]
    · simp [h1]

/-- C11 at three exits: output on stdout, output on stderr only, no output. -/
theorem C11_exit_reply_witness :
    exitReply (lit " PSU A: 13.8 V\n") (lit "warning\n") = lit "PSU A: 13.8 V" ∧
    exitReply (lit "\n") (lit "no such device\n") = lit "no such device" ∧
    exitReply [] (lit " \n") = lit "OK" :=
  ⟨(C11_exit_reply ⟨60, fun _ => []⟩ { mod := {}, stats := SvxStats.init ⟨7, 0, 0⟩ } ⟨7, 1, 1000⟩
      (lit " PSU A: 13.8 V\n") (lit "warning\n")).1 (by decide),
   (C11_exit_reply ⟨60, fun _ => []⟩ { mod := {}, stats := SvxStats.init ⟨7, 0, 0⟩ } ⟨7, 1, 1000⟩
      (lit "\n") (lit "no such device\n")).2.1 (by decide) (by decide),
   (C11_exit_reply ⟨60, fun _ => []⟩ { mod := {}, stats := SvxStats.init ⟨7, 0, 0⟩ } ⟨7, 1, 1000⟩
      [] (lit " \n")).2.2.1 (by decide) (by decide)⟩

set_option maxRecDepth 20000 in
/-- C12, as stated, fails in two ways. With the budget `L = 10` the reply `hi`
is sent as the frame `CmdReply: [1/1] hi` of 18 characters (for `L` up to 18
the chunk size falls back to 50). With `L = 19` a reply of 100 letters is cut
into 100 chunks and the frame `CmdReply: [100/100] a` has 21 characters (the
reserve covers two-digit numbering only). -/
theorem C12_counterexample :
    replyFrames ⟨10, fun _ => []⟩ (lit "hi") = [lit "CmdReply: [1/1] hi"] ∧
    (∃ f ∈ replyFrames ⟨10, fun _ => []⟩ (lit "hi"), 10 < f.length) ∧
    (replyFrames ⟨19, fun _ => []⟩ (List.replicate 100 97))[99]?
      = some (lit "CmdReply: [100/100] a") ∧
    (∃ f ∈ replyFrames ⟨19, fun _ => []⟩ (List.replicate 100 97), 19 < f.length) := by
  decide

/-- C12, amended: for every reply text and every per-frame budget `L`, every
frame emitted by `sendCmdReplyChunked` (prefix included) is at most `L`
characters long, provided the reply is sent as a single frame, or `L` exceeds
the 18 characters reserved for `CmdReply: [99/99] ` and the reply is cut into
at most 99 chunks. -/
theorem C12_frames_within_budget (env : Env) (reply : Str)
    (h : (lit "CmdReply: ").length + (sanitize reply).length ≤ env.FRN_TM_MAX_CHARS ∨
      (18 < env.FRN_TM_MAX_CHARS ∧
        (chunksOf env.FRN_TM_MAX_CHARS (sanitize reply)).length ≤ 99)) :
    ∀ f ∈ replyFrames env reply, f.length ≤ env.FRN_TM_MAX_CHARS := by
  intro f hf
  by_cases hfit : (lit "CmdReply: ").length + (sanitize reply).length ≤ env.FRN_TM_MAX_CHARS
  · rw [replyFrames_fits env reply hfit] at hf
    simp only [List.mem_singleton] at hf
    subst hf
    simpa using hfit
  · obtain ⟨hL, hn⟩ := h.resolve_left hfit
    rw [replyFrames_split env reply hfit] at hf
    obtain ⟨k, hk⟩ := List.getElem?_of_mem hf
    rw [numberedFrames_getElem?] at hk
    cases hc : (chunksOf env.FRN_TM_MAX_CHARS (sanitize reply))[k]? with
    | none => simp [hc] at hk
    | some c =>
      simp only [hc, Option.map_some', Option.some.injEq] at hk
      have hklt : k < (chunksOf env.FRN_TM_MAX_CHARS (sanitize reply)).length := by
        by_contra hge
        rw [List.getElem?_eq_none (by omega)] at hc
        exact absurd hc (by simp)
      have hcmem : c ∈ chunksOf env.FRN_TM_MAX_CHARS (sanitize reply) :=
        List.getElem?_mem hc
      have hclen : c.length ≤ env.FRN_TM_MAX_CHARS - 18 := by
        unfold chunksOf at hcmem
        obtain ⟨p, hp, rfl⟩ := List.mem_map.1 hcmem
        have h1 := (chunkSpans_mem _ _ _ _ p hp).2
        have h2 := chunkTake_le (sanitize reply) (chunkSize env.FRN_TM_MAX_CHARS) p.1
        have h3 : chunkSize env.FRN_TM_MAX_CHARS = env.FRN_TM_MAX_CHARS - 18 := by
          have e : (lit "CmdReply: [99/99] ").length = 18 := by decide
          simp [chunkSize, e, hL]
        have h4 : (substr (sanitize reply) p.1 p.2).length ≤ p.2 := by
          simp [substr, List.length_take]
        omega
      have hd1 := decimal_length_le_two (0 + k + 1) (by omega)
      have hd2 := decimal_length_le_two
        (chunksOf env.FRN_TM_MAX_CHARS (sanitize reply)).length (by omega)
      have e1 : (lit "CmdReply: [").length = 11 := by decide
      have e2 : (lit "/").length = 1 := by decide
      have e3 : (lit "] ").length = 2 := by decide
      rw [← hk]
      simp only [List.length_append, e1, e2, e3]
      omega

set_option maxRecDepth 20000 in
/-- C12, amended, at a reply of length 500 with `L = 60`: twenty repetitions
of a 25-character status line. -/
theorem C12_frames_within_budget_witness :
    (List.replicate 20 (lit "PSU A: 13.8 V 2.1 A ok.  ")).flatten.length = 500 ∧
    ∀ f ∈ replyFrames ⟨60, fun _ => []⟩
        (List.replicate 20 (lit "PSU A: 13.8 V 2.1 A ok.  ")).flatten,
      f.length ≤ 60 :=
  ⟨by decide,
   C12_frames_within_budget ⟨60, fun _ => []⟩
     (List.replicate 20 (lit "PSU A: 13.8 V 2.1 A ok.  ")).flatten
     (Or.inr ⟨by decide, by decide⟩)⟩

/-- C13: for every reply text, `sendCmdReplyChunked` emits exactly the one frame
`CmdReply: ` followed by the sanitised text (no numbering added) if and only if
the length of `CmdReply: ` plus the sanitised text is at most `L`; otherwise the
frames emitted are the numbered ones: frame `i` (from 1) is
`CmdReply: [i/n] ` followed by chunk `i`, `n` the number of chunks. -/
theorem C13_single_frame_iff (env : Env) (reply : Str) :
    (replyFrames env reply = [lit "CmdReply: " ++ sanitize reply] ↔
      (lit "CmdReply: ").length + (sanitize reply).length ≤ env.FRN_TM_MAX_CHARS) ∧
    (¬ (lit "CmdReply: ").length + (sanitize reply).length ≤ env.FRN_TM_MAX_CHARS →
      ∀ i, (replyFrames env reply)[i]? =
        ((chunksOf env.FRN_TM_MAX_CHARS (sanitize reply))[i]?).map fun c =>
          lit "CmdReply: [" ++ decimal (i + 1) ++ lit "/" ++
            decimal (chunksOf env.FRN_TM_MAX_CHARS (sanitize reply)).length ++ lit "] " ++ c) := by
  constructor
  · constructor
    · intro h
      by_contra hfit
      rw [replyFrames_split env reply hfit] at h
      have hlen := congrArg List.length h
      rw [numberedFrames_length] at hlen
      simp only [List.length_singleton] at hlen
      obtain ⟨c, hc⟩ := List.length_eq_one.1 hlen
      rw [hc] at h
      simp only [numberedFrames, List.length_singleton, List.cons.injEq, and_true] at h
      have e : lit "CmdReply: [" ++ decimal (0 + 1) ++ lit "/" ++ decimal 1 ++ lit "] " ++ c
          = lit "CmdReply: " ++ (lit "[1/1] " ++ c) := by
        have : lit "CmdReply: [" ++ decimal (0 + 1) ++ lit "/" ++ decimal 1 ++ lit "] "
            = lit "CmdReply: " ++ lit "[1/1] " := by decide
        rw [this, List.append_assoc]
      rw [e] at h
      have hs := List.append_cancel_left h
      have ht := (chunksOf_tiles env.FRN_TM_MAX_CHARS (sanitize reply)).dropSpaces
      rw [hc, ← hs] at ht
      simp only [List.flatten_cons, List.flatten_nil, List.append_nil, dropSpaces_append] at ht
      have hl := congrArg List.length ht
      have e5 : (dropSpaces (lit "[1/1] ")).length = 5 := by decide
      simp only [List.length_append, e5] at hl
      omega
    · intro h
      exact replyFrames_fits env reply h
  · intro hfit i
    rw [replyFrames_split env reply hfit, numberedFrames_getElem?]
    simp

/-- C13 at the reply `ok` with `L = 60`: one unnumbered frame. -/
theorem C13_single_frame_iff_witness :
    replyFrames ⟨60, fun _ => []⟩ (lit "ok\n") = [lit "CmdReply: ok"] :=
  (C13_single_frame_iff ⟨60, fun _ => []⟩ (lit "ok\n")).1.2 (by decide)

/-- C14: for every reply that `sendCmdReplyChunked` splits, with `n` the number
of chunks, exactly `n` frames are sent, in order, to the addressee, and the
`i`-th frame (`i = 1..n`) is `CmdReply: [` + decimal(`i`) + `/` + decimal(`n`) +
`] ` + the `i`-th chunk. -/
theorem C14_numbered_frames (env : Env) (w : World) (to_id reply : Str)
    (hsplit : ¬ (lit "CmdReply: ").length + (sanitize reply).length ≤ env.FRN_TM_MAX_CHARS) :
    (sendCmdReplyChunked env w to_id reply).sent =
      w.sent ++ (replyFrames env reply).map (fun f => (to_id, f)) ∧
    (replyFrames env reply).length =
      (chunksOf env.FRN_TM_MAX_CHARS (sanitize reply)).length ∧
    ∀ i, (replyFrames env reply)[i]? =
      ((chunksOf env.FRN_TM_MAX_CHARS (sanitize reply))[i]?).map fun c =>
        lit "CmdReply: [" ++ decimal (i + 1) ++ lit "/" ++
          decimal (chunksOf env.FRN_TM_MAX_CHARS (sanitize reply)).length ++ lit "] " ++ c := by
  refine ⟨rfl, ?_, fun i => ?_⟩
  · rw [replyFrames_split env reply hsplit, numberedFrames_length]
  · rw [replyFrames_split env reply hsplit, numberedFrames_getElem?]
    simp

/-- C14 at a reply of 81 characters with `L = 60`: two frames, `[1/2]` and
`[2/2]`. -/
theorem C14_numbered_frames_witness :
    (sendCmdReplyChunked ⟨60, fun _ => []⟩ { mod := {}, stats := SvxStats.init ⟨7, 0, 0⟩ }
      (lit "peer1") (lit "PSU A: 13.8 V 2.1 A ok. PSU B: 13.7 V 1.9 A ok. TEMP 1: 41 C ok. TEMP 2: 39 C ok.")).sent
      = [ (lit "peer1", lit "CmdReply: [1/2] PSU A: 13.8 V 2.1 A ok. PSU B: 13.7 V 1.9"),
          (lit "peer1", lit "CmdReply: [2/2] A ok. TEMP 1: 41 C ok. TEMP 2: 39 C ok.") ] :=
  (C14_numbered_frames ⟨60, fun _ => []⟩ { mod := {}, stats := SvxStats.init ⟨7, 0, 0⟩ }
    (lit "peer1") (lit "PSU A: 13.8 V 2.1 A ok. PSU B: 13.7 V 1.9 A ok. TEMP 1: 41 C ok. TEMP 2: 39 C ok.")
    (by decide)).1

/-- C15, as stated, fails at an offset of exactly 20: with `L = 60` (chunk size
42) the text of 20 letters `a`, one space and 60 letters `b` is split, its
first chunk is not the last, the text has a space at offset 20 from the chunk's
start, yet the chunk is not cut there: it is the first 42 characters, and the
frame boundary falls between two letters `b`. -/
theorem C15_counterexample :
    sanitize (List.replicate 20 97 ++ [32] ++ List.replicate 60 98)
      = List.replicate 20 97 ++ [32] ++ List.replicate 60 98 ∧
    ¬ (lit "CmdReply: ").length + (List.replicate 20 97 ++ [32] ++ List.replicate 60 98).length
      ≤ 60 ∧
    chunkSpans (List.replicate 20 97 ++ [32] ++ List.replicate 60 98) (chunkSize 60) 81 0
      = [(0, 42), (42, 39)] ∧
    (List.replicate 20 97 ++ [32] ++ List.replicate 60 98)[0 + 20]? = some 32 ∧
    0 + 20 ≤ 0 + chunkSize 60 ∧
    (List.replicate 20 97 ++ [32] ++ List.replicate 60 98)[41]? = some 98 ∧
    (List.replicate 20 97 ++ [32] ++ List.replicate 60 98)[42]? = some 98 ∧
    chunksOf 60 (List.replicate 20 97 ++ [32] ++ List.replicate 60 98)
      = [List.replicate 20 97 ++ [32] ++ List.replicate 21 98, List.replicate 39 98] := by
  decide

/-- C15, amended: in the chunk list `sendCmdReplyChunked` builds from a
sanitised text `s`, for every chunk that is not the last one, starting at offset
`o` with length `t`: if `s` has a space at an offset of more than 20 characters
(at least 21) from the chunk's start and no further than the chunk size, then
the chunk is cut at the last such space: `s[o + t]` is a space, it lies at or
after every such space, and no space lies between it and offset chunk size. -/
theorem C15_cut_at_last_space (L : Nat) (s : Str) (i o t p : Nat)
    (hspan : (chunkSpans s (chunkSize L) s.length 0)[i]? = some (o, t))
    (hnext : i + 1 < (chunkSpans s (chunkSize L) s.length 0).length)
    (hp1 : o + 21 ≤ p) (hp2 : p ≤ o + chunkSize L) (hp : s[p]? = some 32) :
    (chunksOf L s)[i]? = some (substr s o t) ∧
    s[o + t]? = some 32 ∧ p ≤ o + t ∧ o + t ≤ o + chunkSize L ∧
    ∀ q, o + t < q → q ≤ o + chunkSize L → s[q]? ≠ some 32 := by
  have hq : ∃ q, (chunkSpans s (chunkSize L) s.length 0)[i + 1]? = some q :=
    ⟨_, List.getElem?_eq_getElem hnext⟩
  obtain ⟨q, hq⟩ := hq
  have hmo := chunkSpans_mem s (chunkSize L) s.length 0 (o, t) (List.getElem?_mem hspan)
  have hmq := chunkSpans_mem s (chunkSize L) s.length 0 q (List.getElem?_mem hq)
  have hnx := chunkSpans_next s (chunkSize L) s.length 0 i (o, t) q hspan hq
  have hge := skipSpaces_ge s (s.length - (o + t)) (o + t)
  simp only at hmo hnx
  have hot : o + t < s.length := by omega
  have hle := chunkTake_le s (chunkSize L) o
  refine ⟨by simp [chunksOf, hspan], ?_⟩
  have ht := hmo.2
  unfold chunkTake at ht
  simp only at ht
  split at ht
  · rename_i hlt
    have hmin : min (chunkSize L) (s.length - o) = chunkSize L := by omega
    rw [hmin] at ht
    split at ht
    · rename_i ls hls
      obtain ⟨h1, h2, h3⟩ := rfind_some hls
      have hpls : p ≤ ls := by
        by_contra hgt
        exact h3 p (by omega) hp2 hp
      rw [if_pos (by omega)] at ht
      have hols : o + t = ls := by omega
      rw [hols]
      exact ⟨h2, hpls, h1, h3⟩
    · rename_i hnone
      exact absurd hp (rfind_none hnone p hp2)
  · rename_i hge2
    omega

set_option maxRecDepth 20000 in
/-- C15, amended, at 21 letters `a`, three spaces and 60 letters `b` with
`L = 60`: the first chunk is cut at the last space of the run, offset 23. -/
theorem C15_cut_at_last_space_witness :
    (chunksOf 60 (List.replicate 21 97 ++ [32, 32, 32] ++ List.replicate 60 98))[0]?
      = some (substr (List.replicate 21 97 ++ [32, 32, 32] ++ List.replicate 60 98) 0 23) ∧
    (List.replicate 21 97 ++ [32, 32, 32] ++ List.replicate 60 98)[0 + 23]? = some 32 :=
  ⟨(C15_cut_at_last_space 60 (List.replicate 21 97 ++ [32, 32, 32] ++ List.replicate 60 98)
      0 0 23 21 (by decide) (by decide) (by decide) (by decide) (by decide)).1,
   (C15_cut_at_last_space 60 (List.replicate 21 97 ++ [32, 32, 32] ++ List.replicate 60 98)
      0 0 23 21 (by decide) (by decide) (by decide) (by decide) (by decide)).2.1⟩

/-- C16: for every reply text the sanitised text used by `sendCmdReplyChunked`
is exactly the input with the control bytes other than tab deleted (carriage
return and line feed among them), every other byte kept in its original order;
it contains no carriage return, no line feed, no other byte below `0x20` except
tab, and no `0x7F`. -/
theorem C16_sanitize (reply : Str) :
    sanitize reply = reply.filter (fun c => !isCtl c) ∧
    (∀ c ∈ sanitize reply, c ≠ 13 ∧ c ≠ 10 ∧ (c < 32 → c = 9) ∧ c ≠ 127) ∧
    (∀ c, isCtl c = true ↔ ((c < 32 ∧ c ≠ 9) ∨ c = 127)) ∧
    isCtl 13 = true ∧ isCtl 10 = true ∧ isCtl 9 = false := by
  refine ⟨sanitize_eq reply, ?_, ?_, by decide, by decide, by decide⟩
  · intro c hc
    rw [sanitize_eq, List.mem_filter] at hc
    have h := hc.2
    simp only [isCtl, Bool.not_eq_true', Bool.or_eq_false_iff, Bool.and_eq_false_imp,
      decide_eq_true_eq, bne_eq_false_iff_eq, beq_eq_false_iff_ne, ne_eq] at h
    refine ⟨?_, ?_, h.1, h.2⟩
    · intro h13
      have := h.1 (by omega)
      omega
    · intro h10
      have := h.1 (by omega)
      omega
  · intro c
    simp [isCtl]

/-- C16 at a reply with a carriage return, a line feed, a tab and a bell
byte: the tab stays, the other three are deleted. -/
theorem C16_sanitize_witness :
    sanitize (lit "PSU A\r\n\tok" ++ [7]) =
      (lit "PSU A\r\n\tok" ++ [7]).filter (fun c => !isCtl c) ∧
    sanitize (lit "PSU A\r\n\tok" ++ [7]) = lit "PSU A\tok" :=
  ⟨(C16_sanitize (lit "PSU A\r\n\tok" ++ [7])).1, by decide⟩

/-- C17: for every sanitised text `s` and budget `L`, the chunks
`sendCmdReplyChunked` cuts are consecutive, non-overlapping pieces of `s` in
order: `s` is the first chunk, a run of spaces, the second chunk, a run of
spaces, and so on to the last chunk and a final run of spaces (each run possibly
empty), so the only bytes of `s` in no chunk are spaces directly after a cut;
hence deleting all spaces from the concatenation of the chunks gives the same
string as deleting all spaces from `s`. When the reply is split, these chunks
are the ones the numbered frames carry. -/
theorem C17_chunks_tile (env : Env) (reply : Str) :
    Tiles (sanitize reply) (chunksOf env.FRN_TM_MAX_CHARS (sanitize reply)) ∧
    dropSpaces (chunksOf env.FRN_TM_MAX_CHARS (sanitize reply)).flatten
      = dropSpaces (sanitize reply) ∧
    (¬ (lit "CmdReply: ").length + (sanitize reply).length ≤ env.FRN_TM_MAX_CHARS →
      replyFrames env reply =
        numberedFrames (chunksOf env.FRN_TM_MAX_CHARS (sanitize reply)).length 0
          (chunksOf env.FRN_TM_MAX_CHARS (sanitize reply))) :=
  ⟨chunksOf_tiles _ _, (chunksOf_tiles _ _).dropSpaces, replyFrames_split env reply⟩

/-- C17 at a reply of 81 characters with `L = 60`: the reply is split and the
frames carry the chunks that tile it. -/
theorem C17_chunks_tile_witness :
    replyFrames ⟨60, fun _ => []⟩
      (lit "PSU A: 13.8 V 2.1 A ok. PSU B: 13.7 V 1.9 A ok. TEMP 1: 41 C ok. TEMP 2: 39 C ok.")
      = [ lit "CmdReply: [1/2] PSU A: 13.8 V 2.1 A ok. PSU B: 13.7 V 1.9",
          lit "CmdReply: [2/2] A ok. TEMP 1: 41 C ok. TEMP 2: 39 C ok." ] :=
  (C17_chunks_tile ⟨60, fun _ => []⟩
    (lit "PSU A: 13.8 V 2.1 A ok. PSU B: 13.7 V 1.9 A ok. TEMP 1: 41 C ok. TEMP 2: 39 C ok.")).2.2
    (by decide)

/-! ## Lemmas on the window rotation -/

theorem rotateLoop_eq_iterate (now_minute k : Nat) (s : SvxStats)
    (h : s.cur_minute + k = now_minute) :
    rotateLoop now_minute k s = rotateStep^[k] s := by
  induction k generalizing s with
  | zero => rfl
  | succ n ih =>
    unfold rotateLoop
    have hlt : s.cur_minute < now_minute := by omega
    rw [if_pos hlt, Function.iterate_succ_apply]
    exact ih (rotateStep s) (by simp only [rotateStep]; omega)

theorem rotateBuckets_eq_iterate (s : SvxStats) (k : Nat) :
    rotateBuckets s (s.cur_minute + k) = rotateStep^[k] s := by
  unfold rotateBuckets
  split
  · rename_i h
    have : k = 0 := by omega
    subst this; rfl
  · have : s.cur_minute + k - s.cur_minute = k := by omega
    rw [this]
    exact rotateLoop_eq_iterate _ _ _ rfl

theorem fin_sub_self_val (a : Fin NBUCKET) : (a - a).val = 0 := by
  simp

theorem fin_succ_sub_val (a i : Fin NBUCKET) (h : a + 1 ≠ i) :
    (a + 1 - i).val = (a - i).val + 1 := by
  have h1 : (a + 1).val ≠ i.val := fun e => h (Fin.ext e)
  rw [Fin.coe_sub, Fin.coe_sub, Fin.val_add] at *
  have ha := a.isLt
  have hi := i.isLt
  simp only [Fin.val_one, NBUCKET] at *
  omega

/-- The state after `k` iterations of the rotation loop. -/
theorem rotateIter_spec (s : SvxStats) (k : Nat) :
    (rotateStep^[k] s).cur_minute = s.cur_minute + k ∧
    (rotateStep^[k] s).idx.val = (s.idx.val + k) % NBUCKET ∧
    ∀ i : Fin NBUCKET,
      (rotateStep^[k] s).buckets i =
        if ((rotateStep^[k] s).idx - i).val < k then
          { minute := s.cur_minute + k - ((rotateStep^[k] s).idx - i).val }
        else s.buckets i := by
  induction k with
  | zero =>
    refine ⟨rfl, ?_, fun i => ?_⟩
    · simp [Nat.mod_eq_of_lt s.idx.isLt]
    · simp
  | succ n ih =>
    obtain ⟨h1, h2, h3⟩ := ih
    rw [Function.iterate_succ_apply']
    refine ⟨?_, ?_, fun i => ?_⟩
    · simp only [rotateStep, h1]; omega
    · simp only [rotateStep, Fin.val_add, h2, Fin.val_one, NBUCKET]
      omega
    · by_cases hi : (rotateStep^[n] s).idx + 1 = i
      · subst hi
        simp [rotateStep, h1]
        omega
      · have hv := fin_succ_sub_val _ _ hi
        simp only [rotateStep, Function.update_noteq (Ne.symm hi), h3 i, hv, h1]
        by_cases hlt : ((rotateStep^[n] s).idx - i).val < n
        · rw [if_pos hlt, if_pos (by omega)]
          congr 1
          omega
        · rw [if_neg hlt, if_neg (by omega)]

/-! ## Lemmas on the ring bookkeeping -/

theorem update_minute (bk : Fin NBUCKET → Bucket) (idx : Fin NBUCKET) (b : Bucket)
    (i : Fin NBUCKET) (h : b.minute = (bk idx).minute) :
    ((Function.update bk idx b) i).minute = (bk i).minute := by
  by_cases hi : i = idx
  · subst hi; simp [h]
  · simp [Function.update_noteq hi]

theorem RingInv_congr (m0 : Nat) (a b : SvxStats) (h : RingInv m0 (ring a))
    (h1 : b.idx = a.idx) (h2 : b.cur_minute = a.cur_minute)
    (h3 : ∀ i, (b.buckets i).minute = (a.buckets i).minute) : RingInv m0 (ring b) := by
  have e3 : stamps b.buckets = stamps a.buckets := funext h3
  have e : ring b = ring a := by
    unfold ring
    rw [h1, h2, e3]
  rw [e]; exact h

theorem RingInv_rotateStep (m0 : Nat) (s : SvxStats) (h : RingInv m0 (ring s)) :
    RingInv m0 (ring (rotateStep s)) := by
  obtain ⟨h1, h2, h3⟩ := h
  simp only [ring] at h1 h2 h3
  refine ⟨?_, ?_, fun i => ?_⟩
  · simp only [ring, rotateStep]; omega
  · simp only [ring, rotateStep, Fin.val_add, Fin.val_one, NBUCKET]
    omega
  · simp only [ring, rotateStep, stamps]
    by_cases hi : i = s.idx + 1
    · subst hi
      right
      simp only [Function.update_same, Fin.val_add, Fin.val_one, NBUCKET]
      omega
    · rw [Function.update_noteq hi]
      exact h3 i

theorem RingInv_rotateLoop (m0 now_minute fuel : Nat) (s : SvxStats)
    (h : RingInv m0 (ring s)) : RingInv m0 (ring (rotateLoop now_minute fuel s)) := by
  induction fuel generalizing s with
  | zero => exact h
  | succ n ih =>
    unfold rotateLoop
    split
    · exact ih _ (RingInv_rotateStep m0 s h)
    · exact h

theorem RingInv_rotateBuckets (m0 m : Nat) (s : SvxStats) (h : RingInv m0 (ring s)) :
    RingInv m0 (ring (rotateBuckets s m)) := by
  unfold rotateBuckets
  split
  · exact h
  · exact RingInv_rotateLoop _ _ _ _ h

theorem ring_ite (c : Prop) [Decidable c] (a b : SvxStats)
    (r : Fin NBUCKET × Nat × (Fin NBUCKET → Nat)) (ha : ring a = r) (hb : ring b = r) :
    ring (if c then a else b) = r := by
  split <;> assumption

theorem ring_loadKey (ps : Parsers) (s : SvxStats) (k v : Str) :
    ring (loadKey ps s k v) = ring s := by
  unfold loadKey
  repeat' (first | apply ring_ite | rfl)

theorem ring_loadLine (ps : Parsers) (s : SvxStats) (line : Str) :
    ring (loadLine ps s line) = ring s := by
  unfold loadLine
  split
  · rfl
  · split
    · rfl
    · exact ring_loadKey _ _ _ _

theorem ring_foldl_loadLine (ps : Parsers) (ls : List Str) (s : SvxStats) :
    ring (ls.foldl (loadLine ps) s) = ring s := by
  induction ls generalizing s with
  | nil => rfl
  | cons l ls ih => rw [List.foldl_cons, ih, ring_loadLine]

theorem ring_loadPersistedTotals (ps : Parsers) (s : SvxStats) (file : Option Str) :
    ring (loadPersistedTotals ps s file) = ring s := by
  unfold loadPersistedTotals
  split
  · rfl
  · cases file with
    | none => rfl
    | some text => exact ring_foldl_loadLine ps _ s

theorem RingInv_init (t0 : Clock) : RingInv t0.minute (ring (SvxStats.init t0)) := by
  refine ⟨le_refl _, ?_, fun i => Or.inl rfl⟩
  simp [ring, SvxStats.init]

/-- Every call keeps the ring bookkeeping invariant. -/
theorem RingInv_run (env : Env) (ps : Parsers) (m0 : Nat) (s : SvxStats) (t1 t2 : Clock)
    (op : Op) (h : RingInv m0 (ring s)) : RingInv m0 (ring (op.run env ps s t1 t2)) := by
  have hr := RingInv_rotateBuckets m0 t1.minute s h
  cases op with
  | clientList l =>
    refine RingInv_congr m0 _ _ hr rfl rfl (fun i => ?_)
    simp only [Op.run, onFrnClientListUpdate, SvxStats.modCur]
    apply update_minute; rfl
  | frnTxState b =>
    simp only [Op.run, onFrnTxState]
    split_ifs
    · exact hr
    · refine RingInv_congr m0 _ _ hr rfl rfl (fun i => ?_)
      simp only [SvxStats.modCur]
      apply update_minute; rfl
    · exact hr
  | frnRxState b =>
    simp only [Op.run, onFrnRxState]
    split_ifs
    · exact hr
    · refine RingInv_congr m0 _ _ hr rfl rfl (fun i => ?_)
      simp only [SvxStats.modCur]
      apply update_minute; rfl
    · exact hr
  | frnTxBytes n =>
    refine RingInv_congr m0 _ _ hr rfl rfl (fun i => ?_)
    simp only [Op.run, addFrnTxBytes, SvxStats.modCur]
    apply update_minute; rfl
  | frnRxBytes n =>
    refine RingInv_congr m0 _ _ hr rfl rfl (fun i => ?_)
    simp only [Op.run, addFrnRxBytes, SvxStats.modCur]
    apply update_minute; rfl
  | squelchState b =>
    simp only [Op.run, onSquelchState]
    split_ifs
    · exact hr
    · refine RingInv_congr m0 _ _ hr rfl rfl (fun i => ?_)
      simp only [SvxStats.modCur]
      apply update_minute; rfl
    · exact hr
  | rfTxState b =>
    simp only [Op.run, onRfTxState]
    split_ifs
    · exact hr
    · refine RingInv_congr m0 _ _ hr rfl rfl (fun i => ?_)
      simp only [SvxStats.modCur]
      apply update_minute; rfl
    · exact hr
  | rfRxState b =>
    simp only [Op.run, onRfRxState]
    split_ifs
    · exact hr
    · refine RingInv_congr m0 _ _ hr rfl rfl (fun i => ?_)
      simp only [SvxStats.modCur]
      apply update_minute; rfl
    · exact hr
  | cmdAccepted =>
    refine RingInv_congr m0 _ _ hr rfl rfl (fun i => ?_)
    simp only [Op.run, onCmdAccepted, SvxStats.modCur]
    apply update_minute; rfl
  | cmdRejected =>
    refine RingInv_congr m0 _ _ hr rfl rfl (fun i => ?_)
    simp only [Op.run, onCmdRejected, SvxStats.modCur]
    apply update_minute; rfl
  | cmdAuthFailed =>
    refine RingInv_congr m0 _ _ hr rfl rfl (fun i => ?_)
    simp only [Op.run, onCmdAuthFailed, SvxStats.modCur]
    apply update_minute; rfl
  | cmdBroadcastAttempt =>
    refine RingInv_congr m0 _ _ hr rfl rfl (fun i => ?_)
    simp only [Op.run, onCmdBroadcastAttempt, SvxStats.modCur]
    apply update_minute; rfl
  | cmdExecTimeMs ms =>
    refine RingInv_congr m0 _ _ hr rfl rfl (fun i => ?_)
    simp only [Op.run, onCmdExecTimeMs, SvxStats.modCur]
    apply update_minute; rfl
  | statsLine => exact hr
  | statsGroups => exact hr
  | tick =>
    simp only [Op.run, onTick, formatStatsLine]
    apply RingInv_rotateBuckets
    split_ifs <;> exact hr
  | persistPath p => exact h
  | startTimer n =>
    simp only [Op.run, start]
    split_ifs <;> exact h
  | loadTotals f =>
    simp only [Op.run]
    rw [ring_loadPersistedTotals]
    exact h

/-! ## The window rotation: claims C18 to C20 -/

theorem card_slots_behind (a : Fin NBUCKET) (k : Nat) :
    (Finset.univ.filter fun i : Fin NBUCKET => (a - i).val < k).card = min k NBUCKET := by
  by_cases hk : k < NBUCKET
  · have h := Finset.card_equiv (Equiv.subLeft a)
      (s := Finset.univ.filter fun i : Fin NBUCKET => (a - i).val < k)
      (t := Finset.Iio (⟨k, hk⟩ : Fin NBUCKET))
      (by intro i; simp [Fin.lt_def])
    rw [h, Fin.card_Iio]
    simp only [NBUCKET] at hk ⊢
    omega
  · have hall : (Finset.univ.filter fun i : Fin NBUCKET => (a - i).val < k) = Finset.univ := by
      apply Finset.filter_true_of_mem
      intro i _
      have := (a - i).isLt
      omega
    rw [hall, Finset.card_univ, Fintype.card_fin]
    omega

/-- C18: for every aggregator state with current minute `c` and every `k`,
`rotateBuckets(c + k)` moves the current minute to `c + k` and the index `k`
slots on; the slot `e` places behind the new index, for `e < k`, is reset to the
zero bucket stamped with minute `c + k - e`, and every slot `k` or more places
behind is unchanged. So for `k < 60` exactly `k` buckets are reset, stamped
`c+1 .. c+k` (slot `idx + j` gets `c + j`), and the other `60 - k` are
unchanged; for `k ≥ 60` all 60 are reset, stamped `c+k-59 .. c+k`. -/
theorem C18_rotate_window (s : SvxStats) (k : Nat) :
    (rotateBuckets s (s.cur_minute + k)).cur_minute = s.cur_minute + k ∧
    (rotateBuckets s (s.cur_minute + k)).idx.val = (s.idx.val + k) % 60 ∧
    (∀ i : Fin NBUCKET, ((rotateBuckets s (s.cur_minute + k)).idx - i).val < k →
      (rotateBuckets s (s.cur_minute + k)).buckets i =
        { minute := s.cur_minute + k - ((rotateBuckets s (s.cur_minute + k)).idx - i).val }) ∧
    (∀ i : Fin NBUCKET, k ≤ ((rotateBuckets s (s.cur_minute + k)).idx - i).val →
      (rotateBuckets s (s.cur_minute + k)).buckets i = s.buckets i) ∧
    (Finset.univ.filter fun i : Fin NBUCKET =>
      ((rotateBuckets s (s.cur_minute + k)).idx - i).val < k).card = min k 60 ∧
    (k < 60 → ∀ (i : Fin NBUCKET) (j : Nat), 1 ≤ j → j ≤ k → i.val = (s.idx.val + j) % 60 →
      (rotateBuckets s (s.cur_minute + k)).buckets i = { minute := s.cur_minute + j }) := by
  rw [rotateBuckets_eq_iterate]
  obtain ⟨h1, h2, h3⟩ := rotateIter_spec s k
  refine ⟨h1, h2, fun i hi => ?_, fun i hi => ?_, card_slots_behind _ k, fun hk i j hj1 hj2 hij => ?_⟩
  · rw [h3 i, if_pos hi]
  · rw [h3 i, if_neg (by omega)]
  · have hv : ((rotateStep^[k] s).idx - i).val = k - j := by
      rw [Fin.coe_sub, h2, hij]
      have := s.idx.isLt
      simp only [NBUCKET] at *
      omega
    rw [h3 i, if_pos (by omega), hv]
    congr 1
    omega

/-- C18 at the aggregator constructed at minute 7 and `k = 3`: the slots 1, 2
and 3 are reset and stamped 8, 9 and 10, and slot 4 keeps its bucket. -/
theorem C18_rotate_window_witness :
    (rotateBuckets (SvxStats.init ⟨7, 0, 0⟩) (7 + 3)).buckets 1 = { minute := 8 } ∧
    (rotateBuckets (SvxStats.init ⟨7, 0, 0⟩) (7 + 3)).buckets 3 = { minute := 10 } ∧
    (rotateBuckets (SvxStats.init ⟨7, 0, 0⟩) (7 + 3)).buckets 4
      = (SvxStats.init ⟨7, 0, 0⟩).buckets 4 :=
  ⟨(C18_rotate_window (SvxStats.init ⟨7, 0, 0⟩) 3).2.2.2.2.2 (by decide) 1 1
      (by decide) (by decide) (by decide),
   (C18_rotate_window (SvxStats.init ⟨7, 0, 0⟩) 3).2.2.2.2.2 (by decide) 3 3
      (by decide) (by decide) (by decide),
   (C18_rotate_window (SvxStats.init ⟨7, 0, 0⟩) 3).2.2.2.1 4 (by decide)⟩

/-- C19, as stated, fails: the aggregator constructed at minute 7 is reachable
and has `idx = 0` while `cur_minute mod 60 = 7`; after one recording call at
minute 8 the index is 1 while `cur_minute mod 60 = 8`, and the bucket stamped
with minute 8 by the rotation is stored at slot 1, not at slot 8. -/
theorem C19_counterexample :
    Reachable ⟨60, fun _ => []⟩ ⟨fun _ => none, fun _ => none⟩ ⟨7, 0, 0⟩
      (SvxStats.init ⟨7, 0, 0⟩) ∧
    (SvxStats.init ⟨7, 0, 0⟩).idx.val = 0 ∧
    (SvxStats.init ⟨7, 0, 0⟩).cur_minute % 60 = 7 ∧
    Reachable ⟨60, fun _ => []⟩ ⟨fun _ => none, fun _ => none⟩ ⟨7, 0, 0⟩
      (Op.cmdAccepted.run ⟨60, fun _ => []⟩ ⟨fun _ => none, fun _ => none⟩
        (SvxStats.init ⟨7, 0, 0⟩) ⟨8, 60, 60000⟩ ⟨8, 60, 60000⟩) ∧
    (Op.cmdAccepted.run ⟨60, fun _ => []⟩ ⟨fun _ => none, fun _ => none⟩
        (SvxStats.init ⟨7, 0, 0⟩) ⟨8, 60, 60000⟩ ⟨8, 60, 60000⟩).idx.val = 1 ∧
    (Op.cmdAccepted.run ⟨60, fun _ => []⟩ ⟨fun _ => none, fun _ => none⟩
        (SvxStats.init ⟨7, 0, 0⟩) ⟨8, 60, 60000⟩ ⟨8, 60, 60000⟩).cur_minute % 60 = 8 ∧
    ((Op.cmdAccepted.run ⟨60, fun _ => []⟩ ⟨fun _ => none, fun _ => none⟩
        (SvxStats.init ⟨7, 0, 0⟩) ⟨8, 60, 60000⟩ ⟨8, 60, 60000⟩).buckets 1).minute = 8 ∧
    ((Op.cmdAccepted.run ⟨60, fun _ => []⟩ ⟨fun _ => none, fun _ => none⟩
        (SvxStats.init ⟨7, 0, 0⟩) ⟨8, 60, 60000⟩ ⟨8, 60, 60000⟩).buckets 8).minute = 7 :=
  ⟨Reachable.init, by decide, by decide, Reachable.step _ _ _ _ Reachable.init,
    by decide, by decide, by decide, by decide⟩

/-- C19, amended: in every aggregator state reachable from the one constructed
at minute `m0`, the ring is indexed by the minutes elapsed since `m0`, modulo
60: `m0 ≤ cur_minute`, the current slot index `idx` equals
`(cur_minute - m0) mod 60`, and every slot `i` either still carries the
construction stamp `m0` or carries the stamp `m > m0` of a rotation with
`(m - m0) mod 60 = i`. -/
theorem C19_ring_indexing (env : Env) (ps : Parsers) (t0 : Clock) (s : SvxStats)
    (h : Reachable env ps t0 s) :
    t0.minute ≤ s.cur_minute ∧
    s.idx.val = (s.cur_minute - t0.minute) % 60 ∧
    ∀ i : Fin NBUCKET,
      (s.buckets i).minute = t0.minute ∨
      (t0.minute < (s.buckets i).minute ∧ ((s.buckets i).minute - t0.minute) % 60 = i.val) := by
  have key : RingInv t0.minute (ring s) := by
    induction h with
    | init => exact RingInv_init t0
    | step s op t1 t2 _ ih => exact RingInv_run env ps t0.minute s t1 t2 op ih
  exact key

/-- C19, amended, at the state one recording call at minute 8 after
construction at minute 7: the index is `(8 - 7) mod 60`. -/
theorem C19_ring_indexing_witness :
    (Op.cmdAccepted.run ⟨60, fun _ => []⟩ ⟨fun _ => none, fun _ => none⟩
        (SvxStats.init ⟨7, 0, 0⟩) ⟨8, 60, 60000⟩ ⟨8, 60, 60000⟩).idx.val
      = ((Op.cmdAccepted.run ⟨60, fun _ => []⟩ ⟨fun _ => none, fun _ => none⟩
        (SvxStats.init ⟨7, 0, 0⟩) ⟨8, 60, 60000⟩ ⟨8, 60, 60000⟩).cur_minute - 7) % 60 :=
  (C19_ring_indexing ⟨60, fun _ => []⟩ ⟨fun _ => none, fun _ => none⟩ ⟨7, 0, 0⟩ _
    (Reachable.step _ _ _ _ Reachable.init)).2.1

/-- C20: for every total of seconds the duty cycle
`min(100, max(0, sec * 100 / 3600))` lies in `[0, 100]`; in particular for a
windowed total to which the elapsed time of a still active interval, however
long, has been added. -/
theorem C20_duty_cycle_bounds (sec : ℚ) (active : Bool) (t0 now_s : ℚ) :
    (0 ≤ pct sec ∧ pct sec ≤ 100) ∧
    (0 ≤ pct (add_active active t0 now_s sec) ∧ pct (add_active active t0 now_s sec) ≤ 100) := by
  have key : ∀ x : ℚ, 0 ≤ pct x ∧ pct x ≤ 100 := by
    intro x
    unfold pct
    exact ⟨le_min (by norm_num) (le_max_left _ _), min_le_left _ _⟩
  exact ⟨key _, key _⟩

/-! ## Lemmas on what the operations leave alone -/

theorem nonRing_rotateStep (s : SvxStats) : nonRing (rotateStep s) = nonRing s := rfl

theorem nonRing_rotateLoop (now_minute fuel : Nat) (s : SvxStats) :
    nonRing (rotateLoop now_minute fuel s) = nonRing s := by
  induction fuel generalizing s with
  | zero => rfl
  | succ n ih =>
    unfold rotateLoop
    split
    · rw [ih, nonRing_rotateStep]
    · rfl

theorem nonRing_rotateBuckets (s : SvxStats) (m : Nat) :
    nonRing (rotateBuckets s m) = nonRing s := by
  unfold rotateBuckets
  split
  · rfl
  · exact nonRing_rotateLoop _ _ _

theorem rotate_active (c : Cat) (s : SvxStats) (m : Nat) :
    c.active (rotateBuckets s m) = c.active s := by
  have h := nonRing_rotateBuckets s m
  cases c
  · exact (by have h2 := congrArg SvxStats.frn_tx_active h; exact h2)
  · exact (by have h2 := congrArg SvxStats.frn_rx_active h; exact h2)
  · exact (by have h2 := congrArg SvxStats.rf_tx_active h; exact h2)
  · exact (by have h2 := congrArg SvxStats.rf_rx_active h; exact h2)
  · exact (by have h2 := congrArg SvxStats.sql_active h; exact h2)

theorem rotate_t0 (c : Cat) (s : SvxStats) (m : Nat) :
    c.t0 (rotateBuckets s m) = c.t0 s := by
  have h := nonRing_rotateBuckets s m
  cases c
  · exact (by have h2 := congrArg SvxStats.frn_tx_t0 h; exact h2)
  · exact (by have h2 := congrArg SvxStats.frn_rx_t0 h; exact h2)
  · exact (by have h2 := congrArg SvxStats.rf_tx_t0 h; exact h2)
  · exact (by have h2 := congrArg SvxStats.rf_rx_t0 h; exact h2)
  · exact (by have h2 := congrArg SvxStats.sql_t0 h; exact h2)

theorem rotate_total (c : Cat) (s : SvxStats) (m : Nat) :
    c.total (rotateBuckets s m) = c.total s := by
  have h := nonRing_rotateBuckets s m
  cases c
  · exact (by have h2 := congrArg SvxStats.frn_tx_total h; exact h2)
  · exact (by have h2 := congrArg SvxStats.frn_rx_total h; exact h2)
  · exact (by have h2 := congrArg SvxStats.rf_tx_total h; exact h2)
  · exact (by have h2 := congrArg SvxStats.rf_rx_total h; exact h2)
  · exact (by have h2 := congrArg SvxStats.sql_total h; exact h2)

/-! ## Lemmas on the state reports -/

theorem rotate_cur_stamp (s : SvxStats) (m : Nat) (h : s.cur_minute < m) :
    (rotateBuckets s m).cur.minute = m := by
  obtain ⟨k, rfl⟩ : ∃ k, m = s.cur_minute + k := ⟨m - s.cur_minute, by omega⟩
  rw [rotateBuckets_eq_iterate]
  obtain ⟨_, _, h3⟩ := rotateIter_spec s k
  have hk : 0 < k := by omega
  rw [SvxStats.cur, h3, if_pos (by simpa using hk)]
  simp

theorem report_off_eq (c : Cat) (s : SvxStats) (t : Clock) (h : c.active s = true) :
    c.report s false t =
      match c with
      | .frn_tx =>
        { ({ rotateBuckets s t.minute with frn_tx_active := false } : SvxStats).modCur fun k =>
            { k with frn_tx :=
                duragg_add k.frn_tx (max 0 (t.sec - (rotateBuckets s t.minute).frn_tx_t0)) } with
          frn_tx_total := duragg_add (rotateBuckets s t.minute).frn_tx_total
            (max 0 (t.sec - (rotateBuckets s t.minute).frn_tx_t0)) }
      | .frn_rx =>
        { ({ rotateBuckets s t.minute with frn_rx_active := false } : SvxStats).modCur fun k =>
            { k with frn_rx :=
                duragg_add k.frn_rx (max 0 (t.sec - (rotateBuckets s t.minute).frn_rx_t0)) } with
          frn_rx_total := duragg_add (rotateBuckets s t.minute).frn_rx_total
            (max 0 (t.sec - (rotateBuckets s t.minute).frn_rx_t0)) }
      | .rf_tx =>
        { ({ rotateBuckets s t.minute with rf_tx_active := false } : SvxStats).modCur fun k =>
            { k with rf_tx :=
                duragg_add k.rf_tx (max 0 (t.sec - (rotateBuckets s t.minute).rf_tx_t0)) } with
          rf_tx_total := duragg_add (rotateBuckets s t.minute).rf_tx_total
            (max 0 (t.sec - (rotateBuckets s t.minute).rf_tx_t0)) }
      | .rf_rx =>
        { ({ rotateBuckets s t.minute with rf_rx_active := false } : SvxStats).modCur fun k =>
            { k with rf_rx :=
                duragg_add k.rf_rx (max 0 (t.sec - (rotateBuckets s t.minute).rf_rx_t0)) } with
          rf_rx_total := duragg_add (rotateBuckets s t.minute).rf_rx_total
            (max 0 (t.sec - (rotateBuckets s t.minute).rf_rx_t0)) }
      | .sql =>
        { ({ rotateBuckets s t.minute with sql_active := false } : SvxStats).modCur fun k =>
            { k with sql :=
                duragg_add k.sql (max 0 (t.sec - (rotateBuckets s t.minute).sql_t0)) } with
          sql_total := duragg_add (rotateBuckets s t.minute).sql_total
            (max 0 (t.sec - (rotateBuckets s t.minute).sql_t0)) } := by
  have ha := rotate_active c s t.minute
  rw [h] at ha
  cases c
  · simp only [Cat.active] at ha
    simp only [Cat.report, onFrnTxState, ha, Bool.false_and, Bool.not_false,
      Bool.true_and, Bool.false_eq_true, if_false, if_true]
    rfl
  · simp only [Cat.active] at ha
    simp only [Cat.report, onFrnRxState, ha, Bool.false_and, Bool.not_false,
      Bool.true_and, Bool.false_eq_true, if_false, if_true]
    rfl
  · simp only [Cat.active] at ha
    simp only [Cat.report, onRfTxState, ha, Bool.false_and, Bool.not_false,
      Bool.true_and, Bool.false_eq_true, if_false, if_true]
    rfl
  · simp only [Cat.active] at ha
    simp only [Cat.report, onRfRxState, ha, Bool.false_and, Bool.not_false,
      Bool.true_and, Bool.false_eq_true, if_false, if_true]
    rfl
  · simp only [Cat.active] at ha
    simp only [Cat.report, onSquelchState, ha, Bool.false_and, Bool.not_false,
      Bool.true_and, Bool.false_eq_true, if_false, if_true]
    rfl

theorem report_on_eq (c : Cat) (s : SvxStats) (t : Clock) (h : c.active s = false) :
    c.report s true t =
      match c with
      | .frn_tx => { rotateBuckets s t.minute with frn_tx_active := true, frn_tx_t0 := t.sec }
      | .frn_rx => { rotateBuckets s t.minute with frn_rx_active := true, frn_rx_t0 := t.sec }
      | .rf_tx => { rotateBuckets s t.minute with rf_tx_active := true, rf_tx_t0 := t.sec }
      | .rf_rx => { rotateBuckets s t.minute with rf_rx_active := true, rf_rx_t0 := t.sec }
      | .sql => { rotateBuckets s t.minute with sql_active := true, sql_t0 := t.sec } := by
  have ha := rotate_active c s t.minute
  rw [h] at ha
  cases c
  · simp only [Cat.active] at ha
    simp only [Cat.report, onFrnTxState, ha, Bool.true_and, Bool.not_false, if_true]
  · simp only [Cat.active] at ha
    simp only [Cat.report, onFrnRxState, ha, Bool.true_and, Bool.not_false, if_true]
  · simp only [Cat.active] at ha
    simp only [Cat.report, onRfTxState, ha, Bool.true_and, Bool.not_false, if_true]
  · simp only [Cat.active] at ha
    simp only [Cat.report, onRfRxState, ha, Bool.true_and, Bool.not_false, if_true]
  · simp only [Cat.active] at ha
    simp only [Cat.report, onSquelchState, ha, Bool.true_and, Bool.not_false, if_true]

theorem report_same_eq (c : Cat) (s : SvxStats) (b : Bool) (t : Clock) (h : c.active s = b) :
    c.report s b t = rotateBuckets s t.minute := by
  have ha := rotate_active c s t.minute
  rw [h] at ha
  cases c
  · simp only [Cat.active] at ha
    cases b <;> simp [Cat.report, onFrnTxState, ha]
  · simp only [Cat.active] at ha
    cases b <;> simp [Cat.report, onFrnRxState, ha]
  · simp only [Cat.active] at ha
    cases b <;> simp [Cat.report, onRfTxState, ha]
  · simp only [Cat.active] at ha
    cases b <;> simp [Cat.report, onRfRxState, ha]
  · simp only [Cat.active] at ha
    cases b <;> simp [Cat.report, onSquelchState, ha]

/-! ## Lemmas on the persisted fields -/

theorem applyKey_ite (ps : Parsers) (s : SvxStats) (v : Str) (c : Prop) [Decidable c]
    (a b : SvxStats) (x y : Option (Fld × Bool))
    (ha : a = applyKey ps s v x) (hb : b = applyKey ps s v y) :
    (if c then a else b) = applyKey ps s v (if c then x else y) := by
  split <;> assumption

/-- The chain of key comparisons assigns the field the key addresses. -/
theorem loadKey_eq (ps : Parsers) (s : SvxStats) (k v : Str) :
    loadKey ps s k v = applyKey ps s v (keyField k) := by
  unfold loadKey keyField
  repeat' (first | apply applyKey_ite | rfl)

theorem put_put (f : Fld) (n n2 : Nat) (q q2 : ℚ) (s : SvxStats) :
    f.put n q (f.put n2 q2 s) = f.put n q s := by
  cases f <;> rfl

theorem put_comm (f g : Fld) (h : f ≠ g) (n n2 : Nat) (q q2 : ℚ) (s : SvxStats) :
    f.put n q (g.put n2 q2 s) = g.put n2 q2 (f.put n q s) := by
  cases f <;> cases g <;> first | exact absurd rfl h | rfl

theorem getN_put_ne (f g : Fld) (h : f ≠ g) (n : Nat) (q : ℚ) (s : SvxStats) :
    g.getN (f.put n q s) = g.getN s := by
  cases f <;> cases g <;> first | exact absurd rfl h | rfl

theorem getQ_put_ne (f g : Fld) (h : f ≠ g) (n : Nat) (q : ℚ) (s : SvxStats) :
    g.getQ (f.put n q s) = g.getQ s := by
  cases f <;> cases g <;> first | exact absurd rfl h | rfl

theorem clear_put (f : Fld) (n : Nat) (q : ℚ) (s : SvxStats) :
    f.clear (f.put n q s) = f.clear s := put_put f 0 n 0 q s

theorem clear_put_congr (f g : Fld) (n : Nat) (q : ℚ) (a b : SvxStats)
    (h : f.clear a = f.clear b) : f.clear (g.put n q a) = f.clear (g.put n q b) := by
  by_cases hfg : f = g
  · subst hfg
    rw [clear_put, clear_put, h]
  · unfold Fld.clear at *
    rw [put_comm f g hfg, put_comm f g hfg, h]

theorem getN_of_clear (f g : Fld) (hfg : f ≠ g) (a b : SvxStats) (h : f.clear a = f.clear b) :
    g.getN a = g.getN b := by
  have h1 := getN_put_ne f g hfg 0 0 a
  have h2 := getN_put_ne f g hfg 0 0 b
  unfold Fld.clear at h
  rw [← h1, ← h2, h]

theorem getQ_of_clear (f g : Fld) (hfg : f ≠ g) (a b : SvxStats) (h : f.clear a = f.clear b) :
    g.getQ a = g.getQ b := by
  have h1 := getQ_put_ne f g hfg 0 0 a
  have h2 := getQ_put_ne f g hfg 0 0 b
  unfold Fld.clear at h
  rw [← h1, ← h2, h]

theorem clear_applyKey_congr (ps : Parsers) (f : Fld) (v : Str) (o : Option (Fld × Bool))
    (a b : SvxStats) (h : f.clear a = f.clear b) :
    f.clear (applyKey ps a v o) = f.clear (applyKey ps b v o) := by
  rcases o with _ | ⟨g, lg⟩
  · exact h
  · cases lg
    · simp only [applyKey]
      by_cases hfg : f = g
      · subst hfg
        rw [clear_put, clear_put, h]
      · rw [getN_of_clear f g hfg a b h, getQ_of_clear f g hfg a b h]
        exact clear_put_congr f g _ _ a b h
    · exact clear_put_congr f g _ _ a b h

theorem clear_loadLine_congr (ps : Parsers) (f : Fld) (line : Str) (a b : SvxStats)
    (h : f.clear a = f.clear b) :
    f.clear (loadLine ps a line) = f.clear (loadLine ps b line) := by
  unfold loadLine
  split
  · exact h
  · split
    · exact h
    · rw [loadKey_eq, loadKey_eq]
      exact clear_applyKey_congr ps f _ _ a b h

theorem clear_foldl_congr (ps : Parsers) (f : Fld) (ls : List Str) (a b : SvxStats)
    (h : f.clear a = f.clear b) :
    f.clear (ls.foldl (loadLine ps) a) = f.clear (ls.foldl (loadLine ps) b) := by
  induction ls generalizing a b with
  | nil => exact h
  | cons l ls ih => exact ih _ _ (clear_loadLine_congr ps f l a b h)

/-- A line changes at most the field its key addresses. -/
theorem clear_loadLine (ps : Parsers) (s : SvxStats) (line : Str) (eq : Nat) (f : Fld)
    (lg : Bool) (h1 : findChar 61 line = some eq) (h2 : keyField (line.take eq) = some (f, lg)) :
    f.clear (loadLine ps s line) = f.clear s := by
  unfold loadLine
  split
  · rfl
  · rw [h1]
    simp only
    rw [loadKey_eq, h2]
    cases lg <;> exact clear_put f _ _ s

/-- A line that is empty, has no `=`, or has an unknown key changes nothing. -/
theorem loadLine_ignored (ps : Parsers) (s : SvxStats) (line : Str)
    (h : line = [] ∨ findChar 61 line = none ∨
      ∃ eq, findChar 61 line = some eq ∧ keyField (line.take eq) = none) :
    loadLine ps s line = s := by
  unfold loadLine
  rcases h with h | h | ⟨eq, h1, h2⟩
  · subst h; rfl
  · split
    · rfl
    · rw [h]
  · split
    · rfl
    · rw [h1]
      simp only
      rw [loadKey_eq, h2]
      rfl

/-- A line with a current key whose value text does not parse changes
nothing. -/
theorem loadLine_unparsed (ps : Parsers) (s : SvxStats) (line : Str) (eq : Nat) (f : Fld)
    (h1 : findChar 61 line = some eq) (h2 : keyField (line.take eq) = some (f, false))
    (hu : ps.stoull (line.drop (eq + 1)) = none) (hd : ps.stod (line.drop (eq + 1)) = none) :
    loadLine ps s line = s := by
  unfold loadLine
  split
  · rfl
  · rw [h1]
    simp only
    rw [loadKey_eq, h2]
    simp only [applyKey, parse_u64, parse_d, hu, hd, Option.getD_none]
    cases f <;> rfl

/-! ## Lemmas on the persisted text -/

theorem unsaved_ite (c : Prop) [Decidable c] (a b : SvxStats) (r : Nat × List (ℚ × ℚ × ℚ))
    (ha : unsaved a = r) (hb : unsaved b = r) : unsaved (if c then a else b) = r := by
  split <;> assumption

theorem unsaved_loadKey (ps : Parsers) (s : SvxStats) (k v : Str) :
    unsaved (loadKey ps s k v) = unsaved s := by
  unfold loadKey
  repeat' (first | apply unsaved_ite | rfl)

theorem unsaved_loadLine (ps : Parsers) (s : SvxStats) (line : Str) :
    unsaved (loadLine ps s line) = unsaved s := by
  unfold loadLine
  split
  · rfl
  · split
    · rfl
    · exact unsaved_loadKey _ _ _ _

theorem unsaved_foldl_loadLine (ps : Parsers) (ls : List Str) (s : SvxStats) :
    unsaved (ls.foldl (loadLine ps) s) = unsaved s := by
  induction ls generalizing s with
  | nil => rfl
  | cons l ls ih => rw [List.foldl_cons, ih, unsaved_loadLine]

/-- Loading never assigns a field that has no line in the file. -/
theorem unsaved_loadPersistedTotals (ps : Parsers) (s : SvxStats) (file : Option Str) :
    unsaved (loadPersistedTotals ps s file) = unsaved s := by
  unfold loadPersistedTotals
  split
  · rfl
  · cases file with
    | none => rfl
    | some text => exact unsaved_foldl_loadLine ps _ s

theorem digitChar_toNat (k : Nat) (h : k < 10) : (Nat.digitChar k).toNat = 48 + k := by
  interval_cases k <;> rfl

theorem toDigitsCore_append (fuel n : Nat) (ds : List Char) :
    Nat.toDigitsCore 10 fuel n ds = Nat.toDigitsCore 10 fuel n [] ++ ds := by
  induction fuel generalizing n ds with
  | zero => rfl
  | succ k ih =>
    simp only [Nat.toDigitsCore]
    split
    · rfl
    · rw [ih (n / 10) (Nat.digitChar (n % 10) :: ds), ih (n / 10) [Nat.digitChar (n % 10)],
        List.append_assoc]
      rfl

/-- The digits written for `n`: a non-empty run of decimal digits whose value
is `n`. -/
theorem toDigitsCore_spec (fuel n : Nat) (h : n < fuel) :
    ((Nat.toDigitsCore 10 fuel n []).map Char.toNat).foldl (fun a c => a * 10 + (c - 48)) 0 = n ∧
    (∀ c ∈ (Nat.toDigitsCore 10 fuel n []).map Char.toNat, 48 ≤ c ∧ c ≤ 57) ∧
    (Nat.toDigitsCore 10 fuel n []).map Char.toNat ≠ [] := by
  induction fuel generalizing n with
  | zero => exact absurd h (Nat.not_lt_zero _)
  | succ k ih =>
    have hd : n % 10 < 10 := Nat.mod_lt _ (by decide)
    have hc := digitChar_toNat (n % 10) hd
    simp only [Nat.toDigitsCore]
    split
    · rename_i h0
      refine ⟨?_, ?_, by simp⟩
      · simp only [List.map_cons, List.map_nil, List.foldl_cons, List.foldl_nil, hc]
        omega
      · intro c hcm
        simp only [List.map_cons, List.map_nil, List.mem_singleton] at hcm
        omega
    · rename_i h0
      have hlt : n / 10 < k := by omega
      obtain ⟨i1, i2, _⟩ := ih (n / 10) hlt
      rw [toDigitsCore_append]
      refine ⟨?_, ?_, by simp⟩
      · simp only [List.map_append, List.foldl_append, i1, List.map_cons, List.map_nil,
          List.foldl_cons, List.foldl_nil, hc]
        omega
      · intro c hcm
        simp only [List.map_append, List.mem_append, List.map_cons, List.map_nil,
          List.mem_singleton] at hcm
        rcases hcm with hcm | hcm
        · exact i2 c hcm
        · omega

theorem decimal_digits (n : Nat) : ∀ c ∈ decimal n, 48 ≤ c ∧ c ≤ 57 :=
  (toDigitsCore_spec (n + 1) n (Nat.lt_succ_self n)).2.1

/-- The reader of decimal texts reads back what `decimal` writes. -/
theorem readDecimal_decimal (n : Nat) (h : n < 2 ^ 64) : readDecimal (decimal n) = some n := by
  obtain ⟨h1, h2, h3⟩ := toDigitsCore_spec (n + 1) n (Nat.lt_succ_self n)
  have hall : (decimal n).all (fun c => decide (48 ≤ c ∧ c ≤ 57)) = true := by
    rw [List.all_eq_true]
    intro c hc
    exact decide_eq_true (h2 c hc)
  have hv : (decimal n).foldl (fun a c => a * 10 + (c - 48)) 0 = n := h1
  have hne : decimal n ≠ [] := h3
  unfold readDecimal
  rw [if_pos ⟨hne, hall⟩, hv, if_pos h]

theorem getlines_cons (l rest : Str) (h : 10 ∉ l) :
    getlines (l ++ 10 :: rest) = l :: getlines rest := by
  have hs : (l ++ 10 :: rest).splitOn 10 = l :: rest.splitOn 10 := by
    unfold List.splitOn
    apply List.splitOnP_first
    · intro x hx
      simp only [beq_iff_eq]
      intro e
      exact h (e ▸ hx)
    · simp
  have hne : rest.splitOn 10 ≠ [] := List.splitOnP_ne_nil _ _
  unfold getlines
  simp only [hs]
  obtain ⟨p, ps, hp⟩ := List.exists_cons_of_ne_nil hne
  rw [hp] at *
  rw [List.getLast?_cons_cons]
  split
  · rw [List.dropLast_cons₂]
  · rfl

theorem getlines_flatten (ls : List Str) (h : ∀ l ∈ ls, 10 ∉ l) :
    getlines ((ls.map (· ++ lit "\n")).flatten) = ls := by
  induction ls with
  | nil => rfl
  | cons l ls ih =>
    have e : ((l :: ls).map (· ++ lit "\n")).flatten =
        l ++ 10 :: (ls.map (· ++ lit "\n")).flatten := by
      simp only [List.map_cons, List.flatten_cons, List.append_assoc]
      rfl
    rw [e, getlines_cons l _ (h l (List.mem_cons_self _ _)),
      ih (fun l2 hl2 => h l2 (List.mem_cons_of_mem _ hl2))]

theorem persistedLines_no_lf (general : ℚ → Str) (s : SvxStats) (hg : ∀ x, 10 ∉ general x) :
    ∀ l ∈ persistedLines general s, 10 ∉ l := by
  have hd : ∀ n, 10 ∉ decimal n := fun n hm => by
    have := decimal_digits n 10 hm
    omega
  intro l hl
  simp only [persistedLines, List.mem_cons, List.mem_singleton, List.not_mem_nil, or_false] at hl
  rcases hl with h | h | h | h | h | h | h | h | h | h | h | h | h | h | h | h | h | h <;>
    subst h <;>
    simp only [List.mem_append, not_or] <;>
    first
      | exact ⟨by decide, hg _⟩
      | exact ⟨by decide, hd _⟩

/-- What is read from the text written by `savePersistedTotals` is its lines. -/
theorem getlines_persistedText (general : ℚ → Str) (s : SvxStats) (hg : ∀ x, 10 ∉ general x) :
    getlines (persistedText general s) = persistedLines general s :=
  getlines_flatten _ (persistedLines_no_lf general s hg)

/-! ## Save then load: claim C21 -/

/-- The state loaded from the lines written for `s`, field by field. -/
theorem load_persistedLines (ps : Parsers) (general : ℚ → Str) (s : SvxStats) (t : Clock)
    (path : Str) (f : Fld) :
    f.getN ((persistedLines general s).foldl (loadLine ps)
      (setPersistPath (SvxStats.init t) path)) =
      (if f.isSec then 0 else parse_u64 ps (decimal (f.getN s)) 0) ∧
    f.getQ ((persistedLines general s).foldl (loadLine ps)
      (setPersistPath (SvxStats.init t) path)) =
      (if f.isSec then parse_d ps (general (f.getQ s)) 0 else 0) := by
  cases f <;> exact ⟨rfl, rfl⟩

/-- The aggregator state used against C21: one command execution time of
250 ms and one squelch interval of 15 s. -/
theorem savedState_facts :
    (onSquelchState (onSquelchState
      (onCmdExecTimeMs (setPersistPath (SvxStats.init ⟨7, 0, 0⟩) (lit "/var/lib/svxlink/stats"))
        250 7) true ⟨7, 10, 10000⟩) false ⟨7, 25, 25000⟩).persist_path.isEmpty = false ∧
    (onSquelchState (onSquelchState
      (onCmdExecTimeMs (setPersistPath (SvxStats.init ⟨7, 0, 0⟩) (lit "/var/lib/svxlink/stats"))
        250 7) true ⟨7, 10, 10000⟩) false ⟨7, 25, 25000⟩).cmd_total.sum_ms = 250 := by
  refine ⟨by decide, by decide⟩

set_option maxRecDepth 100000 in
/-- C21 refuted as stated: an aggregator records one command execution time of
250 ms and one squelch interval of 15 s. Its execution-time count is 1 and the
largest squelch sample is 15 s. The text written for it (the double 15 written
as `15`, the double 0 as `0`) has no line for either field, so the state
loaded from that text into a fresh aggregator has the execution-time count 0
and the largest squelch sample 0, while the sum of the execution times, which
has a line, is read back as 250. -/
theorem C21_counterexample :
    (onSquelchState (onSquelchState
      (onCmdExecTimeMs (setPersistPath (SvxStats.init ⟨7, 0, 0⟩) (lit "/var/lib/svxlink/stats"))
        250 7) true ⟨7, 10, 10000⟩) false ⟨7, 25, 25000⟩).cmd_total.cnt_ms = 1 ∧
    (onSquelchState (onSquelchState
      (onCmdExecTimeMs (setPersistPath (SvxStats.init ⟨7, 0, 0⟩) (lit "/var/lib/svxlink/stats"))
        250 7) true ⟨7, 10, 10000⟩) false ⟨7, 25, 25000⟩).sql_total.max_sec = 15 ∧
    (loadPersistedTotals ⟨readDecimal, fun _ => none⟩
      (setPersistPath (SvxStats.init ⟨9, 0, 0⟩) (lit "/var/lib/svxlink/stats"))
      (savePersistedTotals (fun x => if x = 15 then lit "15" else lit "0")
        (onSquelchState (onSquelchState
      (onCmdExecTimeMs (setPersistPath (SvxStats.init ⟨7, 0, 0⟩) (lit "/var/lib/svxlink/stats"))
        250 7) true ⟨7, 10, 10000⟩) false ⟨7, 25, 25000⟩) true)).cmd_total.cnt_ms = 0 ∧
    (loadPersistedTotals ⟨readDecimal, fun _ => none⟩
      (setPersistPath (SvxStats.init ⟨9, 0, 0⟩) (lit "/var/lib/svxlink/stats"))
      (savePersistedTotals (fun x => if x = 15 then lit "15" else lit "0")
        (onSquelchState (onSquelchState
      (onCmdExecTimeMs (setPersistPath (SvxStats.init ⟨7, 0, 0⟩) (lit "/var/lib/svxlink/stats"))
        250 7) true ⟨7, 10, 10000⟩) false ⟨7, 25, 25000⟩) true)).sql_total.max_sec = 0 ∧
    (loadPersistedTotals ⟨readDecimal, fun _ => none⟩
      (setPersistPath (SvxStats.init ⟨9, 0, 0⟩) (lit "/var/lib/svxlink/stats"))
      (savePersistedTotals (fun x => if x = 15 then lit "15" else lit "0")
        (onSquelchState (onSquelchState
      (onCmdExecTimeMs (setPersistPath (SvxStats.init ⟨7, 0, 0⟩) (lit "/var/lib/svxlink/stats"))
        250 7) true ⟨7, 10, 10000⟩) false ⟨7, 25, 25000⟩) true)).cmd_total.sum_ms = 250 := by
  have hu := unsaved_loadPersistedTotals ⟨readDecimal, fun _ => none⟩
      (setPersistPath (SvxStats.init ⟨9, 0, 0⟩) (lit "/var/lib/svxlink/stats"))
      (savePersistedTotals (fun x => if x = 15 then lit "15" else lit "0")
        (onSquelchState (onSquelchState
      (onCmdExecTimeMs (setPersistPath (SvxStats.init ⟨7, 0, 0⟩) (lit "/var/lib/svxlink/stats"))
        250 7) true ⟨7, 10, 10000⟩) false ⟨7, 25, 25000⟩) true)
  refine ⟨by decide, ?_, congrArg Prod.fst hu, ?_, ?_⟩
  · norm_num [onSquelchState, onCmdExecTimeMs, setPersistPath, rotateBuckets, SvxStats.init,
      duragg_add, SvxStats.modCur]
  · have h2 := congrArg (fun p => (p.2.getD 4 (1, 1, 1)).2.1) hu
    exact h2
  · have hg : ∀ x : ℚ, 10 ∉ (fun x => if x = 15 then lit "15" else lit "0") x := by
      intro x
      dsimp only
      split <;> decide
    obtain ⟨hp, hs⟩ := savedState_facts
    have hsave : savePersistedTotals (fun x => if x = 15 then lit "15" else lit "0")
        (onSquelchState (onSquelchState
      (onCmdExecTimeMs (setPersistPath (SvxStats.init ⟨7, 0, 0⟩) (lit "/var/lib/svxlink/stats"))
        250 7) true ⟨7, 10, 10000⟩) false ⟨7, 25, 25000⟩) true =
        some (persistedText (fun x => if x = 15 then lit "15" else lit "0")
          (onSquelchState (onSquelchState
      (onCmdExecTimeMs (setPersistPath (SvxStats.init ⟨7, 0, 0⟩) (lit "/var/lib/svxlink/stats"))
        250 7) true ⟨7, 10, 10000⟩) false ⟨7, 25, 25000⟩)) := by
      unfold savePersistedTotals
      rw [hp]
      rfl
    rw [hsave]
    have hl : ∀ (s0 : SvxStats) (tx : Str), s0.persist_path.isEmpty = false →
        loadPersistedTotals ⟨readDecimal, fun _ => none⟩ s0 (some tx) =
          (getlines tx).foldl (loadLine ⟨readDecimal, fun _ => none⟩) s0 := by
      intro s0 tx h0
      unfold loadPersistedTotals
      rw [h0]
      rfl
    rw [hl _ _ (by decide), getlines_persistedText _ _ hg]
    have h3 := (load_persistedLines ⟨readDecimal, fun _ => none⟩ (fun x => if x = 15 then lit "15" else lit "0")
      (onSquelchState (onSquelchState
      (onCmdExecTimeMs (setPersistPath (SvxStats.init ⟨7, 0, 0⟩) (lit "/var/lib/svxlink/stats"))
        250 7) true ⟨7, 10, 10000⟩) false ⟨7, 25, 25000⟩) ⟨9, 0, 0⟩ (lit "/var/lib/svxlink/stats") Fld.cmd_sum_ms).1
    simp only [Fld.getN, Fld.isSec, Bool.false_eq_true, if_false] at h3
    rw [h3, hs]
    decide

/-- C21, amended: let `text` be what `savePersistedTotals` writes for a state
`s`, and load it into a fresh aggregator with a persist path. Provided the
rendering of a double holds no line feed, `std::stoull` reads back the decimal
text of every value below `2 ^ 64`, and the counters of `s` are below `2 ^ 64`:
each of the thirteen persisted counters (the five event counts, the four
command outcome counters, the sum and the maximum of the execution times, the
two byte totals) is reproduced exactly; each of the five totals of seconds
comes back as what `std::stod` reads from its rendering (0 if it reads
nothing), so exactly when `std::stod` reads the rendering back as the value;
and the fields without a line (the execution-time count and the smallest
sample, largest sample and sum of samples of each duration aggregate) are not
reproduced: they keep the value 0 of the fresh aggregator. -/
theorem C21_roundtrip (ps : Parsers) (general : ℚ → Str) (s : SvxStats) (t : Clock)
    (path text : Str) (writable : Bool)
    (hsave : savePersistedTotals general s writable = some text)
    (hpath : path ≠ [])
    (hg : ∀ x, 10 ∉ general x)
    (hu : ∀ n, n < 2 ^ 64 → ps.stoull (decimal n) = some n)
    (hb : ∀ f : Fld, f.getN s < 2 ^ 64) :
    (∀ f : Fld,
      f.getN (loadPersistedTotals ps (setPersistPath (SvxStats.init t) path) (some text)) =
        f.getN s) ∧
    (∀ f : Fld,
      f.getQ (loadPersistedTotals ps (setPersistPath (SvxStats.init t) path) (some text)) =
        if f.isSec then parse_d ps (general (f.getQ s)) 0 else 0) ∧
    (∀ f : Fld, ps.stod (general (f.getQ s)) = some (f.getQ s) →
      f.getQ (loadPersistedTotals ps (setPersistPath (SvxStats.init t) path) (some text)) =
        f.getQ s) ∧
    unsaved (loadPersistedTotals ps (setPersistPath (SvxStats.init t) path) (some text)) =
      (0, List.replicate 5 (0, 0, 0)) := by
  have htext : text = persistedText general s := by
    unfold savePersistedTotals at hsave
    split at hsave
    · exact absurd hsave (by simp)
    · split at hsave
      · exact absurd hsave (by simp)
      · exact (Option.some.inj hsave).symm
  have hp : (setPersistPath (SvxStats.init t) path).persist_path.isEmpty = false := by
    cases path with
    | nil => exact absurd rfl hpath
    | cons a l => rfl
  have hl : loadPersistedTotals ps (setPersistPath (SvxStats.init t) path) (some text) =
      (persistedLines general s).foldl (loadLine ps)
        (setPersistPath (SvxStats.init t) path) := by
    unfold loadPersistedTotals
    rw [hp, htext]
    simp only [Bool.false_eq_true, if_false]
    rw [getlines_persistedText general s hg]
  have hN : ∀ f : Fld,
      f.getN (loadPersistedTotals ps (setPersistPath (SvxStats.init t) path) (some text)) =
        f.getN s := by
    intro f
    rw [hl, (load_persistedLines ps general s t path f).1]
    split
    · rename_i hs
      cases f <;> first | rfl | exact absurd hs Bool.noConfusion
    · rw [parse_u64, hu _ (hb f)]
      rfl
  have hQ : ∀ f : Fld,
      f.getQ (loadPersistedTotals ps (setPersistPath (SvxStats.init t) path) (some text)) =
        if f.isSec then parse_d ps (general (f.getQ s)) 0 else 0 := by
    intro f
    rw [hl, (load_persistedLines ps general s t path f).2]
  refine ⟨hN, hQ, fun f hf => ?_, ?_⟩
  · rw [hQ f]
    split
    · rw [parse_d, hf]
      rfl
    · rename_i hs
      cases f <;> first | rfl | exact absurd rfl hs
  · rw [unsaved_loadPersistedTotals]
    rfl

set_option maxRecDepth 100000 in
/-- C21, amended, at the state after three accepted commands, written to a
writable file and loaded by the reader of decimal texts: the counter of
accepted commands comes back as 3. -/
theorem C21_roundtrip_witness :
    savePersistedTotals (fun _ => lit "0")
      (onCmdAccepted (onCmdAccepted (onCmdAccepted
        (setPersistPath (SvxStats.init ⟨7, 0, 0⟩) (lit "/var/lib/svxlink/stats")) 7) 7) 8) true =
      some (persistedText (fun _ => lit "0")
        (onCmdAccepted (onCmdAccepted (onCmdAccepted
          (setPersistPath (SvxStats.init ⟨7, 0, 0⟩) (lit "/var/lib/svxlink/stats")) 7) 7) 8)) ∧
    Fld.cmd_ok.getN (loadPersistedTotals ⟨readDecimal, fun _ => none⟩
      (setPersistPath (SvxStats.init ⟨9, 0, 0⟩) (lit "/var/lib/svxlink/stats"))
      (some (persistedText (fun _ => lit "0")
        (onCmdAccepted (onCmdAccepted (onCmdAccepted
          (setPersistPath (SvxStats.init ⟨7, 0, 0⟩) (lit "/var/lib/svxlink/stats")) 7) 7) 8)))) =
      Fld.cmd_ok.getN (onCmdAccepted (onCmdAccepted (onCmdAccepted
        (setPersistPath (SvxStats.init ⟨7, 0, 0⟩) (lit "/var/lib/svxlink/stats")) 7) 7) 8) :=
  ⟨rfl,
   (C21_roundtrip ⟨readDecimal, fun _ => none⟩ (fun _ => lit "0")
      (onCmdAccepted (onCmdAccepted (onCmdAccepted
        (setPersistPath (SvxStats.init ⟨7, 0, 0⟩) (lit "/var/lib/svxlink/stats")) 7) 7) 8)
      ⟨9, 0, 0⟩ (lit "/var/lib/svxlink/stats")
      (persistedText (fun _ => lit "0")
        (onCmdAccepted (onCmdAccepted (onCmdAccepted
          (setPersistPath (SvxStats.init ⟨7, 0, 0⟩) (lit "/var/lib/svxlink/stats")) 7) 7) 8))
      true rfl (by decide) (fun _ => by show 10 ∉ lit "0"; decide) (fun n hn => readDecimal_decimal n hn)
      (fun f => by cases f <;> decide)).1 Fld.cmd_ok⟩

/-! ## Loading ignores what it cannot use: claim C22 -/

/-- C22: let a persisted-totals file have the line `line` between the lines
`pre` and `post`, and let a second file have the lines `pre` and `post` only.
Loading the two files into the same aggregator gives states that agree on
everything except the field addressed by the key of `line` (the text before
its first `=`), whatever its value text, numeric or not; they are equal when
`line` is empty, has no `=`, or has a key that is none of the eighteen current
and six older keys. A current key with a value text that neither conversion
accepts also leaves the states equal, and an older key with such a value sets
the addressed field to 0. -/
theorem C22_line_frame (ps : Parsers) (s : SvxStats) (text text2 : Str)
    (pre post : List Str) (line : Str)
    (h1 : getlines text = pre ++ line :: post) (h2 : getlines text2 = pre ++ post) :
    (∀ eq f lg, findChar 61 line = some eq → keyField (line.take eq) = some (f, lg) →
      f.clear (loadPersistedTotals ps s (some text)) =
        f.clear (loadPersistedTotals ps s (some text2)) ∧
      ∀ g, g ≠ f →
        g.getN (loadPersistedTotals ps s (some text)) =
          g.getN (loadPersistedTotals ps s (some text2)) ∧
        g.getQ (loadPersistedTotals ps s (some text)) =
          g.getQ (loadPersistedTotals ps s (some text2))) ∧
    ((line = [] ∨ findChar 61 line = none ∨
        ∃ eq, findChar 61 line = some eq ∧ keyField (line.take eq) = none) →
      loadPersistedTotals ps s (some text) = loadPersistedTotals ps s (some text2)) ∧
    (∀ eq f, findChar 61 line = some eq → keyField (line.take eq) = some (f, false) →
      ps.stoull (line.drop (eq + 1)) = none → ps.stod (line.drop (eq + 1)) = none →
      loadPersistedTotals ps s (some text) = loadPersistedTotals ps s (some text2)) ∧
    (∀ eq f, findChar 61 line = some eq → keyField (line.take eq) = some (f, true) →
      ps.stoull (line.drop (eq + 1)) = none → ps.stod (line.drop (eq + 1)) = none →
      ∀ a, loadLine ps a line = f.clear a) := by
  have hl : ∀ tx, loadPersistedTotals ps s (some tx) =
      if s.persist_path.isEmpty then s else (getlines tx).foldl (loadLine ps) s := fun _ => rfl
  rw [hl text, hl text2, h1, h2]
  refine ⟨fun eq f lg e1 e2 => ?_, fun h => ?_, fun eq f e1 e2 hu hd => ?_,
    fun eq f e1 e2 hu hd a => ?_⟩
  · have key : f.clear (if s.persist_path.isEmpty then s
          else (pre ++ line :: post).foldl (loadLine ps) s) =
        f.clear (if s.persist_path.isEmpty then s else (pre ++ post).foldl (loadLine ps) s) := by
      split
      · rfl
      · rw [List.foldl_append, List.foldl_cons, List.foldl_append]
        exact clear_foldl_congr ps f post _ _ (clear_loadLine ps _ line eq f lg e1 e2)
    exact ⟨key, fun g hg => ⟨getN_of_clear f g (Ne.symm hg) _ _ key,
      getQ_of_clear f g (Ne.symm hg) _ _ key⟩⟩
  · rw [List.foldl_append, List.foldl_cons, List.foldl_append, loadLine_ignored ps _ line h]
  · rw [List.foldl_append, List.foldl_cons, List.foldl_append,
      loadLine_unparsed ps _ line eq f e1 e2 hu hd]
  · unfold loadLine
    split
    · rename_i he
      cases line with
      | nil => exact absurd e1 (by simp [findChar])
      | cons c cs => exact absurd he (by simp)
    · rw [e1]
      simp only
      rw [loadKey_eq, e2]
      simp only [applyKey, parse_u64, parse_d, hu, hd, Option.getD_none, zero_mul]
      rfl

/-- C22 at a file of three lines whose second line, `bogus=1`, has an unknown
key: loading it equals loading the file without that line. -/
theorem C22_line_frame_witness :
    getlines (lit "cmd_ok_total=5\nbogus=1\ncmd_rej_total=x\n") =
      [lit "cmd_ok_total=5"] ++ lit "bogus=1" :: [lit "cmd_rej_total=x"] ∧
    getlines (lit "cmd_ok_total=5\ncmd_rej_total=x\n") =
      [lit "cmd_ok_total=5"] ++ [lit "cmd_rej_total=x"] ∧
    loadPersistedTotals ⟨readDecimal, fun _ => none⟩
      (setPersistPath (SvxStats.init ⟨7, 0, 0⟩) (lit "/var/lib/svxlink/stats"))
      (some (lit "cmd_ok_total=5\nbogus=1\ncmd_rej_total=x\n")) =
    loadPersistedTotals ⟨readDecimal, fun _ => none⟩
      (setPersistPath (SvxStats.init ⟨7, 0, 0⟩) (lit "/var/lib/svxlink/stats"))
      (some (lit "cmd_ok_total=5\ncmd_rej_total=x\n")) :=
  ⟨by decide, by decide,
   (C22_line_frame ⟨readDecimal, fun _ => none⟩
      (setPersistPath (SvxStats.init ⟨7, 0, 0⟩) (lit "/var/lib/svxlink/stats"))
      (lit "cmd_ok_total=5\nbogus=1\ncmd_rej_total=x\n")
      (lit "cmd_ok_total=5\ncmd_rej_total=x\n")
      [lit "cmd_ok_total=5"] [lit "cmd_rej_total=x"] (lit "bogus=1")
      (by decide) (by decide)).2.1
      (Or.inr (Or.inr ⟨5, by decide, by decide⟩))⟩

/-! ## Lemmas on the event counts of the ring -/

theorem sum_countP_slots (m0 : Nat) (p : Nat → Bool) (log : List Nat) :
    (Finset.univ.sum fun i : Fin NBUCKET =>
      log.countP fun m => decide (p m = true ∧ (m - m0) % 60 = i.val)) = log.countP p := by
  induction log with
  | nil => simp
  | cons m log ih =>
    have hlt : (m - m0) % 60 < NBUCKET := Nat.mod_lt _ (by decide)
    have key : (Finset.univ.sum fun i : Fin NBUCKET =>
        if decide (p m = true ∧ (m - m0) % 60 = i.val) = true then 1 else 0)
        = if p m = true then 1 else 0 := by
      rw [Finset.sum_eq_single (⟨(m - m0) % 60, hlt⟩ : Fin NBUCKET)]
      · simp
      · intro i _ hi
        have : (m - m0) % 60 ≠ i.val := fun e => hi (Fin.ext e.symm)
        simp [this]
      · intro h; exact absurd (Finset.mem_univ _) h
    simp only [List.countP_cons, Finset.sum_add_distrib, ih, key]

theorem agg_zero (c : Cat) (m : Nat) : (c.agg { minute := m }).evt = 0 := by
  cases c <;> rfl

theorem EvtInv_rotateStep (c : Cat) (m0 : Nat) (s : SvxStats) (log : List Nat)
    (h : EvtInv c m0 s log) : EvtInv c m0 (rotateStep s) log := by
  obtain ⟨h1, h2, h3, h4, h5⟩ := h
  have hidx : (s.idx + 1).val = (s.cur_minute + 1 - m0) % 60 := by
    rw [Fin.val_add, h2]
    simp only [Fin.val_one, NBUCKET]
    omega
  refine ⟨?_, ?_, ?_, ?_, ?_⟩
  · simp only [rotateStep]; omega
  · simp only [rotateStep]; exact hidx
  · intro m hm
    obtain ⟨a, b⟩ := h3 m hm
    simp only [rotateStep]
    exact ⟨a, by omega⟩
  · intro i
    by_cases hi : i = s.idx + 1
    · subst hi
      simp only [rotateStep, Function.update_same, agg_zero]
      symm
      rw [List.countP_eq_zero]
      intro m hm
      obtain ⟨a, b⟩ := h3 m hm
      simp only [decide_eq_true_eq, hidx]
      omega
    · have hv : i.val ≠ (s.cur_minute + 1 - m0) % 60 := fun e => hi (Fin.ext (e.trans hidx.symm))
      simp only [rotateStep, Function.update_noteq hi, h4 i]
      apply List.countP_congr
      intro m hm
      obtain ⟨a, b⟩ := h3 m hm
      simp only [decide_eq_true_eq]
      omega
  · cases c <;> exact h5

theorem EvtInv_rotateBuckets (c : Cat) (m0 : Nat) (s : SvxStats) (log : List Nat) (m : Nat)
    (h : EvtInv c m0 s log) : EvtInv c m0 (rotateBuckets s m) log := by
  by_cases hm : m ≤ s.cur_minute
  · rw [rotateBuckets_of_le _ _ hm]; exact h
  · obtain ⟨k, rfl⟩ : ∃ k, m = s.cur_minute + k := ⟨m - s.cur_minute, by omega⟩
    rw [rotateBuckets_eq_iterate]
    clear hm
    induction k with
    | zero => exact h
    | succ n ih =>
      rw [Function.iterate_succ_apply']
      exact EvtInv_rotateStep c m0 _ log ih

theorem EvtInv_commit (c : Cat) (m0 : Nat) (s : SvxStats) (t : Clock) (log : List Nat)
    (h : EvtInv c m0 s log) (ha : c.active s = true) :
    EvtInv c m0 (c.report s false t) (log ++ [max s.cur_minute t.minute]) := by
  have hr := EvtInv_rotateBuckets c m0 s log t.minute h
  have hcm := rotateBuckets_cur_minute s t.minute
  have hq := report_off_eq c s t ha
  obtain ⟨h1, h2, h3, h4, h5⟩ := hr
  have hcur : (c.report s false t).cur_minute = (rotateBuckets s t.minute).cur_minute := by
    rw [hq]; cases c <;> rfl
  have hbk : ∀ i, (c.agg ((c.report s false t).buckets i)).evt =
      (c.agg ((rotateBuckets s t.minute).buckets i)).evt +
        if i = (rotateBuckets s t.minute).idx then 1 else 0 := by
    intro i
    rw [hq]
    by_cases hi : i = (rotateBuckets s t.minute).idx
    · subst hi
      cases c <;> simp [SvxStats.modCur, Cat.agg, duragg_add]
    · cases c <;> simp [SvxStats.modCur, Cat.agg, Function.update_noteq hi, hi]
  have htot : (c.total (c.report s false t)).evt =
      (c.total (rotateBuckets s t.minute)).evt + 1 := by
    rw [hq]; cases c <;> rfl
  have hidx : (c.report s false t).idx = (rotateBuckets s t.minute).idx := by
    rw [hq]; cases c <;> rfl
  refine ⟨by rw [hcur]; exact h1, by rw [hcur, hidx]; exact h2, ?_, ?_, ?_⟩
  · intro m hm
    rw [hcur]
    rcases List.mem_append.1 hm with hm | hm
    · exact h3 m hm
    · rw [List.mem_singleton] at hm
      subst hm
      rw [← hcm]
      exact ⟨h1, le_refl _⟩
  · intro i
    rw [hbk i, h4 i, hcur, List.countP_append, ← hcm]
    congr 1
    by_cases hi : i = (rotateBuckets s t.minute).idx
    · subst hi
      simp [List.countP_cons, h2]
    · have hv : (rotateBuckets s t.minute).idx.val ≠ i.val := fun e => hi (Fin.ext e.symm)
      rw [h2] at hv
      simp [List.countP_cons, hi, hv]
  · rw [htot, h5, List.length_append]
    rfl

theorem EvtInv_on (c : Cat) (m0 : Nat) (s : SvxStats) (t : Clock) (log : List Nat)
    (h : EvtInv c m0 s log) (ha : c.active s = false) :
    EvtInv c m0 (c.report s true t) log := by
  have hr := EvtInv_rotateBuckets c m0 s log t.minute h
  rw [report_on_eq c s t ha]
  cases c <;> exact hr

theorem EvtInv_same (c : Cat) (m0 : Nat) (s : SvxStats) (b : Bool) (t : Clock) (log : List Nat)
    (h : EvtInv c m0 s log) (ha : c.active s = b) :
    EvtInv c m0 (c.report s b t) log := by
  rw [report_same_eq c s b t ha]
  exact EvtInv_rotateBuckets c m0 s log t.minute h

theorem report_cur_minute (c : Cat) (s : SvxStats) (b : Bool) (t : Clock) :
    (c.report s b t).cur_minute = max s.cur_minute t.minute := by
  rw [← rotateBuckets_cur_minute]
  cases hb : b <;> cases ha : c.active s
  · rw [report_same_eq c s false t ha]
  · rw [report_off_eq c s t ha]; cases c <;> rfl
  · rw [report_on_eq c s t ha]; cases c <;> rfl
  · rw [report_same_eq c s true t ha]

theorem report_active (c : Cat) (s : SvxStats) (b : Bool) (t : Clock) :
    c.active (c.report s b t) = b := by
  cases hb : b <;> cases ha : c.active s
  · rw [report_same_eq c s false t ha, rotate_active, ha]
  · rw [report_off_eq c s t ha]; cases c <;> rfl
  · rw [report_on_eq c s t ha]; cases c <;> rfl
  · rw [report_same_eq c s true t ha, rotate_active, ha]

theorem EvtInv_runReports (c : Cat) (m0 : Nat) (rs : List (Bool × Clock)) (s : SvxStats)
    (log : List Nat) (h : EvtInv c m0 s log) :
    EvtInv c m0 (runReports c s rs) (log ++ commits (c.active s) s.cur_minute rs) := by
  induction rs generalizing s log with
  | nil => simpa [runReports, commits] using h
  | cons r rs ih =>
    obtain ⟨b, t⟩ := r
    have e : runReports c s ((b, t) :: rs) = runReports c (c.report s b t) rs := rfl
    rw [e]
    cases hb : b <;> cases ha : c.active s
    · have h2 := ih _ log (EvtInv_same c m0 s false t log h ha)
      rw [report_active, report_cur_minute] at h2
      simpa [commits] using h2
    · have h2 := ih _ _ (EvtInv_commit c m0 s t log h ha)
      rw [report_active, report_cur_minute] at h2
      simpa [commits] using h2
    · have h2 := ih _ log (EvtInv_on c m0 s t log h ha)
      rw [report_active, report_cur_minute] at h2
      simpa [commits] using h2
    · have h2 := ih _ log (EvtInv_same c m0 s true t log h ha)
      rw [report_active, report_cur_minute] at h2
      simpa [commits] using h2

theorem EvtInv_init (c : Cat) (t0 : Clock) : EvtInv c t0.minute (SvxStats.init t0) [] := by
  refine ⟨le_refl _, ?_, ?_, ?_, ?_⟩
  · simp [SvxStats.init]
  · intro m hm; exact absurd hm (List.not_mem_nil _)
  · intro i; cases c <;> rfl
  · cases c <;> rfl

theorem runReports_cur_minute (c : Cat) (rs : List (Bool × Clock)) (s : SvxStats) :
    (runReports c s rs).cur_minute = rs.foldl (fun m r => max m r.2.minute) s.cur_minute := by
  induction rs generalizing s with
  | nil => rfl
  | cons r rs ih =>
    have e : runReports c s (r :: rs) = runReports c (c.report s r.1 r.2) rs := rfl
    rw [e, ih, report_cur_minute]
    rfl

theorem foldl_max_lt (rs : List (Bool × Clock)) (m b : Nat) (hm : m < b)
    (h : ∀ r ∈ rs, r.2.minute < b) : rs.foldl (fun m r => max m r.2.minute) m < b := by
  induction rs generalizing m with
  | nil => exact hm
  | cons r rs ih =>
    simp only [List.foldl_cons]
    apply ih
    · exact max_lt hm (h r (List.mem_cons_self _ _))
    · intro r2 hr2; exact h r2 (List.mem_cons_of_mem _ hr2)

/-! ## Events held by the ring: claim C23 -/

set_option maxRecDepth 100000 in
/-- C23 refuted as stated: the squelch opens and closes within minute 7 (one
off report while active), and the next report, an off report while inactive,
comes at minute 67. Its rotation resets all 60 buckets, so the event counts of
the ring sum to 0 while one off report arrived while the category was active;
no interval is open. -/
theorem C23_counterexample :
    ringEvents .sql (runReports .sql (SvxStats.init ⟨7, 0, 0⟩)
      [(true, ⟨7, 10, 10000⟩), (false, ⟨7, 20, 20000⟩), (false, ⟨67, 3620, 3620000⟩)]) = 0 ∧
    (commits false 7
      [(true, ⟨7, 10, 10000⟩), (false, ⟨7, 20, 20000⟩), (false, ⟨67, 3620, 3620000⟩)]).length
      = 1 ∧
    Cat.sql.active (runReports .sql (SvxStats.init ⟨7, 0, 0⟩)
      [(true, ⟨7, 10, 10000⟩), (false, ⟨7, 20, 20000⟩), (false, ⟨67, 3620, 3620000⟩)])
      = false := by
  refine ⟨?_, ?_, ?_⟩
  · decide
  · decide
  · decide

/-- C23, amended: for every list of on/off reports of one category `c`, at any
clock readings, given to an aggregator constructed at clock reading `t0`: the
lifetime event count of `c` equals the number of off reports that arrived
while `c` was active; the event counts of `c` over the 60 ring buckets sum to
the number of those off reports recorded in the last 60 minutes (recorded at a
minute `m` with `cur_minute < m + 60`, where `cur_minute` is the latest minute
read); so the ring sum never exceeds the number of off reports while active,
and equals it as long as every report comes less than 60 minutes after the
minute of construction. An interval that is still open adds the same 1 to both
sides and is left out. -/
theorem C23_ring_events (c : Cat) (t0 : Clock) (rs : List (Bool × Clock)) :
    (c.total (runReports c (SvxStats.init t0) rs)).evt =
      (commits false t0.minute rs).length ∧
    (runReports c (SvxStats.init t0) rs).cur_minute =
      rs.foldl (fun m r => max m r.2.minute) t0.minute ∧
    ringEvents c (runReports c (SvxStats.init t0) rs) =
      (commits false t0.minute rs).countP
        (fun m => decide ((runReports c (SvxStats.init t0) rs).cur_minute < m + 60)) ∧
    ringEvents c (runReports c (SvxStats.init t0) rs) ≤ (commits false t0.minute rs).length ∧
    ((∀ r ∈ rs, r.2.minute < t0.minute + 60) →
      ringEvents c (runReports c (SvxStats.init t0) rs) =
        (commits false t0.minute rs).length) := by
  have hinv := EvtInv_runReports c t0.minute rs (SvxStats.init t0) [] (EvtInv_init c t0)
  have ha : c.active (SvxStats.init t0) = false := by cases c <;> rfl
  have hc : (SvxStats.init t0).cur_minute = t0.minute := rfl
  rw [ha, hc, List.nil_append] at hinv
  obtain ⟨h1, h2, h3, h4, h5⟩ := hinv
  have hcur := runReports_cur_minute c rs (SvxStats.init t0)
  rw [hc] at hcur
  have hring : ringEvents c (runReports c (SvxStats.init t0) rs) =
      (commits false t0.minute rs).countP
        (fun m => decide ((runReports c (SvxStats.init t0) rs).cur_minute < m + 60)) := by
    rw [← sum_countP_slots t0.minute]
    unfold ringEvents
    apply Finset.sum_congr rfl
    intro i _
    rw [h4 i]
    apply List.countP_congr
    intro m _
    simp
  refine ⟨h5, hcur, hring, ?_, fun hlt => ?_⟩
  · rw [hring]; exact List.countP_le_length _
  · rw [hring, List.countP_eq_length]
    intro m hm
    have hb := foldl_max_lt rs t0.minute (t0.minute + 60) (by omega) hlt
    rw [← hcur] at hb
    have := (h3 m hm).1
    simp only [decide_eq_true_eq]
    omega

set_option maxRecDepth 100000 in
/-- C23, amended, at the squelch opened and closed twice, at minutes 7 and 9
after construction at minute 7: both events are in the ring. -/
theorem C23_ring_events_witness :
    (∀ r ∈ [((true, ⟨7, 10, 10000⟩) : Bool × Clock), (false, ⟨7, 20, 20000⟩),
      (true, ⟨9, 130, 130000⟩), (false, ⟨9, 140, 140000⟩)], r.2.minute < 7 + 60) ∧
    ringEvents .sql (runReports .sql (SvxStats.init ⟨7, 0, 0⟩)
      [(true, ⟨7, 10, 10000⟩), (false, ⟨7, 20, 20000⟩),
       (true, ⟨9, 130, 130000⟩), (false, ⟨9, 140, 140000⟩)]) =
      (commits false 7
        [(true, ⟨7, 10, 10000⟩), (false, ⟨7, 20, 20000⟩),
         (true, ⟨9, 130, 130000⟩), (false, ⟨9, 140, 140000⟩)]).length :=
  ⟨by decide,
   (C23_ring_events .sql ⟨7, 0, 0⟩
      [(true, ⟨7, 10, 10000⟩), (false, ⟨7, 20, 20000⟩),
       (true, ⟨9, 130, 130000⟩), (false, ⟨9, 140, 140000⟩)]).2.2.2.2 (by decide)⟩

/-! ## Lemmas on the peak user count -/

theorem peakOf_nonRing (a b : SvxStats) (h : nonRing a = nonRing b) : peakOf a = peakOf b := by
  have h1 : a.frn_users_peak_1h = b.frn_users_peak_1h := by
    have h2 := congrArg SvxStats.frn_users_peak_1h h; exact h2
  have h3 : a.peak_set_minute = b.peak_set_minute := by
    have h2 := congrArg SvxStats.peak_set_minute h; exact h2
  simp only [peakOf, h1, h3]

theorem peakOf_rotateBuckets (s : SvxStats) (m : Nat) : peakOf (rotateBuckets s m) = peakOf s :=
  peakOf_nonRing _ _ (nonRing_rotateBuckets s m)

theorem users_rotateBuckets (s : SvxStats) (m : Nat) :
    (rotateBuckets s m).frn_users_cur = s.frn_users_cur := by
  have h2 := congrArg SvxStats.frn_users_cur (nonRing_rotateBuckets s m); exact h2

theorem peakOf_ite (c : Prop) [Decidable c] (a b : SvxStats) (r : Nat × Nat)
    (ha : peakOf a = r) (hb : peakOf b = r) : peakOf (if c then a else b) = r := by
  split <;> assumption

theorem peakOf_loadKey (ps : Parsers) (s : SvxStats) (k v : Str) :
    peakOf (loadKey ps s k v) = peakOf s := by
  unfold loadKey
  repeat' (first | apply peakOf_ite | rfl)

theorem peakOf_loadLine (ps : Parsers) (s : SvxStats) (line : Str) :
    peakOf (loadLine ps s line) = peakOf s := by
  unfold loadLine
  split
  · rfl
  · split
    · rfl
    · exact peakOf_loadKey _ _ _ _

theorem peakOf_foldl_loadLine (ps : Parsers) (ls : List Str) (s : SvxStats) :
    peakOf (ls.foldl (loadLine ps) s) = peakOf s := by
  induction ls generalizing s with
  | nil => rfl
  | cons l ls ih => rw [List.foldl_cons, ih, peakOf_loadLine]

theorem peakOf_loadPersistedTotals (ps : Parsers) (s : SvxStats) (file : Option Str) :
    peakOf (loadPersistedTotals ps s file) = peakOf s := by
  unfold loadPersistedTotals
  split
  · rfl
  · cases file with
    | none => rfl
    | some text => exact peakOf_foldl_loadLine ps _ s

theorem peakOf_report (c : Cat) (s : SvxStats) (b : Bool) (t : Clock) :
    peakOf (c.report s b t) = peakOf s := by
  rw [← peakOf_rotateBuckets s t.minute]
  cases hb : b <;> cases ha : c.active s
  · rw [report_same_eq c s false t ha]
  · rw [report_off_eq c s t ha]; cases c <;> rfl
  · rw [report_on_eq c s t ha]; cases c <;> rfl
  · rw [report_same_eq c s true t ha]

/-- Only the tick changes the peak and its anchor. -/
theorem peakOf_run (env : Env) (ps : Parsers) (s : SvxStats) (t1 t2 : Clock) (op : Op)
    (h : op.isTick = false) : peakOf (op.run env ps s t1 t2) = peakOf s := by
  have hr := peakOf_rotateBuckets s t1.minute
  cases op with
  | clientList l => exact hr
  | frnTxState b => exact peakOf_report .frn_tx s b t1
  | frnRxState b => exact peakOf_report .frn_rx s b t1
  | frnTxBytes n => exact hr
  | frnRxBytes n => exact hr
  | squelchState b => exact peakOf_report .sql s b t1
  | rfTxState b => exact peakOf_report .rf_tx s b t1
  | rfRxState b => exact peakOf_report .rf_rx s b t1
  | cmdAccepted => exact hr
  | cmdRejected => exact hr
  | cmdAuthFailed => exact hr
  | cmdBroadcastAttempt => exact hr
  | cmdExecTimeMs ms => exact hr
  | statsLine => exact hr
  | statsGroups => exact hr
  | tick => exact absurd h Bool.noConfusion
  | persistPath p => rfl
  | startTimer n =>
    simp only [Op.run, start]
    split <;> rfl
  | loadTotals f => exact peakOf_loadPersistedTotals ps s f

theorem peakStep (r : SvxStats) (m : Nat) :
    let a := if r.peak_set_minute + NBUCKET ≤ m then
      { r with frn_users_peak_1h := r.frn_users_cur, peak_set_minute := m } else r
    let b := if a.frn_users_cur > a.frn_users_peak_1h then
      { a with frn_users_peak_1h := a.frn_users_cur, peak_set_minute := m } else a
    b.frn_users_cur = r.frn_users_cur ∧
    b.frn_users_peak_1h =
      (if r.peak_set_minute + 60 ≤ m then r.frn_users_cur
       else max r.frn_users_peak_1h r.frn_users_cur) ∧
    b.peak_set_minute =
      (if r.peak_set_minute + 60 ≤ m ∨ r.frn_users_peak_1h < r.frn_users_cur
       then m else r.peak_set_minute) := by
  intro a b
  by_cases h1 : r.peak_set_minute + 60 ≤ m
  · have ea : a = { r with frn_users_peak_1h := r.frn_users_cur, peak_set_minute := m } :=
      if_pos h1
    have eb : b = a := if_neg (by rw [ea]; exact lt_irrefl _)
    rw [eb, ea, if_pos h1, if_pos (Or.inl h1)]
    exact ⟨rfl, rfl, rfl⟩
  · have ea : a = r := if_neg h1
    by_cases h2 : r.frn_users_peak_1h < r.frn_users_cur
    · have eb : b = { a with frn_users_peak_1h := a.frn_users_cur, peak_set_minute := m } :=
        if_pos (by rw [ea]; exact h2)
      rw [eb, ea, if_neg h1, if_pos (Or.inr h2)]
      exact ⟨rfl, (max_eq_right (le_of_lt h2)).symm, rfl⟩
    · have eb : b = a := if_neg (by rw [ea]; exact h2)
      rw [eb, ea, if_neg h1, if_neg (by tauto)]
      exact ⟨rfl, (max_eq_left (not_lt.1 h2)).symm, rfl⟩

/-- The peak, its anchor and the user count after a tick. -/
theorem onTick_peak (env : Env) (s : SvxStats) (t1 t2 : Clock) :
    (onTick env s t1 t2).frn_users_cur = s.frn_users_cur ∧
    (onTick env s t1 t2).frn_users_peak_1h =
      (if s.peak_set_minute + 60 ≤ t1.minute then s.frn_users_cur
       else max s.frn_users_peak_1h s.frn_users_cur) ∧
    (onTick env s t1 t2).peak_set_minute =
      (if s.peak_set_minute + 60 ≤ t1.minute ∨ s.frn_users_peak_1h < s.frn_users_cur
       then t1.minute else s.peak_set_minute) := by
  have hp := peakOf_rotateBuckets s t1.minute
  have hu := users_rotateBuckets s t1.minute
  simp only [peakOf, Prod.mk.injEq] at hp
  obtain ⟨hp1, hp2⟩ := hp
  obtain ⟨k1, k2, k3⟩ := peakStep (rotateBuckets s t1.minute) t1.minute
  have h := peakOf_rotateBuckets
  simp only [peakOf, Prod.mk.injEq] at h
  refine ⟨?_, ?_, ?_⟩
  · exact (users_rotateBuckets _ t2.minute).trans (k1.trans hu)
  · exact ((h _ t2.minute).1).trans (k2.trans (by rw [hu, hp1, hp2]))
  · exact ((h _ t2.minute).2).trans (k3.trans (by rw [hu, hp1, hp2]))

theorem tickSamples_append (env : Env) (ps : Parsers) (cs ds : List Call) (s : SvxStats) :
    tickSamples env ps s (cs ++ ds) =
      tickSamples env ps s cs ++ tickSamples env ps (runCalls env ps s cs) ds := by
  induction cs generalizing s with
  | nil => rfl
  | cons c cs ih =>
    have e : runCalls env ps s (c :: cs) = runCalls env ps (c.op.run env ps s c.t1 c.t2) cs := rfl
    rw [e, List.cons_append]
    simp only [tickSamples]
    rw [ih, List.append_assoc]

theorem PeakInv_mono (s : SvxStats) (log more : List (Nat × Nat)) (h : PeakInv s log) :
    PeakInv s (log ++ more) := by
  rcases h with h | ⟨p, hp, h1, h2⟩
  · exact Or.inl h
  · exact Or.inr ⟨p, List.mem_append_left _ hp, h1, h2⟩

theorem PeakInv_tick (env : Env) (s : SvxStats) (t1 t2 : Clock) (log : List (Nat × Nat))
    (h : PeakInv s log) :
    PeakInv (onTick env s t1 t2) (log ++ [(t1.minute, s.frn_users_cur)]) := by
  obtain ⟨_, k2, k3⟩ := onTick_peak env s t1 t2
  by_cases hc : s.peak_set_minute + 60 ≤ t1.minute ∨ s.frn_users_peak_1h < s.frn_users_cur
  · right
    refine ⟨(t1.minute, s.frn_users_cur), by simp, ?_, ?_⟩
    · rw [k3, if_pos hc]
    · rw [k2]
      rcases hc with hc | hc
      · rw [if_pos hc]
      · split
        · rfl
        · exact (max_eq_right (le_of_lt hc)).symm
  · have h1 : ¬ s.peak_set_minute + 60 ≤ t1.minute := fun e => hc (Or.inl e)
    have h2 : ¬ s.frn_users_peak_1h < s.frn_users_cur := fun e => hc (Or.inr e)
    have e2 : (onTick env s t1 t2).frn_users_peak_1h = s.frn_users_peak_1h := by
      rw [k2, if_neg h1]; exact max_eq_left (not_lt.1 h2)
    have e3 : (onTick env s t1 t2).peak_set_minute = s.peak_set_minute := by
      rw [k3, if_neg hc]
    rcases h with h | ⟨p, hp, p1, p2⟩
    · exact Or.inl (by rw [e2, h])
    · exact Or.inr ⟨p, List.mem_append_left _ hp, by rw [e3, p1], by rw [e2, p2]⟩

theorem PeakInv_runCalls (env : Env) (ps : Parsers) (cs : List Call) (s : SvxStats)
    (log : List (Nat × Nat)) (h : PeakInv s log) :
    PeakInv (runCalls env ps s cs) (log ++ tickSamples env ps s cs) := by
  induction cs generalizing s log with
  | nil => simpa [runCalls, tickSamples] using h
  | cons c cs ih =>
    have e : runCalls env ps s (c :: cs) = runCalls env ps (c.op.run env ps s c.t1 c.t2) cs := rfl
    rw [e]
    simp only [tickSamples, ← List.append_assoc]
    apply ih
    cases ht : c.op.isTick
    · simp only [Bool.false_eq_true, if_false, List.append_nil]
      have hp := peakOf_run env ps s c.t1 c.t2 c.op ht
      simp only [peakOf, Prod.mk.injEq] at hp
      unfold PeakInv
      rw [hp.1, hp.2]
      exact h
    · simp only [if_true]
      have eo : c.op = Op.tick := by
        cases hop : c.op <;> rw [hop] at ht <;> first | rfl | exact absurd ht Bool.noConfusion
      rw [eo]
      exact PeakInv_tick env s c.t1 c.t2 log h

/-! ## The peak user count: claim C24 -/

set_option maxRecDepth 100000 in
/-- C24 refuted as stated: an aggregator constructed at minute 1000 sees three
peers at the tick of minute 1000, two at the tick of minute 1020 and one at the
tick of minute 1060. After the tick at minute 1060 the peak is 1, although the
tick at minute 1020, within the minutes 1001 .. 1060, sampled 2: the peak was
anchored at minute 1000, and 60 minutes later it is reset to the current
count. -/
theorem C24_counterexample :
    (onTick ⟨60, fun _ => []⟩
      (runCalls ⟨60, fun _ => []⟩ ⟨fun _ => none, fun _ => none⟩ (SvxStats.init ⟨1000, 0, 0⟩)
        [⟨.clientList [lit "a", lit "b", lit "c"], ⟨1000, 1, 1000⟩, ⟨1000, 1, 1000⟩⟩,
         ⟨.tick, ⟨1000, 2, 2000⟩, ⟨1000, 2, 2000⟩⟩,
         ⟨.clientList [lit "a", lit "b"], ⟨1020, 1201, 1201000⟩, ⟨1020, 1201, 1201000⟩⟩,
         ⟨.tick, ⟨1020, 1202, 1202000⟩, ⟨1020, 1202, 1202000⟩⟩,
         ⟨.clientList [lit "a"], ⟨1060, 3601, 3601000⟩, ⟨1060, 3601, 3601000⟩⟩])
      ⟨1060, 3602, 3602000⟩ ⟨1060, 3602, 3602000⟩).frn_users_peak_1h = 1 ∧
    tickSamples ⟨60, fun _ => []⟩ ⟨fun _ => none, fun _ => none⟩ (SvxStats.init ⟨1000, 0, 0⟩)
        [⟨.clientList [lit "a", lit "b", lit "c"], ⟨1000, 1, 1000⟩, ⟨1000, 1, 1000⟩⟩,
         ⟨.tick, ⟨1000, 2, 2000⟩, ⟨1000, 2, 2000⟩⟩,
         ⟨.clientList [lit "a", lit "b"], ⟨1020, 1201, 1201000⟩, ⟨1020, 1201, 1201000⟩⟩,
         ⟨.tick, ⟨1020, 1202, 1202000⟩, ⟨1020, 1202, 1202000⟩⟩,
         ⟨.clientList [lit "a"], ⟨1060, 3601, 3601000⟩, ⟨1060, 3601, 3601000⟩⟩,
         ⟨.tick, ⟨1060, 3602, 3602000⟩, ⟨1060, 3602, 3602000⟩⟩]
      = [(1000, 3), (1020, 2), (1060, 1)] := by
  refine ⟨?_, ?_⟩
  · decide
  · decide

/-- C24, amended: the peak is kept by anchoring, not by a sliding maximum. A
tick at minute `m` leaves the current user count as it is; when the anchor
minute is 60 or more minutes old (`peak_set_minute + 60 ≤ m`) it sets the peak
to the current count, and otherwise raises the peak to the current count if
that is higher. So after every tick, following any list of calls on an
aggregator constructed at `t0`, the peak is at least the current count, and it
is the count sampled by one of the ticks so far (this one included) whose
minute `m1` is less than 60 minutes old (`m < m1 + 60`); it need not be the
largest such sample. -/
theorem C24_peak_anchor (env : Env) (ps : Parsers) (t0 : Clock) (cs : List Call)
    (t1 t2 : Clock) :
    (onTick env (runCalls env ps (SvxStats.init t0) cs) t1 t2).frn_users_cur =
      (runCalls env ps (SvxStats.init t0) cs).frn_users_cur ∧
    (onTick env (runCalls env ps (SvxStats.init t0) cs) t1 t2).frn_users_peak_1h =
      (if (runCalls env ps (SvxStats.init t0) cs).peak_set_minute + 60 ≤ t1.minute then
        (runCalls env ps (SvxStats.init t0) cs).frn_users_cur
       else max (runCalls env ps (SvxStats.init t0) cs).frn_users_peak_1h
        (runCalls env ps (SvxStats.init t0) cs).frn_users_cur) ∧
    (runCalls env ps (SvxStats.init t0) cs).frn_users_cur ≤
      (onTick env (runCalls env ps (SvxStats.init t0) cs) t1 t2).frn_users_peak_1h ∧
    ∃ p ∈ tickSamples env ps (SvxStats.init t0) (cs ++ [⟨.tick, t1, t2⟩]),
      p.2 = (onTick env (runCalls env ps (SvxStats.init t0) cs) t1 t2).frn_users_peak_1h ∧
      t1.minute < p.1 + 60 := by
  have hinv := PeakInv_runCalls env ps cs (SvxStats.init t0) [] (Or.inl rfl)
  rw [List.nil_append] at hinv
  obtain ⟨k1, k2, k3⟩ := onTick_peak env (runCalls env ps (SvxStats.init t0) cs) t1 t2
  have hs : tickSamples env ps (SvxStats.init t0) (cs ++ [⟨.tick, t1, t2⟩]) =
      tickSamples env ps (SvxStats.init t0) cs ++
        [(t1.minute, (runCalls env ps (SvxStats.init t0) cs).frn_users_cur)] := by
    rw [tickSamples_append]; rfl
  refine ⟨k1, k2, ?_, ?_⟩
  · rw [k2]
    split
    · exact le_refl _
    · exact le_max_right _ _
  · rw [hs, k2]
    by_cases h1 : (runCalls env ps (SvxStats.init t0) cs).peak_set_minute + 60 ≤ t1.minute
    · rw [if_pos h1]
      exact ⟨(t1.minute, _), by simp, rfl, by simp⟩
    · rw [if_neg h1]
      by_cases h2 : (runCalls env ps (SvxStats.init t0) cs).frn_users_peak_1h <
          (runCalls env ps (SvxStats.init t0) cs).frn_users_cur
      · rw [max_eq_right (le_of_lt h2)]
        exact ⟨(t1.minute, _), by simp, rfl, by simp⟩
      · rw [max_eq_left (not_lt.1 h2)]
        rcases hinv with h0 | ⟨p, hp, p1, p2⟩
        · refine ⟨(t1.minute, (runCalls env ps (SvxStats.init t0) cs).frn_users_cur),
            by simp, ?_, by simp⟩
          simp only
          omega
        · exact ⟨p, List.mem_append_left _ hp, p2, by rw [p1]; omega⟩

/-- C24, amended, at an aggregator constructed at minute 1000 with three peers
at the tick of minute 1000, two at the tick of minute 1020 and one at the tick
of minute 1060: after that tick the peak is at least the current count. -/
theorem C24_peak_anchor_witness :
    (runCalls ⟨60, fun _ => []⟩ ⟨fun _ => none, fun _ => none⟩ (SvxStats.init ⟨1000, 0, 0⟩)
        [⟨.clientList [lit "a", lit "b", lit "c"], ⟨1000, 1, 1000⟩, ⟨1000, 1, 1000⟩⟩,
         ⟨.tick, ⟨1000, 2, 2000⟩, ⟨1000, 2, 2000⟩⟩,
         ⟨.clientList [lit "a", lit "b"], ⟨1020, 1201, 1201000⟩, ⟨1020, 1201, 1201000⟩⟩,
         ⟨.tick, ⟨1020, 1202, 1202000⟩, ⟨1020, 1202, 1202000⟩⟩,
         ⟨.clientList [lit "a"], ⟨1060, 3601, 3601000⟩, ⟨1060, 3601, 3601000⟩⟩]).frn_users_cur ≤
    (onTick ⟨60, fun _ => []⟩
      (runCalls ⟨60, fun _ => []⟩ ⟨fun _ => none, fun _ => none⟩ (SvxStats.init ⟨1000, 0, 0⟩)
        [⟨.clientList [lit "a", lit "b", lit "c"], ⟨1000, 1, 1000⟩, ⟨1000, 1, 1000⟩⟩,
         ⟨.tick, ⟨1000, 2, 2000⟩, ⟨1000, 2, 2000⟩⟩,
         ⟨.clientList [lit "a", lit "b"], ⟨1020, 1201, 1201000⟩, ⟨1020, 1201, 1201000⟩⟩,
         ⟨.tick, ⟨1020, 1202, 1202000⟩, ⟨1020, 1202, 1202000⟩⟩,
         ⟨.clientList [lit "a"], ⟨1060, 3601, 3601000⟩, ⟨1060, 3601, 3601000⟩⟩])
      ⟨1060, 3602, 3602000⟩ ⟨1060, 3602, 3602000⟩).frn_users_peak_1h :=
  (C24_peak_anchor ⟨60, fun _ => []⟩ ⟨fun _ => none, fun _ => none⟩ ⟨1000, 0, 0⟩
    [⟨.clientList [lit "a", lit "b", lit "c"], ⟨1000, 1, 1000⟩, ⟨1000, 1, 1000⟩⟩,
     ⟨.tick, ⟨1000, 2, 2000⟩, ⟨1000, 2, 2000⟩⟩,
     ⟨.clientList [lit "a", lit "b"], ⟨1020, 1201, 1201000⟩, ⟨1020, 1201, 1201000⟩⟩,
     ⟨.tick, ⟨1020, 1202, 1202000⟩, ⟨1020, 1202, 1202000⟩⟩,
     ⟨.clientList [lit "a"], ⟨1060, 3601, 3601000⟩, ⟨1060, 3601, 3601000⟩⟩]
    ⟨1060, 3602, 3602000⟩ ⟨1060, 3602, 3602000⟩).2.2.1

/-! ## The minimum of a duration aggregate: claim C25 -/

/-- Samples that are all strictly positive keep the sentinel apart: the
minimum is positive as soon as one sample has been added. -/
theorem duragg_add_min_pos (a : DurAgg) (sec : ℚ) (hs : 0 < sec)
    (ha : a.min_sec = 0 ∨ 0 < a.min_sec) : 0 < (duragg_add a sec).min_sec := by
  simp only [duragg_add]
  split
  · exact hs
  · rename_i h
    rcases ha with h0 | hp
    · exact absurd (Or.inl h0) h
    · exact hp

/-- C25, the code at the failing input: an interval opened and closed at the
same clock second (elapsed time 0) is recorded as one event, and the minimum of
the lifetime aggregate and of the bucket aggregate stays at the sentinel 0
although `evt = 1`; a following interval of 5 seconds then overwrites the
minimum with 5, so the recorded minimum of the samples 0 and 5 is 5. On the
aggregate alone: `duragg_add` of the sample 0 to the empty aggregate gives
`evt = 1`, `min_sec = 0`, and adding the sample 5 gives `evt = 2`,
`min_sec = 5`. -/
theorem C25_zero_sample_keeps_sentinel :
    (duragg_add {} 0).evt = 1 ∧ (duragg_add {} 0).min_sec = 0 ∧
    (duragg_add (duragg_add {} 0) 5).evt = 2 ∧
    (duragg_add (duragg_add {} 0) 5).min_sec = 5 ∧
    (onFrnTxState (onFrnTxState (SvxStats.init ⟨7, 0, 0⟩) true ⟨7, 10, 10000⟩)
      false ⟨7, 10, 10000⟩).frn_tx_total.evt = 1 ∧
    (onFrnTxState (onFrnTxState (SvxStats.init ⟨7, 0, 0⟩) true ⟨7, 10, 10000⟩)
      false ⟨7, 10, 10000⟩).frn_tx_total.min_sec = 0 ∧
    (onFrnTxState (onFrnTxState (SvxStats.init ⟨7, 0, 0⟩) true ⟨7, 10, 10000⟩)
      false ⟨7, 10, 10000⟩).cur.frn_tx.min_sec = 0 ∧
    (onFrnTxState (onFrnTxState (onFrnTxState (onFrnTxState (SvxStats.init ⟨7, 0, 0⟩)
      true ⟨7, 10, 10000⟩) false ⟨7, 10, 10000⟩) true ⟨7, 20, 20000⟩)
      false ⟨7, 25, 25000⟩).frn_tx_total.min_sec = 5 := by
  refine ⟨rfl, ?_, rfl, ?_, rfl, ?_, ?_, ?_⟩
  · simp [duragg_add]
  · norm_num [duragg_add]
  · norm_num [onFrnTxState, rotateBuckets, SvxStats.init, duragg_add, SvxStats.modCur]
  · norm_num [onFrnTxState, rotateBuckets, SvxStats.init, duragg_add, SvxStats.modCur,
      SvxStats.cur]
  · norm_num [onFrnTxState, rotateBuckets, SvxStats.init, duragg_add, SvxStats.modCur]

/-! ## Summary queries leave the totals alone: claim C26 -/

theorem nonRing_runQueries (env : Env) (s : SvxStats) (qs : List (Bool × Clock)) :
    nonRing (runQueries env s qs) = nonRing s := by
  induction qs generalizing s with
  | nil => rfl
  | cons q qs ih =>
    have e : runQueries env s (q :: qs) = runQueries env (rotateBuckets s q.2.minute) qs := by
      simp only [runQueries, List.foldl_cons]
      split <;> rfl
    rw [e, ih, nonRing_rotateBuckets]

theorem nonRing_cat (c : Cat) (a b : SvxStats) (h : nonRing a = nonRing b) :
    c.total a = c.total b ∧ c.active a = c.active b ∧ c.t0 a = c.t0 b := by
  cases c
  · exact ⟨by have h2 := congrArg SvxStats.frn_tx_total h; exact h2,
      by have h2 := congrArg SvxStats.frn_tx_active h; exact h2,
      by have h2 := congrArg SvxStats.frn_tx_t0 h; exact h2⟩
  · exact ⟨by have h2 := congrArg SvxStats.frn_rx_total h; exact h2,
      by have h2 := congrArg SvxStats.frn_rx_active h; exact h2,
      by have h2 := congrArg SvxStats.frn_rx_t0 h; exact h2⟩
  · exact ⟨by have h2 := congrArg SvxStats.rf_tx_total h; exact h2,
      by have h2 := congrArg SvxStats.rf_tx_active h; exact h2,
      by have h2 := congrArg SvxStats.rf_tx_t0 h; exact h2⟩
  · exact ⟨by have h2 := congrArg SvxStats.rf_rx_total h; exact h2,
      by have h2 := congrArg SvxStats.rf_rx_active h; exact h2,
      by have h2 := congrArg SvxStats.rf_rx_t0 h; exact h2⟩
  · exact ⟨by have h2 := congrArg SvxStats.sql_total h; exact h2,
      by have h2 := congrArg SvxStats.sql_active h; exact h2,
      by have h2 := congrArg SvxStats.sql_t0 h; exact h2⟩

/-- The lifetime total and the flag of a category after its off report. -/
theorem report_off_total (c : Cat) (s : SvxStats) (t : Clock) (h : c.active s = true) :
    c.total (c.report s false t) = duragg_add (c.total s) (max 0 (t.sec - c.t0 s)) ∧
    c.active (c.report s false t) = false ∧
    c.agg (c.report s false t).cur =
      duragg_add (c.agg (rotateBuckets s t.minute).cur) (max 0 (t.sec - c.t0 s)) := by
  have ht0 := rotate_t0 c s t.minute
  have htot := rotate_total c s t.minute
  rw [report_off_eq c s t h, ← ht0, ← htot]
  refine ⟨?_, ?_, ?_⟩
  · cases c <;> rfl
  · cases c <;> rfl
  · cases c <;> simp [SvxStats.cur, SvxStats.modCur, Cat.agg, Cat.t0]

/-- C26: `formatStatsLine` and `formatStatsGroups` change nothing but the ring
(they rotate the window): after any list of summary queries `qs`, of either
kind and at any clock readings, every field outside the bucket array, the index
and the current minute is as before, in particular, for every category, the
lifetime total, the active flag and the interval start time, and also the
command and byte totals. So when a category `c` is active in `s`, it is still
active after the queries, and the off report at clock reading `t` that follows
them commits exactly one sample of `max 0 (t.sec - c.t0 s)`: the lifetime
total becomes `duragg_add (c.total s)` of that sample, which is the lifetime
total the off report gives without any query, the current bucket receives the
same sample, and the flag is cleared. -/
theorem C26_queries_do_not_commit (env : Env) (c : Cat) (s : SvxStats)
    (qs : List (Bool × Clock)) (t : Clock) (h : c.active s = true) :
    nonRing (runQueries env s qs) = nonRing s ∧
    (∀ d : Cat, d.total (runQueries env s qs) = d.total s ∧
      d.active (runQueries env s qs) = d.active s ∧
      d.t0 (runQueries env s qs) = d.t0 s) ∧
    (runQueries env s qs).cmd_total = s.cmd_total ∧
    (runQueries env s qs).frn_tx_bytes_total = s.frn_tx_bytes_total ∧
    (runQueries env s qs).frn_rx_bytes_total = s.frn_rx_bytes_total ∧
    c.total (c.report (runQueries env s qs) false t) =
      duragg_add (c.total s) (max 0 (t.sec - c.t0 s)) ∧
    c.total (c.report (runQueries env s qs) false t) = c.total (c.report s false t) ∧
    c.agg (c.report (runQueries env s qs) false t).cur =
      duragg_add (c.agg (rotateBuckets (runQueries env s qs) t.minute).cur)
        (max 0 (t.sec - c.t0 s)) ∧
    c.active (c.report (runQueries env s qs) false t) = false := by
  have hnr := nonRing_runQueries env s qs
  obtain ⟨q1, q2, q3⟩ := nonRing_cat c _ _ hnr
  have hq : c.active (runQueries env s qs) = true := by rw [q2, h]
  obtain ⟨r1, r2, r3⟩ := report_off_total c (runQueries env s qs) t hq
  obtain ⟨s1, _, _⟩ := report_off_total c s t h
  rw [q1, q3] at r1
  rw [q3] at r3
  refine ⟨hnr, fun d => nonRing_cat d _ _ hnr, ?_, ?_, ?_, r1, ?_, r3, r2⟩
  · have h2 := congrArg SvxStats.cmd_total hnr; exact h2
  · have h2 := congrArg SvxStats.frn_tx_bytes_total hnr; exact h2
  · have h2 := congrArg SvxStats.frn_rx_bytes_total hnr; exact h2
  · rw [r1, s1]

/-- C26 at the radio transmitter keyed at second 10 of minute 7, two summary
queries at minutes 8 and 9, and the off report at minute 9. -/
theorem C26_queries_do_not_commit_witness :
    Cat.rf_tx.active (onRfTxState (SvxStats.init ⟨7, 0, 0⟩) true ⟨7, 10, 10000⟩) = true ∧
    Cat.rf_tx.total (Cat.rf_tx.report
      (runQueries ⟨60, fun _ => []⟩ (onRfTxState (SvxStats.init ⟨7, 0, 0⟩) true ⟨7, 10, 10000⟩)
        [(true, ⟨8, 70, 70000⟩), (false, ⟨9, 130, 130000⟩)]) false ⟨9, 135, 135000⟩) =
      Cat.rf_tx.total (Cat.rf_tx.report
        (onRfTxState (SvxStats.init ⟨7, 0, 0⟩) true ⟨7, 10, 10000⟩) false ⟨9, 135, 135000⟩) :=
  ⟨by decide,
   (C26_queries_do_not_commit ⟨60, fun _ => []⟩ Cat.rf_tx
      (onRfTxState (SvxStats.init ⟨7, 0, 0⟩) true ⟨7, 10, 10000⟩)
      [(true, ⟨8, 70, 70000⟩), (false, ⟨9, 130, 130000⟩)] ⟨9, 135, 135000⟩
      (by decide)).2.2.2.2.2.2.1⟩

/-! ## Lemmas on the lifetime totals -/

theorem DurLe_refl (a : DurAgg) : DurLe a a := ⟨le_refl _, le_refl _, le_refl _, le_refl _⟩

theorem CmdLe_refl (a : CmdAgg) : CmdLe a a :=
  ⟨le_refl _, le_refl _, le_refl _, le_refl _, le_refl _, le_refl _, le_refl _⟩

theorem TotalsLe_refl (s : SvxStats) : TotalsLe s s :=
  ⟨DurLe_refl _, DurLe_refl _, DurLe_refl _, DurLe_refl _, DurLe_refl _, le_refl _, le_refl _,
    le_refl _, le_refl _, CmdLe_refl _⟩

theorem DurLe_add (a : DurAgg) (sec : ℚ) (h : 0 ≤ sec) : DurLe a (duragg_add a sec) := by
  refine ⟨Nat.le_succ _, ?_, ?_, ?_⟩
  · simp only [duragg_add]; linarith
  · simp only [duragg_add]
    split
    · rename_i h2; exact le_of_lt h2
    · exact le_refl _
  · simp only [duragg_add]; linarith

theorem CmdLe_add_ms (c : CmdAgg) (ms : Nat) : CmdLe c (cmdagg_add_ms c ms) := by
  refine ⟨le_refl _, le_refl _, le_refl _, le_refl _, Nat.le_add_right _ _, ?_, Nat.le_succ _⟩
  simp only [cmdagg_add_ms]
  split
  · rename_i h; exact le_of_lt h
  · exact le_refl _

/-- The lifetime totals are compared after the rotation as before it. -/
theorem TotalsLe_of_rotate (s s2 : SvxStats) (m : Nat) (h : TotalsLe (rotateBuckets s m) s2) :
    TotalsLe s s2 := by
  have hnr := nonRing_rotateBuckets s m
  have e1 : (rotateBuckets s m).frn_tx_total = s.frn_tx_total := by
    have h2 := congrArg SvxStats.frn_tx_total hnr; exact h2
  have e2 : (rotateBuckets s m).frn_rx_total = s.frn_rx_total := by
    have h2 := congrArg SvxStats.frn_rx_total hnr; exact h2
  have e3 : (rotateBuckets s m).rf_tx_total = s.rf_tx_total := by
    have h2 := congrArg SvxStats.rf_tx_total hnr; exact h2
  have e4 : (rotateBuckets s m).rf_rx_total = s.rf_rx_total := by
    have h2 := congrArg SvxStats.rf_rx_total hnr; exact h2
  have e5 : (rotateBuckets s m).sql_total = s.sql_total := by
    have h2 := congrArg SvxStats.sql_total hnr; exact h2
  have e6 : (rotateBuckets s m).frn_tx_bytes_total = s.frn_tx_bytes_total := by
    have h2 := congrArg SvxStats.frn_tx_bytes_total hnr; exact h2
  have e7 : (rotateBuckets s m).frn_rx_bytes_total = s.frn_rx_bytes_total := by
    have h2 := congrArg SvxStats.frn_rx_bytes_total hnr; exact h2
  have e8 : (rotateBuckets s m).frn_link_up_total = s.frn_link_up_total := by
    have h2 := congrArg SvxStats.frn_link_up_total hnr; exact h2
  have e9 : (rotateBuckets s m).frn_link_down_total = s.frn_link_down_total := by
    have h2 := congrArg SvxStats.frn_link_down_total hnr; exact h2
  have e10 : (rotateBuckets s m).cmd_total = s.cmd_total := by
    have h2 := congrArg SvxStats.cmd_total hnr; exact h2
  unfold TotalsLe at h ⊢
  rw [e1, e2, e3, e4, e5, e6, e7, e8, e9, e10] at h
  exact h

theorem TotalsLe_report (c : Cat) (s : SvxStats) (b : Bool) (t : Clock) :
    TotalsLe s (c.report s b t) := by
  have h0 : ∀ x : ℚ, (0 : ℚ) ≤ max 0 x := fun x => le_max_left _ _
  cases c
  all_goals
    apply TotalsLe_of_rotate s _ t.minute
    simp only [Cat.report, onFrnTxState, onFrnRxState, onRfTxState, onRfRxState, onSquelchState]
    split
    · exact TotalsLe_refl _
    · split
      · refine ⟨?_, ?_, ?_, ?_, ?_, le_refl _, le_refl _, le_refl _, le_refl _, CmdLe_refl _⟩ <;>
          first
            | exact DurLe_refl _
            | exact DurLe_add _ _ (h0 _)
      · exact TotalsLe_refl _

theorem TotalsLe_formatStatsLine (env : Env) (s : SvxStats) (t : Clock) :
    TotalsLe s (formatStatsLine env s t).1 :=
  TotalsLe_of_rotate s _ t.minute (TotalsLe_refl _)

theorem TotalsLe_formatStatsGroups (env : Env) (s : SvxStats) (t : Clock) :
    TotalsLe s (formatStatsGroups env s t).1 :=
  TotalsLe_of_rotate s _ t.minute (TotalsLe_refl _)

theorem TotalsLe_trans (a b c : SvxStats) (h1 : TotalsLe a b) (h2 : TotalsLe b c) :
    TotalsLe a c := by
  obtain ⟨⟨a1, a2, a3, a4⟩, ⟨b1, b2, b3, b4⟩, ⟨c1, c2, c3, c4⟩, ⟨d1, d2, d3, d4⟩,
    ⟨e1, e2, e3, e4⟩, f1, f2, f3, f4, g1, g2, g3, g4, g5, g6, g7⟩ := h1
  obtain ⟨⟨a1', a2', a3', a4'⟩, ⟨b1', b2', b3', b4'⟩, ⟨c1', c2', c3', c4'⟩, ⟨d1', d2', d3', d4'⟩,
    ⟨e1', e2', e3', e4'⟩, f1', f2', f3', f4', g1', g2', g3', g4', g5', g6', g7'⟩ := h2
  exact ⟨⟨le_trans a1 a1', le_trans a2 a2', le_trans a3 a3', le_trans a4 a4'⟩,
    ⟨le_trans b1 b1', le_trans b2 b2', le_trans b3 b3', le_trans b4 b4'⟩,
    ⟨le_trans c1 c1', le_trans c2 c2', le_trans c3 c3', le_trans c4 c4'⟩,
    ⟨le_trans d1 d1', le_trans d2 d2', le_trans d3 d3', le_trans d4 d4'⟩,
    ⟨le_trans e1 e1', le_trans e2 e2', le_trans e3 e3', le_trans e4 e4'⟩,
    le_trans f1 f1', le_trans f2 f2', le_trans f3 f3', le_trans f4 f4',
    le_trans g1 g1', le_trans g2 g2', le_trans g3 g3', le_trans g4 g4', le_trans g5 g5',
    le_trans g6 g6', le_trans g7 g7'⟩

theorem TotalsLe_onTick (env : Env) (s : SvxStats) (t1 t2 : Clock) :
    TotalsLe s (onTick env s t1 t2) := by
  apply TotalsLe_of_rotate s _ t1.minute
  simp only [onTick]
  refine TotalsLe_trans _ _ _ ?_ (TotalsLe_formatStatsLine env _ t2)
  split <;> split <;> exact TotalsLe_refl _

/-! ## The lifetime totals never decrease: claim C27 -/

/-- C27: every call other than `loadPersistedTotals` (the five state reports,
the two byte counters, the five command recorders, the presence snapshot, the
two summary queries, the tick, and also `setPersistPath` and `start`) leaves
every lifetime total at least at its previous value: event count, total
seconds, largest sample and sum of samples of each of the five duration
aggregates, both byte totals, both link totals, and every field of the command
aggregate (the four outcome counters, the sum, count and maximum of the
execution times). Counters are unbounded naturals here, so no wrap occurs. -/
theorem C27_totals_monotone (env : Env) (ps : Parsers) (s : SvxStats) (t1 t2 : Clock)
    (op : Op) (h : op.isLoad = false) : TotalsLe s (op.run env ps s t1 t2) := by
  cases op with
  | clientList l => exact TotalsLe_of_rotate s _ t1.minute (TotalsLe_refl _)
  | frnTxState b => exact TotalsLe_report .frn_tx s b t1
  | frnRxState b => exact TotalsLe_report .frn_rx s b t1
  | frnTxBytes n =>
    apply TotalsLe_of_rotate s _ t1.minute
    exact ⟨DurLe_refl _, DurLe_refl _, DurLe_refl _, DurLe_refl _, DurLe_refl _,
      Nat.le_add_right _ _, le_refl _, le_refl _, le_refl _, CmdLe_refl _⟩
  | frnRxBytes n =>
    apply TotalsLe_of_rotate s _ t1.minute
    exact ⟨DurLe_refl _, DurLe_refl _, DurLe_refl _, DurLe_refl _, DurLe_refl _,
      le_refl _, Nat.le_add_right _ _, le_refl _, le_refl _, CmdLe_refl _⟩
  | squelchState b => exact TotalsLe_report .sql s b t1
  | rfTxState b => exact TotalsLe_report .rf_tx s b t1
  | rfRxState b => exact TotalsLe_report .rf_rx s b t1
  | cmdAccepted =>
    apply TotalsLe_of_rotate s _ t1.minute
    exact ⟨DurLe_refl _, DurLe_refl _, DurLe_refl _, DurLe_refl _, DurLe_refl _,
      le_refl _, le_refl _, le_refl _, le_refl _,
      Nat.le_succ _, le_refl _, le_refl _, le_refl _, le_refl _, le_refl _, le_refl _⟩
  | cmdRejected =>
    apply TotalsLe_of_rotate s _ t1.minute
    exact ⟨DurLe_refl _, DurLe_refl _, DurLe_refl _, DurLe_refl _, DurLe_refl _,
      le_refl _, le_refl _, le_refl _, le_refl _,
      le_refl _, Nat.le_succ _, le_refl _, le_refl _, le_refl _, le_refl _, le_refl _⟩
  | cmdAuthFailed =>
    apply TotalsLe_of_rotate s _ t1.minute
    exact ⟨DurLe_refl _, DurLe_refl _, DurLe_refl _, DurLe_refl _, DurLe_refl _,
      le_refl _, le_refl _, le_refl _, le_refl _,
      le_refl _, le_refl _, Nat.le_succ _, le_refl _, le_refl _, le_refl _, le_refl _⟩
  | cmdBroadcastAttempt =>
    apply TotalsLe_of_rotate s _ t1.minute
    exact ⟨DurLe_refl _, DurLe_refl _, DurLe_refl _, DurLe_refl _, DurLe_refl _,
      le_refl _, le_refl _, le_refl _, le_refl _,
      le_refl _, le_refl _, le_refl _, Nat.le_succ _, le_refl _, le_refl _, le_refl _⟩
  | cmdExecTimeMs ms =>
    apply TotalsLe_of_rotate s _ t1.minute
    exact ⟨DurLe_refl _, DurLe_refl _, DurLe_refl _, DurLe_refl _, DurLe_refl _,
      le_refl _, le_refl _, le_refl _, le_refl _, CmdLe_add_ms _ ms⟩
  | statsLine => exact TotalsLe_formatStatsLine env s t1
  | statsGroups => exact TotalsLe_formatStatsGroups env s t1
  | tick => exact TotalsLe_onTick env s t1 t2
  | persistPath p => exact TotalsLe_refl _
  | startTimer n =>
    simp only [Op.run, start]
    split <;> exact TotalsLe_refl _
  | loadTotals f => exact absurd h Bool.noConfusion

/-- C27 at the recording of an accepted command one minute after the
aggregator was created. -/
theorem C27_totals_monotone_witness :
    Op.cmdAccepted.isLoad = false ∧
    TotalsLe (SvxStats.init ⟨7, 0, 0⟩)
      (Op.cmdAccepted.run ⟨60, fun _ => []⟩ ⟨fun _ => none, fun _ => none⟩
        (SvxStats.init ⟨7, 0, 0⟩) ⟨8, 60, 60000⟩ ⟨8, 60, 60000⟩) :=
  ⟨rfl, C27_totals_monotone ⟨60, fun _ => []⟩ ⟨fun _ => none, fun _ => none⟩
    (SvxStats.init ⟨7, 0, 0⟩) ⟨8, 60, 60000⟩ ⟨8, 60, 60000⟩ Op.cmdAccepted rfl⟩

/-! ## Lemmas on the `get stats` reply -/

theorem formatStatsGroups_length (env : Env) (s : SvxStats) (t : Clock) :
    (formatStatsGroups env s t).2.length = 6 := rfl

theorem statsFrames_length (env : Env) (n : Nat) (i : Nat) (gs : List Str) :
    (statsFrames env n i gs).length = gs.length := by
  induction gs generalizing i with
  | nil => rfl
  | cons g gs ih => simp [statsFrames, ih]

theorem statsFrames_getElem? (env : Env) (n : Nat) (i : Nat) (gs : List Str) (k : Nat) :
    (statsFrames env n i gs)[k]? = (gs[k]?).map (statsFrame env n (i + k)) := by
  induction gs generalizing i k with
  | nil => simp [statsFrames]
  | cons g gs ih =>
    cases k with
    | zero => simp [statsFrames]
    | succ k =>
      have e : i + 1 + k = i + (k + 1) := by omega
      simp only [statsFrames, List.getElem?_cons_succ, ih, e]

/-- The `get stats` branch of the handler: the command is counted as accepted,
the window summary is taken, and one frame per group line is sent to the
requester. -/
theorem getStats_world (env : Env) (w : World) (from_id msg : Str) (t1 t2 : Clock)
    (hp : parseAndAuthorizeCmd w.mod.run_cmd_secret from_id msg [] [] =
      ⟨true, lit "get stats", []⟩) :
    onTextMessageReceived env w from_id msg (lit "P") t1 t2 =
      { w with
        stats := (formatStatsGroups env (onCmdAccepted w.stats t1.minute) t2).1
        sent := w.sent ++
          (statsFrames env 6 0
            (formatStatsGroups env (onCmdAccepted w.stats t1.minute) t2).2).map
            fun f => (from_id, f) } := by
  have h1 : ((lit "P" : Str) != lit "P") = false := by decide
  have h2 : ((lit "get stats" : Str) == lit "get stats") = true := by decide
  have h3 : (lit "get stats" : Str).isEmpty = false := by decide
  have h4 : (formatStatsGroups env (onCmdAccepted w.stats t1.minute) t2).2.isEmpty = false := rfl
  simp only [onTextMessageReceived, hp, h1, h2, h3, h4, Bool.not_true, Bool.false_eq_true,
    if_false, if_true, Bool.and_false, Bool.not_false, Bool.false_and, Bool.true_and,
    List.isEmpty_nil]
  rfl

theorem statsFrame_pfx (env : Env) (n i : Nat) (g : Str) :
    statsFrame env n i g =
      statsPfx n i ++
        (if (statsPfx n i).length < env.FRN_TM_MAX_CHARS then
          if (stripCrLf g).length > env.FRN_TM_MAX_CHARS - (statsPfx n i).length ∧
              env.FRN_TM_MAX_CHARS - (statsPfx n i).length ≥ 3 then
            (stripCrLf g).take (env.FRN_TM_MAX_CHARS - (statsPfx n i).length - 3) ++ lit "..."
          else if (stripCrLf g).length > env.FRN_TM_MAX_CHARS - (statsPfx n i).length then
            (stripCrLf g).take (env.FRN_TM_MAX_CHARS - (statsPfx n i).length)
          else stripCrLf g
        else []) := by
  have e1 : (lit "CmdReply: " ++ lit "[" ++ decimal (i + 1) ++ lit "/" ++ decimal n ++ lit "] " : Str)
      = statsPfx n i := by
    simp [statsPfx, lit]
  have e2 : (g.filter (· != 13)).filter (· != 10) = stripCrLf g := by
    simp [stripCrLf, List.filter_filter, Bool.and_comm]
  simp only [statsFrame, e1, e2]

theorem statsPfx_six (i : Nat) (h : i < 6) : (statsPfx 6 i).length = 16 := by
  interval_cases i <;> decide

/-- The four cases of the clamp of one `get stats` frame, and its length. -/
theorem statsFrame_cases (env : Env) (n i : Nat) (g : Str) :
    ((statsPfx n i).length < env.FRN_TM_MAX_CHARS →
      (stripCrLf g).length ≤ env.FRN_TM_MAX_CHARS - (statsPfx n i).length →
      statsFrame env n i g = statsPfx n i ++ stripCrLf g) ∧
    ((statsPfx n i).length + 3 ≤ env.FRN_TM_MAX_CHARS →
      env.FRN_TM_MAX_CHARS - (statsPfx n i).length < (stripCrLf g).length →
      statsFrame env n i g = statsPfx n i ++
        (stripCrLf g).take (env.FRN_TM_MAX_CHARS - (statsPfx n i).length - 3) ++ lit "...") ∧
    ((statsPfx n i).length < env.FRN_TM_MAX_CHARS →
      env.FRN_TM_MAX_CHARS < (statsPfx n i).length + 3 →
      env.FRN_TM_MAX_CHARS - (statsPfx n i).length < (stripCrLf g).length →
      statsFrame env n i g = statsPfx n i ++
        (stripCrLf g).take (env.FRN_TM_MAX_CHARS - (statsPfx n i).length)) ∧
    (env.FRN_TM_MAX_CHARS ≤ (statsPfx n i).length → statsFrame env n i g = statsPfx n i) ∧
    ((statsPfx n i).length < env.FRN_TM_MAX_CHARS →
      (statsFrame env n i g).length ≤ env.FRN_TM_MAX_CHARS) := by
  rw [statsFrame_pfx]
  have h3 : (lit "..." : Str).length = 3 := rfl
  refine ⟨fun h1 h2 => ?_, fun h1 h2 => ?_, fun h1 h2 h4 => ?_, fun h1 => ?_, fun h1 => ?_⟩
  · rw [if_pos h1, if_neg (by omega), if_neg (by omega)]
  · rw [if_pos (by omega), if_pos ⟨h2, by omega⟩, List.append_assoc]
  · rw [if_pos h1, if_neg (by omega), if_pos h4]
  · rw [if_neg (by omega), List.append_nil]
  · rw [if_pos h1]
    split
    · simp only [List.length_append, List.length_take, h3]
      omega
    · split
      · simp only [List.length_append, List.length_take]
        omega
      · simp only [List.length_append]
        omega

theorem formatStatsGroups_lines (env : Env) (s : SvxStats) (t : Clock) :
    ∃ r0 r1 r2 r3 r4 r5 : Str,
      (formatStatsGroups env s t).2 =
        [lit "STATS uptime=" ++ r0, lit "FRN TX 1h evt=" ++ r1, lit "FRN RX 1h evt=" ++ r2,
         lit "RF TX 1h evt=" ++ r3, lit "RF RX 1h evt=" ++ r4, lit "CMD 1h ok=" ++ r5] := by
  have e1 : (lit "FRN TX 1h evt=" : Str) = lit "FRN TX" ++ lit " 1h evt=" := by decide
  have e2 : (lit "FRN RX 1h evt=" : Str) = lit "FRN RX" ++ lit " 1h evt=" := by decide
  have e3 : (lit "RF TX 1h evt=" : Str) = lit "RF TX" ++ lit " 1h evt=" := by decide
  have e4 : (lit "RF RX 1h evt=" : Str) = lit "RF RX" ++ lit " 1h evt=" := by decide
  simp only [formatStatsGroups, groupHead, List.append_assoc, e1, e2, e3, e4]
  exact ⟨_, _, _, _, _, _, rfl⟩

theorem statsFrame_budget18 (f : ℚ → Str) (r : Str) :
    statsFrame ⟨18, f⟩ 6 0 (lit "STATS uptime=" ++ r) = lit "CmdReply: [1/6] ST" := by
  have e : (lit "STATS uptime=" : Str) = 83 :: 84 :: lit "ATS uptime=" := by decide
  have p : (lit "CmdReply: " ++ lit "[" ++ decimal (0 + 1) ++ lit "/" ++ decimal 6 ++ lit "] " : Str)
      = lit "CmdReply: [1/6] " := by decide
  have pl : (lit "CmdReply: [1/6] " : Str).length = 16 := by decide
  simp only [statsFrame, p, pl, e]
  simp [List.filter_cons]
  rw [if_pos (Or.inl (by decide))]
  decide

/-! ## The `get stats` reply: claims C28 and C29 -/

/-- C28, the code at the failing input: the direct message `RunCmd: get stats`
(no secret configured) is authorised as the command `get stats`, and the
handler hands six text messages to the requester, one per group line, where
the comment at the head of the branch asks for a single packet. -/
theorem C28_six_frames :
    parseAndAuthorizeCmd [] (lit "peer1") (lit "RunCmd: get stats") [] []
      = ⟨true, lit "get stats", []⟩ ∧
    (onTextMessageReceived ⟨60, fun _ => []⟩ { mod := {}, stats := SvxStats.init ⟨7, 0, 0⟩ }
      (lit "peer1") (lit "RunCmd: get stats") (lit "P")
      ⟨7, 30, 30000⟩ ⟨7, 30, 30000⟩).sent.length = 6 ∧
    ∀ p ∈ (onTextMessageReceived ⟨60, fun _ => []⟩
      { mod := {}, stats := SvxStats.init ⟨7, 0, 0⟩ }
      (lit "peer1") (lit "RunCmd: get stats") (lit "P")
      ⟨7, 30, 30000⟩ ⟨7, 30, 30000⟩).sent, p.1 = lit "peer1" := by
  have hp : parseAndAuthorizeCmd [] (lit "peer1") (lit "RunCmd: get stats") [] []
      = ⟨true, lit "get stats", []⟩ := by decide
  refine ⟨hp, ?_, ?_⟩
  · rw [getStats_world _ _ _ _ _ _ hp]
    simp [statsFrames_length, formatStatsGroups_length]
  · rw [getStats_world _ _ _ _ _ _ hp]
    intro p hmem
    simp only [List.nil_append, List.mem_map] at hmem
    obtain ⟨f, _, rfl⟩ := hmem
    rfl

/-- C29 refuted as stated: with a per-frame budget of 18 the prefix
`CmdReply: [1/6] ` takes 16 characters and leaves 2, fewer than the 3 of the
ellipsis. The first group line (`STATS uptime=...`) does not fit, and the first
frame sent is `CmdReply: [1/6] ST`: the first 2 characters of the line, with no
`...` at its end. -/
theorem C29_counterexample :
    (onTextMessageReceived ⟨18, fun _ => []⟩ { mod := {}, stats := SvxStats.init ⟨7, 0, 0⟩ }
      (lit "peer1") (lit "RunCmd: get stats") (lit "P")
      ⟨7, 30, 30000⟩ ⟨7, 30, 30000⟩).sent[0]? =
      some (lit "peer1", lit "CmdReply: [1/6] ST") ∧
    (statsPfx 6 0).length = 16 ∧
    ∀ p : Str, (lit "CmdReply: [1/6] ST" : Str) ≠ p ++ lit "..." := by
  have hp : parseAndAuthorizeCmd [] (lit "peer1") (lit "RunCmd: get stats") [] []
      = ⟨true, lit "get stats", []⟩ := by decide
  refine ⟨?_, by decide, fun p h => ?_⟩
  · rw [getStats_world _ _ _ _ _ _ hp]
    obtain ⟨r0, r1, r2, r3, r4, r5, hg⟩ := formatStatsGroups_lines ⟨18, fun _ => []⟩
      (onCmdAccepted (SvxStats.init ⟨7, 0, 0⟩) 7) ⟨7, 30, 30000⟩
    rw [hg]
    simp only [statsFrames, List.nil_append, List.map_cons, List.getElem?_cons_zero,
      statsFrame_budget18]
  · have h2 := congrArg List.getLast? h
    have e : (lit "..." : Str) = [46, 46] ++ [46] := by decide
    rw [e, ← List.append_assoc, List.getLast?_concat] at h2
    exact absurd h2 (by decide)

/-- C29, amended: for every directly delivered message that carries the
marker, passes the secret check and whose command, the rest of the message
trimmed and lower-cased, is exactly the text `get stats` (the test
`cmd == "get stats"` of the handler), the handler sends to the requester
exactly one frame per group line of `formatStatsGroups`, in order; the lines
are always six, beginning `STATS uptime=`, `FRN TX 1h evt=`, `FRN RX 1h evt=`,
`RF TX 1h evt=`, `RF RX 1h evt=` and `CMD 1h ok=`. With `L` the per-frame
budget, the frame for line `i` (from 0) is the 16-character prefix
`CmdReply: [i+1/6] ` followed by: the line with its carriage returns and line
feeds removed, when the prefix is shorter than `L` and that text fits in `L`
minus the prefix length; its first `L - prefix - 3` characters and `...` when
it does not fit and `L - prefix` is at least 3; its first `L - prefix`
characters, without ellipsis, when it does not fit and `L - prefix` is 1 or 2;
nothing when the prefix is not shorter than `L`. Whenever the prefix is shorter
than `L` the frame is at most `L` characters long. A command of other text is
not such a message, even when its words are `get` and `stats`: the direct
message `RunCmd: get  stats`, with two spaces, is authorised as the command
`get  stats`, and with no command running it is started as an external command
and no frame is sent. -/
theorem C29_stats_frames (env : Env) (w : World) (from_id msg : Str) (t1 t2 : Clock)
    (hm : carriesMarker msg = true)
    (ha : secretAccepted w.mod.run_cmd_secret (afterMarker msg) = true)
    (hr : remainder w.mod.run_cmd_secret msg = lit "get stats") :
    (formatStatsGroups env (onCmdAccepted w.stats t1.minute) t2).2.length = 6 ∧
    (∃ r0 r1 r2 r3 r4 r5 : Str,
      (formatStatsGroups env (onCmdAccepted w.stats t1.minute) t2).2 =
        [lit "STATS uptime=" ++ r0, lit "FRN TX 1h evt=" ++ r1, lit "FRN RX 1h evt=" ++ r2,
         lit "RF TX 1h evt=" ++ r3, lit "RF RX 1h evt=" ++ r4, lit "CMD 1h ok=" ++ r5]) ∧
    (onTextMessageReceived env w from_id msg (lit "P") t1 t2).sent.length = w.sent.length + 6 ∧
    (onTextMessageReceived env w from_id msg (lit "P") t1 t2).sent.take w.sent.length = w.sent ∧
    (∀ i, i < 6 →
      (onTextMessageReceived env w from_id msg (lit "P") t1 t2).sent[w.sent.length + i]? =
        ((formatStatsGroups env (onCmdAccepted w.stats t1.minute) t2).2[i]?).map
          fun g => (from_id, statsFrame env 6 i g)) ∧
    (∀ (i : Nat) (g : Str), i < 6 →
      (statsPfx 6 i).length = 16 ∧
      ((statsPfx 6 i).length < env.FRN_TM_MAX_CHARS →
        (stripCrLf g).length ≤ env.FRN_TM_MAX_CHARS - (statsPfx 6 i).length →
        statsFrame env 6 i g = statsPfx 6 i ++ stripCrLf g) ∧
      ((statsPfx 6 i).length + 3 ≤ env.FRN_TM_MAX_CHARS →
        env.FRN_TM_MAX_CHARS - (statsPfx 6 i).length < (stripCrLf g).length →
        statsFrame env 6 i g = statsPfx 6 i ++
          (stripCrLf g).take (env.FRN_TM_MAX_CHARS - (statsPfx 6 i).length - 3) ++ lit "...") ∧
      ((statsPfx 6 i).length < env.FRN_TM_MAX_CHARS →
        env.FRN_TM_MAX_CHARS < (statsPfx 6 i).length + 3 →
        env.FRN_TM_MAX_CHARS - (statsPfx 6 i).length < (stripCrLf g).length →
        statsFrame env 6 i g = statsPfx 6 i ++
          (stripCrLf g).take (env.FRN_TM_MAX_CHARS - (statsPfx 6 i).length)) ∧
      (env.FRN_TM_MAX_CHARS ≤ (statsPfx 6 i).length →
        statsFrame env 6 i g = statsPfx 6 i) ∧
      ((statsPfx 6 i).length < env.FRN_TM_MAX_CHARS →
        (statsFrame env 6 i g).length ≤ env.FRN_TM_MAX_CHARS)) ∧
    parseAndAuthorizeCmd [] (lit "peer1") (lit "RunCmd: get  stats") [] []
      = ⟨true, lit "get  stats", []⟩ ∧
    (onTextMessageReceived ⟨60, fun _ => []⟩ { mod := {}, stats := SvxStats.init ⟨7, 0, 0⟩ }
      (lit "peer1") (lit "RunCmd: get  stats") (lit "P")
      ⟨7, 30, 30000⟩ ⟨7, 30, 30000⟩).sent = [] ∧
    (onTextMessageReceived ⟨60, fun _ => []⟩ { mod := {}, stats := SvxStats.init ⟨7, 0, 0⟩ }
      (lit "peer1") (lit "RunCmd: get  stats") (lit "P")
      ⟨7, 30, 30000⟩ ⟨7, 30, 30000⟩).started = [(lit "/usr/local/bin/aiorsctl get  stats", 3)] := by
  have hp : parseAndAuthorizeCmd w.mod.run_cmd_secret from_id msg [] [] =
      ⟨true, lit "get stats", []⟩ := by
    rw [parse_accepted _ _ _ hm ha, hr]
    decide
  refine ⟨?_, ?_, ?_, ?_, ?_, ?_, by decide, by decide, by decide⟩ <;>
    try rw [getStats_world _ _ _ _ _ _ hp]
  · rfl
  · exact formatStatsGroups_lines _ _ _
  · simp [statsFrames_length, formatStatsGroups_length]
  · simp
  · intro i hi
    simp only [List.getElem?_append_right (Nat.le_add_right _ _), Nat.add_sub_cancel_left,
      List.getElem?_map, statsFrames_getElem?, Option.map_map, Nat.zero_add]
    rfl
  · exact fun i g hi => ⟨statsPfx_six i hi, statsFrame_cases env 6 i g⟩

/-- C29, amended, at the direct message `RunCmd: get stats` with no secret
configured and a budget of 60. -/
theorem C29_stats_frames_witness :
    carriesMarker (lit "RunCmd: get stats") = true ∧
    (onTextMessageReceived ⟨60, fun _ => []⟩ { mod := {}, stats := SvxStats.init ⟨7, 0, 0⟩ }
      (lit "peer1") (lit "RunCmd: get stats") (lit "P")
      ⟨7, 30, 30000⟩ ⟨7, 30, 30000⟩).sent.length = 0 + 6 :=
  ⟨by decide,
   (C29_stats_frames ⟨60, fun _ => []⟩ { mod := {}, stats := SvxStats.init ⟨7, 0, 0⟩ }
      (lit "peer1") (lit "RunCmd: get stats") ⟨7, 30, 30000⟩ ⟨7, 30, 30000⟩
      (by decide) (by decide) (by decide)).2.2.1⟩

/-! ## The state reports: claim C30 -/

/-- C31: for each of the five boolean-state categories `c`, a report of the
state `c` is already in (on while active, off while inactive) gives exactly the
state `rotateBuckets` gives for the minute of the report: nothing but the
window rotation happens. In particular the interval start time, the active flag
and the lifetime total of `c` are unchanged, so an on report while active does
not restart the interval, and when the minute has not advanced the report
changes nothing at all. -/
theorem C31_same_state_report (c : Cat) (s : SvxStats) (b : Bool) (t : Clock)
    (h : c.active s = b) :
    c.report s b t = rotateBuckets s t.minute ∧
    c.t0 (c.report s b t) = c.t0 s ∧
    c.active (c.report s b t) = c.active s ∧
    c.total (c.report s b t) = c.total s ∧
    (t.minute ≤ s.cur_minute → c.report s b t = s) := by
  have e := report_same_eq c s b t h
  rw [e]
  exact ⟨rfl, rotate_t0 c s _, rotate_active c s _, rotate_total c s _,
    fun hle => rotateBuckets_of_le s _ hle⟩

/-- C31 at the radio transmitter keyed at second 10 of minute 7 and reported
keyed again at second 70 of minute 8: the interval still starts at second
10. -/
theorem C31_same_state_report_witness :
    Cat.rf_tx.active (onRfTxState (SvxStats.init ⟨7, 0, 0⟩) true ⟨7, 10, 10000⟩) = true ∧
    Cat.rf_tx.t0 (Cat.rf_tx.report (onRfTxState (SvxStats.init ⟨7, 0, 0⟩) true ⟨7, 10, 10000⟩)
      true ⟨8, 70, 70000⟩) =
      Cat.rf_tx.t0 (onRfTxState (SvxStats.init ⟨7, 0, 0⟩) true ⟨7, 10, 10000⟩) :=
  ⟨by decide,
   (C31_same_state_report Cat.rf_tx (onRfTxState (SvxStats.init ⟨7, 0, 0⟩) true ⟨7, 10, 10000⟩)
      true ⟨8, 70, 70000⟩ (by decide)).2.1⟩

/-! ## Lemmas on the presence snapshot -/

theorem eraseDups_loop (as bs : List Str) (hb : bs.Nodup) :
    (List.eraseDups.loop as bs).Nodup ∧
    ∀ k, k ∈ List.eraseDups.loop as bs ↔ k ∈ as ∨ k ∈ bs := by
  induction as generalizing bs with
  | nil =>
    simp only [List.eraseDups.loop, List.nodup_reverse, List.mem_reverse, List.not_mem_nil,
      false_or]
    exact ⟨hb, fun _ => trivial⟩
  | cons a as ih =>
    unfold List.eraseDups.loop
    by_cases ha : a ∈ bs
    · have he : List.elem a bs = true := by simpa using ha
      rw [he]
      obtain ⟨h1, h2⟩ := ih bs hb
      refine ⟨h1, fun k => ?_⟩
      rw [h2 k, List.mem_cons]
      constructor
      · rintro (h | h)
        · exact Or.inl (Or.inr h)
        · exact Or.inr h
      · rintro ((h | h) | h)
        · exact Or.inr (h ▸ ha)
        · exact Or.inl h
        · exact Or.inr h
    · have he : List.elem a bs = false := by simpa using ha
      rw [he]
      obtain ⟨h1, h2⟩ := ih (a :: bs) (List.nodup_cons.2 ⟨ha, hb⟩)
      refine ⟨h1, fun k => ?_⟩
      rw [h2 k, List.mem_cons, List.mem_cons]
      tauto

/-- The keys of `new_present`: each identifier of the list, once. -/
theorem eraseDups_spec (as : List Str) :
    as.eraseDups.Nodup ∧ ∀ k, k ∈ as.eraseDups ↔ k ∈ as := by
  obtain ⟨h1, h2⟩ := eraseDups_loop as [] List.nodup_nil
  refine ⟨h1, fun k => ?_⟩
  have := h2 k
  simpa [List.eraseDups] using this

/-- The count of the keys of one map that are missing from another. -/
theorem filter_missing_card (a b : List Str) (ha : a.Nodup) :
    (a.filter fun k => !b.contains k).length = (a.toFinset \ b.toFinset).card := by
  have hn : (a.filter fun k => !b.contains k).Nodup := ha.filter _
  rw [← List.toFinset_card_of_nodup hn]
  congr 1
  ext k
  simp [List.mem_filter]

theorem lookup_cons_eq (k2 a : Str) (b : Nat) (rest : List (Str × Nat)) :
    List.lookup k2 ((a, b) :: rest) = if k2 = a then some b else List.lookup k2 rest := by
  by_cases h : k2 = a
  · subst h
    simp [List.lookup]
  · have hb : (k2 == a) = false := by simpa using h
    simp [List.lookup, hb, h]

theorem lookup_mapSet (l : List (Str × Nat)) (k : Str) (v : Nat) (k2 : Str) :
    (mapSet l k v).lookup k2 = if k2 = k then some v else l.lookup k2 := by
  induction l with
  | nil =>
    simp only [mapSet, lookup_cons_eq]
  | cons p rest ih =>
    obtain ⟨a, b⟩ := p
    unfold mapSet
    by_cases hak : a = k
    · rw [if_pos hak, lookup_cons_eq, lookup_cons_eq, hak]
      split <;> rfl
    · rw [if_neg hak, lookup_cons_eq, lookup_cons_eq, ih]
      by_cases h2 : k2 = a
      · have h : ¬ k2 = k := by rw [h2]; exact hak
        rw [if_pos h2, if_neg h, if_pos h2]
      · rw [if_neg h2, if_neg h2]

theorem lookup_foldl_mapSet (cl : List Str) (m : Nat) (l : List (Str × Nat)) (k : Str) :
    (cl.foldl (fun acc c => mapSet acc c m) l).lookup k =
      if k ∈ cl then some m else l.lookup k := by
  induction cl generalizing l with
  | nil => simp
  | cons c cl ih =>
    rw [List.foldl_cons, ih, lookup_mapSet]
    by_cases h1 : k ∈ cl
    · simp [h1]
    · by_cases h2 : k = c
      · simp [h1, h2]
      · simp [h1, h2]

theorem present_ite (c : Prop) [Decidable c] (a b : SvxStats) (r : List Str)
    (ha : a.user_present = r) (hb : b.user_present = r) :
    (if c then a else b).user_present = r := by
  split <;> assumption

theorem present_loadKey (ps : Parsers) (s : SvxStats) (k v : Str) :
    (loadKey ps s k v).user_present = s.user_present := by
  unfold loadKey
  repeat' (first | apply present_ite | rfl)

theorem present_loadLine (ps : Parsers) (s : SvxStats) (line : Str) :
    (loadLine ps s line).user_present = s.user_present := by
  unfold loadLine
  split
  · rfl
  · split
    · rfl
    · exact present_loadKey _ _ _ _

theorem present_foldl_loadLine (ps : Parsers) (ls : List Str) (s : SvxStats) :
    (ls.foldl (loadLine ps) s).user_present = s.user_present := by
  induction ls generalizing s with
  | nil => rfl
  | cons l ls ih => rw [List.foldl_cons, ih, present_loadLine]

theorem present_rotateBuckets (s : SvxStats) (m : Nat) :
    (rotateBuckets s m).user_present = s.user_present := by
  have h2 := congrArg SvxStats.user_present (nonRing_rotateBuckets s m); exact h2

theorem present_report (c : Cat) (s : SvxStats) (b : Bool) (t : Clock) :
    (c.report s b t).user_present = s.user_present := by
  rw [← present_rotateBuckets s t.minute]
  cases hb : b <;> cases ha : c.active s
  · rw [report_same_eq c s false t ha]
  · rw [report_off_eq c s t ha]; cases c <;> rfl
  · rw [report_on_eq c s t ha]; cases c <;> rfl
  · rw [report_same_eq c s true t ha]

/-- The presence set of every reachable state lists each peer once. -/
theorem present_nodup (env : Env) (ps : Parsers) (t0 : Clock) (s : SvxStats)
    (h : Reachable env ps t0 s) : s.user_present.Nodup := by
  induction h with
  | init => exact List.nodup_nil
  | step s op t1 t2 _ ih =>
    have hr := present_rotateBuckets s t1.minute
    have hmod : ∀ x : SvxStats,
        x.user_present = (rotateBuckets s t1.minute).user_present → x.user_present.Nodup := by
      intro x hx
      rw [hx, hr]; exact ih
    have hrep : ∀ (c : Cat) (b : Bool), (c.report s b t1).user_present.Nodup := by
      intro c b
      rw [present_report]; exact ih
    cases op with
    | clientList l => exact (eraseDups_spec l).1
    | frnTxState b => exact hrep .frn_tx b
    | frnRxState b => exact hrep .frn_rx b
    | frnTxBytes n => exact hmod _ rfl
    | frnRxBytes n => exact hmod _ rfl
    | squelchState b => exact hrep .sql b
    | rfTxState b => exact hrep .rf_tx b
    | rfRxState b => exact hrep .rf_rx b
    | cmdAccepted => exact hmod _ rfl
    | cmdRejected => exact hmod _ rfl
    | cmdAuthFailed => exact hmod _ rfl
    | cmdBroadcastAttempt => exact hmod _ rfl
    | cmdExecTimeMs ms => exact hmod _ rfl
    | statsLine => exact hmod _ rfl
    | statsGroups => exact hmod _ rfl
    | tick =>
      apply hmod
      show (rotateBuckets _ t2.minute).user_present = _
      rw [present_rotateBuckets]
      split_ifs <;> rfl
    | persistPath p => exact ih
    | startTimer n =>
      simp only [Op.run, start]
      split <;> exact ih
    | loadTotals f =>
      have e : (loadPersistedTotals ps s f).user_present = s.user_present := by
        unfold loadPersistedTotals
        split
        · rfl
        · cases f with
          | none => rfl
          | some text => exact present_foldl_loadLine ps _ s
      show (loadPersistedTotals ps s f).user_present.Nodup
      rw [e]
      exact ih

/-! ## The presence snapshot: claim C32 -/

/-- C32: for every presence snapshot `client_list` (duplicates allowed) read at
minute `m` in a state whose presence set `P` lists each peer once, with `S` the
set of distinct identifiers of the list: the presence set becomes `S` (each
identifier once), the current-user count becomes `|S|`, the join counter of the
current bucket (the window is first rotated to `m`) grows by `|S \ P|` and its
leave counter by `|P \ S|`, the last-seen minute of every peer of `S` is `m`,
and the last-seen entry of every other peer is as before, so no entry leaves
the map. Every reachable state has such a presence set (`present_nodup`). -/
theorem C32_presence_snapshot (s : SvxStats) (client_list : List Str) (m : Nat)
    (hP : s.user_present.Nodup) :
    (onFrnClientListUpdate s client_list m).user_present.Nodup ∧
    (∀ k, k ∈ (onFrnClientListUpdate s client_list m).user_present ↔ k ∈ client_list) ∧
    (onFrnClientListUpdate s client_list m).frn_users_cur = client_list.toFinset.card ∧
    (onFrnClientListUpdate s client_list m).idx = (rotateBuckets s m).idx ∧
    (onFrnClientListUpdate s client_list m).cur.user_join =
      (rotateBuckets s m).cur.user_join +
        (client_list.toFinset \ s.user_present.toFinset).card ∧
    (onFrnClientListUpdate s client_list m).cur.user_leave =
      (rotateBuckets s m).cur.user_leave +
        (s.user_present.toFinset \ client_list.toFinset).card ∧
    (∀ k ∈ client_list,
      (onFrnClientListUpdate s client_list m).user_last_seen_minute.lookup k = some m) ∧
    (∀ k, k ∉ client_list →
      (onFrnClientListUpdate s client_list m).user_last_seen_minute.lookup k =
        s.user_last_seen_minute.lookup k) := by
  obtain ⟨hn, hmem⟩ := eraseDups_spec client_list
  have hnr := nonRing_rotateBuckets s m
  have hup : (rotateBuckets s m).user_present = s.user_present := by
    have h2 := congrArg SvxStats.user_present hnr; exact h2
  have hls : (rotateBuckets s m).user_last_seen_minute = s.user_last_seen_minute := by
    have h2 := congrArg SvxStats.user_last_seen_minute hnr; exact h2
  have htf : client_list.eraseDups.toFinset = client_list.toFinset := by
    ext k; simp [hmem k]
  have hlast : (onFrnClientListUpdate s client_list m).user_last_seen_minute =
      client_list.foldl (fun acc c => mapSet acc c m) s.user_last_seen_minute := by
    rw [← hls]; rfl
  refine ⟨hn, hmem, ?_, rfl, ?_, ?_, fun k hk => ?_, fun k hk => ?_⟩
  · show client_list.eraseDups.length = _
    rw [← List.toFinset_card_of_nodup hn, htf]
  · simp only [onFrnClientListUpdate, SvxStats.cur, SvxStats.modCur, Function.update_same]
    rw [hup, filter_missing_card _ _ hn, htf]
  · simp only [onFrnClientListUpdate, SvxStats.cur, SvxStats.modCur, Function.update_same]
    rw [hup, filter_missing_card _ _ hP]
    have e : (s.user_present.toFinset \ client_list.eraseDups.toFinset) =
        (s.user_present.toFinset \ client_list.toFinset) := by rw [htf]
    rw [e]
  · rw [hlast, lookup_foldl_mapSet, if_pos hk]
  · rw [hlast, lookup_foldl_mapSet, if_neg hk]

/-- C32 at the snapshot `a, b, b` read one minute after the snapshot `a, c`:
two peers are present, one joined and one left. -/
theorem C32_presence_snapshot_witness :
    (onFrnClientListUpdate (SvxStats.init ⟨7, 0, 0⟩) [lit "a", lit "c"] 7).user_present.Nodup ∧
    (onFrnClientListUpdate
      (onFrnClientListUpdate (SvxStats.init ⟨7, 0, 0⟩) [lit "a", lit "c"] 7)
      [lit "a", lit "b", lit "b"] 8).frn_users_cur =
      [lit "a", lit "b", lit "b"].toFinset.card :=
  ⟨by decide,
   (C32_presence_snapshot
      (onFrnClientListUpdate (SvxStats.init ⟨7, 0, 0⟩) [lit "a", lit "c"] 7)
      [lit "a", lit "b", lit "b"] 8 (by decide)).2.2.1⟩

/-! ## Lemmas on merging duration aggregates -/

theorem duragg_add_min_nonneg (a : DurAgg) (y : ℚ) (hy : 0 < y) (ha : 0 ≤ a.min_sec) :
    0 ≤ (duragg_add a y).min_sec := by
  simp only [duragg_add]
  split
  · exact le_of_lt hy
  · exact ha

theorem duragg_add_max_nonneg (a : DurAgg) (y : ℚ) (ha : 0 ≤ a.max_sec) :
    0 ≤ (duragg_add a y).max_sec := by
  simp only [duragg_add]
  split
  · rename_i h; exact le_trans ha (le_of_lt h)
  · exact ha

/-- Merging an aggregate that has received one more positive sample is adding
that sample after the merge. -/
theorem duragg_merge_add (a b : DurAgg) (y : ℚ) (hy : 0 < y) (ha : 0 ≤ a.min_sec)
    (hb : 0 ≤ b.min_sec) :
    duragg_merge a (duragg_add b y) = duragg_add (duragg_merge a b) y := by
  simp only [duragg_merge, duragg_add, DurAgg.mk.injEq]
  refine ⟨by ring, by ring, ?_, ?_, by ring⟩
  · by_cases hb0 : b.min_sec = 0
    · simp only [hb0, true_or, if_true, lt_self_iff_false, false_and, if_false, hy, true_and]
    · have hbp : 0 < b.min_sec := lt_of_le_of_ne hb (Ne.symm hb0)
      by_cases ha0 : a.min_sec = 0
      · simp only [hb0, ha0, false_or, true_or, and_true, hbp, if_true]
        split_ifs <;> rfl
      · have hap : 0 < a.min_sec := lt_of_le_of_ne ha (Ne.symm ha0)
        simp only [hb0, ha0, false_or, hbp, true_and]
        split_ifs with h1 h2 h3 h4 h5 h6 h7 h8 h9 <;>
          simp only [hy, hbp, hap, hb0, ha0, false_or, true_and, not_lt, not_and, not_or] at * <;>
          first | rfl | linarith
  · split_ifs <;> first | rfl | linarith

theorem duragg_merge_foldl (a : DurAgg) (ha : 0 ≤ a.min_sec) (ys : List ℚ)
    (hy : ∀ y ∈ ys, 0 < y) (b : DurAgg) (hb : 0 ≤ b.min_sec) :
    duragg_merge a (ys.foldl duragg_add b) = ys.foldl duragg_add (duragg_merge a b) := by
  induction ys generalizing b with
  | nil => rfl
  | cons y ys ih =>
    have hy0 := hy y (List.mem_cons_self _ _)
    simp only [List.foldl_cons]
    rw [ih (fun z hz => hy z (List.mem_cons_of_mem _ hz)) _ (duragg_add_min_nonneg b y hy0 hb),
      duragg_merge_add a b y hy0 ha hb]

theorem foldl_add_nonneg (xs : List ℚ) (hx : ∀ x ∈ xs, 0 < x) (a : DurAgg)
    (h1 : 0 ≤ a.min_sec) (h2 : 0 ≤ a.max_sec) :
    0 ≤ (xs.foldl duragg_add a).min_sec ∧ 0 ≤ (xs.foldl duragg_add a).max_sec := by
  induction xs generalizing a with
  | nil => exact ⟨h1, h2⟩
  | cons x xs ih =>
    simp only [List.foldl_cons]
    exact ih (fun z hz => hx z (List.mem_cons_of_mem _ hz)) _
      (duragg_add_min_nonneg a x (hx x (List.mem_cons_self _ _)) h1)
      (duragg_add_max_nonneg a x h2)

theorem duragg_merge_empty (a : DurAgg) (h : 0 ≤ a.max_sec) : duragg_merge a {} = a := by
  cases a with
  | mk evt sec mn mx sm =>
    have hm : ¬ mx < 0 := not_lt.2 h
    simp only [duragg_merge, DurAgg.mk.injEq, add_zero, lt_self_iff_false, false_and, if_false,
      true_and, hm, and_self]

/-- The fields of an aggregate after a run of positive samples from an
aggregate whose minimum is defined (positive) or undefined (0). -/
theorem foldl_add_fields (xs : List ℚ) (hx : ∀ x ∈ xs, 0 < x) (a : DurAgg)
    (h1 : 0 ≤ a.min_sec) :
    (xs.foldl duragg_add a).evt = a.evt + xs.length ∧
    (xs.foldl duragg_add a).sec = a.sec + xs.sum ∧
    (xs.foldl duragg_add a).sum_sec = a.sum_sec + xs.sum ∧
    (∀ x ∈ xs, (xs.foldl duragg_add a).min_sec ≤ x ∧ x ≤ (xs.foldl duragg_add a).max_sec) ∧
    (0 < a.min_sec → (xs.foldl duragg_add a).min_sec ≤ a.min_sec) ∧
    a.max_sec ≤ (xs.foldl duragg_add a).max_sec ∧
    ((xs.foldl duragg_add a).min_sec = a.min_sec ∨ (xs.foldl duragg_add a).min_sec ∈ xs) ∧
    ((xs.foldl duragg_add a).max_sec = a.max_sec ∨ (xs.foldl duragg_add a).max_sec ∈ xs) := by
  induction xs generalizing a with
  | nil => simp
  | cons x xs ih =>
    have hx0 := hx x (List.mem_cons_self _ _)
    have hmin := duragg_add_min_nonneg a x hx0 h1
    obtain ⟨i1, i2, i3, i4, i5, i6, i7, i8⟩ :=
      ih (fun z hz => hx z (List.mem_cons_of_mem _ hz)) (duragg_add a x) hmin
    have hpos : 0 < (duragg_add a x).min_sec := by
      simp only [duragg_add]
      split
      · exact hx0
      · rename_i hn
        exact lt_of_le_of_ne h1 (fun e => hn (Or.inl e.symm))
    have hle : (duragg_add a x).min_sec ≤ x := by
      simp only [duragg_add]
      split
      · exact le_refl _
      · rename_i hn
        exact not_lt.1 (fun e => hn (Or.inr e))
    have hle2 : 0 < a.min_sec → (duragg_add a x).min_sec ≤ a.min_sec := by
      intro hp
      simp only [duragg_add]
      split
      · rename_i hc
        rcases hc with hc | hc
        · exact absurd hc (ne_of_gt hp)
        · exact le_of_lt hc
      · exact le_refl _
    have hge : x ≤ (duragg_add a x).max_sec ∧ a.max_sec ≤ (duragg_add a x).max_sec := by
      simp only [duragg_add]
      split
      · rename_i hc; exact ⟨le_refl _, le_of_lt hc⟩
      · rename_i hc; exact ⟨not_lt.1 hc, le_refl _⟩
    have hmem1 : (duragg_add a x).min_sec = a.min_sec ∨ (duragg_add a x).min_sec = x := by
      simp only [duragg_add]
      split
      · exact Or.inr rfl
      · exact Or.inl rfl
    have hmem2 : (duragg_add a x).max_sec = a.max_sec ∨ (duragg_add a x).max_sec = x := by
      simp only [duragg_add]
      split
      · exact Or.inr rfl
      · exact Or.inl rfl
    simp only [List.foldl_cons, List.length_cons, List.sum_cons, List.mem_cons]
    refine ⟨?_, ?_, ?_, ?_, ?_, ?_, ?_, ?_⟩
    · rw [i1]; simp only [duragg_add]; omega
    · rw [i2]; simp only [duragg_add]; ring
    · rw [i3]; simp only [duragg_add]; ring
    · intro z hz
      rcases hz with hz | hz
      · subst hz
        exact ⟨le_trans (i5 hpos) hle, le_trans hge.1 i6⟩
      · exact i4 z hz
    · intro hp
      exact le_trans (i5 hpos) (hle2 hp)
    · exact le_trans hge.2 i6
    · rcases i7 with e | e
      · rcases hmem1 with e2 | e2
        · exact Or.inl (e.trans e2)
        · exact Or.inr (Or.inl (e.trans e2))
      · exact Or.inr (Or.inr e)
    · rcases i8 with e | e
      · rcases hmem2 with e2 | e2
        · exact Or.inl (e.trans e2)
        · exact Or.inr (Or.inl (e.trans e2))
      · exact Or.inr (Or.inr e)

/-- In exact arithmetic, for every two sequences `xs` and `ys` of positive
samples, `duragg_merge` of the aggregate built from `ys` into the aggregate
built from `xs` is the aggregate `duragg_add` builds from `xs` followed by
`ys`. In that aggregate the event count is the number of samples, the total
seconds and the sum of samples are the sum of all samples, and, when there is a
sample, the minimum is the smallest and the maximum the largest of the
samples. -/
theorem merge_append_exact (xs ys : List ℚ) (hx : ∀ x ∈ xs, 0 < x) (hy : ∀ y ∈ ys, 0 < y) :
    duragg_merge (aggOf xs) (aggOf ys) = aggOf (xs ++ ys) ∧
    (aggOf (xs ++ ys)).evt = xs.length + ys.length ∧
    (aggOf (xs ++ ys)).sec = xs.sum + ys.sum ∧
    (aggOf (xs ++ ys)).sum_sec = xs.sum + ys.sum ∧
    (xs ++ ys ≠ [] →
      (aggOf (xs ++ ys)).min_sec ∈ xs ++ ys ∧
      (aggOf (xs ++ ys)).max_sec ∈ xs ++ ys ∧
      ∀ z ∈ xs ++ ys, (aggOf (xs ++ ys)).min_sec ≤ z ∧ z ≤ (aggOf (xs ++ ys)).max_sec) := by
  have hxy : ∀ z ∈ xs ++ ys, 0 < z := by
    intro z hz
    rcases List.mem_append.1 hz with h | h
    · exact hx z h
    · exact hy z h
  have h0 : (0 : ℚ) ≤ ({} : DurAgg).min_sec := le_refl _
  have h0m : (0 : ℚ) ≤ ({} : DurAgg).max_sec := le_refl _
  obtain ⟨a1, a2⟩ := foldl_add_nonneg xs hx {} h0 h0m
  obtain ⟨f1, f2, f3, f4, _, _, f7, f8⟩ := foldl_add_fields (xs ++ ys) hxy {} h0
  refine ⟨?_, ?_, ?_, ?_, fun hne => ?_⟩
  · unfold aggOf
    rw [duragg_merge_foldl _ a1 ys hy {} h0, duragg_merge_empty _ a2, List.foldl_append]
  · unfold aggOf
    rw [f1, List.length_append]
    simp
  · unfold aggOf
    rw [f2, List.sum_append]
    simp
  · unfold aggOf
    rw [f3, List.sum_append]
    simp
  · obtain ⟨z, zs, hz⟩ := List.exists_cons_of_ne_nil hne
    have hz0 : z ∈ xs ++ ys := by rw [hz]; exact List.mem_cons_self _ _
    obtain ⟨b1, b2⟩ := f4 z hz0
    have hzp := hxy z hz0
    refine ⟨?_, ?_, f4⟩
    · rcases f7 with e | e
      · have e2 : (List.foldl duragg_add {} (xs ++ ys)).min_sec = 0 := e
        have hpos : 0 < (List.foldl duragg_add {} (xs ++ ys)).min_sec := by
          rcases hm : xs ++ ys with _ | ⟨w, ws⟩
          · exact absurd hm hne
          · simp only [List.foldl_cons]
            have hw : 0 < w := hxy w (by rw [hm]; exact List.mem_cons_self _ _)
            have hws : ∀ v ∈ ws, 0 < v := fun v hv =>
              hxy v (by rw [hm]; exact List.mem_cons_of_mem _ hv)
            have hd : (duragg_add {} w).min_sec = w := by simp [duragg_add]
            obtain ⟨_, _, _, _, _, _, g7, _⟩ := foldl_add_fields ws hws (duragg_add {} w)
              (by rw [hd]; exact le_of_lt hw)
            rcases g7 with g | g
            · rw [g, hd]; exact hw
            · exact hws _ g
        exact absurd e2 (ne_of_gt hpos)
      · exact e
    · rcases f8 with e | e
      · have e2 : (List.foldl duragg_add {} (xs ++ ys)).max_sec = 0 := e
        rw [e2] at b2
        exact absurd hzp (not_lt.2 b2)
      · exact e

/-! ## Lemmas on merging in double arithmetic -/

/-- Rounding does not reach the event count, the minimum or the maximum of
`duragg_add`. -/
theorem shape_add_rnd (rnd : ℚ → ℚ) (a b : DurAgg) (x : ℚ) (h : shape a = shape b) :
    shape (duragg_add_rnd rnd a x) = shape (duragg_add b x) := by
  simp only [shape, Prod.mk.injEq] at h
  obtain ⟨h1, h2, h3⟩ := h
  simp only [shape, duragg_add_rnd, duragg_add, h1, h2, h3]

theorem shape_foldl_rnd (rnd : ℚ → ℚ) (xs : List ℚ) (a b : DurAgg) (h : shape a = shape b) :
    shape (xs.foldl (duragg_add_rnd rnd) a) = shape (xs.foldl duragg_add b) := by
  induction xs generalizing a b with
  | nil => exact h
  | cons x xs ih => exact ih _ _ (shape_add_rnd rnd a b x h)

theorem shape_aggOfRnd (rnd : ℚ → ℚ) (xs : List ℚ) : shape (aggOfRnd rnd xs) = shape (aggOf xs) :=
  shape_foldl_rnd rnd xs {} {} rfl

/-- Rounding does not reach the event count, the minimum or the maximum of
`duragg_merge`. -/
theorem shape_merge_rnd (rnd : ℚ → ℚ) (a a2 b b2 : DurAgg) (ha : shape a = shape a2)
    (hb : shape b = shape b2) :
    shape (duragg_merge_rnd rnd a b) = shape (duragg_merge a2 b2) := by
  simp only [shape, Prod.mk.injEq] at ha hb
  obtain ⟨h1, h2, h3⟩ := ha
  obtain ⟨k1, k2, k3⟩ := hb
  simp only [shape, duragg_merge_rnd, duragg_merge, h1, h2, h3, k1, k2, k3]

/-- Where no addition rounds, the samples are accumulated as in exact
arithmetic. -/
theorem foldl_add_rnd_exact (rnd : ℚ → ℚ) (xs : List ℚ) (a : DurAgg)
    (h1 : ∀ l ∈ xs.inits, rnd (a.sec + l.sum) = a.sec + l.sum)
    (h2 : ∀ l ∈ xs.inits, rnd (a.sum_sec + l.sum) = a.sum_sec + l.sum) :
    xs.foldl (duragg_add_rnd rnd) a = xs.foldl duragg_add a := by
  induction xs generalizing a with
  | nil => rfl
  | cons x xs ih =>
    have hx : [x] ∈ (x :: xs).inits :=
      (List.mem_inits _ _).2 (List.prefix_cons_inj x |>.2 (List.nil_prefix))
    have e1 := h1 [x] hx
    have e2 := h2 [x] hx
    simp only [List.sum_cons, List.sum_nil, add_zero] at e1 e2
    have e : duragg_add_rnd rnd a x = duragg_add a x := by
      simp only [duragg_add_rnd, duragg_add, e1, e2]
    simp only [List.foldl_cons, e]
    apply ih
    · intro l hl
      have hm : x :: l ∈ (x :: xs).inits :=
        (List.mem_inits _ _).2 ((List.prefix_cons_inj x).2 ((List.mem_inits _ _).1 hl))
      have e3 := h1 (x :: l) hm
      simp only [List.sum_cons, ← add_assoc] at e3
      exact e3
    · intro l hl
      have hm : x :: l ∈ (x :: xs).inits :=
        (List.mem_inits _ _).2 ((List.prefix_cons_inj x).2 ((List.mem_inits _ _).1 hl))
      have e3 := h2 (x :: l) hm
      simp only [List.sum_cons, ← add_assoc] at e3
      exact e3

theorem aggOfRnd_exact (rnd : ℚ → ℚ) (xs : List ℚ) (h : ∀ l ∈ xs.inits, rnd l.sum = l.sum) :
    aggOfRnd rnd xs = aggOf xs := by
  have h0 : ∀ l ∈ xs.inits, rnd (({} : DurAgg).sec + l.sum) = ({} : DurAgg).sec + l.sum := by
    intro l hl
    have e : ({} : DurAgg).sec + l.sum = l.sum := zero_add _
    rw [e]
    exact h l hl
  exact foldl_add_rnd_exact rnd xs {} h0 h0

/-! ## Merging against adding: claim C33 -/

/-- C33 refuted as stated: the additions of `duragg_add` and `duragg_merge`
are double additions, and each rounds. The doubles written `0.1`, `0.2` and
`0.3` are `3602879701896397 / 2^55`, `3602879701896397 / 2^54` and
`5404319552844595 / 2^54`, all positive. The aggregate built from `0.1`, merged
with the aggregate built from `0.2, 0.3`, has `sec = 0.1 + (0.2 + 0.3)`, the
double `5404319552844595 / 2^53` (printed `0.6`), while the aggregate built
from `0.1, 0.2, 0.3` has `sec = (0.1 + 0.2) + 0.3`, the next double
`5404319552844596 / 2^53` (printed `0.6000000000000001`); `sum_sec` differs in
the same way, so the two aggregates are not equal. -/
theorem C33_counterexample :
    binary64 (1 / 10) = 3602879701896397 / 2 ^ 55 ∧
    binary64 (2 / 10) = 3602879701896397 / 2 ^ 54 ∧
    binary64 (3 / 10) = 5404319552844595 / 2 ^ 54 ∧
    (∀ x ∈ [binary64 (1 / 10), binary64 (2 / 10), binary64 (3 / 10)], 0 < x) ∧
    (duragg_merge_rnd binary64 (aggOfRnd binary64 [binary64 (1 / 10)])
      (aggOfRnd binary64 [binary64 (2 / 10), binary64 (3 / 10)])).sec =
      5404319552844595 / 2 ^ 53 ∧
    (aggOfRnd binary64 ([binary64 (1 / 10)] ++ [binary64 (2 / 10), binary64 (3 / 10)])).sec =
      5404319552844596 / 2 ^ 53 ∧
    (duragg_merge_rnd binary64 (aggOfRnd binary64 [binary64 (1 / 10)])
      (aggOfRnd binary64 [binary64 (2 / 10), binary64 (3 / 10)])).sum_sec =
      5404319552844595 / 2 ^ 53 ∧
    (aggOfRnd binary64 ([binary64 (1 / 10)] ++ [binary64 (2 / 10), binary64 (3 / 10)])).sum_sec =
      5404319552844596 / 2 ^ 53 ∧
    duragg_merge_rnd binary64 (aggOfRnd binary64 [binary64 (1 / 10)])
      (aggOfRnd binary64 [binary64 (2 / 10), binary64 (3 / 10)]) ≠
      aggOfRnd binary64 ([binary64 (1 / 10)] ++ [binary64 (2 / 10), binary64 (3 / 10)]) := by
  have m1 : (duragg_merge_rnd binary64 (aggOfRnd binary64 [binary64 (1 / 10)])
      (aggOfRnd binary64 [binary64 (2 / 10), binary64 (3 / 10)])).sec =
      5404319552844595 / 2 ^ 53 := by decide!
  have w1 : (aggOfRnd binary64
      ([binary64 (1 / 10)] ++ [binary64 (2 / 10), binary64 (3 / 10)])).sec =
      5404319552844596 / 2 ^ 53 := by decide!
  refine ⟨by decide!, by decide!, by decide!, by decide!, m1, w1, by decide!, by decide!,
    fun h => ?_⟩
  have h2 := congrArg DurAgg.sec h
  rw [m1, w1] at h2
  norm_num at h2

/-- C33, amended: for every two sequences `xs` and `ys` of positive samples,
and whatever the rounding `rnd` of the additions of doubles, `duragg_merge` of
the aggregate built from `ys` into the aggregate built from `xs` has the event
count, the minimum and the maximum of the aggregate `duragg_add` builds from
`xs` followed by `ys`: the count is the number of samples and, when there is a
sample, the minimum is the smallest and the maximum the largest of the samples.
Its `sec` and `sum_sec` are one rounded addition of the `sec` and `sum_sec` of
the two aggregates. When no addition rounds, that is when the sum of every
leading run of `xs` followed by `ys`, and of every leading run of `ys`, is
left unchanged by `rnd`, the merged aggregate is the aggregate built from `xs`
followed by `ys`, and its `sec` and `sum_sec` are the exact sum of all the
samples. -/
theorem C33_merge_rounded (rnd : ℚ → ℚ) (xs ys : List ℚ) (hx : ∀ x ∈ xs, 0 < x)
    (hy : ∀ y ∈ ys, 0 < y) :
    (duragg_merge_rnd rnd (aggOfRnd rnd xs) (aggOfRnd rnd ys)).evt =
      (aggOfRnd rnd (xs ++ ys)).evt ∧
    (duragg_merge_rnd rnd (aggOfRnd rnd xs) (aggOfRnd rnd ys)).min_sec =
      (aggOfRnd rnd (xs ++ ys)).min_sec ∧
    (duragg_merge_rnd rnd (aggOfRnd rnd xs) (aggOfRnd rnd ys)).max_sec =
      (aggOfRnd rnd (xs ++ ys)).max_sec ∧
    (aggOfRnd rnd (xs ++ ys)).evt = xs.length + ys.length ∧
    (xs ++ ys ≠ [] →
      (aggOfRnd rnd (xs ++ ys)).min_sec ∈ xs ++ ys ∧
      (aggOfRnd rnd (xs ++ ys)).max_sec ∈ xs ++ ys ∧
      ∀ z ∈ xs ++ ys,
        (aggOfRnd rnd (xs ++ ys)).min_sec ≤ z ∧ z ≤ (aggOfRnd rnd (xs ++ ys)).max_sec) ∧
    (duragg_merge_rnd rnd (aggOfRnd rnd xs) (aggOfRnd rnd ys)).sec =
      rnd ((aggOfRnd rnd xs).sec + (aggOfRnd rnd ys).sec) ∧
    (duragg_merge_rnd rnd (aggOfRnd rnd xs) (aggOfRnd rnd ys)).sum_sec =
      rnd ((aggOfRnd rnd xs).sum_sec + (aggOfRnd rnd ys).sum_sec) ∧
    ((∀ l ∈ (xs ++ ys).inits, rnd l.sum = l.sum) → (∀ l ∈ ys.inits, rnd l.sum = l.sum) →
      duragg_merge_rnd rnd (aggOfRnd rnd xs) (aggOfRnd rnd ys) = aggOfRnd rnd (xs ++ ys) ∧
      (aggOfRnd rnd (xs ++ ys)).sec = xs.sum + ys.sum ∧
      (aggOfRnd rnd (xs ++ ys)).sum_sec = xs.sum + ys.sum) := by
  obtain ⟨p1, p2, p3, p4, p5⟩ := merge_append_exact xs ys hx hy
  have s1 : shape (duragg_merge_rnd rnd (aggOfRnd rnd xs) (aggOfRnd rnd ys)) =
      shape (aggOfRnd rnd (xs ++ ys)) := by
    rw [shape_merge_rnd rnd _ _ _ _ (shape_aggOfRnd rnd xs) (shape_aggOfRnd rnd ys), p1,
      shape_aggOfRnd]
  have s2 := shape_aggOfRnd rnd (xs ++ ys)
  simp only [shape, Prod.mk.injEq] at s1 s2
  obtain ⟨s11, s12, s13⟩ := s1
  obtain ⟨s21, s22, s23⟩ := s2
  refine ⟨s11, s12, s13, s21.trans p2, ?_, rfl, rfl, fun e1 e2 => ?_⟩
  · rw [s22, s23]
    exact p5
  · have ex : ∀ l ∈ xs.inits, rnd l.sum = l.sum := fun l hl =>
      e1 l ((List.mem_inits _ _).2
        (((List.mem_inits _ _).1 hl).trans (List.prefix_append xs ys)))
    have a1 := aggOfRnd_exact rnd xs ex
    have a2 := aggOfRnd_exact rnd ys e2
    have a3 := aggOfRnd_exact rnd (xs ++ ys) e1
    have q1 := (merge_append_exact xs [] hx (fun _ h => absurd h (List.not_mem_nil _))).2.2
    have q2 := (merge_append_exact [] ys (fun _ h => absurd h (List.not_mem_nil _)) hy).2.2
    simp only [List.append_nil, List.nil_append, List.sum_nil, add_zero, zero_add] at q1 q2
    have f := e1 (xs ++ ys) ((List.mem_inits _ _).2 (List.prefix_refl _))
    rw [List.sum_append] at f
    refine ⟨?_, by rw [a3]; exact p3, by rw [a3]; exact p4⟩
    rw [a1, a2, a3, ← p1]
    simp only [duragg_merge_rnd, duragg_merge, q1.1, q1.2.1, q2.1, q2.2.1, f]

/-- C33, amended, in double arithmetic at the sample `0.5` merged with the
samples `0.25` and `1.5`: no sum of theirs is rounded, and the merged
aggregate is the aggregate of the three samples. -/
theorem C33_merge_rounded_witness :
    (∀ x ∈ [(1 / 2 : ℚ)], 0 < x) ∧ (∀ y ∈ [(1 / 4 : ℚ), 3 / 2], 0 < y) ∧
    (∀ l ∈ ([(1 / 2 : ℚ)] ++ [1 / 4, 3 / 2]).inits, binary64 l.sum = l.sum) ∧
    (∀ l ∈ [(1 / 4 : ℚ), 3 / 2].inits, binary64 l.sum = l.sum) ∧
    duragg_merge_rnd binary64 (aggOfRnd binary64 [1 / 2]) (aggOfRnd binary64 [1 / 4, 3 / 2]) =
      aggOfRnd binary64 ([1 / 2] ++ [1 / 4, 3 / 2]) :=
  ⟨by decide!, by decide!, by decide!, by decide!,
   ((C33_merge_rounded binary64 [1 / 2] [1 / 4, 3 / 2] (by decide!) (by decide!)).2.2.2.2.2.2.2
      (by decide!) (by decide!)).1⟩

/-! ## Lemmas on one line of the persisted file -/

theorem findChar_key (k v : Str) (hk : 61 ∉ k) : findChar 61 (k ++ 61 :: v) = some k.length := by
  induction k with
  | nil => simp [findChar]
  | cons c cs ih =>
    have hc : c ≠ 61 := fun e => hk (e ▸ List.mem_cons_self _ _)
    have hcs : 61 ∉ cs := fun e => hk (List.mem_cons_of_mem _ e)
    simp [findChar, hc, ih hcs]

theorem keyField_ite (k : Str) (c : Prop) [Decidable c] (x y : Option (Fld × Bool))
    (hx : c → x.isSome = true → 61 ∉ k) (hy : y.isSome = true → 61 ∉ k) :
    (if c then x else y).isSome = true → 61 ∉ k := by
  split
  · rename_i h; exact hx h
  · exact hy

/-- No recognised key holds the character `=`. -/
theorem keyField_no_eq (k : Str) (h : (keyField k).isSome = true) : 61 ∉ k := by
  revert h
  unfold keyField
  repeat' (first
    | (intro h _; rw [h]; decide)
    | (intro h; exact absurd h (by decide))
    | apply keyField_ite)

/-- The line `k=v` assigns through the chain of key comparisons on `k` and
`v`. -/
theorem loadLine_key (ps : Parsers) (s : SvxStats) (k v : Str) (hk : 61 ∉ k) :
    loadLine ps s (k ++ 61 :: v) = applyKey ps s v (keyField k) := by
  have hne : (k ++ 61 :: v).isEmpty = false := by cases k <;> rfl
  unfold loadLine
  rw [hne, findChar_key k v hk]
  have e1 : (k ++ 61 :: v).take k.length = k := List.take_left' rfl
  have e2 : (k ++ 61 :: v).drop (k.length + 1) = v := by
    rw [show k ++ 61 :: v = (k ++ [61]) ++ v by simp]
    exact List.drop_left' (by simp)
  simp only [Bool.false_eq_true, if_false, e1, e2, loadKey_eq]

/-! ## Values that do not parse: claim C34 -/

set_option maxRecDepth 100000 in
/-- C34 refuted as stated: the file has the line `rf_tx_evt_total=5` followed
by the line `rf_tx_total=abc`, whose key is the older key of the same field
and whose value is not numeric. After the first line the event count of the
radio transmitter is 5; after the second it is 0, not 5. -/
theorem C34_counterexample :
    readDecimal (lit "abc") = none ∧
    (loadPersistedTotals ⟨readDecimal, fun _ => none⟩
      (setPersistPath (SvxStats.init ⟨7, 0, 0⟩) (lit "/var/lib/svxlink/stats"))
      (some (lit "rf_tx_evt_total=5\n"))).rf_tx_total.evt = 5 ∧
    (loadPersistedTotals ⟨readDecimal, fun _ => none⟩
      (setPersistPath (SvxStats.init ⟨7, 0, 0⟩) (lit "/var/lib/svxlink/stats"))
      (some (lit "rf_tx_evt_total=5\nrf_tx_total=abc\n"))).rf_tx_total.evt = 0 := by
  refine ⟨by decide, by decide, by decide⟩

/-- C34, amended: for every recognised key `k`, addressing the field `f`, and
every value text `v` that neither `std::stoull` nor `std::stod` accepts,
loading the line `k=v` changes no field other than `f`. When `k` is one of the
eighteen current keys the line changes nothing: `f` keeps the value it had
before the line was read. When `k` is one of the six older keys the line sets
`f` to 0, whatever value it had before. -/
theorem C34_unparsed_value (ps : Parsers) (s : SvxStats) (k v : Str) (f : Fld) (lg : Bool)
    (hkey : keyField k = some (f, lg))
    (hu : ps.stoull v = none) (hd : ps.stod v = none) :
    f.clear (loadLine ps s (k ++ 61 :: v)) = f.clear s ∧
    (∀ g, g ≠ f → g.getN (loadLine ps s (k ++ 61 :: v)) = g.getN s ∧
      g.getQ (loadLine ps s (k ++ 61 :: v)) = g.getQ s) ∧
    (lg = false → loadLine ps s (k ++ 61 :: v) = s) ∧
    (lg = true → loadLine ps s (k ++ 61 :: v) = f.clear s ∧
      f.getN (loadLine ps s (k ++ 61 :: v)) = 0 ∧
      f.getQ (loadLine ps s (k ++ 61 :: v)) = 0) := by
  have hk : 61 ∉ k := keyField_no_eq k (by rw [hkey]; rfl)
  have hl := loadLine_key ps s k v hk
  rw [hkey] at hl
  have hlg : loadLine ps s (k ++ 61 :: v) = if lg = true then f.clear s else s := by
    rw [hl]
    cases lg
    · simp only [applyKey, parse_u64, parse_d, hu, hd, Option.getD_none, Bool.false_eq_true,
        if_false]
      cases f <;> rfl
    · simp only [applyKey, parse_u64, parse_d, hu, hd, Option.getD_none, zero_mul, if_true]
      rfl
  have hclear : f.clear (loadLine ps s (k ++ 61 :: v)) = f.clear s := by
    rw [hlg]
    split
    · exact clear_put f 0 0 s
    · rfl
  refine ⟨hclear, fun g hg => ⟨getN_of_clear f g (Ne.symm hg) _ _ hclear,
    getQ_of_clear f g (Ne.symm hg) _ _ hclear⟩, fun h0 => ?_, fun h1 => ?_⟩
  · rw [hlg, h0]; rfl
  · rw [hlg, h1]
    refine ⟨rfl, ?_, ?_⟩ <;> cases f <;> rfl

/-- C34, amended, at the line `cmd_ok_total=abc` read after the line
`cmd_ok_total=5`: the counter stays at 5. -/
theorem C34_unparsed_value_witness :
    keyField (lit "cmd_ok_total") = some (Fld.cmd_ok, false) ∧
    loadLine ⟨readDecimal, fun _ => none⟩
      (loadLine ⟨readDecimal, fun _ => none⟩ (SvxStats.init ⟨7, 0, 0⟩) (lit "cmd_ok_total=5"))
      (lit "cmd_ok_total" ++ 61 :: lit "abc") =
    loadLine ⟨readDecimal, fun _ => none⟩ (SvxStats.init ⟨7, 0, 0⟩) (lit "cmd_ok_total=5") :=
  ⟨by decide,
   (C34_unparsed_value ⟨readDecimal, fun _ => none⟩
      (loadLine ⟨readDecimal, fun _ => none⟩ (SvxStats.init ⟨7, 0, 0⟩) (lit "cmd_ok_total=5"))
      (lit "cmd_ok_total") (lit "abc") Fld.cmd_ok false (by decide) (by decide) rfl).2.2.1 rfl⟩

/-! ## Lemmas on the stamps of the ring -/

theorem ring_congr (a b : SvxStats) (h1 : b.idx = a.idx) (h2 : b.cur_minute = a.cur_minute)
    (h3 : ∀ i, (b.buckets i).minute = (a.buckets i).minute) : ring b = ring a := by
  have e3 : stamps b.buckets = stamps a.buckets := funext h3
  unfold ring
  rw [h1, h2, e3]

/-- A property of the ring that every rotation keeps is kept by every call. -/
theorem ringPred_run (P : Fin NBUCKET × Nat × (Fin NBUCKET → Nat) → Prop)
    (hrot : ∀ (s : SvxStats) (m : Nat), P (ring s) → P (ring (rotateBuckets s m)))
    (env : Env) (ps : Parsers) (s : SvxStats) (t1 t2 : Clock) (op : Op) (h : P (ring s)) :
    P (ring (op.run env ps s t1 t2)) := by
  have hr := hrot s t1.minute h
  have hmod : ∀ (x : SvxStats), x.idx = (rotateBuckets s t1.minute).idx →
      x.cur_minute = (rotateBuckets s t1.minute).cur_minute →
      (∀ i, (x.buckets i).minute = ((rotateBuckets s t1.minute).buckets i).minute) →
      P (ring x) := by
    intro x h1 h2 h3
    rw [ring_congr _ x h1 h2 h3]
    exact hr
  have hrep : ∀ (c : Cat) (b : Bool), P (ring (c.report s b t1)) := by
    intro c b
    cases hb : b <;> cases ha : c.active s
    · rw [report_same_eq c s false t1 ha]; exact hr
    · rw [report_off_eq c s t1 ha]
      apply hmod
      · cases c <;> rfl
      · cases c <;> rfl
      · intro i
        cases c <;> (simp only [SvxStats.modCur]; apply update_minute; rfl)
    · rw [report_on_eq c s t1 ha]
      apply hmod
      · cases c <;> rfl
      · cases c <;> rfl
      · intro i; cases c <;> rfl
    · rw [report_same_eq c s true t1 ha]; exact hr
  cases op with
  | clientList l =>
    refine hmod _ rfl rfl (fun i => ?_)
    simp only [Op.run, onFrnClientListUpdate, SvxStats.modCur]
    apply update_minute; rfl
  | frnTxState b => exact hrep .frn_tx b
  | frnRxState b => exact hrep .frn_rx b
  | frnTxBytes n =>
    refine hmod _ rfl rfl (fun i => ?_)
    simp only [Op.run, addFrnTxBytes, SvxStats.modCur]
    apply update_minute; rfl
  | frnRxBytes n =>
    refine hmod _ rfl rfl (fun i => ?_)
    simp only [Op.run, addFrnRxBytes, SvxStats.modCur]
    apply update_minute; rfl
  | squelchState b => exact hrep .sql b
  | rfTxState b => exact hrep .rf_tx b
  | rfRxState b => exact hrep .rf_rx b
  | cmdAccepted =>
    refine hmod _ rfl rfl (fun i => ?_)
    simp only [Op.run, onCmdAccepted, SvxStats.modCur]
    apply update_minute; rfl
  | cmdRejected =>
    refine hmod _ rfl rfl (fun i => ?_)
    simp only [Op.run, onCmdRejected, SvxStats.modCur]
    apply update_minute; rfl
  | cmdAuthFailed =>
    refine hmod _ rfl rfl (fun i => ?_)
    simp only [Op.run, onCmdAuthFailed, SvxStats.modCur]
    apply update_minute; rfl
  | cmdBroadcastAttempt =>
    refine hmod _ rfl rfl (fun i => ?_)
    simp only [Op.run, onCmdBroadcastAttempt, SvxStats.modCur]
    apply update_minute; rfl
  | cmdExecTimeMs ms =>
    refine hmod _ rfl rfl (fun i => ?_)
    simp only [Op.run, onCmdExecTimeMs, SvxStats.modCur]
    apply update_minute; rfl
  | statsLine => exact hr
  | statsGroups => exact hr
  | tick =>
    show P (ring (rotateBuckets _ t2.minute))
    apply hrot
    apply hmod
    · split_ifs <;> rfl
    · split_ifs <;> rfl
    · intro i; split_ifs <;> rfl
  | persistPath p => exact h
  | startTimer n =>
    simp only [Op.run, start]
    split_ifs <;> exact h
  | loadTotals f =>
    simp only [Op.run]
    rw [ring_loadPersistedTotals]
    exact h

theorem StampInv_rotateStep (m0 : Nat) (s : SvxStats) (h : StampInv m0 (ring s)) :
    StampInv m0 (ring (rotateStep s)) := by
  obtain ⟨h1, h2⟩ := h
  simp only [ring, stamps] at h1 h2
  refine ⟨?_, fun i => ?_⟩
  · simp only [ring, rotateStep]; omega
  · simp only [ring, rotateStep, stamps]
    by_cases hi : s.idx + 1 = i
    · subst hi
      simp
    · rw [Function.update_noteq (Ne.symm hi), h2 i, fin_succ_sub_val _ _ hi]
      have hd : (s.idx - i).val < 60 := (s.idx - i).isLt
      split_ifs <;> omega

theorem StampInv_rotateBuckets (m0 : Nat) (s : SvxStats) (m : Nat)
    (h : StampInv m0 (ring s)) : StampInv m0 (ring (rotateBuckets s m)) := by
  by_cases hm : m ≤ s.cur_minute
  · rw [rotateBuckets_of_le _ _ hm]; exact h
  · obtain ⟨k, rfl⟩ : ∃ k, m = s.cur_minute + k := ⟨m - s.cur_minute, by omega⟩
    rw [rotateBuckets_eq_iterate]
    clear hm
    induction k with
    | zero => exact h
    | succ n ih =>
      rw [Function.iterate_succ_apply']
      exact StampInv_rotateStep m0 _ ih

theorem StampInv_init (t0 : Clock) : StampInv t0.minute (ring (SvxStats.init t0)) := by
  refine ⟨le_refl _, fun i => ?_⟩
  simp only [ring, stamps, SvxStats.init]
  split <;> omega

/-- In every reachable state the stamps of the ring are those of `StampInv`. -/
theorem StampInv_reachable (env : Env) (ps : Parsers) (t0 : Clock) (s : SvxStats)
    (h : Reachable env ps t0 s) : StampInv t0.minute (ring s) := by
  induction h with
  | init => exact StampInv_init t0
  | step s op t1 t2 _ ih =>
    exact ringPred_run (StampInv t0.minute) (StampInv_rotateBuckets t0.minute) env ps s t1 t2 op ih

/-- What the stamps give: the current bucket carries the current minute, and
no bucket is 60 or more minutes older than the current minute. -/
theorem StampInv_facts (m0 : Nat) (s : SvxStats) (h : StampInv m0 (ring s)) :
    s.cur.minute = s.cur_minute ∧
    ∀ i, (s.buckets i).minute ≤ s.cur_minute ∧ s.cur_minute < (s.buckets i).minute + 60 := by
  obtain ⟨h1, h2⟩ := h
  simp only [ring, stamps] at h1 h2
  refine ⟨?_, fun i => ?_⟩
  · rw [SvxStats.cur, h2 s.idx]
    simp
  · rw [h2 i]
    have hd : (s.idx - i).val < 60 := (s.idx - i).isLt
    split_ifs <;> omega

/-! ## The window filter skips nothing: claim C35 -/

/-- C35: in every reachable aggregator state and for every query minute
`now`, after `rotateBuckets(now)` no bucket at all has `minute + 60 ≤ now`, so
the window filter of `formatStatsLine` / `formatStatsGroups` skips no bucket,
with or without data: each step of the loop adds its bucket, and the windowed
sums are the plain sums over all 60 buckets. -/
theorem C35_window_filter_idle (env : Env) (ps : Parsers) (t0 : Clock) (s : SvxStats)
    (h : Reachable env ps t0 s) (now : Nat) :
    (∀ i, ¬ ((rotateBuckets s now).buckets i).minute + NBUCKET ≤ now) ∧
    (∀ (w : Window) (i : Fin NBUCKET),
      windowAdd now w ((rotateBuckets s now).buckets i) =
        plainAdd w ((rotateBuckets s now).buckets i)) ∧
    windowSum (rotateBuckets s now) now = plainSum (rotateBuckets s now) := by
  have hinv := StampInv_rotateBuckets t0.minute s now (StampInv_reachable env ps t0 s h)
  obtain ⟨_, hf⟩ := StampInv_facts t0.minute _ hinv
  have hcur := rotateBuckets_cur_minute s now
  have hskip : ∀ i, ¬ ((rotateBuckets s now).buckets i).minute + NBUCKET ≤ now := by
    intro i hle
    have h2 := (hf i).2
    have h3 : now ≤ (rotateBuckets s now).cur_minute := by rw [hcur]; exact le_max_right _ _
    simp only [NBUCKET] at hle
    omega
  have hadd : ∀ (w : Window) (i : Fin NBUCKET),
      windowAdd now w ((rotateBuckets s now).buckets i) =
        plainAdd w ((rotateBuckets s now).buckets i) := by
    intro w i
    unfold windowAdd
    rw [if_neg (hskip i)]
    rfl
  refine ⟨hskip, hadd, ?_⟩
  unfold windowSum plainSum
  congr 1
  funext w i
  exact hadd w i

/-- C35 at the state after one accepted command at minute 8 of an aggregator
constructed at minute 7, queried at minute 130. -/
theorem C35_window_filter_idle_witness :
    Reachable ⟨60, fun _ => []⟩ ⟨fun _ => none, fun _ => none⟩ ⟨7, 0, 0⟩
      (Op.cmdAccepted.run ⟨60, fun _ => []⟩ ⟨fun _ => none, fun _ => none⟩
        (SvxStats.init ⟨7, 0, 0⟩) ⟨8, 60, 60000⟩ ⟨8, 60, 60000⟩) ∧
    windowSum (rotateBuckets
      (Op.cmdAccepted.run ⟨60, fun _ => []⟩ ⟨fun _ => none, fun _ => none⟩
        (SvxStats.init ⟨7, 0, 0⟩) ⟨8, 60, 60000⟩ ⟨8, 60, 60000⟩) 130) 130 =
    plainSum (rotateBuckets
      (Op.cmdAccepted.run ⟨60, fun _ => []⟩ ⟨fun _ => none, fun _ => none⟩
        (SvxStats.init ⟨7, 0, 0⟩) ⟨8, 60, 60000⟩ ⟨8, 60, 60000⟩) 130) :=
  ⟨Reachable.step _ Op.cmdAccepted ⟨8, 60, 60000⟩ ⟨8, 60, 60000⟩ Reachable.init,
   (C35_window_filter_idle ⟨60, fun _ => []⟩ ⟨fun _ => none, fun _ => none⟩ ⟨7, 0, 0⟩ _
      (Reachable.step _ Op.cmdAccepted ⟨8, 60, 60000⟩ ⟨8, 60, 60000⟩ Reachable.init) 130).2.2⟩

/-! ## Lemmas on the characters of a command -/

/-- Every character of a text is whitespace or lies in one of its tokens. -/
theorem tokensAux_cover (s cur : Str) (c : Nat) (h : c ∈ s ∨ c ∈ cur) :
    isspace c = true ∨ ∃ t ∈ tokensAux s cur, c ∈ t := by
  induction s generalizing cur with
  | nil =>
    rcases h with h | h
    · exact absurd h (List.not_mem_nil _)
    · right
      cases cur with
      | nil => exact absurd h (List.not_mem_nil _)
      | cons a l => exact ⟨a :: l, by simp [tokensAux], h⟩
  | cons x xs ih =>
    unfold tokensAux
    by_cases hx : isspace x = true
    · rw [if_pos hx]
      rcases h with h | h
      · rcases List.mem_cons.1 h with h | h
        · left; rw [h]; exact hx
        · rcases ih [] (Or.inl h) with h2 | ⟨t, ht, hc⟩
          · exact Or.inl h2
          · right
            split
            · exact ⟨t, ht, hc⟩
            · exact ⟨t, List.mem_cons_of_mem _ ht, hc⟩
      · right
        cases cur with
        | nil => exact absurd h (List.not_mem_nil _)
        | cons a l => exact ⟨a :: l, by simp, h⟩
    · rw [if_neg hx]
      apply ih
      rcases h with h | h
      · rcases List.mem_cons.1 h with h | h
        · right; rw [h]; simp
        · exact Or.inl h
      · right; exact List.mem_append_left _ h

theorem allowlist_lower : ∀ tok ∈ allowlist, ∀ t ∈ tok, ∀ c ∈ t, isLower c = true := by
  decide

/-- A text whose tokens are on the allowlist holds lowercase letters and
whitespace only. -/
theorem allowed_chars (rem : Str) (h : tokens rem ∈ allowlist) :
    ∀ c ∈ rem, isLower c = true ∨ isspace c = true := by
  intro c hc
  rcases tokensAux_cover rem [] c (Or.inl hc) with h2 | ⟨t, ht, hct⟩
  · exact Or.inr h2
  · exact Or.inl (allowlist_lower _ h t ht c hct)

theorem verdict_chars (rem : Str) :
    ∀ c ∈ (verdict rem).out_cmd, isLower c = true ∨ isspace c = true := by
  unfold verdict
  split
  · intro c hc; exact absurd hc (List.not_mem_nil _)
  · split
    · rename_i h; exact allowed_chars rem h
    · intro c hc; exact absurd hc (List.not_mem_nil _)

/-- The command string the authorizer hands out holds lowercase letters and
whitespace only. -/
theorem parse_chars (secret from_id msg : Str) :
    ∀ c ∈ (parseAndAuthorizeCmd secret from_id msg [] []).out_cmd,
      isLower c = true ∨ isspace c = true := by
  by_cases hm : carriesMarker msg = true
  · by_cases ha : secretAccepted secret (afterMarker msg) = true
    · rw [parse_accepted secret from_id msg hm ha]
      exact verdict_chars _
    · rw [parse_authFail secret from_id msg [] [] hm (by simpa using ha)]
      intro c hc; exact absurd hc (List.not_mem_nil _)
  · rw [parse_noMarker secret from_id msg [] [] (by simpa using hm)]
    intro c hc; exact absurd hc (List.not_mem_nil _)

/-- The processes the handler has started after a message: those started
before, and at most one more, whose command line is the tool path, a space and
the command string of the authorizer. -/
theorem started_after (env : Env) (w : World) (from_id msg scope : Str) (t1 t2 : Clock) :
    (onTextMessageReceived env w from_id msg scope t1 t2).started = w.started ∨
    (onTextMessageReceived env w from_id msg scope t1 t2).started =
      w.started ++ [(w.mod.aiorsctl_path ++ lit " " ++
        (parseAndAuthorizeCmd w.mod.run_cmd_secret from_id msg [] []).out_cmd, 3)] := by
  unfold onTextMessageReceived
  simp only
  split_ifs <;> first | exact Or.inl rfl | exact Or.inr rfl

/-! ## The characters of an authorised command: claim C36 -/

/-- C36: for every message, sender and configured secret, the command string
`parseAndAuthorizeCmd` hands out holds only lowercase letters `a` to `z` and
whitespace characters (space, tab, line feed, vertical tab, form feed, carriage
return). The handler starts at most one process per message, and its command
line is the configured tool path, one space and that command string, so beyond
the tool path a command line holds lowercase letters and whitespace only. -/
theorem C36_command_characters (env : Env) (w : World) (from_id msg scope : Str)
    (t1 t2 : Clock) :
    (∀ c ∈ (parseAndAuthorizeCmd w.mod.run_cmd_secret from_id msg [] []).out_cmd,
      isLower c = true ∨ isspace c = true) ∧
    ((onTextMessageReceived env w from_id msg scope t1 t2).started = w.started ∨
      ∃ cmd : Str, (∀ c ∈ cmd, isLower c = true ∨ isspace c = true) ∧
        (onTextMessageReceived env w from_id msg scope t1 t2).started =
          w.started ++ [(w.mod.aiorsctl_path ++ lit " " ++ cmd, 3)]) := by
  refine ⟨parse_chars _ _ _, ?_⟩
  rcases started_after env w from_id msg scope t1 t2 with h | h
  · exact Or.inl h
  · exact Or.inr ⟨_, parse_chars _ _ _, h⟩

/-- C36 at the direct message `RunCmd: Get PSU All`. -/
theorem C36_command_characters_witness :
    ∀ c ∈ (parseAndAuthorizeCmd [] (lit "peer1") (lit "RunCmd: Get PSU All") [] []).out_cmd,
      isLower c = true ∨ isspace c = true :=
  (C36_command_characters ⟨60, fun _ => []⟩ { mod := {}, stats := SvxStats.init ⟨7, 0, 0⟩ }
    (lit "peer1") (lit "RunCmd: Get PSU All") (lit "P") ⟨7, 30, 30000⟩ ⟨7, 30, 30000⟩).1

/-! ## Lemmas on the exit of the chunking loop -/

/-- Past the first chunk the loop has moved forward. -/
theorem chunk_advance (s : Str) (cs off : Nat) (hcs : 1 ≤ cs) (hoff : off < s.length) :
    off < skipSpaces s (s.length - (off + chunkTake s cs off)) (off + chunkTake s cs off) := by
  have h1 := chunkTake_pos s cs off hcs hoff
  have h2 := skipSpaces_ge s (s.length - (off + chunkTake s cs off)) (off + chunkTake s cs off)
  omega

/-- Any two iteration budgets that cover the rest of the text give the same
chunks: the loop leaves through its guard `off < s.size()`. -/
theorem chunkSpans_fuel (s : Str) (cs : Nat) (hcs : 1 ≤ cs) (f1 f2 off : Nat)
    (h1 : s.length - off ≤ f1) (h2 : s.length - off ≤ f2) :
    chunkSpans s cs f1 off = chunkSpans s cs f2 off := by
  induction f1 generalizing f2 off with
  | zero =>
    have hle : ¬ off < s.length := by omega
    cases f2 with
    | zero => rfl
    | succ n => simp [chunkSpans, hle]
  | succ n ih =>
    by_cases hlt : off < s.length
    · cases f2 with
      | zero => omega
      | succ m =>
        have ha := chunk_advance s cs off hcs hlt
        simp only [chunkSpans, hlt, if_true]
        rw [ih m _ (by omega) (by omega)]
    · cases f2 with
      | zero => simp [chunkSpans, hlt]
      | succ m => simp [chunkSpans, hlt]

theorem chunkSpans_length_le (s : Str) (cs : Nat) (hcs : 1 ≤ cs) (fuel off : Nat) :
    (chunkSpans s cs fuel off).length ≤ s.length - off := by
  induction fuel generalizing off with
  | zero => simp [chunkSpans]
  | succ n ih =>
    unfold chunkSpans
    split
    · rename_i hlt
      have ha := chunk_advance s cs off hcs hlt
      have := ih (skipSpaces s (s.length - (off + chunkTake s cs off)) (off + chunkTake s cs off))
      simp only [List.length_cons]
      omega
    · simp

/-! ## The chunking loop terminates: claim C37 -/

/-- C37: for every text `s` and every per-frame budget `L`, the chunking loop
of `sendCmdReplyChunked` terminates. The chunk size is at least 1. Every
iteration, started at an offset `off` inside the text, takes between 1 and
chunk-size characters that lie inside the text, and leaves the offset further
on than it found it. So the loop runs at most `s.size()` times, any iteration
budget of at least `s.size()` gives the same chunks (the loop leaves through
its guard), and every chunk is non-empty and at most chunk-size characters
long. -/
theorem C37_chunking_terminates (L : Nat) (s : Str) :
    1 ≤ chunkSize L ∧
    (∀ off, off < s.length →
      1 ≤ chunkTake s (chunkSize L) off ∧
      chunkTake s (chunkSize L) off ≤ chunkSize L ∧
      off + chunkTake s (chunkSize L) off ≤ s.length ∧
      off < skipSpaces s (s.length - (off + chunkTake s (chunkSize L) off))
        (off + chunkTake s (chunkSize L) off)) ∧
    (∀ fuel, s.length ≤ fuel →
      chunkSpans s (chunkSize L) fuel 0 = chunkSpans s (chunkSize L) s.length 0) ∧
    (chunkSpans s (chunkSize L) s.length 0).length ≤ s.length ∧
    (chunksOf L s).length ≤ s.length ∧
    (∀ c ∈ chunksOf L s, 1 ≤ c.length ∧ c.length ≤ chunkSize L) := by
  have hcs := chunkSize_pos L
  have htake : ∀ off, off < s.length →
      1 ≤ chunkTake s (chunkSize L) off ∧
      chunkTake s (chunkSize L) off ≤ chunkSize L ∧
      off + chunkTake s (chunkSize L) off ≤ s.length := by
    intro off hoff
    have h1 := chunkTake_pos s (chunkSize L) off hcs hoff
    have h2 := chunkTake_le s (chunkSize L) off
    have h3 : min (chunkSize L) (s.length - off) ≤ chunkSize L := min_le_left _ _
    have h4 : min (chunkSize L) (s.length - off) ≤ s.length - off := min_le_right _ _
    exact ⟨h1, by omega, by omega⟩
  have hlen := chunkSpans_length_le s (chunkSize L) hcs s.length 0
  refine ⟨hcs, fun off hoff => ?_, fun fuel hf => ?_, by simpa using hlen, ?_, fun c hc => ?_⟩
  · obtain ⟨a, b, c⟩ := htake off hoff
    exact ⟨a, b, c, chunk_advance s (chunkSize L) off hcs hoff⟩
  · exact chunkSpans_fuel s (chunkSize L) hcs fuel s.length 0 (by omega) (by omega)
  · simp only [chunksOf, List.length_map]
    simpa using hlen
  · simp only [chunksOf, List.mem_map] at hc
    obtain ⟨p, hp, rfl⟩ := hc
    obtain ⟨p1, p2⟩ := chunkSpans_mem s (chunkSize L) s.length 0 p hp
    obtain ⟨a, b, c⟩ := htake p.1 p1
    have hl : (substr s p.1 p.2).length = p.2 := by
      simp only [substr, List.length_take, List.length_drop]
      omega
    rw [hl, p2]
    exact ⟨a, b⟩

set_option maxRecDepth 100000 in
/-- C37 at a reply of 500 characters and a budget of 60: a budget of 1000
iterations gives the chunks that 500 iterations give. -/
theorem C37_chunking_terminates_witness :
    chunkSpans (List.replicate 20 (lit "PSU A: 13.8 V 2.1 A ok.  ")).flatten (chunkSize 60) 1000 0 =
      chunkSpans (List.replicate 20 (lit "PSU A: 13.8 V 2.1 A ok.  ")).flatten (chunkSize 60)
        (List.replicate 20 (lit "PSU A: 13.8 V 2.1 A ok.  ")).flatten.length 0 :=
  (C37_chunking_terminates 60 (List.replicate 20 (lit "PSU A: 13.8 V 2.1 A ok.  ")).flatten).2.2.1
    1000 (by decide)

/-! ## The current minute and the current bucket: claim C38 -/

/-- C38: for every aggregator state and every minute `now`,
`rotateBuckets(now)` sets the current minute to the larger of the current
minute and `now`, and changes nothing at all when `now` is not later than the
current minute; when `now` is later, the bucket at the new index is stamped
`now`. In every reachable state the bucket at the current index is stamped with
the current minute, before and after a rotation. -/
theorem C38_rotate_current (s : SvxStats) (now : Nat) :
    (rotateBuckets s now).cur_minute = max s.cur_minute now ∧
    (now ≤ s.cur_minute → rotateBuckets s now = s) ∧
    (s.cur_minute < now → (rotateBuckets s now).cur.minute = now) ∧
    (∀ (env : Env) (ps : Parsers) (t0 : Clock), Reachable env ps t0 s →
      s.cur.minute = s.cur_minute ∧
      (rotateBuckets s now).cur.minute = (rotateBuckets s now).cur_minute) := by
  refine ⟨rotateBuckets_cur_minute s now, rotateBuckets_of_le s now, rotate_cur_stamp s now,
    fun env ps t0 h => ?_⟩
  have hinv := StampInv_reachable env ps t0 s h
  exact ⟨(StampInv_facts t0.minute s hinv).1,
    (StampInv_facts t0.minute _ (StampInv_rotateBuckets t0.minute s now hinv)).1⟩

/-- C38 at the state after one accepted command at minute 8 of an aggregator
constructed at minute 7. -/
theorem C38_rotate_current_witness :
    Reachable ⟨60, fun _ => []⟩ ⟨fun _ => none, fun _ => none⟩ ⟨7, 0, 0⟩
      (Op.cmdAccepted.run ⟨60, fun _ => []⟩ ⟨fun _ => none, fun _ => none⟩
        (SvxStats.init ⟨7, 0, 0⟩) ⟨8, 60, 60000⟩ ⟨8, 60, 60000⟩) ∧
    (Op.cmdAccepted.run ⟨60, fun _ => []⟩ ⟨fun _ => none, fun _ => none⟩
        (SvxStats.init ⟨7, 0, 0⟩) ⟨8, 60, 60000⟩ ⟨8, 60, 60000⟩).cur.minute =
      (Op.cmdAccepted.run ⟨60, fun _ => []⟩ ⟨fun _ => none, fun _ => none⟩
        (SvxStats.init ⟨7, 0, 0⟩) ⟨8, 60, 60000⟩ ⟨8, 60, 60000⟩).cur_minute :=
  ⟨Reachable.step _ Op.cmdAccepted ⟨8, 60, 60000⟩ ⟨8, 60, 60000⟩ Reachable.init,
   ((C38_rotate_current
      (Op.cmdAccepted.run ⟨60, fun _ => []⟩ ⟨fun _ => none, fun _ => none⟩
        (SvxStats.init ⟨7, 0, 0⟩) ⟨8, 60, 60000⟩ ⟨8, 60, 60000⟩) 9).2.2.2
      ⟨60, fun _ => []⟩ ⟨fun _ => none, fun _ => none⟩ ⟨7, 0, 0⟩
      (Reachable.step _ Op.cmdAccepted ⟨8, 60, 60000⟩ ⟨8, 60, 60000⟩ Reachable.init)).1⟩

/-! ## Loading over earlier values: claim C39 -/

/-- A line made of a current key, `=` and a value text assigns the field of
the key. -/
theorem loadLine_current (ps : Parsers) (st : SvxStats) (k v : Str) (f : Fld)
    (hk : keyField k = some (f, false)) :
    loadLine ps st (k ++ 61 :: v) = applyKey ps st v (some (f, false)) := by
  rw [loadLine_key ps st k v (keyField_no_eq k (by rw [hk]; rfl)), hk]

theorem getN_put_same (f : Fld) (n : Nat) (q : ℚ) (s : SvxStats) (h : f.isSec = false) :
    f.getN (f.put n q s) = n := by
  cases f <;> first | rfl | exact absurd h Bool.noConfusion

theorem getN_applyKey_ne (ps : Parsers) (f g : Fld) (h : f ≠ g) (v : Str) (st : SvxStats) :
    g.getN (applyKey ps st v (some (f, false))) = g.getN st :=
  getN_put_ne f g h _ _ st

theorem getN_foldl_absent (ps : Parsers) (g : Fld) (l : List (Fld × Str)) (st : SvxStats)
    (h : g ∉ l.map Prod.fst) :
    g.getN (l.foldl (fun st p => applyKey ps st p.2 (some (p.1, false))) st) = g.getN st := by
  induction l generalizing st with
  | nil => rfl
  | cons p l ih =>
    simp only [List.map_cons, List.mem_cons, not_or] at h
    rw [List.foldl_cons, ih _ h.2, getN_applyKey_ne ps p.1 g (Ne.symm h.1)]

/-- A run of lines with distinct current keys gives each counter the value read
from its own line. -/
theorem getN_foldl_present (ps : Parsers) (g : Fld) (hg : g.isSec = false) (v : Str)
    (l : List (Fld × Str)) (st : SvxStats) (hn : (l.map Prod.fst).Nodup) (hm : (g, v) ∈ l) :
    g.getN (l.foldl (fun st p => applyKey ps st p.2 (some (p.1, false))) st) =
      parse_u64 ps v (g.getN st) := by
  induction l generalizing st with
  | nil => exact absurd hm (List.not_mem_nil _)
  | cons p l ih =>
    simp only [List.map_cons, List.nodup_cons] at hn
    rw [List.foldl_cons]
    rcases List.mem_cons.1 hm with e | e
    · subst e
      rw [getN_foldl_absent ps g l _ hn.1]
      exact getN_put_same g _ _ st hg
    · have hne : p.1 ≠ g := by
        intro e2
        apply hn.1
        rw [e2]
        exact List.mem_map.2 ⟨(g, v), e, rfl⟩
      rw [ih _ hn.2 e, getN_applyKey_ne ps p.1 g hne]

/-- Loading the lines written for `s` is a run of eighteen assignments, one per
persisted field. -/
theorem foldl_persistedLines (ps : Parsers) (general : ℚ → Str) (s s0 : SvxStats) :
    (persistedLines general s).foldl (loadLine ps) s0 =
      [(Fld.rf_tx_s, general s.rf_tx_total.sec),
       (Fld.rf_tx_evt, decimal s.rf_tx_total.evt),
       (Fld.rf_rx_s, general s.rf_rx_total.sec),
       (Fld.rf_rx_evt, decimal s.rf_rx_total.evt),
       (Fld.sq_open_s, general s.sql_total.sec),
       (Fld.sq_evt, decimal s.sql_total.evt),
       (Fld.frn_tx_s, general s.frn_tx_total.sec),
       (Fld.frn_tx_evt, decimal s.frn_tx_total.evt),
       (Fld.frn_rx_s, general s.frn_rx_total.sec),
       (Fld.frn_rx_evt, decimal s.frn_rx_total.evt),
       (Fld.cmd_ok, decimal s.cmd_total.ok),
       (Fld.cmd_rej, decimal s.cmd_total.rej),
       (Fld.cmd_authfail, decimal s.cmd_total.authfail),
       (Fld.cmd_bc_attempt, decimal s.cmd_total.bc_attempt),
       (Fld.cmd_sum_ms, decimal s.cmd_total.sum_ms),
       (Fld.cmd_max_ms, decimal s.cmd_total.max_ms),
       (Fld.frn_tx_bytes, decimal s.frn_tx_bytes_total),
       (Fld.frn_rx_bytes, decimal s.frn_rx_bytes_total)].foldl
        (fun st p => applyKey ps st p.2 (some (p.1, false))) s0 := by
  have h_rf_tx_s : ∀ (st : SvxStats) (v : Str), loadLine ps st (lit "rf_tx_s_total=" ++ v) =
      applyKey ps st v (some (Fld.rf_tx_s, false)) :=
    fun st v => loadLine_current ps st (lit "rf_tx_s_total") v Fld.rf_tx_s (by decide)
  have h_rf_tx_evt : ∀ (st : SvxStats) (v : Str), loadLine ps st (lit "rf_tx_evt_total=" ++ v) =
      applyKey ps st v (some (Fld.rf_tx_evt, false)) :=
    fun st v => loadLine_current ps st (lit "rf_tx_evt_total") v Fld.rf_tx_evt (by decide)
  have h_rf_rx_s : ∀ (st : SvxStats) (v : Str), loadLine ps st (lit "rf_rx_s_total=" ++ v) =
      applyKey ps st v (some (Fld.rf_rx_s, false)) :=
    fun st v => loadLine_current ps st (lit "rf_rx_s_total") v Fld.rf_rx_s (by decide)
  have h_rf_rx_evt : ∀ (st : SvxStats) (v : Str), loadLine ps st (lit "rf_rx_evt_total=" ++ v) =
      applyKey ps st v (some (Fld.rf_rx_evt, false)) :=
    fun st v => loadLine_current ps st (lit "rf_rx_evt_total") v Fld.rf_rx_evt (by decide)
  have h_sq_open_s : ∀ (st : SvxStats) (v : Str), loadLine ps st (lit "sq_open_s_total=" ++ v) =
      applyKey ps st v (some (Fld.sq_open_s, false)) :=
    fun st v => loadLine_current ps st (lit "sq_open_s_total") v Fld.sq_open_s (by decide)
  have h_sq_evt : ∀ (st : SvxStats) (v : Str), loadLine ps st (lit "sq_evt_total=" ++ v) =
      applyKey ps st v (some (Fld.sq_evt, false)) :=
    fun st v => loadLine_current ps st (lit "sq_evt_total") v Fld.sq_evt (by decide)
  have h_frn_tx_s : ∀ (st : SvxStats) (v : Str), loadLine ps st (lit "frn_tx_s_total=" ++ v) =
      applyKey ps st v (some (Fld.frn_tx_s, false)) :=
    fun st v => loadLine_current ps st (lit "frn_tx_s_total") v Fld.frn_tx_s (by decide)
  have h_frn_tx_evt : ∀ (st : SvxStats) (v : Str), loadLine ps st (lit "frn_tx_evt_total=" ++ v) =
      applyKey ps st v (some (Fld.frn_tx_evt, false)) :=
    fun st v => loadLine_current ps st (lit "frn_tx_evt_total") v Fld.frn_tx_evt (by decide)
  have h_frn_rx_s : ∀ (st : SvxStats) (v : Str), loadLine ps st (lit "frn_rx_s_total=" ++ v) =
      applyKey ps st v (some (Fld.frn_rx_s, false)) :=
    fun st v => loadLine_current ps st (lit "frn_rx_s_total") v Fld.frn_rx_s (by decide)
  have h_frn_rx_evt : ∀ (st : SvxStats) (v : Str), loadLine ps st (lit "frn_rx_evt_total=" ++ v) =
      applyKey ps st v (some (Fld.frn_rx_evt, false)) :=
    fun st v => loadLine_current ps st (lit "frn_rx_evt_total") v Fld.frn_rx_evt (by decide)
  have h_cmd_ok : ∀ (st : SvxStats) (v : Str), loadLine ps st (lit "cmd_ok_total=" ++ v) =
      applyKey ps st v (some (Fld.cmd_ok, false)) :=
    fun st v => loadLine_current ps st (lit "cmd_ok_total") v Fld.cmd_ok (by decide)
  have h_cmd_rej : ∀ (st : SvxStats) (v : Str), loadLine ps st (lit "cmd_rej_total=" ++ v) =
      applyKey ps st v (some (Fld.cmd_rej, false)) :=
    fun st v => loadLine_current ps st (lit "cmd_rej_total") v Fld.cmd_rej (by decide)
  have h_cmd_authfail : ∀ (st : SvxStats) (v : Str), loadLine ps st (lit "cmd_authfail_total=" ++ v) =
      applyKey ps st v (some (Fld.cmd_authfail, false)) :=
    fun st v => loadLine_current ps st (lit "cmd_authfail_total") v Fld.cmd_authfail (by decide)
  have h_cmd_bc_attempt : ∀ (st : SvxStats) (v : Str), loadLine ps st (lit "cmd_bc_attempt_total=" ++ v) =
      applyKey ps st v (some (Fld.cmd_bc_attempt, false)) :=
    fun st v => loadLine_current ps st (lit "cmd_bc_attempt_total") v Fld.cmd_bc_attempt (by decide)
  have h_cmd_sum_ms : ∀ (st : SvxStats) (v : Str), loadLine ps st (lit "cmd_sum_ms_total=" ++ v) =
      applyKey ps st v (some (Fld.cmd_sum_ms, false)) :=
    fun st v => loadLine_current ps st (lit "cmd_sum_ms_total") v Fld.cmd_sum_ms (by decide)
  have h_cmd_max_ms : ∀ (st : SvxStats) (v : Str), loadLine ps st (lit "cmd_max_ms_total=" ++ v) =
      applyKey ps st v (some (Fld.cmd_max_ms, false)) :=
    fun st v => loadLine_current ps st (lit "cmd_max_ms_total") v Fld.cmd_max_ms (by decide)
  have h_frn_tx_bytes : ∀ (st : SvxStats) (v : Str), loadLine ps st (lit "frn_tx_bytes_total=" ++ v) =
      applyKey ps st v (some (Fld.frn_tx_bytes, false)) :=
    fun st v => loadLine_current ps st (lit "frn_tx_bytes_total") v Fld.frn_tx_bytes (by decide)
  have h_frn_rx_bytes : ∀ (st : SvxStats) (v : Str), loadLine ps st (lit "frn_rx_bytes_total=" ++ v) =
      applyKey ps st v (some (Fld.frn_rx_bytes, false)) :=
    fun st v => loadLine_current ps st (lit "frn_rx_bytes_total") v Fld.frn_rx_bytes (by decide)
  simp only [persistedLines, List.foldl_cons, List.foldl_nil, h_rf_tx_s, h_rf_tx_evt, h_rf_rx_s,
    h_rf_rx_evt, h_sq_open_s, h_sq_evt, h_frn_tx_s, h_frn_tx_evt, h_frn_rx_s, h_frn_rx_evt,
    h_cmd_ok, h_cmd_rej, h_cmd_authfail, h_cmd_bc_attempt, h_cmd_sum_ms, h_cmd_max_ms,
    h_frn_tx_bytes, h_frn_rx_bytes]

/-- The counters loaded from the lines written for `s` into any state `s0`:
each is what `std::stoull` reads from its line, or the value of `s0` when it
reads nothing. -/
theorem load_persistedLines_any (ps : Parsers) (general : ℚ → Str) (s s0 : SvxStats)
    (f : Fld) (hf : f.isSec = false) :
    f.getN ((persistedLines general s).foldl (loadLine ps) s0) =
      parse_u64 ps (decimal (f.getN s)) (f.getN s0) := by
  rw [foldl_persistedLines]
  apply getN_foldl_present ps f hf
  · simp only [List.map_cons, List.map_nil]
    decide
  · cases f <;> first | exact absurd hf Bool.noConfusion | simp [Fld.getN]

/-- C39: let `text` be what `savePersistedTotals` writes for a state `s`, and
load it into any aggregator `s0` that has a persist path, whatever its totals
are. Provided the rendering of a double holds no line feed, `std::stoull`
reads back the decimal text of every value below `2 ^ 64`, and the counters of
`s` are below `2 ^ 64`, the load restores exactly the thirteen persisted
integer fields: the event count of each of the five categories, the command
ok, rejected, auth-failed and broadcast-attempt counters, the sum and the
maximum of the command execution times, and the two byte totals. -/
theorem C39_counters_restored (ps : Parsers) (general : ℚ → Str) (s s0 : SvxStats)
    (text : Str) (writable : Bool)
    (hsave : savePersistedTotals general s writable = some text)
    (hpath : s0.persist_path ≠ [])
    (hg : ∀ x, 10 ∉ general x)
    (hu : ∀ n, n < 2 ^ 64 → ps.stoull (decimal n) = some n)
    (hb : ∀ f : Fld, f.getN s < 2 ^ 64) :
    (∀ f : Fld, f.getN (loadPersistedTotals ps s0 (some text)) = f.getN s) ∧
    (loadPersistedTotals ps s0 (some text)).rf_tx_total.evt = s.rf_tx_total.evt ∧
    (loadPersistedTotals ps s0 (some text)).rf_rx_total.evt = s.rf_rx_total.evt ∧
    (loadPersistedTotals ps s0 (some text)).sql_total.evt = s.sql_total.evt ∧
    (loadPersistedTotals ps s0 (some text)).frn_tx_total.evt = s.frn_tx_total.evt ∧
    (loadPersistedTotals ps s0 (some text)).frn_rx_total.evt = s.frn_rx_total.evt ∧
    (loadPersistedTotals ps s0 (some text)).cmd_total.ok = s.cmd_total.ok ∧
    (loadPersistedTotals ps s0 (some text)).cmd_total.rej = s.cmd_total.rej ∧
    (loadPersistedTotals ps s0 (some text)).cmd_total.authfail = s.cmd_total.authfail ∧
    (loadPersistedTotals ps s0 (some text)).cmd_total.bc_attempt = s.cmd_total.bc_attempt ∧
    (loadPersistedTotals ps s0 (some text)).cmd_total.sum_ms = s.cmd_total.sum_ms ∧
    (loadPersistedTotals ps s0 (some text)).cmd_total.max_ms = s.cmd_total.max_ms ∧
    (loadPersistedTotals ps s0 (some text)).frn_tx_bytes_total = s.frn_tx_bytes_total ∧
    (loadPersistedTotals ps s0 (some text)).frn_rx_bytes_total = s.frn_rx_bytes_total := by
  have htext : text = persistedText general s := by
    unfold savePersistedTotals at hsave
    split at hsave
    · exact absurd hsave (by simp)
    · split at hsave
      · exact absurd hsave (by simp)
      · exact (Option.some.inj hsave).symm
  have hp : s0.persist_path.isEmpty = false := by
    cases hq : s0.persist_path with
    | nil => exact absurd hq hpath
    | cons a l => rfl
  have hl : loadPersistedTotals ps s0 (some text) =
      (persistedLines general s).foldl (loadLine ps) s0 := by
    unfold loadPersistedTotals
    rw [hp, htext]
    simp only [Bool.false_eq_true, if_false]
    rw [getlines_persistedText general s hg]
  have hN : ∀ f : Fld, f.getN (loadPersistedTotals ps s0 (some text)) = f.getN s := by
    intro f
    cases hs : f.isSec
    · rw [hl, load_persistedLines_any ps general s s0 f hs, parse_u64, hu _ (hb f)]
      rfl
    · cases f <;> first | rfl | exact absurd hs Bool.noConfusion
  exact ⟨hN, hN .rf_tx_evt, hN .rf_rx_evt, hN .sq_evt, hN .frn_tx_evt, hN .frn_rx_evt,
    hN .cmd_ok, hN .cmd_rej, hN .cmd_authfail, hN .cmd_bc_attempt, hN .cmd_sum_ms,
    hN .cmd_max_ms, hN .frn_tx_bytes, hN .frn_rx_bytes⟩

set_option maxRecDepth 100000 in
/-- C39 at the state after three accepted commands, written to a writable file
and loaded into an aggregator that has counted one accepted command: the
counter of accepted commands becomes 3. -/
theorem C39_counters_restored_witness :
    (onCmdAccepted (setPersistPath (SvxStats.init ⟨9, 0, 0⟩) (lit "/var/lib/svxlink/stats"))
      9).cmd_total.ok = 1 ∧
    (loadPersistedTotals ⟨readDecimal, fun _ => none⟩
      (onCmdAccepted (setPersistPath (SvxStats.init ⟨9, 0, 0⟩) (lit "/var/lib/svxlink/stats")) 9)
      (some (persistedText (fun _ => lit "0")
        (onCmdAccepted (onCmdAccepted (onCmdAccepted
          (setPersistPath (SvxStats.init ⟨7, 0, 0⟩) (lit "/var/lib/svxlink/stats")) 7) 7)
          8)))).cmd_total.ok =
      (onCmdAccepted (onCmdAccepted (onCmdAccepted
        (setPersistPath (SvxStats.init ⟨7, 0, 0⟩) (lit "/var/lib/svxlink/stats")) 7) 7)
        8).cmd_total.ok :=
  ⟨by decide,
   (C39_counters_restored ⟨readDecimal, fun _ => none⟩ (fun _ => lit "0")
      (onCmdAccepted (onCmdAccepted (onCmdAccepted
        (setPersistPath (SvxStats.init ⟨7, 0, 0⟩) (lit "/var/lib/svxlink/stats")) 7) 7) 8)
      (onCmdAccepted (setPersistPath (SvxStats.init ⟨9, 0, 0⟩) (lit "/var/lib/svxlink/stats")) 9)
      (persistedText (fun _ => lit "0")
        (onCmdAccepted (onCmdAccepted (onCmdAccepted
          (setPersistPath (SvxStats.init ⟨7, 0, 0⟩) (lit "/var/lib/svxlink/stats")) 7) 7) 8))
      true rfl (by decide) (fun _ => by show 10 ∉ lit "0"; decide)
      (fun n hn => readDecimal_decimal n hn)
      (fun f => by cases f <;> decide)).2.2.2.2.2.2.1⟩

/-! ## Lemmas on the event counts under every call -/

theorem agg_update (c : Cat) (bk : Fin NBUCKET → Bucket) (idx : Fin NBUCKET) (b : Bucket)
    (i : Fin NBUCKET) (h : c.agg b = c.agg (bk idx)) :
    c.agg ((Function.update bk idx b) i) = c.agg (bk i) := by
  by_cases hi : i = idx
  · subst hi; simp [h]
  · rw [Function.update_noteq hi]

theorem ringEvents_rotateStep (c : Cat) (s : SvxStats) :
    ringEvents c (rotateStep s) ≤ ringEvents c s := by
  unfold ringEvents
  apply Finset.sum_le_sum
  intro i _
  by_cases hi : i = s.idx + 1
  · subst hi
    simp only [rotateStep, Function.update_same, agg_zero]
    exact Nat.zero_le _
  · simp only [rotateStep, Function.update_noteq hi]
    exact le_refl _

theorem ringEvents_rotateBuckets (c : Cat) (s : SvxStats) (m : Nat) :
    ringEvents c (rotateBuckets s m) ≤ ringEvents c s := by
  by_cases hm : m ≤ s.cur_minute
  · rw [rotateBuckets_of_le _ _ hm]
  · obtain ⟨k, rfl⟩ : ∃ k, m = s.cur_minute + k := ⟨m - s.cur_minute, by omega⟩
    rw [rotateBuckets_eq_iterate]
    clear hm
    induction k with
    | zero => exact le_refl _
    | succ n ih =>
      rw [Function.iterate_succ_apply']
      exact le_trans (ringEvents_rotateStep c _) ih

theorem EvtCount_rotate (c : Cat) (s : SvxStats) (a : Bool) (n m : Nat)
    (h : EvtCount c s a n) : EvtCount c (rotateBuckets s m) a n := by
  obtain ⟨h1, h2, h3⟩ := h
  exact ⟨by rw [rotate_active, h1], by rw [rotate_total, h2],
    le_trans (ringEvents_rotateBuckets c s m) h3⟩

/-- A state that agrees with `r` on the flag, the lifetime total and every
bucket aggregate of `c` has the bookkeeping of `r`. -/
theorem EvtCount_frame (c : Cat) (r s2 : SvxStats) (a : Bool) (n : Nat)
    (h1 : c.active s2 = c.active r) (h2 : c.total s2 = c.total r)
    (h3 : ∀ i, c.agg (s2.buckets i) = c.agg (r.buckets i))
    (h : EvtCount c r a n) : EvtCount c s2 a n := by
  obtain ⟨g1, g2, g3⟩ := h
  refine ⟨by rw [h1, g1], by rw [h2, g2], ?_⟩
  have e : ringEvents c s2 = ringEvents c r := by
    unfold ringEvents
    apply Finset.sum_congr rfl
    intro i _
    rw [h3 i]
  rw [e]; exact g3

theorem ringEvents_commit (c : Cat) (r s2 : SvxStats)
    (h : ∀ i, (c.agg (s2.buckets i)).evt =
      (c.agg (r.buckets i)).evt + if i = r.idx then 1 else 0) :
    ringEvents c s2 = ringEvents c r + 1 := by
  unfold ringEvents
  rw [Finset.sum_congr rfl (fun i _ => h i), Finset.sum_add_distrib]
  simp

theorem report_off_evt (c : Cat) (s : SvxStats) (t : Clock) (h : c.active s = true) :
    (∀ i, (c.agg ((c.report s false t).buckets i)).evt =
      (c.agg ((rotateBuckets s t.minute).buckets i)).evt +
        if i = (rotateBuckets s t.minute).idx then 1 else 0) ∧
    (c.total (c.report s false t)).evt = (c.total s).evt + 1 ∧
    c.active (c.report s false t) = false := by
  have hq := report_off_eq c s t h
  have htot := rotate_total c s t.minute
  rw [hq, ← htot]
  refine ⟨fun i => ?_, ?_, ?_⟩
  · by_cases hi : i = (rotateBuckets s t.minute).idx
    · subst hi
      cases c <;> simp [SvxStats.modCur, Cat.agg, duragg_add]
    · cases c <;> simp [SvxStats.modCur, Cat.agg, Function.update_noteq hi, hi]
  · cases c <;> rfl
  · cases c <;> rfl

/-- The bookkeeping of `c` after a report for category `d`. -/
theorem EvtCount_report (c d : Cat) (s : SvxStats) (b : Bool) (t : Clock) (a : Bool) (n : Nat)
    (h : EvtCount c s a n) :
    EvtCount c (d.report s b t) (if d = c then b else a)
      (n + if d = c ∧ b = false ∧ a = true then 1 else 0) := by
  have hr := EvtCount_rotate c s a n t.minute h
  have hact : c.active s = a := h.1
  cases hb : b <;> cases hd : d.active s
  · rw [report_same_eq d s false t hd]
    by_cases hdc : d = c
    · subst hdc
      have ha : a = false := by rw [← hact, hd]
      subst ha
      simpa using hr
    · simpa [hdc] using hr
  · by_cases hdc : d = c
    · subst hdc
      have ha : a = true := by rw [← hact, hd]
      subst ha
      obtain ⟨_, g2, g3⟩ := hr
      obtain ⟨e1, e2, e3⟩ := report_off_evt d s t hd
      simp only [true_and, if_true, and_self]
      refine ⟨e3, by rw [e2, h.2.1], ?_⟩
      rw [ringEvents_commit d (rotateBuckets s t.minute) _ e1]
      omega
    · have e0 : (if d = c ∧ false = false ∧ a = true then 1 else 0) = 0 := by
        rw [if_neg (fun hh => hdc hh.1)]
      rw [report_off_eq d s t hd, if_neg hdc, e0, Nat.add_zero]
      refine EvtCount_frame c (rotateBuckets s t.minute) _ a n ?_ ?_ (fun i => ?_) hr
      · cases c <;> cases d <;> first | exact absurd rfl hdc | rfl
      · cases c <;> cases d <;> first | exact absurd rfl hdc | rfl
      · cases c <;> cases d <;> first
          | exact absurd rfl hdc
          | (simp only [SvxStats.modCur]; apply agg_update; rfl)
  · rw [report_on_eq d s t hd]
    by_cases hdc : d = c
    · have e0 : (if d = c ∧ true = false ∧ a = true then 1 else 0) = 0 := by
        rw [if_neg (fun hh => Bool.noConfusion hh.2.1)]
      rw [if_pos hdc, e0, Nat.add_zero]
      subst hdc
      have ha : a = false := by rw [← hact, hd]
      subst ha
      obtain ⟨g1, g2, g3⟩ := hr
      refine ⟨by cases d <;> rfl, ?_, ?_⟩
      · rw [← g2]; cases d <;> rfl
      · cases d <;> exact g3
    · have e0 : (if d = c ∧ true = false ∧ a = true then 1 else 0) = 0 := by
        rw [if_neg (fun hh => Bool.noConfusion hh.2.1)]
      rw [if_neg hdc, e0, Nat.add_zero]
      refine EvtCount_frame c (rotateBuckets s t.minute) _ a n ?_ ?_ (fun i => ?_) hr
      · cases c <;> cases d <;> first | exact absurd rfl hdc | rfl
      · cases c <;> cases d <;> first | exact absurd rfl hdc | rfl
      · cases c <;> cases d <;> first | exact absurd rfl hdc | rfl
  · rw [report_same_eq d s true t hd]
    by_cases hdc : d = c
    · subst hdc
      have ha : a = true := by rw [← hact, hd]
      subst ha
      simpa using hr
    · simpa [hdc] using hr

/-- The bookkeeping of `c` after any call other than `loadPersistedTotals`. -/
theorem EvtCount_run (env : Env) (ps : Parsers) (c : Cat) (s : SvxStats) (t1 t2 : Clock)
    (op : Op) (a : Bool) (n : Nat) (hl : op.isLoad = false) (h : EvtCount c s a n) :
    EvtCount c (op.run env ps s t1 t2) (nextActive c a op)
      (n + if isCommit c a op then 1 else 0) := by
  have hr := EvtCount_rotate c s a n t1.minute h
  have key : ∀ (d : Cat) (b : Bool),
      EvtCount c (d.report s b t1) (if d = c then b else a)
        (n + if (decide ((some (d, b) : Option (Cat × Bool)) = some (c, false)) && a) = true
          then 1 else 0) := by
    intro d b
    have h2 := EvtCount_report c d s b t1 a n h
    have e : (decide ((some (d, b) : Option (Cat × Bool)) = some (c, false)) && a) = true ↔
        (d = c ∧ b = false ∧ a = true) := by
      simp [and_assoc]
    rw [if_congr e rfl rfl]
    exact h2
  cases op with
  | clientList l =>
    refine EvtCount_frame c (rotateBuckets s t1.minute) _ a n ?_ ?_ (fun i => ?_) hr
    · cases c <;> rfl
    · cases c <;> rfl
    · simp only [Op.run, onFrnClientListUpdate, SvxStats.modCur]
      apply agg_update; cases c <;> rfl
  | frnTxState b => exact key .frn_tx b
  | frnRxState b => exact key .frn_rx b
  | frnTxBytes k =>
    refine EvtCount_frame c (rotateBuckets s t1.minute) _ a n ?_ ?_ (fun i => ?_) hr
    · cases c <;> rfl
    · cases c <;> rfl
    · simp only [Op.run, addFrnTxBytes, SvxStats.modCur]
      apply agg_update; cases c <;> rfl
  | frnRxBytes k =>
    refine EvtCount_frame c (rotateBuckets s t1.minute) _ a n ?_ ?_ (fun i => ?_) hr
    · cases c <;> rfl
    · cases c <;> rfl
    · simp only [Op.run, addFrnRxBytes, SvxStats.modCur]
      apply agg_update; cases c <;> rfl
  | squelchState b => exact key .sql b
  | rfTxState b => exact key .rf_tx b
  | rfRxState b => exact key .rf_rx b
  | cmdAccepted =>
    refine EvtCount_frame c (rotateBuckets s t1.minute) _ a n ?_ ?_ (fun i => ?_) hr
    · cases c <;> rfl
    · cases c <;> rfl
    · simp only [Op.run, onCmdAccepted, SvxStats.modCur]
      apply agg_update; cases c <;> rfl
  | cmdRejected =>
    refine EvtCount_frame c (rotateBuckets s t1.minute) _ a n ?_ ?_ (fun i => ?_) hr
    · cases c <;> rfl
    · cases c <;> rfl
    · simp only [Op.run, onCmdRejected, SvxStats.modCur]
      apply agg_update; cases c <;> rfl
  | cmdAuthFailed =>
    refine EvtCount_frame c (rotateBuckets s t1.minute) _ a n ?_ ?_ (fun i => ?_) hr
    · cases c <;> rfl
    · cases c <;> rfl
    · simp only [Op.run, onCmdAuthFailed, SvxStats.modCur]
      apply agg_update; cases c <;> rfl
  | cmdBroadcastAttempt =>
    refine EvtCount_frame c (rotateBuckets s t1.minute) _ a n ?_ ?_ (fun i => ?_) hr
    · cases c <;> rfl
    · cases c <;> rfl
    · simp only [Op.run, onCmdBroadcastAttempt, SvxStats.modCur]
      apply agg_update; cases c <;> rfl
  | cmdExecTimeMs ms =>
    refine EvtCount_frame c (rotateBuckets s t1.minute) _ a n ?_ ?_ (fun i => ?_) hr
    · cases c <;> rfl
    · cases c <;> rfl
    · simp only [Op.run, onCmdExecTimeMs, SvxStats.modCur]
      apply agg_update; cases c <;> rfl
  | statsLine => exact hr
  | statsGroups => exact hr
  | tick =>
    show EvtCount c (rotateBuckets _ t2.minute) a n
    apply EvtCount_rotate
    have hf : ∀ x : SvxStats, c.active x = c.active (rotateBuckets s t1.minute) →
        c.total x = c.total (rotateBuckets s t1.minute) →
        x.buckets = (rotateBuckets s t1.minute).buckets → EvtCount c x a n :=
      fun x h1 h2 h3 => EvtCount_frame c (rotateBuckets s t1.minute) x a n h1 h2
        (fun i => by rw [h3]) hr
    apply hf
    · split_ifs <;> cases c <;> rfl
    · split_ifs <;> cases c <;> rfl
    · split_ifs <;> rfl
  | persistPath p =>
    refine EvtCount_frame c s _ a n ?_ ?_ (fun i => ?_) h <;> cases c <;> rfl
  | startTimer k =>
    simp only [Op.run, start, nextActive, isCommit, Op.reportOf]
    split
    · exact h
    · refine EvtCount_frame c s _ a n ?_ ?_ (fun i => ?_) h <;> cases c <;> rfl
  | loadTotals f => exact absurd hl Bool.noConfusion

theorem EvtCount_runCalls (env : Env) (ps : Parsers) (c : Cat) (cs : List Call)
    (hl : ∀ call ∈ cs, call.op.isLoad = false) (s : SvxStats) (a : Bool) (n : Nat)
    (h : EvtCount c s a n) :
    ∃ a2, EvtCount c (runCalls env ps s cs) a2 (n + offsWhileActive c a cs) := by
  induction cs generalizing s a n with
  | nil => exact ⟨a, by simpa [runCalls, offsWhileActive] using h⟩
  | cons call cs ih =>
    have e : runCalls env ps s (call :: cs) =
        runCalls env ps (call.op.run env ps s call.t1 call.t2) cs := rfl
    have hstep := EvtCount_run env ps c s call.t1 call.t2 call.op a n
      (hl call (List.mem_cons_self _ _)) h
    obtain ⟨a2, h2⟩ := ih (fun x hx => hl x (List.mem_cons_of_mem _ hx)) _ _ _ hstep
    refine ⟨a2, ?_⟩
    rw [e]
    simp only [offsWhileActive]
    rw [← Nat.add_assoc]
    exact h2

theorem EvtCount_init (c : Cat) (t0 : Clock) : EvtCount c (SvxStats.init t0) false 0 := by
  refine ⟨by cases c <;> rfl, by cases c <;> rfl, ?_⟩
  have e : ringEvents c (SvxStats.init t0) = 0 := by
    unfold ringEvents
    apply Finset.sum_eq_zero
    intro i _
    cases c <;> rfl
  rw [e]

/-! ## Lifetime events against the ring: claim C40 -/

/-- C40: start from a freshly constructed aggregator and apply any list of
calls, at any clock readings, none of which is `loadPersistedTotals`. Then for
each category the lifetime event count equals the number of off reports for
that category that arrived while it was active, and the event counts of the
category over the 60 ring buckets sum to at most the lifetime event count. -/
theorem C40_lifetime_events (env : Env) (ps : Parsers) (c : Cat) (t0 : Clock)
    (cs : List Call) (hl : ∀ call ∈ cs, call.op.isLoad = false) :
    (c.total (runCalls env ps (SvxStats.init t0) cs)).evt = offsWhileActive c false cs ∧
    ringEvents c (runCalls env ps (SvxStats.init t0) cs) ≤
      (c.total (runCalls env ps (SvxStats.init t0) cs)).evt := by
  obtain ⟨a2, _, h2, h3⟩ := EvtCount_runCalls env ps c cs hl _ false 0 (EvtCount_init c t0)
  rw [Nat.zero_add] at h2 h3
  exact ⟨h2, by rw [h2]; exact h3⟩

set_option maxRecDepth 100000 in
/-- C40 at the squelch opened and closed in minute 7, a tick at minute 8, an
accepted command, and the squelch opened and closed again in minute 70: two off
reports arrived while the squelch was open, and the lifetime event count is
2. -/
theorem C40_lifetime_events_witness :
    (∀ call ∈ [(⟨.squelchState true, ⟨7, 10, 10000⟩, ⟨7, 10, 10000⟩⟩ : Call),
        ⟨.squelchState false, ⟨7, 20, 20000⟩, ⟨7, 20, 20000⟩⟩,
        ⟨.tick, ⟨8, 60, 60000⟩, ⟨8, 60, 60000⟩⟩,
        ⟨.cmdAccepted, ⟨8, 70, 70000⟩, ⟨8, 70, 70000⟩⟩,
        ⟨.squelchState true, ⟨70, 3790, 3790000⟩, ⟨70, 3790, 3790000⟩⟩,
        ⟨.squelchState false, ⟨70, 3795, 3795000⟩, ⟨70, 3795, 3795000⟩⟩],
      call.op.isLoad = false) ∧
    offsWhileActive .sql false
      [⟨.squelchState true, ⟨7, 10, 10000⟩, ⟨7, 10, 10000⟩⟩,
       ⟨.squelchState false, ⟨7, 20, 20000⟩, ⟨7, 20, 20000⟩⟩,
       ⟨.tick, ⟨8, 60, 60000⟩, ⟨8, 60, 60000⟩⟩,
       ⟨.cmdAccepted, ⟨8, 70, 70000⟩, ⟨8, 70, 70000⟩⟩,
       ⟨.squelchState true, ⟨70, 3790, 3790000⟩, ⟨70, 3790, 3790000⟩⟩,
       ⟨.squelchState false, ⟨70, 3795, 3795000⟩, ⟨70, 3795, 3795000⟩⟩] = 2 ∧
    (Cat.sql.total (runCalls ⟨60, fun _ => []⟩ ⟨fun _ => none, fun _ => none⟩
      (SvxStats.init ⟨7, 0, 0⟩)
      [⟨.squelchState true, ⟨7, 10, 10000⟩, ⟨7, 10, 10000⟩⟩,
       ⟨.squelchState false, ⟨7, 20, 20000⟩, ⟨7, 20, 20000⟩⟩,
       ⟨.tick, ⟨8, 60, 60000⟩, ⟨8, 60, 60000⟩⟩,
       ⟨.cmdAccepted, ⟨8, 70, 70000⟩, ⟨8, 70, 70000⟩⟩,
       ⟨.squelchState true, ⟨70, 3790, 3790000⟩, ⟨70, 3790, 3790000⟩⟩,
       ⟨.squelchState false, ⟨70, 3795, 3795000⟩, ⟨70, 3795, 3795000⟩⟩])).evt =
    offsWhileActive .sql false
      [⟨.squelchState true, ⟨7, 10, 10000⟩, ⟨7, 10, 10000⟩⟩,
       ⟨.squelchState false, ⟨7, 20, 20000⟩, ⟨7, 20, 20000⟩⟩,
       ⟨.tick, ⟨8, 60, 60000⟩, ⟨8, 60, 60000⟩⟩,
       ⟨.cmdAccepted, ⟨8, 70, 70000⟩, ⟨8, 70, 70000⟩⟩,
       ⟨.squelchState true, ⟨70, 3790, 3790000⟩, ⟨70, 3790, 3790000⟩⟩,
       ⟨.squelchState false, ⟨70, 3795, 3795000⟩, ⟨70, 3795, 3795000⟩⟩] :=
  ⟨by decide, by decide,
   (C40_lifetime_events ⟨60, fun _ => []⟩ ⟨fun _ => none, fun _ => none⟩ .sql ⟨7, 0, 0⟩
      [⟨.squelchState true, ⟨7, 10, 10000⟩, ⟨7, 10, 10000⟩⟩,
       ⟨.squelchState false, ⟨7, 20, 20000⟩, ⟨7, 20, 20000⟩⟩,
       ⟨.tick, ⟨8, 60, 60000⟩, ⟨8, 60, 60000⟩⟩,
       ⟨.cmdAccepted, ⟨8, 70, 70000⟩, ⟨8, 70, 70000⟩⟩,
       ⟨.squelchState true, ⟨70, 3790, 3790000⟩, ⟨70, 3790, 3790000⟩⟩,
       ⟨.squelchState false, ⟨70, 3795, 3795000⟩, ⟨70, 3795, 3795000⟩⟩]
      (by decide)).1⟩

end Svx
